import Mathlib

/-!
# The tiled triangle rasterizer of `FDS/FILLERS/TheOtherBarry.cpp`

A shallow embedding of the rasterizer (namespace `barry` of the source) and
theorems about it.

Conventions of the embedding.

* A `uint32_t` is a natural number below `2 ^ 32`; every operation that can
  leave that range is followed by `u32`.
* An `int32_t` (`TScreenCoord`) is an integer in `[-2 ^ 31, 2 ^ 31)`; every
  operation that can leave that range is followed by `i32` (two's complement
  wrap-around).  `bits32` gives the bit pattern of an `int32_t`.
* Floating-point arithmetic is not interpreted: the kernels are written over an
  arbitrary carrier `F` with the operations of `Prims F`, so every theorem holds
  for whatever these operations compute.  Vertex positions are the exact
  rational values of the floats; on them the source only takes minima, maxima,
  products by 256, sums with 0.5 and conversions to `int`.
* The colour surface and the Z surface are functions of the pixel coordinates.
-/

namespace barry

/-! ## Machine integers -/

/-- Value of a `uint32_t` holding the natural number `n` modulo `2 ^ 32`. -/
def u32 (n : Nat) : Nat := n % 2 ^ 32

/-- Value of an `int32_t` holding the integer `n` modulo `2 ^ 32`. -/
def i32 (n : Int) : Int := (n + 2 ^ 31) % 2 ^ 32 - 2 ^ 31

/-- Value of an `int64_t` holding the integer `n` modulo `2 ^ 64`. -/
def i64 (n : Int) : Int := (n + 2 ^ 63) % 2 ^ 64 - 2 ^ 63

/-- Bit pattern of an `int32_t`, which is also its conversion to `uint32_t`. -/
def bits32 (n : Int) : Nat := (n % 2 ^ 32).toNat

/-- Value of the `int32_t` whose bit pattern is `n < 2 ^ 32`. -/
def sint32 (n : Nat) : Int := if n < 2 ^ 31 then (n : Int) else (n : Int) - 2 ^ 32

/-- Bitwise or of two `int32_t`. -/
def or32 (a b : Int) : Int := sint32 (bits32 a ||| bits32 b)

/-- Source: `TILE_SIZE` (TheOtherBarry.cpp:9). -/
def TILE_SIZE : Int := 8

/-- Source: `SUBPIXEL_BITS` (TheOtherBarry.cpp:699). -/
def SUBPIXEL_BITS : Nat := 8

/-- Source: `SUBPIXEL_MULT` (TheOtherBarry.cpp:700). -/
def SUBPIXEL_MULT : ℚ := 256

/-! ## Texture address swizzling -/

/-- Source: `tile_vmask` (TheOtherBarry.cpp:61). -/
def tile_vmask (vmask : Nat) : Nat :=
  0x7ff ||| u32 (vmask <<< 14)

/-- Source: `tile_v` (TheOtherBarry.cpp:65). -/
def tile_v (v vmask : Nat) : Nat :=
  (v &&& 0x7ff) ||| (u32 (v <<< 3) &&& u32 (vmask <<< 14))

/-- Source: `tile_dv` (TheOtherBarry.cpp:69). -/
def tile_dv (v vmask : Nat) : Nat :=
  tile_v v vmask ||| 0x3800

/-- Source: `tile_umask` (TheOtherBarry.cpp:73). -/
def tile_umask (vbits umask : Nat) : Nat :=
  0x37ff ||| u32 ((umask >>> 2) <<< (14 + vbits))

/-- Source: `tile_u` (TheOtherBarry.cpp:77). -/
def tile_u (u vbits umask : Nat) : Nat :=
  (u &&& 0x7ff) ||| u32 ((u &&& 0x1800) <<< 1) |||
    (u32 (u <<< (1 + vbits)) &&& u32 ((umask >>> 2) <<< (14 + vbits)))

/-- Source: `tile_du` (TheOtherBarry.cpp:81). -/
def tile_du (u vbits umask : Nat) : Nat :=
  tile_u u vbits umask ||| 0x800 ||| u32 (u32 ((1 <<< vbits) - 1) <<< 14)

/-- Source: `packed_tile_v` (TheOtherBarry.cpp:92), on one 32-bit lane. -/
def packed_tile_v (v vmask : Nat) : Nat :=
  u32 ((v &&& vmask) <<< 2)

/-- Source: `swizzle_umask` (TheOtherBarry.cpp:96). -/
def swizzle_umask (vbits umask : Nat) : Nat :=
  u32 ((umask >>> 2) <<< (2 + vbits))

/-- Source: `packed_tile_u` (TheOtherBarry.cpp:100), on one 32-bit lane. -/
def packed_tile_u (u vbits swizzled_umask : Nat) : Nat :=
  (u &&& 3) ||| (u32 (u <<< vbits) &&& swizzled_umask)

/-- Source: `m256i_from_arith_seq_tiled` (TheOtherBarry.cpp:153): lane `n` is
obtained from `x0` by `n` masked additions of `dx`. -/
def m256i_from_arith_seq_tiled (x0 dx mask : Nat) : Nat → Nat
  | 0 => x0
  | n + 1 => u32 (m256i_from_arith_seq_tiled x0 dx mask n + dx) &&& mask

/-- The texel index the approximate kernel reads for the swizzled
coordinates `u`, `v`: `(u + v) >> 12` (TheOtherBarry.cpp:641). -/
def tiled_offset (u v : Nat) : Nat := u32 (u + v) >>> 12

/-- The texel index the exact kernel reads for the rounded texture
coordinates `u`, `v` of a lane (TheOtherBarry.cpp:456-459). -/
def packed_offset (LogWidth LogHeight u v : Nat) : Nat :=
  u32 (packed_tile_u u LogHeight (swizzle_umask LogHeight (u32 ((1 <<< LogWidth) - 1))) +
    packed_tile_v v (u32 ((1 <<< LogHeight) - 1)))

/-! ## Edge functions -/

/-- Source: `orient2d` (TheOtherBarry.cpp:702).  The differences are taken in
`int32_t`, the products and their difference in `int64_t`, the shift is
arithmetic and the result is converted back to `int32_t`. -/
def orient2d (ax ay bx by_ cx cy : Int) : Int :=
  i32 (i64 (i64 (i32 (bx - ax) * i32 (cy - ay)) - i64 (i32 (by_ - ay) * i32 (cx - ax)))
    >>> SUBPIXEL_BITS)

/-- The coverage test `(a | b | c) >= 0` on three `int32_t`
(TheOtherBarry.cpp:434, 635). -/
def edge_test (a b c : Int) : Bool := decide (0 ≤ or32 (or32 a b) c)

/-! ## Data model -/

/-- Source: `TInterpolationType` (TheOtherBarry.cpp:44). -/
inductive TInterpolationType where
  | AFFINE
  | QUADRATIC
  deriving DecidableEq

/-- Source: `TBlendMode` (TheOtherBarry.cpp:49). -/
inductive TBlendMode where
  | XOR
  | OVERWRITE
  deriving DecidableEq

/-- The operations the source takes from outside `TheOtherBarry.cpp`:
floating-point arithmetic and conversions, the vector-class library and the
global `g_zscale`.  They are left uninterpreted. -/
structure Prims (F : Type) where
  /-- Conversion of an `int` to `float`; also the float literals `8.0f`,
  `2048.0f`, ... -/
  ofInt : Int → F
  /-- The float whose exact value is the given rational (a vertex position
  used as an operand). -/
  ofRat : ℚ → F
  add : F → F → F
  sub : F → F → F
  mul : F → F → F
  div : F → F → F
  /-- The vector-class `mul_add(a, b, c) = a * b + c` on float lanes. -/
  mul_add : F → F → F → F
  fmod : F → F → F
  /-- The comparison `x < 0.0f`. -/
  isNeg : F → Bool
  /-- The conversion `int32_t(x)`. -/
  toInt32 : F → Int
  /-- The conversion `uint32_t(x)`. -/
  toUInt32 : F → Nat
  approx_recipr : F → F
  roundi : F → Int
  /-- The vector-class `compress` of a 32-bit lane to a 16-bit lane. -/
  compress : Nat → Nat
  g_zscale : F

/-- Source: `Vertex`, the fields the rasterizer reads.  `PX`, `PY` are the
exact values of the float screen coordinates. -/
structure Vertex (F : Type) where
  PX : ℚ
  PY : ℚ
  RZ : F
  UZ : F
  VZ : F
  LR : F
  LG : F
  LB : F

/-- Source: `TileTxtrInfo` (TheOtherBarry.cpp:23), the fields that
`rasterize_triangle` sets. -/
structure TileTxtrInfo (F : Type) where
  uz0 : F
  vz0 : F
  r0 : F
  g0 : F
  b0 : F

/-- Source: `Tile` (TheOtherBarry.cpp:31). -/
structure Tile (F : Type) where
  x : Int
  y : Int
  a0 : Int
  dadx : Int
  dady : Int
  b0 : Int
  dbdx : Int
  dbdy : Int
  c0 : Int
  dcdx : Int
  dcdy : Int
  rz0 : F
  t0 : TileTxtrInfo F

/-- Source: `TileRasterizer::TextureInfo` (TheOtherBarry.cpp:185).  The
texture memory is a function from texel index to 32-bit texel. -/
structure TextureInfo (F : Type) where
  TextureAddr : Nat → Nat
  LogWidth : Nat
  LogHeight : Nat
  UScaleFactor : F
  VScaleFactor : F
  duzdx : F
  duzdy : F
  dvzdx : F
  dvzdy : F

/-- Source: `TileRasterizer` (TheOtherBarry.cpp:164), without the destination
pointer and stride, which the surfaces below replace. -/
structure TileRasterizer (F : Type) where
  xres : Int
  yres : Int
  drzdx : F
  drzdy : F
  drdx : F
  drdy : F
  dgdx : F
  dgdy : F
  dbdx : F
  dbdy : F
  umask : Nat
  vmask : Nat
  t0 : TextureInfo F

/-- The destination: the 32-bit colour surface at `VPage` and the 16-bit Z
surface at `VPage + PageSize`, both addressed by pixel coordinates. -/
structure Surfaces where
  color : Int → Int → Nat
  z : Int → Int → Nat

/-- Store of one colour pixel. -/
def Surfaces.setColor (s : Surfaces) (x y : Int) (c : Nat) : Surfaces :=
  ⟨fun x1 y1 => if x1 = x ∧ y1 = y then c else s.color x1 y1, s.z⟩

/-- Store of one Z value. -/
def Surfaces.setZ (s : Surfaces) (x y : Int) (w : Nat) : Surfaces :=
  ⟨s.color, fun x1 y1 => if x1 = x ∧ y1 = y then w else s.z x1 y1⟩

/-- Masked store of eight consecutive colour pixels starting at `(x, y)`
(`_mm256_maskstore_ps`, TheOtherBarry.cpp:463). -/
def Surfaces.maskStoreColor (s : Surfaces) (x y : Int) (mask : Nat → Bool)
    (lanes : Nat → Nat) : Surfaces :=
  ⟨fun x1 y1 =>
    if y1 = y ∧ x ≤ x1 ∧ x1 < x + 8 ∧ mask (x1 - x).toNat = true
    then lanes (x1 - x).toNat else s.color x1 y1, s.z⟩

/-- Masked blend of eight consecutive Z values starting at `(x, y)`
(`_mm_blendv_epi8`, TheOtherBarry.cpp:451). -/
def Surfaces.blendZ (s : Surfaces) (x y : Int) (mask : Nat → Bool)
    (lanes : Nat → Nat) : Surfaces :=
  ⟨s.color, fun x1 y1 =>
    if y1 = y ∧ x ≤ x1 ∧ x1 < x + 8 ∧ mask (x1 - x).toNat = true
    then lanes (x1 - x).toNat else s.z x1 y1⟩

/-! ## Vector helpers -/

/-- Source: `v8_from_arith_seq<int32_t>` (TheOtherBarry.cpp:128) through
`mul_add(Vec8i, Vec8i, Vec8i)` (TheOtherBarry.cpp:123): lane `i` is
`d * i + x` in `int32_t`. -/
def v8_from_arith_seq (x d : Int) : Nat → Int :=
  fun i => i32 (i32 (d * (i : Int)) + x)

/-- Source: `v8_from_arith_seq<float>` (TheOtherBarry.cpp:128): lane `i` is
`mul_add(d, i, x)`. -/
def v8f_from_arith_seq {F : Type} (P : Prims F) (x d : F) : Nat → F :=
  fun i => P.mul_add d (P.ofInt (i : Int)) x

/-- Source: `gather` (TheOtherBarry.cpp:134). -/
def gather (index : Nat → Nat) (table : Nat → Nat) (mask : Nat → Bool) : Nat → Nat :=
  fun i => if mask i = true then table (index i) else 0

/-- The vector-class `horizontal_or` of an 8-lane mask. -/
def horizontal_or (mask : Nat → Bool) : Bool :=
  (List.range 8).any mask

/-! ## The exact kernel -/

/-- The three edge values of a row or of a pixel. -/
structure EdgeLanes where
  p_a : Nat → Int
  p_b : Nat → Int
  p_c : Nat → Int

/-- State of the row loop of `apply_exact`: the lane vectors `p_a`, `p_b`,
`p_c`, `p_rz`, `p_uz`, `p_vz`. -/
structure ExactRow (F : Type) where
  e : EdgeLanes
  p_rz : Nat → F
  p_uz : Nat → F
  p_vz : Nat → F

/-- The edge lanes before the first row (TheOtherBarry.cpp:422-424). -/
def exact_edges_init {F : Type} (tile : Tile F) : EdgeLanes :=
  ⟨v8_from_arith_seq tile.a0 tile.dadx, v8_from_arith_seq tile.b0 tile.dbdx,
    v8_from_arith_seq tile.c0 tile.dcdx⟩

/-- The edge lanes of the next row (TheOtherBarry.cpp:471-473). -/
def exact_edges_next {F : Type} (tile : Tile F) (e : EdgeLanes) : EdgeLanes :=
  ⟨fun i => i32 (e.p_a i + tile.dady), fun i => i32 (e.p_b i + tile.dbdy),
    fun i => i32 (e.p_c i + tile.dcdy)⟩

/-- The edge lanes of row `j`. -/
def exact_edges {F : Type} (tile : Tile F) : Nat → EdgeLanes
  | 0 => exact_edges_init tile
  | j + 1 => exact_edges_next tile (exact_edges tile j)

/-- The coverage mask `(p_a | p_b | p_c) >= 0` (TheOtherBarry.cpp:434). -/
def EdgeLanes.mask (e : EdgeLanes) : Nat → Bool :=
  fun i => edge_test (e.p_a i) (e.p_b i) (e.p_c i)

/-- The row state before the first row (TheOtherBarry.cpp:422-431). -/
def exact_row_init {F : Type} (P : Prims F) (R : TileRasterizer F) (tile : Tile F) :
    ExactRow F :=
  ⟨exact_edges_init tile, v8f_from_arith_seq P tile.rz0 R.drzdx,
    v8f_from_arith_seq P tile.t0.uz0 R.t0.duzdx, v8f_from_arith_seq P tile.t0.vz0 R.t0.dvzdx⟩

/-- The row state of the next row (TheOtherBarry.cpp:467-473). -/
def exact_row_next {F : Type} (P : Prims F) (R : TileRasterizer F) (tile : Tile F)
    (st : ExactRow F) : ExactRow F :=
  ⟨exact_edges_next tile st.e, fun i => P.add (st.p_rz i) R.drzdy,
    fun i => P.add (st.p_uz i) R.t0.duzdy, fun i => P.add (st.p_vz i) R.t0.dvzdy⟩

/-- The depth candidates of a row:
`Vec8ui(0xFF80) - static_cast<Vec8ui>(roundi(g_zscale * p_z))`
(TheOtherBarry.cpp:438-440). -/
def exact_z_candidate {F : Type} (P : Prims F) (st : ExactRow F) : Nat → Nat :=
  fun i => u32 (0xFF80 + 2 ^ 32 -
    bits32 (P.roundi (P.mul P.g_zscale (P.approx_recipr (st.p_rz i)))))

/-- The texel indices of a row (TheOtherBarry.cpp:453-459). -/
def exact_p_offset {F : Type} (P : Prims F) (R : TileRasterizer F) (st : ExactRow F) :
    Nat → Nat :=
  fun i =>
    let p_z := P.approx_recipr (st.p_rz i)
    let u := bits32 (P.roundi (P.mul (P.mul (st.p_uz i) p_z) R.t0.UScaleFactor))
    let v := bits32 (P.roundi (P.mul (P.mul (st.p_vz i) p_z) R.t0.VScaleFactor))
    packed_offset R.t0.LogWidth R.t0.LogHeight u v

/-- The body of the row loop of `apply_exact` for row `y` of the tile
(TheOtherBarry.cpp:434-465). -/
def apply_exact_row {F : Type} (P : Prims F) (R : TileRasterizer F) (tile : Tile F)
    (y : Nat) (st : ExactRow F) (s : Surfaces) : Surfaces :=
  let X := tile.x * TILE_SIZE
  let Y := tile.y * TILE_SIZE + (y : Int)
  let p_mask := st.e.mask
  if horizontal_or p_mask = true then
    let z_candidate := exact_z_candidate P st
    let zmask : Nat → Bool := fun i => decide (z_candidate i > s.z (X + (i : Int)) Y)
    let p_mask : Nat → Bool := fun i => p_mask i && zmask i
    if horizontal_or p_mask = true then
      let s1 := s.blendZ X Y p_mask (fun i => P.compress (z_candidate i))
      let texture_samples := gather (exact_p_offset P R st) R.t0.TextureAddr p_mask
      s1.maskStoreColor X Y p_mask texture_samples
    else s
  else s

/-- The row loop of `apply_exact`: `n` rows remain, the next one is row `y`. -/
def apply_exact_rows {F : Type} (P : Prims F) (R : TileRasterizer F) (tile : Tile F) :
    Nat → Nat → ExactRow F → Surfaces → Surfaces
  | 0, _, _, s => s
  | n + 1, y, st, s =>
    apply_exact_rows P R tile n (y + 1) (exact_row_next P R tile st)
      (apply_exact_row P R tile y st s)

/-- Source: `TileRasterizer::apply_exact` (TheOtherBarry.cpp:410).  The
template parameter `BlendMode` is not used by the body. -/
def apply_exact {F : Type} (P : Prims F) (R : TileRasterizer F) (_BlendMode : TBlendMode)
    (tile : Tile F) (s : Surfaces) : Surfaces :=
  apply_exact_rows P R tile 8 0 (exact_row_init P R tile) s

/-! ## The approximate kernel -/

/-- Source: `TileRasterizer::quantize_z` (TheOtherBarry.cpp:477). -/
def quantize_z {F : Type} (P : Prims F) (z : F) : Nat :=
  let M := P.ofInt (0xff80 * 1024)
  let zrem := P.fmod (P.mul (P.mul z P.g_zscale) (P.ofInt 1024)) M
  let zrem := if P.isNeg zrem = true then P.add zrem M else zrem
  u32 (P.toUInt32 (P.sub M zrem))

/-- The light modulation of one byte of a texel:
`(uint16_t(c) * (uint16_t(chan >> 11) & 0xff)) >> 8` stored in a byte
(TheOtherBarry.cpp:644). -/
def modulate_byte (c chan : Nat) : Nat :=
  ((c * (((chan >>> 11) % 2 ^ 16) &&& 0xff)) >>> 8) % 256

/-- The light modulation of a texel: its three low bytes are modulated by
`r_`, `g_`, `b_`, its high byte is kept (TheOtherBarry.cpp:643-646). -/
def modulate (output r_ g_ b_ : Nat) : Nat :=
  modulate_byte (output % 256) r_ + 2 ^ 8 * modulate_byte (output / 2 ^ 8 % 256) g_ +
    2 ^ 16 * modulate_byte (output / 2 ^ 16 % 256) b_ + 2 ^ 24 * (output / 2 ^ 24 % 256)

/-- The perspective-correct fixed-point texture coordinate of a tile corner,
`int32_t(num / den * 2048.0f * scale)` (TheOtherBarry.cpp:520-527). -/
def corner_coord {F : Type} (P : Prims F) (num den scale : F) : Int :=
  i32 (P.toInt32 (P.mul (P.mul (P.div num den) (P.ofInt 2048)) scale))

/-- The fixed-point light of a tile corner, `uint32_t(c * 2048.0f)`
(TheOtherBarry.cpp:535-546). -/
def corner_light {F : Type} (P : Prims F) (c : F) : Nat :=
  u32 (P.toUInt32 (P.mul c (P.ofInt 2048)))

/-- The values `apply` computes once per tile (TheOtherBarry.cpp:515-606).
The depth deltas `az00`, `az10`, `az01`, `dzx0`, `dzy`, which no statement
reads (the lines using them are commented out), are left out. -/
structure ApplySetup where
  t0_umask_tiled : Nat
  t0_vmask_tiled : Nat
  aut : Nat
  avt : Nat
  ar : Nat
  ag : Nat
  ab : Nat
  au11 : Int
  av11 : Int
  ar11 : Int
  ag11 : Int
  ab11 : Int
  dux0 : Nat
  dvx0 : Nat
  duy : Nat
  dvy : Nat
  drx0 : Nat
  dry : Nat
  dgx0 : Nat
  dgy : Nat
  dbx0 : Nat
  dby : Nat

/-- The per-tile set-up of `apply` (TheOtherBarry.cpp:508-606). -/
def apply_setup {F : Type} (P : Prims F) (R : TileRasterizer F) (IType : TInterpolationType)
    (tile : Tile F) : ApplySetup :=
  let rz0 := tile.rz0
  let uz0 := tile.t0.uz0
  let vz0 := tile.t0.vz0
  let cr0 := tile.t0.r0
  let cg0 := tile.t0.g0
  let cb0 := tile.t0.b0
  let t0_umask := u32 ((1 <<< R.t0.LogWidth) - 1)
  let t0_vmask := u32 ((1 <<< R.t0.LogHeight) - 1)
  let c8 := P.ofInt 8
  let us := R.t0.UScaleFactor
  let vs := R.t0.VScaleFactor
  let rzx := P.add rz0 (P.mul R.drzdx c8)
  let rzy := P.add rz0 (P.mul R.drzdy c8)
  let rzxy := P.add (P.add rz0 (P.mul R.drzdx c8)) (P.mul R.drzdy c8)
  let au := corner_coord P uz0 rz0 us
  let av := corner_coord P vz0 rz0 vs
  let bu := corner_coord P (P.add uz0 (P.mul R.t0.duzdx c8)) rzx us
  let bv := corner_coord P (P.add vz0 (P.mul R.t0.dvzdx c8)) rzx vs
  let cu := corner_coord P (P.add uz0 (P.mul R.t0.duzdy c8)) rzy us
  let cv := corner_coord P (P.add vz0 (P.mul R.t0.dvzdy c8)) rzy vs
  let du := corner_coord P (P.add (P.add uz0 (P.mul R.t0.duzdx c8)) (P.mul R.t0.duzdy c8)) rzxy us
  let dv := corner_coord P (P.add (P.add vz0 (P.mul R.t0.dvzdx c8)) (P.mul R.t0.dvzdy c8)) rzxy vs
  let ar := corner_light P cr0
  let ag := corner_light P cg0
  let ab := corner_light P cb0
  let br := corner_light P (P.add cr0 (P.mul R.drdx c8))
  let bg := corner_light P (P.add cg0 (P.mul R.dgdx c8))
  let bb := corner_light P (P.add cb0 (P.mul R.dbdx c8))
  let cr := corner_light P (P.add cr0 (P.mul R.drdy c8))
  let cg := corner_light P (P.add cg0 (P.mul R.dgdy c8))
  let cb := corner_light P (P.add cb0 (P.mul R.dbdy c8))
  let dr := corner_light P (P.add (P.add cr0 (P.mul R.drdx c8)) (P.mul R.drdy c8))
  let dg := corner_light P (P.add (P.add cg0 (P.mul R.dgdx c8)) (P.mul R.dgdy c8))
  let db := corner_light P (P.add (P.add cb0 (P.mul R.dbdx c8)) (P.mul R.dbdy c8))
  let au10 := i32 (Int.tdiv (i32 (bu - au)) 8)
  let au01 := i32 (Int.tdiv (i32 (cu - au)) 8)
  let av10 := i32 (Int.tdiv (i32 (bv - av)) 8)
  let av01 := i32 (Int.tdiv (i32 (cv - av)) 8)
  let ar10 := u32 (br + 2 ^ 32 - ar) / 8
  let ar01 := u32 (cr + 2 ^ 32 - ar) / 8
  let ag10 := u32 (bg + 2 ^ 32 - ag) / 8
  let ag01 := u32 (cg + 2 ^ 32 - ag) / 8
  let ab10 := u32 (bb + 2 ^ 32 - ab) / 8
  let ab01 := u32 (cb + 2 ^ 32 - ab) / 8
  let q : Bool := decide (IType = TInterpolationType.QUADRATIC)
  let second (d b c a : Int) : Int :=
    if q = true then i32 (Int.tdiv (i32 (i32 (i32 (d - b) - c) + a)) 64) else 0
  let secondl (d b c a : Nat) : Int :=
    if q = true then
      i32 ((u32 (u32 (u32 (d + 2 ^ 32 - b) + 2 ^ 32 - c) + a) / 64 : Nat) : Int)
    else 0
  { t0_umask_tiled := tile_umask R.t0.LogHeight t0_umask
    t0_vmask_tiled := tile_vmask t0_vmask
    aut := tile_u (bits32 au) R.t0.LogHeight t0_umask
    avt := tile_v (bits32 av) t0_vmask
    ar := ar
    ag := ag
    ab := ab
    au11 := second du bu cu au
    av11 := second dv bv cv av
    ar11 := secondl dr br cr ar
    ag11 := secondl dg bg cg ag
    ab11 := secondl db bb cb ab
    dux0 := tile_du (bits32 au10) R.t0.LogHeight t0_umask
    dvx0 := tile_dv (bits32 av10) t0_vmask
    duy := tile_du (bits32 au01) R.t0.LogHeight t0_umask
    dvy := tile_dv (bits32 av01) t0_umask
    drx0 := ar10
    dry := ar01
    dgx0 := ag10
    dgy := ag01
    dbx0 := ab10
    dby := ab01 }

/-- State of the row loop of `apply` (TheOtherBarry.cpp:608-614). -/
structure ApplyRow (F : Type) where
  a0 : Int
  b0 : Int
  c0 : Int
  u0 : Nat
  v0 : Nat
  rz0 : F
  r0_ : Nat
  g0_ : Nat
  b0_ : Nat
  dduxy : Nat
  ddvxy : Nat
  ddrxy : Nat
  ddgxy : Nat
  ddbxy : Nat

/-- State of the pixel loop of `apply` (TheOtherBarry.cpp:615-634). -/
structure ApplyPixel (F : Type) where
  a : Int
  b : Int
  c : Int
  u : Nat
  v : Nat
  rz : F
  r_ : Nat
  g_ : Nat
  b_ : Nat
  dux : Nat
  dvx : Nat
  drx : Nat
  dgx : Nat
  dbx : Nat

/-- The body of the pixel loop of `apply` at the pixel `(X, Y)`: edge test,
depth test, texel fetch, light modulation and write
(TheOtherBarry.cpp:635-655). -/
def apply_pixel_write {F : Type} (P : Prims F) (R : TileRasterizer F)
    (BlendMode : TBlendMode) (st : ApplyPixel F) (X Y : Int) (s : Surfaces) : Surfaces :=
  if edge_test st.a st.b st.c = true then
    let z := quantize_z P (P.div (P.ofInt 1) st.rz)
    let wz := (z >>> 10) &&& 0xffff
    if wz > s.z X Y then
      let s1 := s.setZ X Y wz
      let offset := tiled_offset st.u st.v
      let output := modulate (R.t0.TextureAddr offset) st.r_ st.g_ st.b_
      match BlendMode with
      | TBlendMode.XOR => s1.setColor X Y (s1.color X Y ^^^ output)
      | TBlendMode.OVERWRITE => s1.setColor X Y output
    else s
  else s

/-- The updates at the end of the pixel loop body of `apply`
(TheOtherBarry.cpp:634, 657-675). -/
def apply_pixel_next {F : Type} (P : Prims F) (R : TileRasterizer F) (su : ApplySetup)
    (IType : TInterpolationType) (tile : Tile F) (rst : ApplyRow F) (st : ApplyPixel F) :
    ApplyPixel F :=
  let q : Bool := decide (IType = TInterpolationType.QUADRATIC)
  let dux := if q = true then u32 (st.dux + rst.dduxy) &&& su.t0_umask_tiled else st.dux
  let dvx := if q = true then u32 (st.dvx + rst.ddvxy) &&& su.t0_vmask_tiled else st.dvx
  let drx := if q = true then u32 (st.drx + rst.ddrxy) else st.drx
  let dgx := if q = true then u32 (st.dgx + rst.ddgxy) else st.dgx
  let dbx := if q = true then u32 (st.dbx + rst.ddbxy) else st.dbx
  { a := i32 (st.a + tile.dadx)
    b := i32 (st.b + tile.dbdx)
    c := i32 (st.c + tile.dcdx)
    u := u32 (st.u + dux) &&& su.t0_umask_tiled
    v := u32 (st.v + dvx) &&& su.t0_vmask_tiled
    rz := P.add st.rz R.drzdx
    r_ := u32 (st.r_ + drx)
    g_ := u32 (st.g_ + dgx)
    b_ := u32 (st.b_ + dbx)
    dux := dux
    dvx := dvx
    drx := drx
    dgx := dgx
    dbx := dbx }

/-- The pixel loop of `apply` on the row `Y`: `n` pixels remain, the next one
is pixel `X0 + i`. -/
def apply_pixels {F : Type} (P : Prims F) (R : TileRasterizer F) (su : ApplySetup)
    (IType : TInterpolationType) (BlendMode : TBlendMode) (tile : Tile F) (rst : ApplyRow F)
    (X0 Y : Int) : Nat → Nat → ApplyPixel F → Surfaces → Surfaces
  | 0, _, _, s => s
  | n + 1, i, st, s =>
    apply_pixels P R su IType BlendMode tile rst X0 Y n (i + 1)
      (apply_pixel_next P R su IType tile rst st)
      (apply_pixel_write P R BlendMode st (X0 + (i : Int)) Y s)

/-- The pixel state at the start of a row (TheOtherBarry.cpp:615-631). -/
def apply_row_first {F : Type} (su : ApplySetup) (rst : ApplyRow F) : ApplyPixel F :=
  { a := rst.a0
    b := rst.b0
    c := rst.c0
    u := rst.u0
    v := rst.v0
    rz := rst.rz0
    r_ := rst.r0_
    g_ := rst.g0_
    b_ := rst.b0_
    dux := su.dux0
    dvx := su.dvx0
    drx := su.drx0
    dgx := su.dgx0
    dbx := su.dbx0 }

/-- The updates at the end of the row loop body of `apply`
(TheOtherBarry.cpp:614, 678-694). -/
def apply_row_next {F : Type} (R : TileRasterizer F) (P : Prims F) (su : ApplySetup)
    (IType : TInterpolationType) (tile : Tile F) (rst : ApplyRow F) : ApplyRow F :=
  let q : Bool := decide (IType = TInterpolationType.QUADRATIC)
  { a0 := i32 (rst.a0 + tile.dady)
    b0 := i32 (rst.b0 + tile.dbdy)
    c0 := i32 (rst.c0 + tile.dcdy)
    u0 := u32 (rst.u0 + su.duy) &&& su.t0_umask_tiled
    v0 := u32 (rst.v0 + su.dvy) &&& su.t0_vmask_tiled
    rz0 := P.add rst.rz0 R.drzdy
    r0_ := u32 (rst.r0_ + su.dry)
    g0_ := u32 (rst.g0_ + su.dgy)
    b0_ := u32 (rst.b0_ + su.dby)
    dduxy := if q = true then u32 (rst.dduxy + bits32 su.au11) else rst.dduxy
    ddvxy := if q = true then u32 (rst.ddvxy + bits32 su.av11) else rst.ddvxy
    ddrxy := if q = true then u32 (rst.ddrxy + bits32 su.ar11) else rst.ddrxy
    ddgxy := if q = true then u32 (rst.ddgxy + bits32 su.ag11) else rst.ddgxy
    ddbxy := if q = true then u32 (rst.ddbxy + bits32 su.ab11) else rst.ddbxy }

/-- The row state before the first row (TheOtherBarry.cpp:504-513,
599-613). -/
def apply_row_init {F : Type} (R : TileRasterizer F) (su : ApplySetup)
    (IType : TInterpolationType) (tile : Tile F) : ApplyRow F :=
  let q : Bool := decide (IType = TInterpolationType.QUADRATIC)
  { a0 := tile.a0
    b0 := tile.b0
    c0 := tile.c0
    u0 := su.aut
    v0 := su.avt
    rz0 := tile.rz0
    r0_ := su.ar
    g0_ := su.ag
    b0_ := su.ab
    dduxy := if q = true then
      tile_u 0 R.t0.LogHeight (u32 ((1 <<< R.t0.LogWidth) - 1)) else 0
    ddvxy := if q = true then tile_v 0 (u32 ((1 <<< R.t0.LogHeight) - 1)) else 0
    ddrxy := 0
    ddgxy := 0
    ddbxy := 0 }

/-- The row loop of `apply`: `n` rows remain, the next one is row `y`. -/
def apply_rows {F : Type} (P : Prims F) (R : TileRasterizer F) (su : ApplySetup)
    (IType : TInterpolationType) (BlendMode : TBlendMode) (tile : Tile F) :
    Nat → Nat → ApplyRow F → Surfaces → Surfaces
  | 0, _, _, s => s
  | n + 1, y, rst, s =>
    apply_rows P R su IType BlendMode tile n (y + 1) (apply_row_next R P su IType tile rst)
      (apply_pixels P R su IType BlendMode tile rst (tile.x * TILE_SIZE)
        (tile.y * TILE_SIZE + (y : Int)) 8 0 (apply_row_first su rst) s)

/-- Source: `TileRasterizer::apply` (TheOtherBarry.cpp:496). -/
def apply {F : Type} (P : Prims F) (R : TileRasterizer F) (IType : TInterpolationType)
    (BlendMode : TBlendMode) (tile : Tile F) (s : Surfaces) : Surfaces :=
  let su := apply_setup P R IType tile
  apply_rows P R su IType BlendMode tile 8 0 (apply_row_init R su IType tile) s

/-- The row state of `apply` at the start of row `j`. -/
def apply_row_state {F : Type} (P : Prims F) (R : TileRasterizer F) (su : ApplySetup)
    (IType : TInterpolationType) (tile : Tile F) : Nat → ApplyRow F
  | 0 => apply_row_init R su IType tile
  | j + 1 => apply_row_next R P su IType tile (apply_row_state P R su IType tile j)

/-- The pixel state of `apply` at pixel `i` of the row whose state is `rst`. -/
def apply_pixel_iter {F : Type} (P : Prims F) (R : TileRasterizer F) (su : ApplySetup)
    (IType : TInterpolationType) (tile : Tile F) (rst : ApplyRow F) : Nat → ApplyPixel F
  | 0 => apply_row_first su rst
  | i + 1 => apply_pixel_next P R su IType tile rst (apply_pixel_iter P R su IType tile rst i)

/-- The pixel state of `apply` at pixel `i` of row `j` of the tile. -/
def apply_pixel_state {F : Type} (P : Prims F) (R : TileRasterizer F)
    (IType : TInterpolationType) (tile : Tile F) (j i : Nat) : ApplyPixel F :=
  let su := apply_setup P R IType tile
  apply_pixel_iter P R su IType tile (apply_row_state P R su IType tile j) i

/-! ## The tile walker -/

/-- Conversion to `int32_t` of a float of exact value `q`: truncation toward
zero. -/
def f2i (q : ℚ) : Int := i32 (Int.tdiv q.num q.den)

/-- Source: `TileRasterizer::clampedX` (TheOtherBarry.cpp:210). -/
def clampedX {F : Type} (R : TileRasterizer F) (x : Int) : Int :=
  min (max x 0) (i32 (R.xres - 1))

/-- Source: `TileRasterizer::clampedY` (TheOtherBarry.cpp:213). -/
def clampedY {F : Type} (R : TileRasterizer F) (y : Int) : Int :=
  min (max y 0) (i32 (R.yres - 1))

/-- The per-pixel and per-row increments of the three edge functions
(TheOtherBarry.cpp:731-736). -/
structure EdgeSteps where
  dadx : Int
  dady : Int
  dbdx : Int
  dbdy : Int
  dcdx : Int
  dcdy : Int

/-- The bound of an edge function over a tile used by the trivial reject,
`a0 + ((dadx > 0) ? dadx * TILE_SIZE : 0) + ((dady > 0) ? dady * TILE_SIZE : 0)`
(TheOtherBarry.cpp:762). -/
def tile_max (a0 ddx ddy : Int) : Int :=
  i32 (i32 (a0 + (if ddx > 0 then i32 (ddx * TILE_SIZE) else 0)) +
    (if ddy > 0 then i32 (ddy * TILE_SIZE) else 0))

/-- An attribute at the origin of tile `(x, y)`,
`v1.attr + (x * TILE_SIZE - v1.PX) * ddx + (y * TILE_SIZE - v1.PY) * ddy`
(TheOtherBarry.cpp:780). -/
def tile_attr {F : Type} (P : Prims F) (v1 : Vertex F) (attr ddx ddy : F) (x y : Int) : F :=
  P.add (P.add attr (P.mul (P.sub (P.ofInt (i32 (x * TILE_SIZE))) (P.ofRat v1.PX)) ddx))
    (P.mul (P.sub (P.ofInt (i32 (y * TILE_SIZE))) (P.ofRat v1.PY)) ddy)

/-- The tile record built for tile `(x, y)` (TheOtherBarry.cpp:768-791). -/
def make_tile {F : Type} (P : Prims F) (R : TileRasterizer F) (v1 : Vertex F) (d : EdgeSteps)
    (x y a0 b0 c0 : Int) : Tile F :=
  { x := x
    y := y
    a0 := a0
    dadx := d.dadx
    dady := d.dady
    b0 := b0
    dbdx := d.dbdx
    dbdy := d.dbdy
    c0 := c0
    dcdx := d.dcdx
    dcdy := d.dcdy
    rz0 := tile_attr P v1 v1.RZ R.drzdx R.drzdy x y
    t0 :=
      { uz0 := tile_attr P v1 v1.UZ R.t0.duzdx R.t0.duzdy x y
        vz0 := tile_attr P v1 v1.VZ R.t0.dvzdx R.t0.dvzdy x y
        r0 := tile_attr P v1 v1.LR R.drdx R.drdy x y
        g0 := tile_attr P v1 v1.LG R.dgdx R.dgdy x y
        b0 := tile_attr P v1 v1.LB R.dbdx R.dbdy x y } }

/-- The body of the inner loop of `rasterize_triangle` for tile `(x, y)` with
origin edge values `a0`, `b0`, `c0`: the trivial reject and the call of the
kernel (TheOtherBarry.cpp:762-803). -/
def tile_visit {F S : Type} (P : Prims F) (R : TileRasterizer F) (kernel : Tile F → S → S)
    (v1 : Vertex F) (d : EdgeSteps) (x y a0 b0 c0 : Int) (s : S) : S :=
  let max_a := tile_max a0 d.dadx d.dady
  let max_b := tile_max b0 d.dbdx d.dbdy
  let max_c := tile_max c0 d.dcdx d.dcdy
  if edge_test max_a max_b max_c = true then kernel (make_tile P R v1 d x y a0 b0 c0) s
  else s

/-- The inner loop of `rasterize_triangle` over the tiles of row `y`: `n`
tiles remain, the next one is tile `x` with origin edge values `a0`, `b0`,
`c0` (TheOtherBarry.cpp:761). -/
def tile_columns {F S : Type} (P : Prims F) (R : TileRasterizer F) (kernel : Tile F → S → S)
    (v1 : Vertex F) (d : EdgeSteps) (y : Int) : Nat → Int → Int → Int → Int → S → S
  | 0, _, _, _, _, s => s
  | n + 1, x, a0, b0, c0, s =>
    tile_columns P R kernel v1 d y n (x + 1) (i32 (a0 + i32 (TILE_SIZE * d.dadx)))
      (i32 (b0 + i32 (TILE_SIZE * d.dbdx))) (i32 (c0 + i32 (TILE_SIZE * d.dcdx)))
      (tile_visit P R kernel v1 d x y a0 b0 c0 s)

/-- The outer loop of `rasterize_triangle` over the rows of tiles: `n` rows
remain, the next one is row `y` with origin edge values `_a0`, `_b0`, `_c0`
(TheOtherBarry.cpp:757-805). -/
def tile_rows {F S : Type} (P : Prims F) (R : TileRasterizer F) (kernel : Tile F → S → S)
    (v1 : Vertex F) (d : EdgeSteps) (tile_mx : Int) (columns : Nat) :
    Nat → Int → Int → Int → Int → S → S
  | 0, _, _, _, _, s => s
  | n + 1, y, _a0, _b0, _c0, s =>
    tile_rows P R kernel v1 d tile_mx columns n (y + 1) (i32 (_a0 + i32 (TILE_SIZE * d.dady)))
      (i32 (_b0 + i32 (TILE_SIZE * d.dbdy))) (i32 (_c0 + i32 (TILE_SIZE * d.dcdy)))
      (tile_columns P R kernel v1 d y columns tile_mx _a0 _b0 _c0 s)

/-- Source: `rasterize_triangle` (TheOtherBarry.cpp:710).  The kernel that the
source calls on each accepted tile (`apply_exact`, or one of the `apply`
variants in the commented-out lines) is the parameter `kernel`, which
transforms a state `S`. -/
def rasterize_triangle {F S : Type} (P : Prims F) (R : TileRasterizer F)
    (kernel : Tile F → S → S) (v1 v2 v3 : Vertex F) (s : S) : S :=
  let tile_mx := Int.tdiv (clampedX R (f2i (min (min v1.PX v2.PX) v3.PX))) TILE_SIZE
  let tile_Mx := Int.tdiv (clampedX R (f2i (max (max v1.PX v2.PX) v3.PX))) TILE_SIZE
  let tile_my := Int.tdiv (clampedY R (f2i (min (min v1.PY v2.PY) v3.PY))) TILE_SIZE
  let tile_My := Int.tdiv (clampedY R (f2i (max (max v1.PY v2.PY) v3.PY))) TILE_SIZE
  let v1x := f2i (v1.PX * SUBPIXEL_MULT + 1 / 2)
  let v1y := f2i (v1.PY * SUBPIXEL_MULT + 1 / 2)
  let v2x := f2i (v2.PX * SUBPIXEL_MULT + 1 / 2)
  let v2y := f2i (v2.PY * SUBPIXEL_MULT + 1 / 2)
  let v3x := f2i (v3.PX * SUBPIXEL_MULT + 1 / 2)
  let v3y := f2i (v3.PY * SUBPIXEL_MULT + 1 / 2)
  let x0 := i32 (i32 (tile_mx * TILE_SIZE) * 2 ^ SUBPIXEL_BITS)
  let y0 := i32 (i32 (tile_my * TILE_SIZE) * 2 ^ SUBPIXEL_BITS)
  let _a0 := orient2d v2x v2y v1x v1y x0 y0
  let _b0 := orient2d v3x v3y v2x v2y x0 y0
  let _c0 := orient2d v1x v1y v3x v3y x0 y0
  let d : EdgeSteps :=
    { dadx := i32 (v2y - v1y)
      dady := i32 (v1x - v2x)
      dbdx := i32 (v3y - v2y)
      dbdy := i32 (v2x - v3x)
      dcdx := i32 (v1y - v3y)
      dcdy := i32 (v3x - v1x) }
  tile_rows P R kernel v1 d tile_mx (tile_Mx - tile_mx + 1).toNat
    (tile_My - tile_my + 1).toNat tile_my _a0 _b0 _c0 s

/-- The tiles that `rasterize_triangle` hands to its kernel, in order. -/
def handed_tiles {F : Type} (P : Prims F) (R : TileRasterizer F) (v1 v2 v3 : Vertex F) :
    List (Tile F) :=
  rasterize_triangle P R (fun t l => l ++ [t]) v1 v2 v3 []

/-- Pixel `(X, Y)` lies in the tile. -/
def Tile.contains {F : Type} (tile : Tile F) (X Y : Int) : Prop :=
  tile.x * TILE_SIZE ≤ X ∧ X < tile.x * TILE_SIZE + TILE_SIZE ∧
    tile.y * TILE_SIZE ≤ Y ∧ Y < tile.y * TILE_SIZE + TILE_SIZE

instance {F : Type} (tile : Tile F) (X Y : Int) : Decidable (tile.contains X Y) := by
  unfold Tile.contains; infer_instance

/-- Pixel `(X, Y)` of the tile passes the edge test of `apply_exact`. -/
def exact_lets_through {F : Type} (tile : Tile F) (X Y : Int) : Bool :=
  decide (tile.contains X Y) &&
    (exact_edges tile (Y - tile.y * TILE_SIZE).toNat).mask (X - tile.x * TILE_SIZE).toNat

/-- Pixel `(X, Y)` of the tile passes the edge test of `apply`. -/
def apply_lets_through {F : Type} (P : Prims F) (R : TileRasterizer F)
    (IType : TInterpolationType) (tile : Tile F) (X Y : Int) : Bool :=
  let st := apply_pixel_state P R IType tile (Y - tile.y * TILE_SIZE).toNat
    (X - tile.x * TILE_SIZE).toNat
  decide (tile.contains X Y) && edge_test st.a st.b st.c

/-! ## Definitions used by the statements and proofs -/

/-- The exact edge product of `orient2d`, before the shift. -/
def cross (ax ay bx by_ cx cy : Int) : Int :=
  (bx - ax) * (cy - ay) - (by_ - ay) * (cx - ax)

/-- Coordinates of a vertex on a screen of at most 2048 pixels, in sub-pixel
units. -/
def VertexRange (x : Int) : Prop := 0 ≤ x ∧ x ≤ 2 ^ 19 - 256

/-- Coordinates of a corner of a tile on a screen of at most 2048 pixels, in
sub-pixel units. -/
def PointRange (x : Int) : Prop := 0 ≤ x ∧ x ≤ 2 ^ 19

/-- Origin edge value of the tile `c` columns and `r` rows after the first
one, whose origin edge value is `a0`. -/
def grid_edge (a0 ddx ddy : Int) (r c : Nat) : Int :=
  i32 (a0 + r * (TILE_SIZE * ddy) + c * (TILE_SIZE * ddx))

/-- The tile record of the tile `c` columns and `r` rows after the first
one. -/
def grid_tile {F : Type} (P : Prims F) (R : TileRasterizer F) (v1 : Vertex F) (d : EdgeSteps)
    (tile_mx tile_my _a0 _b0 _c0 : Int) (r c : Nat) : Tile F :=
  make_tile P R v1 d (tile_mx + c) (tile_my + r) (grid_edge _a0 d.dadx d.dady r c)
    (grid_edge _b0 d.dbdx d.dbdy r c) (grid_edge _c0 d.dcdx d.dcdy r c)

/-- The trivial-reject test of the tile `c` columns and `r` rows after the
first one. -/
def grid_test (d : EdgeSteps) (_a0 _b0 _c0 : Int) (r c : Nat) : Bool :=
  edge_test (tile_max (grid_edge _a0 d.dadx d.dady r c) d.dadx d.dady)
    (tile_max (grid_edge _b0 d.dbdx d.dbdy r c) d.dbdx d.dbdy)
    (tile_max (grid_edge _c0 d.dcdx d.dcdy r c) d.dcdx d.dcdy)

/-- The set of the coverage claim: the three edge functions of the triangle
with integer vertices `(x1, y1)`, `(x2, y2)`, `(x3, y3)` are non-negative at the
sample point of pixel `(X, Y)`, all in sub-pixel units. -/
def inside_triangle (x1 y1 x2 y2 x3 y3 X Y : Int) : Prop :=
  0 ≤ orient2d (256 * x2) (256 * y2) (256 * x1) (256 * y1) (256 * X) (256 * Y) ∧
  0 ≤ orient2d (256 * x3) (256 * y3) (256 * x2) (256 * y2) (256 * X) (256 * Y) ∧
  0 ≤ orient2d (256 * x1) (256 * y1) (256 * x3) (256 * y3) (256 * X) (256 * Y)

/-- The edge increments of the triangle with integer vertices, in the order
`dadx dady dbdx dbdy dcdx dcdy` of the source. -/
def int_steps (x1 y1 x2 y2 x3 y3 : Int) : EdgeSteps :=
  { dadx := 256 * y2 - 256 * y1
    dady := 256 * x1 - 256 * x2
    dbdx := 256 * y3 - 256 * y2
    dbdy := 256 * x2 - 256 * x3
    dcdx := 256 * y1 - 256 * y3
    dcdy := 256 * x3 - 256 * x1 }

/-- A triangle with integer vertex coordinates `(x1, y1)`, `(x2, y2)`,
`(x3, y3)` inside the viewport of the rasterizer, the viewport being at most
2048 x 2048 pixels. -/
def IntegerTriangle {F : Type} (R : TileRasterizer F) (v1 v2 v3 : Vertex F)
    (x1 y1 x2 y2 x3 y3 : Int) : Prop :=
  (R.xres ≤ 2048 ∧ R.yres ≤ 2048) ∧
  (v1.PX = x1 ∧ v1.PY = y1 ∧ v2.PX = x2 ∧ v2.PY = y2 ∧ v3.PX = x3 ∧ v3.PY = y3) ∧
  ((0 ≤ x1 ∧ x1 < R.xres) ∧ (0 ≤ y1 ∧ y1 < R.yres)) ∧
  ((0 ≤ x2 ∧ x2 < R.xres) ∧ (0 ≤ y2 ∧ y2 < R.yres)) ∧
  ((0 ≤ x3 ∧ x3 < R.xres) ∧ (0 ≤ y3 ∧ y3 < R.yres))

/-- Primitives over the one-point carrier, for concrete instances: every float
is the same value, conversions give 0 and `compress` keeps the low 16 bits. -/
def unitPrims : Prims Unit :=
  { ofInt := fun _ => ()
    ofRat := fun _ => ()
    add := fun _ _ => ()
    sub := fun _ _ => ()
    mul := fun _ _ => ()
    div := fun _ _ => ()
    mul_add := fun _ _ _ => ()
    fmod := fun _ _ => ()
    isNeg := fun _ => false
    toInt32 := fun _ => 0
    toUInt32 := fun _ => 0
    approx_recipr := fun _ => ()
    roundi := fun _ => 0
    compress := fun n => n % 2 ^ 16
    g_zscale := () }

/-- A rasterizer over the one-point carrier with the given viewport and a 1x1
texture holding one texel. -/
def unitRasterizer (xres yres : Int) (texel : Nat) : TileRasterizer Unit :=
  { xres := xres
    yres := yres
    drzdx := ()
    drzdy := ()
    drdx := ()
    drdy := ()
    dgdx := ()
    dgdy := ()
    dbdx := ()
    dbdy := ()
    umask := 0
    vmask := 0
    t0 :=
      { TextureAddr := fun _ => texel
        LogWidth := 0
        LogHeight := 0
        UScaleFactor := ()
        VScaleFactor := ()
        duzdx := ()
        duzdy := ()
        dvzdx := ()
        dvzdy := () } }

/-- A vertex with integer screen coordinates over the one-point carrier. -/
def intVertex (x y : Int) : Vertex Unit :=
  { PX := x, PY := y, RZ := (), UZ := (), VZ := (), LR := (), LG := (), LB := () }

instance (x1 y1 x2 y2 x3 y3 X Y : Int) : Decidable (inside_triangle x1 y1 x2 y2 x3 y3 X Y) := by
  unfold inside_triangle; infer_instance

/-- What the body of the pixel loop of `apply` does to the colour and the Z
value of its pixel: the new colour and the new Z value. -/
def apply_fragment {F : Type} (P : Prims F) (R : TileRasterizer F) (BlendMode : TBlendMode)
    (st : ApplyPixel F) (color z : Nat) : Nat × Nat :=
  if edge_test st.a st.b st.c = true then
    if (quantize_z P (P.div (P.ofInt 1) st.rz) >>> 10) &&& 0xffff > z then
      (match BlendMode with
        | TBlendMode.XOR =>
          color ^^^ modulate (R.t0.TextureAddr (tiled_offset st.u st.v)) st.r_ st.g_ st.b_
        | TBlendMode.OVERWRITE =>
          modulate (R.t0.TextureAddr (tiled_offset st.u st.v)) st.r_ st.g_ st.b_,
       (quantize_z P (P.div (P.ofInt 1) st.rz) >>> 10) &&& 0xffff)
    else (color, z)
  else (color, z)

/-- The surfaces with every colour and every Z value zero. -/
def emptySurfaces : Surfaces := ⟨fun _ _ => 0, fun _ _ => 0⟩

/-- The row state of `apply_exact` at the start of row `j`. -/
def exact_row_state {F : Type} (P : Prims F) (R : TileRasterizer F) (tile : Tile F) :
    Nat → ExactRow F
  | 0 => exact_row_init P R tile
  | j + 1 => exact_row_next P R tile (exact_row_state P R tile j)

/-- What one lane of the row body of `apply_exact` does to the colour and the
Z value of its pixel, given the lane's edge test, depth candidate and texel:
the new colour and the new Z value. -/
def exact_fragment {F : Type} (P : Prims F) (edge : Bool) (z_candidate texel : Nat)
    (pixel : Nat × Nat) : Nat × Nat :=
  if (edge && decide (z_candidate > pixel.2)) = true then (texel, P.compress z_candidate)
  else pixel

/-- The depth candidate of `apply_exact` at the pixel `(X, Y)` of the tile. -/
def exact_candidate_at {F : Type} (P : Prims F) (R : TileRasterizer F) (tile : Tile F)
    (X Y : Int) : Nat :=
  exact_z_candidate P (exact_row_state P R tile (Y - tile.y * TILE_SIZE).toNat)
    (X - tile.x * TILE_SIZE).toNat

/-- The texel that `apply_exact` gathers for the pixel `(X, Y)` of the tile. -/
def exact_texel_at {F : Type} (P : Prims F) (R : TileRasterizer F) (tile : Tile F)
    (X Y : Int) : Nat :=
  R.t0.TextureAddr (exact_p_offset P R (exact_row_state P R tile (Y - tile.y * TILE_SIZE).toNat)
    (X - tile.x * TILE_SIZE).toNat)

/-- The 16-bit depth value `wz` that `apply` computes at the pixel `(X, Y)` of
the tile (TheOtherBarry.cpp:636-637). -/
def apply_wz_at {F : Type} (P : Prims F) (R : TileRasterizer F) (IType : TInterpolationType)
    (tile : Tile F) (X Y : Int) : Nat :=
  (quantize_z P (P.div (P.ofInt 1)
    (apply_pixel_state P R IType tile (Y - tile.y * TILE_SIZE).toNat
      (X - tile.x * TILE_SIZE).toNat).rz) >>> 10) &&& 0xffff

/-- The light-modulated texel that `apply` computes at the pixel `(X, Y)` of
the tile (TheOtherBarry.cpp:641-646). -/
def apply_output_at {F : Type} (P : Prims F) (R : TileRasterizer F)
    (IType : TInterpolationType) (tile : Tile F) (X Y : Int) : Nat :=
  modulate (R.t0.TextureAddr (tiled_offset
      (apply_pixel_state P R IType tile (Y - tile.y * TILE_SIZE).toNat
        (X - tile.x * TILE_SIZE).toNat).u
      (apply_pixel_state P R IType tile (Y - tile.y * TILE_SIZE).toNat
        (X - tile.x * TILE_SIZE).toNat).v))
    (apply_pixel_state P R IType tile (Y - tile.y * TILE_SIZE).toNat
      (X - tile.x * TILE_SIZE).toNat).r_
    (apply_pixel_state P R IType tile (Y - tile.y * TILE_SIZE).toNat
      (X - tile.x * TILE_SIZE).toNat).g_
    (apply_pixel_state P R IType tile (Y - tile.y * TILE_SIZE).toNat
      (X - tile.x * TILE_SIZE).toNat).b_

/-- Result of the depth-tested overwrite of a pixel `(colour, z)` by a
fragment with depth value `w` and colour `c`, the stored depth being `w`. -/
def depth_write (w c : Nat) (pixel : Nat × Nat) : Nat × Nat :=
  if w > pixel.2 then (c, w) else pixel

/-- Primitives over the integers, for concrete instances with varying depth:
a float is an integer, the arithmetic is that of the integers, a quotient
`a / b` is `1024 a / b`, `approx_recipr x` is `2 ^ 20 / x`, the conversions and
`roundi` are the identity, `compress` keeps the low 16 bits and `g_zscale` is
1. -/
def fixedPrims : Prims Int :=
  { ofInt := fun n => n
    ofRat := fun _ => 0
    add := fun a b => a + b
    sub := fun a b => a - b
    mul := fun a b => a * b
    div := fun a b => a * 1024 / b
    mul_add := fun a b c => a * b + c
    fmod := fun a b => a % b
    isNeg := fun a => decide (a < 0)
    toInt32 := fun a => a
    toUInt32 := fun a => a.toNat
    approx_recipr := fun a => 2 ^ 20 / a
    roundi := fun a => a
    compress := fun n => n % 2 ^ 16
    g_zscale := 1 }

/-- A rasterizer over the integers with constant attributes and a 1x1 texture
holding one texel. -/
def fixedRasterizer (texel : Nat) : TileRasterizer Int :=
  { xres := 16
    yres := 16
    drzdx := 0
    drzdy := 0
    drdx := 0
    drdy := 0
    dgdx := 0
    dgdy := 0
    dbdx := 0
    dbdy := 0
    umask := 0
    vmask := 0
    t0 :=
      { TextureAddr := fun _ => texel
        LogWidth := 0
        LogHeight := 0
        UScaleFactor := 1
        VScaleFactor := 1
        duzdx := 0
        duzdy := 0
        dvzdx := 0
        dvzdy := 0 } }

/-- The tile `(0, 0)` of the triangle `(0,0)`, `(0,8)`, `(8,0)` over the
integers, with reciprocal depth `rz0`, texture coordinates 0 and light 255. -/
def fixedTile (rz0 : Int) : Tile Int :=
  { x := 0
    y := 0
    a0 := 0
    dadx := 2048
    dady := 0
    b0 := 16384
    dbdx := -2048
    dbdy := -2048
    c0 := 0
    dcdx := 0
    dcdy := 2048
    rz0 := rz0
    t0 := { uz0 := 0, vz0 := 0, r0 := 255, g0 := 255, b0 := 255 } }

/-- The width of the top field of a V1-swizzled U coordinate: the bits of `u`
above the block that fit in 32 bits. -/
def u_top_width (vbits logW : Nat) : Nat := min (logW - 2) (18 - vbits)

/-- The width of the field of a V1-swizzled V coordinate above the fraction. -/
def v_top_width (logH : Nat) : Nat := min logH 18

/-- The first tile column of the clamped bounding box, `tile_mx` of
`rasterize_triangle` (TheOtherBarry.cpp:713). -/
def tile_mx {F : Type} (R : TileRasterizer F) (v1 v2 v3 : Vertex F) : Int :=
  Int.tdiv (clampedX R (f2i (min (min v1.PX v2.PX) v3.PX))) TILE_SIZE

/-- The last tile column of the clamped bounding box, `tile_Mx` of
`rasterize_triangle` (TheOtherBarry.cpp:714). -/
def tile_Mx {F : Type} (R : TileRasterizer F) (v1 v2 v3 : Vertex F) : Int :=
  Int.tdiv (clampedX R (f2i (max (max v1.PX v2.PX) v3.PX))) TILE_SIZE

/-- The first tile row of the clamped bounding box, `tile_my` of
`rasterize_triangle` (TheOtherBarry.cpp:715). -/
def tile_my {F : Type} (R : TileRasterizer F) (v1 v2 v3 : Vertex F) : Int :=
  Int.tdiv (clampedY R (f2i (min (min v1.PY v2.PY) v3.PY))) TILE_SIZE

/-- The last tile row of the clamped bounding box, `tile_My` of
`rasterize_triangle` (TheOtherBarry.cpp:716). -/
def tile_My {F : Type} (R : TileRasterizer F) (v1 v2 v3 : Vertex F) : Int :=
  Int.tdiv (clampedY R (f2i (max (max v1.PY v2.PY) v3.PY))) TILE_SIZE

/-- The pixel `(X, Y)` is white, or still empty in colour and depth. -/
def white_or_empty (s : Surfaces) (X Y : Int) : Prop :=
  s.color X Y = 0xffffff ∨ (s.color X Y = 0 ∧ s.z X Y = 0)

/-- The number of pixels of the 16 x 16 viewport whose sample point passes the
three edge functions of the triangle. -/
def covered_count (x1 y1 x2 y2 x3 y3 : Int) : Nat :=
  ((List.product (List.range 16) (List.range 16)).filter
    (fun p => decide (inside_triangle x1 y1 x2 y2 x3 y3 (p.1 : Int) (p.2 : Int)))).length

/-- Exact arithmetic: the operations of `Prims` on the rationals.  Conversions
to integers truncate toward zero, `fmod` has the sign of the dividend,
`approx_recipr` is the reciprocal, `roundi` rounds to nearest and `compress`
keeps the low 16 bits; `zscale` is the value of `g_zscale`. -/
def exactPrims (zscale : ℚ) : Prims ℚ :=
  { ofInt := fun n => (n : ℚ)
    ofRat := fun q => q
    add := fun a b => a + b
    sub := fun a b => a - b
    mul := fun a b => a * b
    div := fun a b => a / b
    mul_add := fun a b c => a * b + c
    fmod := fun a b => a - (Int.tdiv (a / b).num (a / b).den : ℚ) * b
    isNeg := fun a => decide (a < 0)
    toInt32 := fun a => Int.tdiv a.num a.den
    toUInt32 := fun a => (Int.tdiv a.num a.den).toNat
    approx_recipr := fun a => 1 / a
    roundi := fun a => ⌊a + 1 / 2⌋
    compress := fun n => n % 2 ^ 16
    g_zscale := zscale }

/-- The value `max_a` of the trivial reject fits `int32_t`. -/
def MaxFits (a0 ddx ddy : Int) : Prop :=
  -2 ^ 31 ≤ a0 + max 0 ddx * 8 + max 0 ddy * 8 ∧ a0 + max 0 ddx * 8 + max 0 ddy * 8 < 2 ^ 31

/-- A table of `n` words: reading it at an index outside `[0, n)` has no
value. -/
def bounded_table (t : Nat → Nat) (n : Nat) : Nat → Option Nat :=
  fun k => if k < n then some (t k) else none

/-- One lane of `gather` on a table with bounds, `m[i] ? t[ind[i]] : 0`
(TheOtherBarry.cpp:148): the table is read only when the lane is active. -/
def gather_lane (table : Nat → Option Nat) (ind : Nat) (m : Bool) : Option Nat :=
  if m = true then table ind else some 0

/-- Source: `gather` (TheOtherBarry.cpp:134) on a table with bounds: the eight
lanes, when every read it makes has a value. -/
def gather_checked (index : Nat → Nat) (table : Nat → Option Nat) (mask : Nat → Bool) :
    Option (List Nat) :=
  if (List.range 8).all (fun i => (gather_lane table (index i) (mask i)).isSome) = true then
    some ((List.range 8).map fun i => (gather_lane table (index i) (mask i)).getD 0)
  else none

/-- Source: the conversion of a vertex coordinate to sub-pixel fixed point,
`TScreenCoord(PX * SUBPIXEL_MULT + 0.5)` (TheOtherBarry.cpp:718-723). -/
def subpixel (q : ℚ) : Int := f2i (q * SUBPIXEL_MULT + 1 / 2)

/-- The increments of the three edge functions for the sub-pixel vertices
`(v1x, v1y)`, `(v2x, v2y)`, `(v3x, v3y)` (TheOtherBarry.cpp:731-736), without
wrap-around. -/
def subpixel_steps (v1x v1y v2x v2y v3x v3y : Int) : EdgeSteps :=
  ⟨v2y - v1y, v1x - v2x, v3y - v2y, v2x - v3x, v1y - v3y, v3x - v1x⟩

/-- The sub-pixel vertex coordinates of the triangle are those of a screen of
at most 2048 pixels, and so is the viewport. -/
def SubpixelTriangle {F : Type} (R : TileRasterizer F) (v1 v2 v3 : Vertex F) : Prop :=
  (0 < R.xres ∧ R.xres ≤ 2048) ∧ (0 < R.yres ∧ R.yres ≤ 2048) ∧
  VertexRange (subpixel v1.PX) ∧ VertexRange (subpixel v1.PY) ∧
  VertexRange (subpixel v2.PX) ∧ VertexRange (subpixel v2.PY) ∧
  VertexRange (subpixel v3.PX) ∧ VertexRange (subpixel v3.PY)

/-- Floating-point arithmetic on dyadic numbers, for concrete instances: the
integer `n` stands for the real number `n / 2 ^ 16`, and every operation is the
real operation whenever its result is such a number.  Conversions to integers
truncate toward zero, `fmod` has the sign of the dividend, `roundi` rounds to
nearest, `compress` keeps the low 16 bits and `g_zscale` is 1. -/
def dyadicPrims : Prims Int :=
  { ofInt := fun n => n * 2 ^ 16
    ofRat := fun q => ⌊q * 2 ^ 16⌋
    add := fun a b => a + b
    sub := fun a b => a - b
    mul := fun a b => a * b / 2 ^ 16
    div := fun a b => a * 2 ^ 16 / b
    mul_add := fun a b c => a * b / 2 ^ 16 + c
    fmod := fun a b => Int.tmod a b
    isNeg := fun a => decide (a < 0)
    toInt32 := fun a => Int.tdiv a (2 ^ 16)
    toUInt32 := fun a => (Int.tdiv a (2 ^ 16)).toNat
    approx_recipr := fun a => 2 ^ 32 / a
    roundi := fun a => (a + 2 ^ 15) / 2 ^ 16
    compress := fun n => n % 2 ^ 16
    g_zscale := 2 ^ 16 }

/-- A rasterizer over `dyadicPrims` with an 8 x 8 viewport, a texture of
`2 ^ logW x 2 ^ logH` texels, constant depth and the given gradients of `UZ`,
`VZ` and of the light. -/
def texRasterizer (logW logH : Nat) (texture : Nat → Nat)
    (duzdx duzdy dvzdx dvzdy dldx dldy : Int) : TileRasterizer Int :=
  { xres := 8
    yres := 8
    drzdx := 0
    drzdy := 0
    drdx := dldx
    drdy := dldy
    dgdx := dldx
    dgdy := dldy
    dbdx := dldx
    dbdy := dldy
    umask := 2 ^ logW - 1
    vmask := 2 ^ logH - 1
    t0 :=
      { TextureAddr := texture
        LogWidth := logW
        LogHeight := logH
        UScaleFactor := 2 ^ logW * 2 ^ 16
        VScaleFactor := 2 ^ logH * 2 ^ 16
        duzdx := duzdx
        duzdy := duzdy
        dvzdx := dvzdx
        dvzdy := dvzdy } }

/-- The tile `(0, 0)` over `dyadicPrims`, covered at every pixel (all edge
values are 0), with `rz0 = 1` and the given `uz0`, `vz0` and light. -/
def texTile (uz0 vz0 light : Int) : Tile Int :=
  { x := 0
    y := 0
    a0 := 0
    dadx := 0
    dady := 0
    b0 := 0
    dbdx := 0
    dbdy := 0
    c0 := 0
    dcdx := 0
    dcdy := 0
    rz0 := 2 ^ 16
    t0 := { uz0 := uz0, vz0 := vz0, r0 := light, g0 := light, b0 := light } }

/-- The fixed-point texture coordinates `au`, `av` of the tile origin in
`apply` (TheOtherBarry.cpp:521-522). -/
def apply_au {F : Type} (P : Prims F) (R : TileRasterizer F) (tile : Tile F) : Int :=
  corner_coord P tile.t0.uz0 tile.rz0 R.t0.UScaleFactor

def apply_av {F : Type} (P : Prims F) (R : TileRasterizer F) (tile : Tile F) : Int :=
  corner_coord P tile.t0.vz0 tile.rz0 R.t0.VScaleFactor

/-- The per-pixel deltas `au10 = (bu - au) / 8`, `av10 = (bv - av) / 8` of
`apply` (TheOtherBarry.cpp:523-524, 552, 555). -/
def apply_au10 {F : Type} (P : Prims F) (R : TileRasterizer F) (tile : Tile F) : Int :=
  i32 (Int.tdiv (i32 (corner_coord P (P.add tile.t0.uz0 (P.mul R.t0.duzdx (P.ofInt 8)))
    (P.add tile.rz0 (P.mul R.drzdx (P.ofInt 8))) R.t0.UScaleFactor - apply_au P R tile)) 8)

def apply_av10 {F : Type} (P : Prims F) (R : TileRasterizer F) (tile : Tile F) : Int :=
  i32 (Int.tdiv (i32 (corner_coord P (P.add tile.t0.vz0 (P.mul R.t0.dvzdx (P.ofInt 8)))
    (P.add tile.rz0 (P.mul R.drzdx (P.ofInt 8))) R.t0.VScaleFactor - apply_av P R tile)) 8)

/-- The per-row deltas `au01 = (cu - au) / 8`, `av01 = (cv - av) / 8` of
`apply` (TheOtherBarry.cpp:525-526, 553, 556). -/
def apply_au01 {F : Type} (P : Prims F) (R : TileRasterizer F) (tile : Tile F) : Int :=
  i32 (Int.tdiv (i32 (corner_coord P (P.add tile.t0.uz0 (P.mul R.t0.duzdy (P.ofInt 8)))
    (P.add tile.rz0 (P.mul R.drzdy (P.ofInt 8))) R.t0.UScaleFactor - apply_au P R tile)) 8)

def apply_av01 {F : Type} (P : Prims F) (R : TileRasterizer F) (tile : Tile F) : Int :=
  i32 (Int.tdiv (i32 (corner_coord P (P.add tile.t0.vz0 (P.mul R.t0.dvzdy (P.ofInt 8)))
    (P.add tile.rz0 (P.mul R.drzdy (P.ofInt 8))) R.t0.VScaleFactor - apply_av P R tile)) 8)

/-- The texel index the linear interpolant of the texture coordinates selects
at pixel `(i, j)` of a tile:
`(tile_u(au + i*au10 + j*au01, LogHeight, umask) + tile_v(av + i*av10 + j*av01, vmask)) >> 12`. -/
def affine_offset {F : Type} (P : Prims F) (R : TileRasterizer F) (tile : Tile F)
    (i j : Nat) : Nat :=
  tiled_offset
    (tile_u (bits32 (apply_au P R tile + (i : Int) * apply_au10 P R tile +
      (j : Int) * apply_au01 P R tile)) R.t0.LogHeight (u32 ((1 <<< R.t0.LogWidth) - 1)))
    (tile_v (bits32 (apply_av P R tile + (i : Int) * apply_av10 P R tile +
      (j : Int) * apply_av01 P R tile)) (u32 ((1 <<< R.t0.LogHeight) - 1)))

/-- The triangular number `0 + 1 + ... + i`. -/
def tri (i : Nat) : Nat := i * (i + 1) / 2

/-- The second-order term `apply` adds to `ddrxy` at the end of each row:
`ar11` as an unsigned 32-bit number under QUADRATIC, nothing under AFFINE. -/
def second_order (IType : TInterpolationType) (a11 : Int) : Nat :=
  if IType = TInterpolationType.QUADRATIC then bits32 a11 else 0

/-- The value fits an `int32_t`. -/
def Fits32 (n : Int) : Prop := -2 ^ 31 ≤ n ∧ n < 2 ^ 31

/-- Nothing overflows in `orient2d(a, b, c)`: the four coordinate differences,
taken in `int32_t`, and the shifted result, converted to `int32_t`, are the
exact values. -/
def EdgeFits (ax ay bx by_ cx cy : Int) : Prop :=
  Fits32 (bx - ax) ∧ Fits32 (cy - ay) ∧ Fits32 (by_ - ay) ∧ Fits32 (cx - ax) ∧
    Fits32 (cross ax ay bx by_ cx cy / 256)

/-- Nothing overflows in the edge functions of the triangle: the viewport
sizes are positive `int32_t`, the six edge increments fit an `int32_t`, and at
every pixel `(X, Y)` of a tile that meets the viewport the sub-pixel position
fits an `int32_t` and nothing overflows in the three calls of `orient2d`. -/
def NoOverflow {F : Type} (R : TileRasterizer F) (v1 v2 v3 : Vertex F) : Prop :=
  (0 < R.xres ∧ R.xres < 2 ^ 31) ∧ (0 < R.yres ∧ R.yres < 2 ^ 31) ∧
  (Fits32 (subpixel v2.PY - subpixel v1.PY) ∧ Fits32 (subpixel v1.PX - subpixel v2.PX) ∧
    Fits32 (subpixel v3.PY - subpixel v2.PY) ∧ Fits32 (subpixel v2.PX - subpixel v3.PX) ∧
    Fits32 (subpixel v1.PY - subpixel v3.PY) ∧ Fits32 (subpixel v3.PX - subpixel v1.PX)) ∧
  ∀ X Y : Int, 0 ≤ X → X / 8 ≤ (R.xres - 1) / 8 → 0 ≤ Y → Y / 8 ≤ (R.yres - 1) / 8 →
    (Fits32 (256 * X) ∧ Fits32 (256 * Y)) ∧
    EdgeFits (subpixel v2.PX) (subpixel v2.PY) (subpixel v1.PX) (subpixel v1.PY)
      (256 * X) (256 * Y) ∧
    EdgeFits (subpixel v3.PX) (subpixel v3.PY) (subpixel v2.PX) (subpixel v2.PY)
      (256 * X) (256 * Y) ∧
    EdgeFits (subpixel v1.PX) (subpixel v1.PY) (subpixel v3.PX) (subpixel v3.PY)
      (256 * X) (256 * Y)

/-- The exact kernel stores to the pixel `(X, Y)`: the pixel lies in the tile,
its lane passes the edge test and its depth candidate exceeds the stored Z
value, which is when lane `X - 8 x` of `p_mask` is set at the two stores
(TheOtherBarry.cpp:434-463). -/
def exact_writes {F : Type} (P : Prims F) (R : TileRasterizer F) (tile : Tile F)
    (s : Surfaces) (X Y : Int) : Bool :=
  exact_lets_through tile X Y && decide (exact_candidate_at P R tile X Y > s.z X Y)

/-- The approximate kernel stores to the pixel `(X, Y)`: the pixel lies in the
tile and passes the edge test `(a | b | c) >= 0` and the depth test `wz > *pz`
(TheOtherBarry.cpp:635-639). -/
def apply_writes {F : Type} (P : Prims F) (R : TileRasterizer F) (IType : TInterpolationType)
    (tile : Tile F) (s : Surfaces) (X Y : Int) : Bool :=
  apply_lets_through P R IType tile X Y && decide (apply_wz_at P R IType tile X Y > s.z X Y)

/-- The point `(px, py)` lies in the closed triangle with the vertices
`(x1, y1)`, `(x2, y2)`, `(x3, y3)`: it is a convex combination of the three
vertices.  The order of the vertices does not matter. -/
def in_closed_triangle (x1 y1 x2 y2 x3 y3 px py : Int) : Prop :=
  ∃ a b c : ℚ, 0 ≤ a ∧ 0 ≤ b ∧ 0 ≤ c ∧ a + b + c = 1 ∧
    (px : ℚ) = a * x1 + b * x2 + c * x3 ∧ (py : ℚ) = a * y1 + b * y2 + c * y3

/-- The orientation of the triangle `(v1, v2, v3)`: the sum of its three edge
products at any point, positive for the winding that `rasterize_triangle`
draws and negative for the other one. -/
def winding (x1 y1 x2 y2 x3 y3 : Int) : Int :=
  (x1 - x2) * (y3 - y2) - (y1 - y2) * (x3 - x2)

/-- Nothing overflows in the three calls of `orient2d` at the corners of the
tiles that meet the viewport, where the trivial reject takes its bounds
(TheOtherBarry.cpp:762). -/
def CornersFit {F : Type} (R : TileRasterizer F) (v1 v2 v3 : Vertex F) : Prop :=
  ∀ X Y : Int, 0 ≤ X → X ≤ 8 * ((R.xres - 1) / 8) + 8 → 0 ≤ Y →
    Y ≤ 8 * ((R.yres - 1) / 8) + 8 →
    EdgeFits (subpixel v2.PX) (subpixel v2.PY) (subpixel v1.PX) (subpixel v1.PY)
      (256 * X) (256 * Y) ∧
    EdgeFits (subpixel v3.PX) (subpixel v3.PY) (subpixel v2.PX) (subpixel v2.PY)
      (256 * X) (256 * Y) ∧
    EdgeFits (subpixel v1.PX) (subpixel v1.PY) (subpixel v3.PX) (subpixel v3.PY)
      (256 * X) (256 * Y)

/-- The pixel `(X, Y)` lies in a tile of the clamped bounding box that
`rasterize_triangle` walks for the triangle (TheOtherBarry.cpp:713-716,
757-761). -/
def in_box {F : Type} (R : TileRasterizer F) (v1 v2 v3 : Vertex F) (X Y : Int) : Prop :=
  (tile_mx R v1 v2 v3 ≤ X / 8 ∧ X / 8 ≤ tile_Mx R v1 v2 v3) ∧
    (tile_my R v1 v2 v3 ≤ Y / 8 ∧ Y / 8 ≤ tile_My R v1 v2 v3)

/-- A vertex with rational screen coordinates over the one-point carrier. -/
def unitVertex (x y : ℚ) : Vertex Unit :=
  { PX := x, PY := y, RZ := (), UZ := (), VZ := (), LR := (), LG := (), LB := () }

/-! ## Theorems -/

theorem i32_of_range {n : Int} (h1 : -2 ^ 31 ≤ n) (h2 : n < 2 ^ 31) : i32 n = n := by
  unfold i32; omega

theorem i32_range (n : Int) : -2 ^ 31 ≤ i32 n ∧ i32 n < 2 ^ 31 := by
  unfold i32; omega

theorem i32_i32 (n : Int) : i32 (i32 n) = i32 n := by
  unfold i32; omega

theorem i32_add_left (a b : Int) : i32 (i32 a + b) = i32 (a + b) := by
  unfold i32; omega

theorem i32_add_right (a b : Int) : i32 (a + i32 b) = i32 (a + b) := by
  unfold i32; omega

theorem i64_of_range {n : Int} (h1 : -2 ^ 63 ≤ n) (h2 : n < 2 ^ 63) : i64 n = n := by
  unfold i64; omega

theorem bits32_lt (n : Int) : bits32 n < 2 ^ 32 := by
  unfold bits32; omega

theorem bits32_lt_iff (n : Int) : bits32 n < 2 ^ 31 ↔ 0 ≤ i32 n := by
  unfold bits32 i32; omega

theorem i32_natCast_nonneg_iff {m : Nat} (h : m < 2 ^ 32) : 0 ≤ i32 (m : Int) ↔ m < 2 ^ 31 := by
  unfold i32; omega

theorem or_lt_two_pow_iff (x y n : Nat) : x ||| y < 2 ^ n ↔ x < 2 ^ n ∧ y < 2 ^ n := by
  constructor
  · intro h
    have hx : x ≤ x ||| y := Nat.le_of_testBit (by intro i hi; simp [hi])
    have hy : y ≤ x ||| y := Nat.le_of_testBit (by intro i hi; simp [hi])
    exact ⟨lt_of_le_of_lt hx h, lt_of_le_of_lt hy h⟩
  · rintro ⟨hx, hy⟩
    exact Nat.or_lt_two_pow hx hy

theorem sint32_eq {m : Nat} (h : m < 2 ^ 32) : sint32 m = i32 (m : Int) := by
  unfold sint32 i32; split <;> omega

theorem or32_nonneg_iff (a b : Int) : 0 ≤ or32 a b ↔ 0 ≤ i32 a ∧ 0 ≤ i32 b := by
  unfold or32
  have h32 : bits32 a ||| bits32 b < 2 ^ 32 := Nat.or_lt_two_pow (bits32_lt a) (bits32_lt b)
  rw [sint32_eq h32, i32_natCast_nonneg_iff h32, or_lt_two_pow_iff, bits32_lt_iff, bits32_lt_iff]

theorem i32_or32 (a b : Int) : i32 (or32 a b) = or32 a b := by
  unfold or32
  rw [sint32_eq (Nat.or_lt_two_pow (bits32_lt a) (bits32_lt b))]
  exact i32_i32 _

theorem edge_test_iff (a b c : Int) :
    edge_test a b c = true ↔ 0 ≤ i32 a ∧ 0 ≤ i32 b ∧ 0 ≤ i32 c := by
  unfold edge_test
  rw [decide_eq_true_iff, or32_nonneg_iff, i32_or32, or32_nonneg_iff, and_assoc]

theorem tdiv_num_den_of_nonneg {q : ℚ} (hq : 0 ≤ q) : Int.tdiv q.num q.den = ⌊q⌋ := by
  rw [Int.tdiv_eq_ediv (Rat.num_nonneg.mpr hq) (Int.natCast_nonneg _), ← Rat.floor_def']
  rfl

theorem f2i_intCast {n : Int} (h0 : 0 ≤ n) (h1 : n < 2 ^ 31) : f2i (n : ℚ) = n := by
  unfold f2i
  rw [tdiv_num_den_of_nonneg (by exact_mod_cast h0), Int.floor_intCast]
  exact i32_of_range (by omega) h1

theorem f2i_subpixel {n : Int} (h0 : 0 ≤ n) (h1 : n < 2 ^ 22) :
    f2i ((n : ℚ) * SUBPIXEL_MULT + 1 / 2) = 256 * n := by
  unfold f2i SUBPIXEL_MULT
  have hq : (0 : ℚ) ≤ (n : ℚ) * 256 + 1 / 2 := by
    have : (0 : ℚ) ≤ (n : ℚ) := by exact_mod_cast h0
    linarith
  rw [tdiv_num_den_of_nonneg hq]
  have hfl : ⌊(n : ℚ) * 256 + 1 / 2⌋ = 256 * n := by
    rw [Int.floor_eq_iff]
    constructor
    · push_cast; linarith
    · push_cast; linarith
  rw [hfl]
  exact i32_of_range (by omega) (by omega)

theorem cross_shift (ax ay bx by_ cx cy k l : Int) :
    cross ax ay bx by_ (cx + 256 * k) (cy + 256 * l) =
      cross ax ay bx by_ cx cy + (l * (bx - ax) - k * (by_ - ay)) * 256 := by
  unfold cross; ring

theorem mul_bound {p q A B : Int} (hp1 : -A ≤ p) (hp2 : p ≤ A) (hq1 : -B ≤ q) (hq2 : q ≤ B) :
    -(A * B) ≤ p * q ∧ p * q ≤ A * B := by
  have hA : 0 ≤ A := by omega
  have hB : 0 ≤ B := by omega
  constructor
  · nlinarith [mul_nonneg (sub_nonneg.mpr hp2) (sub_nonneg.mpr hq2),
      mul_nonneg (by linarith : (0:Int) ≤ p + A) (by linarith : (0:Int) ≤ q + B),
      mul_nonneg (by linarith : (0:Int) ≤ p + A) (sub_nonneg.mpr hq2),
      mul_nonneg (sub_nonneg.mpr hp2) (by linarith : (0:Int) ≤ q + B)]
  · nlinarith [mul_nonneg (sub_nonneg.mpr hp2) (sub_nonneg.mpr hq2),
      mul_nonneg (by linarith : (0:Int) ≤ p + A) (by linarith : (0:Int) ≤ q + B),
      mul_nonneg (by linarith : (0:Int) ≤ p + A) (sub_nonneg.mpr hq2),
      mul_nonneg (sub_nonneg.mpr hp2) (by linarith : (0:Int) ≤ q + B)]

theorem cross_bound {ax ay bx by_ cx cy : Int} (hax : VertexRange ax) (hay : VertexRange ay)
    (hbx : VertexRange bx) (hby : VertexRange by_) (hcx : PointRange cx) (hcy : PointRange cy) :
    -(2 ^ 39 - 2 ^ 28) ≤ cross ax ay bx by_ cx cy ∧ cross ax ay bx by_ cx cy ≤ 2 ^ 39 - 2 ^ 28 := by
  unfold VertexRange at hax hay hbx hby
  unfold PointRange at hcx hcy
  have h1 := mul_bound (p := bx - ax) (q := cy - ay) (A := 2 ^ 19 - 256) (B := 2 ^ 19)
    (by omega) (by omega) (by omega) (by omega)
  have h2 := mul_bound (p := by_ - ay) (q := cx - ax) (A := 2 ^ 19 - 256) (B := 2 ^ 19)
    (by omega) (by omega) (by omega) (by omega)
  unfold cross
  norm_num at h1 h2 ⊢
  omega

theorem orient2d_eq_cross {ax ay bx by_ cx cy : Int} (hax : VertexRange ax)
    (hay : VertexRange ay) (hbx : VertexRange bx) (hby : VertexRange by_) (hcx : PointRange cx)
    (hcy : PointRange cy) :
    orient2d ax ay bx by_ cx cy = cross ax ay bx by_ cx cy / 256 := by
  have hb := cross_bound hax hay hbx hby hcx hcy
  unfold VertexRange at hax hay hbx hby
  unfold PointRange at hcx hcy
  have h1 := mul_bound (p := bx - ax) (q := cy - ay) (A := 2 ^ 19 - 256) (B := 2 ^ 19)
    (by omega) (by omega) (by omega) (by omega)
  have h2 := mul_bound (p := by_ - ay) (q := cx - ax) (A := 2 ^ 19 - 256) (B := 2 ^ 19)
    (by omega) (by omega) (by omega) (by omega)
  norm_num at h1 h2
  unfold orient2d SUBPIXEL_BITS
  rw [i32_of_range (n := bx - ax) (by omega) (by omega),
    i32_of_range (n := cy - ay) (by omega) (by omega),
    i32_of_range (n := by_ - ay) (by omega) (by omega),
    i32_of_range (n := cx - ax) (by omega) (by omega),
    i64_of_range (n := (bx - ax) * (cy - ay)) (by omega) (by omega),
    i64_of_range (n := (by_ - ay) * (cx - ax)) (by omega) (by omega),
    i64_of_range (by omega) (by omega), Int.shiftRight_eq_div_pow]
  unfold cross at hb ⊢
  norm_num at hb ⊢
  exact i32_of_range (by omega) (by omega)

theorem exact_edges_a {F : Type} (tile : Tile F) (j i : Nat) :
    (exact_edges tile j).p_a i = i32 (tile.a0 + i * tile.dadx + j * tile.dady) ∧
    (exact_edges tile j).p_b i = i32 (tile.b0 + i * tile.dbdx + j * tile.dbdy) ∧
    (exact_edges tile j).p_c i = i32 (tile.c0 + i * tile.dcdx + j * tile.dcdy) := by
  induction j with
  | zero =>
    simp only [exact_edges, exact_edges_init, v8_from_arith_seq, i32_add_left]
    refine ⟨?_, ?_, ?_⟩ <;> congr 1 <;> push_cast <;> ring
  | succ j ih =>
    obtain ⟨ha, hb, hc⟩ := ih
    simp only [exact_edges, exact_edges_next, ha, hb, hc, i32_add_left]
    refine ⟨?_, ?_, ?_⟩ <;> congr 1 <;> push_cast <;> ring

theorem apply_row_state_edges {F : Type} (P : Prims F) (R : TileRasterizer F) (su : ApplySetup)
    (IType : TInterpolationType) (tile : Tile F) (j : Nat) :
    i32 (apply_row_state P R su IType tile j).a0 = i32 (tile.a0 + j * tile.dady) ∧
    i32 (apply_row_state P R su IType tile j).b0 = i32 (tile.b0 + j * tile.dbdy) ∧
    i32 (apply_row_state P R su IType tile j).c0 = i32 (tile.c0 + j * tile.dcdy) := by
  induction j with
  | zero => simp [apply_row_state, apply_row_init]
  | succ j ih =>
    obtain ⟨ha, hb, hc⟩ := ih
    simp only [apply_row_state, apply_row_next, i32_i32]
    rw [← i32_add_left, ha, i32_add_left, ← i32_add_left (a := _) (b := tile.dbdy), hb,
      i32_add_left, ← i32_add_left (a := _) (b := tile.dcdy), hc, i32_add_left]
    refine ⟨?_, ?_, ?_⟩ <;> congr 1 <;> push_cast <;> ring

theorem apply_pixel_iter_edges {F : Type} (P : Prims F) (R : TileRasterizer F)
    (su : ApplySetup) (IType : TInterpolationType) (tile : Tile F) (rst : ApplyRow F) (i : Nat) :
    i32 (apply_pixel_iter P R su IType tile rst i).a = i32 (rst.a0 + i * tile.dadx) ∧
    i32 (apply_pixel_iter P R su IType tile rst i).b = i32 (rst.b0 + i * tile.dbdx) ∧
    i32 (apply_pixel_iter P R su IType tile rst i).c = i32 (rst.c0 + i * tile.dcdx) := by
  induction i with
  | zero => simp [apply_pixel_iter, apply_row_first]
  | succ i ih =>
    obtain ⟨ha, hb, hc⟩ := ih
    simp only [apply_pixel_iter, apply_pixel_next, i32_i32]
    rw [← i32_add_left, ha, i32_add_left, ← i32_add_left (a := _) (b := tile.dbdx), hb,
      i32_add_left, ← i32_add_left (a := _) (b := tile.dcdx), hc, i32_add_left]
    refine ⟨?_, ?_, ?_⟩ <;> congr 1 <;> push_cast <;> ring

theorem apply_pixel_state_edges {F : Type} (P : Prims F) (R : TileRasterizer F)
    (IType : TInterpolationType) (tile : Tile F) (j i : Nat) :
    i32 (apply_pixel_state P R IType tile j i).a = i32 (tile.a0 + i * tile.dadx + j * tile.dady) ∧
    i32 (apply_pixel_state P R IType tile j i).b = i32 (tile.b0 + i * tile.dbdx + j * tile.dbdy) ∧
    i32 (apply_pixel_state P R IType tile j i).c = i32 (tile.c0 + i * tile.dcdx + j * tile.dcdy) := by
  unfold apply_pixel_state
  obtain ⟨ha, hb, hc⟩ := apply_pixel_iter_edges P R (apply_setup P R IType tile) IType tile
    (apply_row_state P R (apply_setup P R IType tile) IType tile j) i
  obtain ⟨ra, rb, rc⟩ := apply_row_state_edges P R (apply_setup P R IType tile) IType tile j
  simp only
  rw [ha, hb, hc, ← i32_add_left, ra, i32_add_left, ← i32_add_left (b := (i : Int) * tile.dbdx),
    rb, i32_add_left, ← i32_add_left (b := (i : Int) * tile.dcdx), rc, i32_add_left]
  refine ⟨?_, ?_, ?_⟩ <;> congr 1 <;> ring

theorem grid_edge_zero {a0 : Int} (h : i32 a0 = a0) (ddx ddy : Int) :
    grid_edge a0 ddx ddy 0 0 = a0 := by
  simp [grid_edge, h]

theorem grid_edge_col (a0 ddx ddy : Int) (r c : Nat) :
    grid_edge (i32 (a0 + i32 (TILE_SIZE * ddx))) ddx ddy r c = grid_edge a0 ddx ddy r (c + 1) := by
  unfold grid_edge
  rw [add_assoc, i32_add_left, add_right_comm, i32_add_right]
  congr 1
  push_cast; ring

theorem grid_edge_row (a0 ddx ddy : Int) (r c : Nat) :
    grid_edge (i32 (a0 + i32 (TILE_SIZE * ddy))) ddx ddy r c = grid_edge a0 ddx ddy (r + 1) c := by
  unfold grid_edge
  rw [add_assoc, i32_add_left, add_right_comm, i32_add_right]
  congr 1
  push_cast; ring

theorem grid_test_col (d : EdgeSteps) (a0 b0 c0 : Int) (r c : Nat) :
    grid_test d (i32 (a0 + i32 (TILE_SIZE * d.dadx))) (i32 (b0 + i32 (TILE_SIZE * d.dbdx)))
      (i32 (c0 + i32 (TILE_SIZE * d.dcdx))) r c = grid_test d a0 b0 c0 r (c + 1) := by
  simp only [grid_test, grid_edge_col]

theorem grid_test_row (d : EdgeSteps) (a0 b0 c0 : Int) (r c : Nat) :
    grid_test d (i32 (a0 + i32 (TILE_SIZE * d.dady))) (i32 (b0 + i32 (TILE_SIZE * d.dbdy)))
      (i32 (c0 + i32 (TILE_SIZE * d.dcdy))) r c = grid_test d a0 b0 c0 (r + 1) c := by
  simp only [grid_test, grid_edge_row]

theorem grid_test_zero (d : EdgeSteps) {a0 b0 c0 : Int} (ha : i32 a0 = a0) (hb : i32 b0 = b0)
    (hc : i32 c0 = c0) :
    grid_test d a0 b0 c0 0 0 = edge_test (tile_max a0 d.dadx d.dady)
      (tile_max b0 d.dbdx d.dbdy) (tile_max c0 d.dcdx d.dcdy) := by
  simp only [grid_test, grid_edge_zero ha, grid_edge_zero hb, grid_edge_zero hc]

theorem mem_tile_columns {F : Type} (P : Prims F) (R : TileRasterizer F) (v1 : Vertex F)
    (d : EdgeSteps) (y : Int) (t : Tile F) (n : Nat) :
    ∀ (x a0 b0 c0 : Int) (l : List (Tile F)), i32 a0 = a0 → i32 b0 = b0 → i32 c0 = c0 →
      (t ∈ tile_columns P R (fun t l => l ++ [t]) v1 d y n x a0 b0 c0 l ↔
        t ∈ l ∨ ∃ c, c < n ∧ grid_test d a0 b0 c0 0 c = true ∧
          t = make_tile P R v1 d (x + c) y (grid_edge a0 d.dadx d.dady 0 c)
            (grid_edge b0 d.dbdx d.dbdy 0 c) (grid_edge c0 d.dcdx d.dcdy 0 c)) := by
  induction n with
  | zero => intro x a0 b0 c0 l _ _ _; simp [tile_columns]
  | succ n ih =>
    intro x a0 b0 c0 l ha hb hc
    rw [tile_columns, ih _ _ _ _ _ (i32_i32 _) (i32_i32 _) (i32_i32 _)]
    simp only [grid_test_col, grid_edge_col, tile_visit, ← grid_test_zero d ha hb hc]
    constructor
    · rintro (h | ⟨c, hc1, hc2, hc3⟩)
      · by_cases ht : grid_test d a0 b0 c0 0 0 = true
        · rw [if_pos ht, List.mem_append, List.mem_singleton] at h
          rcases h with h | h
          · exact Or.inl h
          · refine Or.inr ⟨0, Nat.succ_pos _, ht, ?_⟩
            rw [h, grid_edge_zero ha, grid_edge_zero hb, grid_edge_zero hc]; simp
        · rw [if_neg ht] at h; exact Or.inl h
      · refine Or.inr ⟨c + 1, Nat.succ_lt_succ hc1, hc2, ?_⟩
        rw [hc3]; congr 1; push_cast; ring
    · rintro (h | ⟨c, hc1, hc2, hc3⟩)
      · left
        split
        · exact List.mem_append_left _ h
        · exact h
      · cases c with
        | zero =>
          left
          rw [if_pos hc2, List.mem_append, List.mem_singleton]
          right
          rw [hc3, grid_edge_zero ha, grid_edge_zero hb, grid_edge_zero hc]; simp
        | succ c =>
          right
          refine ⟨c, Nat.lt_of_succ_lt_succ hc1, hc2, ?_⟩
          rw [hc3]; congr 1; push_cast; ring

theorem mem_tile_rows {F : Type} (P : Prims F) (R : TileRasterizer F) (v1 : Vertex F)
    (d : EdgeSteps) (tile_mx : Int) (columns : Nat) (t : Tile F) (n : Nat) :
    ∀ (y a0 b0 c0 : Int) (l : List (Tile F)), i32 a0 = a0 → i32 b0 = b0 → i32 c0 = c0 →
      (t ∈ tile_rows P R (fun t l => l ++ [t]) v1 d tile_mx columns n y a0 b0 c0 l ↔
        t ∈ l ∨ ∃ r c, r < n ∧ c < columns ∧ grid_test d a0 b0 c0 r c = true ∧
          t = grid_tile P R v1 d tile_mx y a0 b0 c0 r c) := by
  induction n with
  | zero => intro y a0 b0 c0 l _ _ _; simp [tile_rows]
  | succ n ih =>
    intro y a0 b0 c0 l ha hb hc
    rw [tile_rows, ih _ _ _ _ _ (i32_i32 _) (i32_i32 _) (i32_i32 _),
      mem_tile_columns P R v1 d y t columns tile_mx a0 b0 c0 l ha hb hc]
    simp only [grid_test_row, grid_tile, grid_edge_row]
    constructor
    · rintro ((h | ⟨c, hc1, hc2, hc3⟩) | ⟨r, c, hr, hc1, hc2, hc3⟩)
      · exact Or.inl h
      · refine Or.inr ⟨0, c, Nat.succ_pos _, hc1, hc2, ?_⟩
        rw [hc3]; congr 1; push_cast; ring
      · refine Or.inr ⟨r + 1, c, Nat.succ_lt_succ hr, hc1, hc2, ?_⟩
        rw [hc3]; congr 1; push_cast; ring
    · rintro (h | ⟨r, c, hr, hc1, hc2, hc3⟩)
      · exact Or.inl (Or.inl h)
      · cases r with
        | zero =>
          left; right
          refine ⟨c, hc1, hc2, ?_⟩
          rw [hc3]; congr 1; push_cast; ring
        | succ r =>
          right
          refine ⟨r, c, Nat.lt_of_succ_lt_succ hr, hc1, hc2, ?_⟩
          rw [hc3]; congr 1; push_cast; ring

theorem edge_value {ax ay bx by_ X0 Y0 K L : Int} (hax : VertexRange ax) (hay : VertexRange ay)
    (hbx : VertexRange bx) (hby : VertexRange by_) (hX0 : PointRange (256 * X0))
    (hY0 : PointRange (256 * Y0)) (hK : PointRange (256 * (X0 + K)))
    (hL : PointRange (256 * (Y0 + L))) :
    i32 (orient2d ax ay bx by_ (256 * X0) (256 * Y0) + K * (ay - by_) + L * (bx - ax)) =
      orient2d ax ay bx by_ (256 * (X0 + K)) (256 * (Y0 + L)) := by
  rw [orient2d_eq_cross hax hay hbx hby hX0 hY0, orient2d_eq_cross hax hay hbx hby hK hL]
  have hb := cross_bound hax hay hbx hby hK hL
  have e : cross ax ay bx by_ (256 * (X0 + K)) (256 * (Y0 + L)) =
      cross ax ay bx by_ (256 * X0) (256 * Y0) + (K * (ay - by_) + L * (bx - ax)) * 256 := by
    unfold cross; ring
  rw [e, Int.add_mul_ediv_right _ _ (by norm_num : (256 : Int) ≠ 0)]
  rw [e] at hb
  rw [add_assoc]
  exact i32_of_range (by omega) (by omega)

theorem orient2d_nonneg_iff {ax ay bx by_ cx cy : Int} (hax : VertexRange ax)
    (hay : VertexRange ay) (hbx : VertexRange bx) (hby : VertexRange by_) (hcx : PointRange cx)
    (hcy : PointRange cy) :
    0 ≤ orient2d ax ay bx by_ cx cy ↔ 0 ≤ cross ax ay bx by_ cx cy := by
  rw [orient2d_eq_cross hax hay hbx hby hcx hcy]
  constructor <;> intro h <;> omega

theorem bbox_of_inside {x1 x2 x3 X A B C : Int} (hA : 0 ≤ A) (hB : 0 ≤ B) (hC : 0 ≤ C)
    (hD : A + B + C ≠ 0) (hX : X * (A + B + C) = x3 * A + x1 * B + x2 * C) :
    min (min x1 x2) x3 ≤ X ∧ X ≤ max (max x1 x2) x3 := by
  have hDpos : 0 < A + B + C := by omega
  have hm1 : min (min x1 x2) x3 ≤ x1 := le_trans (min_le_left _ _) (min_le_left _ _)
  have hm2 : min (min x1 x2) x3 ≤ x2 := le_trans (min_le_left _ _) (min_le_right _ _)
  have hm3 : min (min x1 x2) x3 ≤ x3 := min_le_right _ _
  have hM1 : x1 ≤ max (max x1 x2) x3 := le_trans (le_max_left _ _) (le_max_left _ _)
  have hM2 : x2 ≤ max (max x1 x2) x3 := le_trans (le_max_right _ _) (le_max_left _ _)
  have hM3 : x3 ≤ max (max x1 x2) x3 := le_max_right _ _
  generalize min (min x1 x2) x3 = m at *
  generalize max (max x1 x2) x3 = M at *
  constructor
  · by_contra hlt
    push_neg at hlt
    have h1 : (X - m) * (A + B + C) = (x3 - m) * A + (x1 - m) * B + (x2 - m) * C := by
      linear_combination hX
    have h2 : 0 ≤ (x3 - m) * A + (x1 - m) * B + (x2 - m) * C := by
      have := mul_nonneg (sub_nonneg.mpr hm3) hA
      have := mul_nonneg (sub_nonneg.mpr hm1) hB
      have := mul_nonneg (sub_nonneg.mpr hm2) hC
      linarith
    have h3 : (X - m) * (A + B + C) < 0 := mul_neg_of_neg_of_pos (by linarith) hDpos
    linarith
  · by_contra hlt
    push_neg at hlt
    have h1 : (M - X) * (A + B + C) = (M - x3) * A + (M - x1) * B + (M - x2) * C := by
      linear_combination -hX
    have h2 : 0 ≤ (M - x3) * A + (M - x1) * B + (M - x2) * C := by
      have := mul_nonneg (sub_nonneg.mpr hM3) hA
      have := mul_nonneg (sub_nonneg.mpr hM1) hB
      have := mul_nonneg (sub_nonneg.mpr hM2) hC
      linarith
    have h3 : (M - X) * (A + B + C) < 0 := mul_neg_of_neg_of_pos (by linarith) hDpos
    linarith

theorem f2i_min3 {a b c : Int} (h0 : 0 ≤ min (min a b) c) (h1 : min (min a b) c < 2 ^ 31) :
    f2i (min (min (a : ℚ) b) c) = min (min a b) c := by
  have : min (min (a : ℚ) b) c = ((min (min a b) c : Int) : ℚ) := by push_cast; rfl
  rw [this, f2i_intCast h0 h1]

theorem f2i_max3 {a b c : Int} (h0 : 0 ≤ max (max a b) c) (h1 : max (max a b) c < 2 ^ 31) :
    f2i (max (max (a : ℚ) b) c) = max (max a b) c := by
  have : max (max (a : ℚ) b) c = ((max (max a b) c : Int) : ℚ) := by push_cast; rfl
  rw [this, f2i_intCast h0 h1]

theorem clamped_tile {res m : Int} (hres : res ≤ 2048) (h0 : 0 ≤ m) (h1 : m < res) :
    Int.tdiv (min (max m 0) (i32 (res - 1))) TILE_SIZE = m / 8 := by
  have e1 : i32 (res - 1) = res - 1 := i32_of_range (by omega) (by omega)
  have e2 : min (max m 0) (res - 1) = m := by omega
  rw [e1, e2]
  exact Int.tdiv_eq_ediv h0 (by decide)

theorem rasterize_triangle_int {F S : Type} (P : Prims F) (R : TileRasterizer F)
    (kernel : Tile F → S → S) (v1 v2 v3 : Vertex F) (s : S) {x1 y1 x2 y2 x3 y3 : Int}
    (hxres : R.xres ≤ 2048) (hyres : R.yres ≤ 2048)
    (h1x : v1.PX = x1) (h1y : v1.PY = y1) (h2x : v2.PX = x2) (h2y : v2.PY = y2)
    (h3x : v3.PX = x3) (h3y : v3.PY = y3)
    (hx1 : 0 ≤ x1 ∧ x1 < R.xres) (hy1 : 0 ≤ y1 ∧ y1 < R.yres)
    (hx2 : 0 ≤ x2 ∧ x2 < R.xres) (hy2 : 0 ≤ y2 ∧ y2 < R.yres)
    (hx3 : 0 ≤ x3 ∧ x3 < R.xres) (hy3 : 0 ≤ y3 ∧ y3 < R.yres) :
    rasterize_triangle P R kernel v1 v2 v3 s =
      tile_rows P R kernel v1 (int_steps x1 y1 x2 y2 x3 y3) (min (min x1 x2) x3 / 8)
        (max (max x1 x2) x3 / 8 - min (min x1 x2) x3 / 8 + 1).toNat
        (max (max y1 y2) y3 / 8 - min (min y1 y2) y3 / 8 + 1).toNat
        (min (min y1 y2) y3 / 8)
        (orient2d (256 * x2) (256 * y2) (256 * x1) (256 * y1)
          (256 * (8 * (min (min x1 x2) x3 / 8))) (256 * (8 * (min (min y1 y2) y3 / 8))))
        (orient2d (256 * x3) (256 * y3) (256 * x2) (256 * y2)
          (256 * (8 * (min (min x1 x2) x3 / 8))) (256 * (8 * (min (min y1 y2) y3 / 8))))
        (orient2d (256 * x1) (256 * y1) (256 * x3) (256 * y3)
          (256 * (8 * (min (min x1 x2) x3 / 8))) (256 * (8 * (min (min y1 y2) y3 / 8)))) s := by
  have emx : f2i (min (min v1.PX v2.PX) v3.PX) = min (min x1 x2) x3 := by
    rw [h1x, h2x, h3x]; exact f2i_min3 (by omega) (by omega)
  have eMx : f2i (max (max v1.PX v2.PX) v3.PX) = max (max x1 x2) x3 := by
    rw [h1x, h2x, h3x]; exact f2i_max3 (by omega) (by omega)
  have emy : f2i (min (min v1.PY v2.PY) v3.PY) = min (min y1 y2) y3 := by
    rw [h1y, h2y, h3y]; exact f2i_min3 (by omega) (by omega)
  have eMy : f2i (max (max v1.PY v2.PY) v3.PY) = max (max y1 y2) y3 := by
    rw [h1y, h2y, h3y]; exact f2i_max3 (by omega) (by omega)
  have e1x : f2i (v1.PX * SUBPIXEL_MULT + 1 / 2) = 256 * x1 := by
    rw [h1x]; exact f2i_subpixel (by omega) (by omega)
  have e1y : f2i (v1.PY * SUBPIXEL_MULT + 1 / 2) = 256 * y1 := by
    rw [h1y]; exact f2i_subpixel (by omega) (by omega)
  have e2x : f2i (v2.PX * SUBPIXEL_MULT + 1 / 2) = 256 * x2 := by
    rw [h2x]; exact f2i_subpixel (by omega) (by omega)
  have e2y : f2i (v2.PY * SUBPIXEL_MULT + 1 / 2) = 256 * y2 := by
    rw [h2y]; exact f2i_subpixel (by omega) (by omega)
  have e3x : f2i (v3.PX * SUBPIXEL_MULT + 1 / 2) = 256 * x3 := by
    rw [h3x]; exact f2i_subpixel (by omega) (by omega)
  have e3y : f2i (v3.PY * SUBPIXEL_MULT + 1 / 2) = 256 * y3 := by
    rw [h3y]; exact f2i_subpixel (by omega) (by omega)
  have tmx := clamped_tile (m := min (min x1 x2) x3) hxres (by omega) (by omega)
  have tMx := clamped_tile (m := max (max x1 x2) x3) hxres (by omega) (by omega)
  have tmy := clamped_tile (m := min (min y1 y2) y3) hyres (by omega) (by omega)
  have tMy := clamped_tile (m := max (max y1 y2) y3) hyres (by omega) (by omega)
  have ex0 : i32 (i32 (min (min x1 x2) x3 / 8 * TILE_SIZE) * 2 ^ SUBPIXEL_BITS) =
      256 * (8 * (min (min x1 x2) x3 / 8)) := by
    unfold TILE_SIZE SUBPIXEL_BITS
    rw [i32_of_range (n := min (min x1 x2) x3 / 8 * 8) (by omega) (by omega)]
    rw [i32_of_range (by omega) (by omega)]; ring
  have ey0 : i32 (i32 (min (min y1 y2) y3 / 8 * TILE_SIZE) * 2 ^ SUBPIXEL_BITS) =
      256 * (8 * (min (min y1 y2) y3 / 8)) := by
    unfold TILE_SIZE SUBPIXEL_BITS
    rw [i32_of_range (n := min (min y1 y2) y3 / 8 * 8) (by omega) (by omega)]
    rw [i32_of_range (by omega) (by omega)]; ring
  have ed : ∀ p q : Int, 0 ≤ p → p < 2048 → 0 ≤ q → q < 2048 →
      i32 (256 * p - 256 * q) = 256 * p - 256 * q := by
    intro p q _ _ _ _
    exact i32_of_range (by omega) (by omega)
  unfold rasterize_triangle clampedX clampedY
  simp only [emx, eMx, emy, eMy, e1x, e1y, e2x, e2y, e3x, e3y, tmx, tMx, tmy, tMy, ex0, ey0]
  rw [ed y2 y1 (by omega) (by omega) (by omega) (by omega),
    ed x1 x2 (by omega) (by omega) (by omega) (by omega),
    ed y3 y2 (by omega) (by omega) (by omega) (by omega),
    ed x2 x3 (by omega) (by omega) (by omega) (by omega),
    ed y1 y3 (by omega) (by omega) (by omega) (by omega),
    ed x3 x1 (by omega) (by omega) (by omega) (by omega)]
  rfl

theorem vertexRange_of {x : Int} (h0 : 0 ≤ x) (h1 : x < 2048) : VertexRange (256 * x) := by
  unfold VertexRange; omega

theorem pointRange_of {x : Int} (h0 : 0 ≤ x) (h1 : x ≤ 2048) : PointRange (256 * x) := by
  unfold PointRange; omega

theorem orient2d_shift {ax ay bx by_ X0 Y0 K L : Int} (hax : VertexRange ax)
    (hay : VertexRange ay) (hbx : VertexRange bx) (hby : VertexRange by_)
    (hX0 : PointRange (256 * X0)) (hY0 : PointRange (256 * Y0))
    (hK : PointRange (256 * (X0 + K))) (hL : PointRange (256 * (Y0 + L))) :
    orient2d ax ay bx by_ (256 * (X0 + K)) (256 * (Y0 + L)) =
      orient2d ax ay bx by_ (256 * X0) (256 * Y0) + K * (ay - by_) + L * (bx - ax) := by
  have h := edge_value hax hay hbx hby hX0 hY0 hK hL
  rw [← h]
  have hr := i32_range (orient2d ax ay bx by_ (256 * X0) (256 * Y0) + K * (ay - by_) +
    L * (bx - ax))
  rw [h] at hr ⊢
  rw [orient2d_eq_cross hax hay hbx hby hK hL] at hr ⊢
  rw [orient2d_eq_cross hax hay hbx hby hX0 hY0]
  have e : cross ax ay bx by_ (256 * (X0 + K)) (256 * (Y0 + L)) =
      cross ax ay bx by_ (256 * X0) (256 * Y0) + (K * (ay - by_) + L * (bx - ax)) * 256 := by
    unfold cross; ring
  rw [e, Int.add_mul_ediv_right _ _ (by norm_num : (256 : Int) ≠ 0)]
  ring

theorem orient2d_i32 (ax ay bx by_ cx cy : Int) :
    i32 (orient2d ax ay bx by_ cx cy) = orient2d ax ay bx by_ cx cy := by
  unfold orient2d; exact i32_i32 _

/-- Edge value reached from the origin value `A0` of the first tile after `K`
pixel steps and `L` row steps, in `int32_t`. -/
theorem walk_value {ax ay bx by_ X0 Y0 K L : Int} (hax : VertexRange ax)
    (hay : VertexRange ay) (hbx : VertexRange bx) (hby : VertexRange by_)
    (hX0 : PointRange (256 * X0)) (hY0 : PointRange (256 * Y0))
    (hK : PointRange (256 * (X0 + K))) (hL : PointRange (256 * (Y0 + L))) :
    i32 (orient2d ax ay bx by_ (256 * X0) (256 * Y0) + K * (ay - by_) + L * (bx - ax)) =
      orient2d ax ay bx by_ (256 * (X0 + K)) (256 * (Y0 + L)) :=
  edge_value hax hay hbx hby hX0 hY0 hK hL

theorem tile_max_eq (g ddx ddy : Int) :
    tile_max (i32 g) ddx ddy =
      i32 (g + (if ddx > 0 then 8 else 0) * ddx + (if ddy > 0 then 8 else 0) * ddy) := by
  unfold tile_max TILE_SIZE
  by_cases h1 : ddx > 0 <;> by_cases h2 : ddy > 0 <;>
    simp only [h1, h2, if_true, if_false, i32_add_left, i32_add_right, zero_mul, add_zero,
      i32_i32] <;>
    first
      | rfl
      | (apply congrArg i32; ring)

theorem grid_value {ax ay bx by_ tmx tmy : Int} (hax : VertexRange ax)
    (hay : VertexRange ay) (hbx : VertexRange bx) (hby : VertexRange by_)
    (hmx : 0 ≤ tmx) (hmy : 0 ≤ tmy) (r c : Nat) (K L : Int)
    (hK : 0 ≤ K ∧ 8 * (tmx + c) + K ≤ 2048) (hL : 0 ≤ L ∧ 8 * (tmy + r) + L ≤ 2048) :
    i32 (grid_edge (orient2d ax ay bx by_ (256 * (8 * tmx)) (256 * (8 * tmy)))
      (ay - by_) (bx - ax) r c + K * (ay - by_) + L * (bx - ax)) =
    orient2d ax ay bx by_ (256 * (8 * (tmx + c) + K)) (256 * (8 * (tmy + r) + L)) := by
  have h := @walk_value ax ay bx by_ (8 * tmx) (8 * tmy) (8 * c + K) (8 * r + L)
    hax hay hbx hby (pointRange_of (by omega) (by omega)) (pointRange_of (by omega) (by omega))
    (pointRange_of (by omega) (by omega)) (pointRange_of (by omega) (by omega))
  have e1 : 8 * tmx + (8 * (c : Int) + K) = 8 * (tmx + c) + K := by ring
  have e2 : 8 * tmy + (8 * (r : Int) + L) = 8 * (tmy + r) + L := by ring
  rw [e1, e2] at h
  rw [← h]
  unfold grid_edge TILE_SIZE
  rw [add_assoc, i32_add_left]
  apply congrArg i32
  ring

theorem grid_max_value {ax ay bx by_ tmx tmy : Int} (hax : VertexRange ax)
    (hay : VertexRange ay) (hbx : VertexRange bx) (hby : VertexRange by_)
    (hmx : 0 ≤ tmx) (hmy : 0 ≤ tmy) (r c : Nat)
    (hc : tmx + c ≤ 255) (hr : tmy + r ≤ 255) :
    tile_max (grid_edge (orient2d ax ay bx by_ (256 * (8 * tmx)) (256 * (8 * tmy)))
      (ay - by_) (bx - ax) r c) (ay - by_) (bx - ax) =
    orient2d ax ay bx by_ (256 * (8 * (tmx + c) + (if ay - by_ > 0 then 8 else 0)))
      (256 * (8 * (tmy + r) + (if bx - ax > 0 then 8 else 0))) := by
  have hK : (0 : Int) ≤ (if ay - by_ > 0 then 8 else 0) ∧
      8 * (tmx + c) + (if ay - by_ > 0 then 8 else 0) ≤ 2048 := by split <;> omega
  have hL : (0 : Int) ≤ (if bx - ax > 0 then 8 else 0) ∧
      8 * (tmy + r) + (if bx - ax > 0 then 8 else 0) ≤ 2048 := by split <;> omega
  rw [← grid_value hax hay hbx hby hmx hmy r c _ _ hK hL]
  unfold grid_edge
  rw [tile_max_eq, add_assoc (i32 _), i32_add_left]
  apply congrArg i32
  ring

theorem grid_tile_lets_through {F : Type} (P : Prims F) (R : TileRasterizer F)
    (IType : TInterpolationType) (v1 : Vertex F) {x1 y1 x2 y2 x3 y3 tmx tmy : Int}
    (hx1 : 0 ≤ x1 ∧ x1 < 2048) (hy1 : 0 ≤ y1 ∧ y1 < 2048)
    (hx2 : 0 ≤ x2 ∧ x2 < 2048) (hy2 : 0 ≤ y2 ∧ y2 < 2048)
    (hx3 : 0 ≤ x3 ∧ x3 < 2048) (hy3 : 0 ≤ y3 ∧ y3 < 2048)
    (hmx : 0 ≤ tmx) (hmy : 0 ≤ tmy) (r c : Nat) (hc : tmx + c ≤ 255) (hr : tmy + r ≤ 255)
    (X Y : Int)
    (hin : (grid_tile P R v1 (int_steps x1 y1 x2 y2 x3 y3) tmx tmy
      (orient2d (256 * x2) (256 * y2) (256 * x1) (256 * y1) (256 * (8 * tmx)) (256 * (8 * tmy)))
      (orient2d (256 * x3) (256 * y3) (256 * x2) (256 * y2) (256 * (8 * tmx)) (256 * (8 * tmy)))
      (orient2d (256 * x1) (256 * y1) (256 * x3) (256 * y3) (256 * (8 * tmx)) (256 * (8 * tmy)))
      r c).contains X Y) :
    (exact_lets_through (grid_tile P R v1 (int_steps x1 y1 x2 y2 x3 y3) tmx tmy
      (orient2d (256 * x2) (256 * y2) (256 * x1) (256 * y1) (256 * (8 * tmx)) (256 * (8 * tmy)))
      (orient2d (256 * x3) (256 * y3) (256 * x2) (256 * y2) (256 * (8 * tmx)) (256 * (8 * tmy)))
      (orient2d (256 * x1) (256 * y1) (256 * x3) (256 * y3) (256 * (8 * tmx)) (256 * (8 * tmy)))
      r c) X Y = true ↔ inside_triangle x1 y1 x2 y2 x3 y3 X Y) ∧
    (apply_lets_through P R IType (grid_tile P R v1 (int_steps x1 y1 x2 y2 x3 y3) tmx tmy
      (orient2d (256 * x2) (256 * y2) (256 * x1) (256 * y1) (256 * (8 * tmx)) (256 * (8 * tmy)))
      (orient2d (256 * x3) (256 * y3) (256 * x2) (256 * y2) (256 * (8 * tmx)) (256 * (8 * tmy)))
      (orient2d (256 * x1) (256 * y1) (256 * x3) (256 * y3) (256 * (8 * tmx)) (256 * (8 * tmy)))
      r c) X Y = true ↔ inside_triangle x1 y1 x2 y2 x3 y3 X Y) := by
  have v1x := vertexRange_of hx1.1 hx1.2
  have v1y := vertexRange_of hy1.1 hy1.2
  have v2x := vertexRange_of hx2.1 hx2.2
  have v2y := vertexRange_of hy2.1 hy2.2
  have v3x := vertexRange_of hx3.1 hx3.2
  have v3y := vertexRange_of hy3.1 hy3.2
  have hin' := hin
  simp only [Tile.contains, grid_tile, make_tile, TILE_SIZE] at hin'
  obtain ⟨hX1, hX2, hY1, hY2⟩ := hin'
  have hK : (0 : Int) ≤ ((X - (tmx + c) * 8).toNat : Int) ∧
      8 * (tmx + c) + ((X - (tmx + c) * 8).toNat : Int) ≤ 2048 := by omega
  have hL : (0 : Int) ≤ ((Y - (tmy + r) * 8).toNat : Int) ∧
      8 * (tmy + r) + ((Y - (tmy + r) * 8).toNat : Int) ≤ 2048 := by omega
  have eX : 8 * (tmx + c) + ((X - (tmx + c) * 8).toNat : Int) = X := by omega
  have eY : 8 * (tmy + r) + ((Y - (tmy + r) * 8).toNat : Int) = Y := by omega
  have ga := grid_value v2x v2y v1x v1y hmx hmy r c _ _ hK hL
  have gb := grid_value v3x v3y v2x v2y hmx hmy r c _ _ hK hL
  have gc := grid_value v1x v1y v3x v3y hmx hmy r c _ _ hK hL
  rw [eX, eY] at ga gb gc
  have key : ∀ p q w : Int,
      i32 p = i32 (grid_edge (orient2d (256 * x2) (256 * y2) (256 * x1) (256 * y1)
          (256 * (8 * tmx)) (256 * (8 * tmy))) (256 * y2 - 256 * y1) (256 * x1 - 256 * x2) r c +
        ((X - (tmx + ↑c) * 8).toNat : Int) * (256 * y2 - 256 * y1) +
        ((Y - (tmy + ↑r) * 8).toNat : Int) * (256 * x1 - 256 * x2)) →
      i32 q = i32 (grid_edge (orient2d (256 * x3) (256 * y3) (256 * x2) (256 * y2)
          (256 * (8 * tmx)) (256 * (8 * tmy))) (256 * y3 - 256 * y2) (256 * x2 - 256 * x3) r c +
        ((X - (tmx + ↑c) * 8).toNat : Int) * (256 * y3 - 256 * y2) +
        ((Y - (tmy + ↑r) * 8).toNat : Int) * (256 * x2 - 256 * x3)) →
      i32 w = i32 (grid_edge (orient2d (256 * x1) (256 * y1) (256 * x3) (256 * y3)
          (256 * (8 * tmx)) (256 * (8 * tmy))) (256 * y1 - 256 * y3) (256 * x3 - 256 * x1) r c +
        ((X - (tmx + ↑c) * 8).toNat : Int) * (256 * y1 - 256 * y3) +
        ((Y - (tmy + ↑r) * 8).toNat : Int) * (256 * x3 - 256 * x1)) →
      (edge_test p q w = true ↔ inside_triangle x1 y1 x2 y2 x3 y3 X Y) := by
    intro p q w ha hb hc
    rw [edge_test_iff, ha, hb, hc, ga, gb, gc]
    rfl
  constructor
  · unfold exact_lets_through
    rw [decide_eq_true hin, Bool.true_and]
    unfold EdgeLanes.mask
    obtain ⟨ea, eb, ec⟩ := exact_edges_a (grid_tile P R v1 (int_steps x1 y1 x2 y2 x3 y3) tmx tmy
      (orient2d (256 * x2) (256 * y2) (256 * x1) (256 * y1) (256 * (8 * tmx)) (256 * (8 * tmy)))
      (orient2d (256 * x3) (256 * y3) (256 * x2) (256 * y2) (256 * (8 * tmx)) (256 * (8 * tmy)))
      (orient2d (256 * x1) (256 * y1) (256 * x3) (256 * y3) (256 * (8 * tmx)) (256 * (8 * tmy)))
      r c) (Y - (tmy + r) * 8).toNat (X - (tmx + c) * 8).toNat
    apply key
    · exact (congrArg i32 ea).trans (i32_i32 _)
    · exact (congrArg i32 eb).trans (i32_i32 _)
    · exact (congrArg i32 ec).trans (i32_i32 _)
  · unfold apply_lets_through
    simp only
    rw [decide_eq_true hin, Bool.true_and]
    obtain ⟨ea, eb, ec⟩ := apply_pixel_state_edges P R IType
      (grid_tile P R v1 (int_steps x1 y1 x2 y2 x3 y3) tmx tmy
      (orient2d (256 * x2) (256 * y2) (256 * x1) (256 * y1) (256 * (8 * tmx)) (256 * (8 * tmy)))
      (orient2d (256 * x3) (256 * y3) (256 * x2) (256 * y2) (256 * (8 * tmx)) (256 * (8 * tmy)))
      (orient2d (256 * x1) (256 * y1) (256 * x3) (256 * y3) (256 * (8 * tmx)) (256 * (8 * tmy)))
      r c) (Y - (tmy + r) * 8).toNat (X - (tmx + c) * 8).toNat
    exact key _ _ _ ea eb ec

theorem corner_nonneg {ax ay bx by_ X Y tx ty : Int} (hax : VertexRange ax)
    (hay : VertexRange ay) (hbx : VertexRange bx) (hby : VertexRange by_)
    (htx : 0 ≤ tx ∧ tx ≤ 255) (hty : 0 ≤ ty ∧ ty ≤ 255)
    (hX : 8 * tx ≤ X ∧ X < 8 * tx + 8) (hY : 8 * ty ≤ Y ∧ Y < 8 * ty + 8)
    (h : 0 ≤ orient2d ax ay bx by_ (256 * X) (256 * Y)) :
    0 ≤ orient2d ax ay bx by_ (256 * (8 * tx + (if ay - by_ > 0 then 8 else 0)))
      (256 * (8 * ty + (if bx - ax > 0 then 8 else 0))) := by
  have hK : (0 : Int) ≤ 8 * tx + (if ay - by_ > 0 then 8 else 0) ∧
      8 * tx + (if ay - by_ > 0 then 8 else 0) ≤ 2048 := by split <;> omega
  have hL : (0 : Int) ≤ 8 * ty + (if bx - ax > 0 then 8 else 0) ∧
      8 * ty + (if bx - ax > 0 then 8 else 0) ≤ 2048 := by split <;> omega
  have e1 : 8 * tx + (if ay - by_ > 0 then 8 else 0) =
      X + (8 * tx + (if ay - by_ > 0 then 8 else 0) - X) := by ring
  have e2 : 8 * ty + (if bx - ax > 0 then 8 else 0) =
      Y + (8 * ty + (if bx - ax > 0 then 8 else 0) - Y) := by ring
  have hs := @orient2d_shift ax ay bx by_ X Y
    (8 * tx + (if ay - by_ > 0 then 8 else 0) - X)
    (8 * ty + (if bx - ax > 0 then 8 else 0) - Y) hax hay hbx hby
    (pointRange_of (by omega) (by omega)) (pointRange_of (by omega) (by omega))
    (by rw [← e1]; exact pointRange_of hK.1 hK.2) (by rw [← e2]; exact pointRange_of hL.1 hL.2)
  rw [← e1, ← e2] at hs
  rw [hs]
  have p1 : 0 ≤ (8 * tx + (if ay - by_ > 0 then 8 else 0) - X) * (ay - by_) := by
    by_cases hd : ay - by_ > 0
    · rw [if_pos hd]; exact mul_nonneg (by omega) (le_of_lt hd)
    · rw [if_neg hd]
      have h1 : 0 ≤ -(8 * tx + 0 - X) := by omega
      have h2 : 0 ≤ -(ay - by_) := by omega
      have := mul_nonneg h1 h2
      linarith
  have p2 : 0 ≤ (8 * ty + (if bx - ax > 0 then 8 else 0) - Y) * (bx - ax) := by
    by_cases hd : bx - ax > 0
    · rw [if_pos hd]; exact mul_nonneg (by omega) (le_of_lt hd)
    · rw [if_neg hd]
      have h1 : 0 ≤ -(8 * ty + 0 - Y) := by omega
      have h2 : 0 ≤ -(bx - ax) := by omega
      have := mul_nonneg h1 h2
      linarith
  linarith

theorem grid_test_of_inside {x1 y1 x2 y2 x3 y3 tmx tmy : Int}
    (hx1 : 0 ≤ x1 ∧ x1 < 2048) (hy1 : 0 ≤ y1 ∧ y1 < 2048)
    (hx2 : 0 ≤ x2 ∧ x2 < 2048) (hy2 : 0 ≤ y2 ∧ y2 < 2048)
    (hx3 : 0 ≤ x3 ∧ x3 < 2048) (hy3 : 0 ≤ y3 ∧ y3 < 2048)
    (hmx : 0 ≤ tmx) (hmy : 0 ≤ tmy) (r c : Nat) (hc : tmx + c ≤ 255) (hr : tmy + r ≤ 255)
    (X Y : Int) (hX : 8 * (tmx + c) ≤ X ∧ X < 8 * (tmx + c) + 8)
    (hY : 8 * (tmy + r) ≤ Y ∧ Y < 8 * (tmy + r) + 8)
    (hin : inside_triangle x1 y1 x2 y2 x3 y3 X Y) :
    grid_test (int_steps x1 y1 x2 y2 x3 y3)
      (orient2d (256 * x2) (256 * y2) (256 * x1) (256 * y1) (256 * (8 * tmx)) (256 * (8 * tmy)))
      (orient2d (256 * x3) (256 * y3) (256 * x2) (256 * y2) (256 * (8 * tmx)) (256 * (8 * tmy)))
      (orient2d (256 * x1) (256 * y1) (256 * x3) (256 * y3) (256 * (8 * tmx)) (256 * (8 * tmy)))
      r c = true := by
  have v1x := vertexRange_of hx1.1 hx1.2
  have v1y := vertexRange_of hy1.1 hy1.2
  have v2x := vertexRange_of hx2.1 hx2.2
  have v2y := vertexRange_of hy2.1 hy2.2
  have v3x := vertexRange_of hx3.1 hx3.2
  have v3y := vertexRange_of hy3.1 hy3.2
  obtain ⟨ha, hb, hc'⟩ := hin
  unfold grid_test int_steps
  simp only
  rw [edge_test_iff, grid_max_value v2x v2y v1x v1y hmx hmy r c hc hr,
    grid_max_value v3x v3y v2x v2y hmx hmy r c hc hr,
    grid_max_value v1x v1y v3x v3y hmx hmy r c hc hr, orient2d_i32, orient2d_i32, orient2d_i32]
  exact ⟨corner_nonneg v2x v2y v1x v1y ⟨by omega, hc⟩ ⟨by omega, hr⟩ hX hY ha,
    corner_nonneg v3x v3y v2x v2y ⟨by omega, hc⟩ ⟨by omega, hr⟩ hX hY hb,
    corner_nonneg v1x v1y v3x v3y ⟨by omega, hc⟩ ⟨by omega, hr⟩ hX hY hc'⟩

theorem bbox_of_inside_triangle {x1 y1 x2 y2 x3 y3 X Y : Int}
    (hx1 : 0 ≤ x1 ∧ x1 < 2048) (hy1 : 0 ≤ y1 ∧ y1 < 2048)
    (hx2 : 0 ≤ x2 ∧ x2 < 2048) (hy2 : 0 ≤ y2 ∧ y2 < 2048)
    (hx3 : 0 ≤ x3 ∧ x3 < 2048) (hy3 : 0 ≤ y3 ∧ y3 < 2048)
    (hX : 0 ≤ X ∧ X < 2048) (hY : 0 ≤ Y ∧ Y < 2048)
    (hdet : (x2 - x1) * (y3 - y1) - (y2 - y1) * (x3 - x1) ≠ 0)
    (hin : inside_triangle x1 y1 x2 y2 x3 y3 X Y) :
    (min (min x1 x2) x3 ≤ X ∧ X ≤ max (max x1 x2) x3) ∧
    (min (min y1 y2) y3 ≤ Y ∧ Y ≤ max (max y1 y2) y3) := by
  have v1x := vertexRange_of hx1.1 hx1.2
  have v1y := vertexRange_of hy1.1 hy1.2
  have v2x := vertexRange_of hx2.1 hx2.2
  have v2y := vertexRange_of hy2.1 hy2.2
  have v3x := vertexRange_of hx3.1 hx3.2
  have v3y := vertexRange_of hy3.1 hy3.2
  have pX := pointRange_of hX.1 (le_of_lt hX.2)
  have pY := pointRange_of hY.1 (le_of_lt hY.2)
  obtain ⟨ha, hb, hc⟩ := hin
  rw [orient2d_nonneg_iff v2x v2y v1x v1y pX pY] at ha
  rw [orient2d_nonneg_iff v3x v3y v2x v2y pX pY] at hb
  rw [orient2d_nonneg_iff v1x v1y v3x v3y pX pY] at hc
  have hD : cross (256 * x2) (256 * y2) (256 * x1) (256 * y1) (256 * X) (256 * Y) +
      cross (256 * x3) (256 * y3) (256 * x2) (256 * y2) (256 * X) (256 * Y) +
      cross (256 * x1) (256 * y1) (256 * x3) (256 * y3) (256 * X) (256 * Y) ≠ 0 := by
    intro h0
    apply hdet
    unfold cross at h0
    have : 65536 * ((x2 - x1) * (y3 - y1) - (y2 - y1) * (x3 - x1)) = 0 := by
      linear_combination -h0
    omega
  constructor
  · apply bbox_of_inside ha hb hc hD
    unfold cross; ring
  · apply bbox_of_inside ha hb hc hD
    unfold cross; ring

theorem handed_tiles_int {F : Type} (P : Prims F) (R : TileRasterizer F)
    (v1 v2 v3 : Vertex F) {x1 y1 x2 y2 x3 y3 : Int}
    (hT : IntegerTriangle R v1 v2 v3 x1 y1 x2 y2 x3 y3) (t : Tile F) :
    t ∈ handed_tiles P R v1 v2 v3 ↔
      ∃ r c : Nat, (min (min y1 y2) y3 / 8 + r ≤ max (max y1 y2) y3 / 8) ∧
        (min (min x1 x2) x3 / 8 + c ≤ max (max x1 x2) x3 / 8) ∧
        grid_test (int_steps x1 y1 x2 y2 x3 y3)
          (orient2d (256 * x2) (256 * y2) (256 * x1) (256 * y1)
            (256 * (8 * (min (min x1 x2) x3 / 8))) (256 * (8 * (min (min y1 y2) y3 / 8))))
          (orient2d (256 * x3) (256 * y3) (256 * x2) (256 * y2)
            (256 * (8 * (min (min x1 x2) x3 / 8))) (256 * (8 * (min (min y1 y2) y3 / 8))))
          (orient2d (256 * x1) (256 * y1) (256 * x3) (256 * y3)
            (256 * (8 * (min (min x1 x2) x3 / 8))) (256 * (8 * (min (min y1 y2) y3 / 8))))
          r c = true ∧
        t = grid_tile P R v1 (int_steps x1 y1 x2 y2 x3 y3) (min (min x1 x2) x3 / 8)
          (min (min y1 y2) y3 / 8)
          (orient2d (256 * x2) (256 * y2) (256 * x1) (256 * y1)
            (256 * (8 * (min (min x1 x2) x3 / 8))) (256 * (8 * (min (min y1 y2) y3 / 8))))
          (orient2d (256 * x3) (256 * y3) (256 * x2) (256 * y2)
            (256 * (8 * (min (min x1 x2) x3 / 8))) (256 * (8 * (min (min y1 y2) y3 / 8))))
          (orient2d (256 * x1) (256 * y1) (256 * x3) (256 * y3)
            (256 * (8 * (min (min x1 x2) x3 / 8))) (256 * (8 * (min (min y1 y2) y3 / 8))))
          r c := by
  obtain ⟨⟨hxres, hyres⟩, ⟨h1x, h1y, h2x, h2y, h3x, h3y⟩, ⟨hx1, hy1⟩, ⟨hx2, hy2⟩, ⟨hx3, hy3⟩⟩ := hT
  unfold handed_tiles
  rw [rasterize_triangle_int P R _ v1 v2 v3 [] hxres hyres h1x h1y h2x h2y h3x h3y hx1 hy1
    hx2 hy2 hx3 hy3, mem_tile_rows P R v1 _ _ _ t _ _ _ _ _ [] (orient2d_i32 _ _ _ _ _ _)
    (orient2d_i32 _ _ _ _ _ _) (orient2d_i32 _ _ _ _ _ _)]
  constructor
  · rintro (h | ⟨r, c, hr, hc, htest, ht⟩)
    · exact absurd h (List.not_mem_nil _)
    · exact ⟨r, c, by omega, by omega, htest, ht⟩
  · rintro ⟨r, c, hr, hc, htest, ht⟩
    exact Or.inr ⟨r, c, by omega, by omega, htest, ht⟩

theorem covered_iff_inside {F : Type} (P : Prims F) (R : TileRasterizer F)
    (v1 v2 v3 : Vertex F) {x1 y1 x2 y2 x3 y3 : Int}
    (hT : IntegerTriangle R v1 v2 v3 x1 y1 x2 y2 x3 y3)
    (hdet : (x2 - x1) * (y3 - y1) - (y2 - y1) * (x3 - x1) ≠ 0)
    (X Y : Int) (hX : 0 ≤ X ∧ X < R.xres) (hY : 0 ≤ Y ∧ Y < R.yres)
    (lets : Tile F → Int → Int → Bool)
    (hc : ∀ t X Y, lets t X Y = true → t.contains X Y)
    (hl : ∀ (tmx tmy : Int) (r c : Nat), 0 ≤ tmx → 0 ≤ tmy → tmx + c ≤ 255 → tmy + r ≤ 255 →
      (grid_tile P R v1 (int_steps x1 y1 x2 y2 x3 y3) tmx tmy
      (orient2d (256 * x2) (256 * y2) (256 * x1) (256 * y1) (256 * (8 * tmx)) (256 * (8 * tmy)))
      (orient2d (256 * x3) (256 * y3) (256 * x2) (256 * y2) (256 * (8 * tmx)) (256 * (8 * tmy)))
      (orient2d (256 * x1) (256 * y1) (256 * x3) (256 * y3) (256 * (8 * tmx)) (256 * (8 * tmy)))
      r c).contains X Y →
      (lets (grid_tile P R v1 (int_steps x1 y1 x2 y2 x3 y3) tmx tmy
      (orient2d (256 * x2) (256 * y2) (256 * x1) (256 * y1) (256 * (8 * tmx)) (256 * (8 * tmy)))
      (orient2d (256 * x3) (256 * y3) (256 * x2) (256 * y2) (256 * (8 * tmx)) (256 * (8 * tmy)))
      (orient2d (256 * x1) (256 * y1) (256 * x3) (256 * y3) (256 * (8 * tmx)) (256 * (8 * tmy)))
      r c) X Y = true ↔ inside_triangle x1 y1 x2 y2 x3 y3 X Y)) :
    (∃ t ∈ handed_tiles P R v1 v2 v3, lets t X Y = true) ↔
      inside_triangle x1 y1 x2 y2 x3 y3 X Y := by
  have hT' := hT
  obtain ⟨⟨hxres, hyres⟩, -, ⟨hx1, hy1⟩, ⟨hx2, hy2⟩, ⟨hx3, hy3⟩⟩ := hT'
  constructor
  · rintro ⟨t, ht, hlt⟩
    rw [handed_tiles_int P R v1 v2 v3 hT] at ht
    obtain ⟨r, c, hr, hcc, -, rfl⟩ := ht
    exact (hl _ _ r c (by omega) (by omega) (by omega) (by omega) (hc _ _ _ hlt)).mp hlt
  · intro hin
    obtain ⟨⟨bx1, bx2⟩, ⟨by1, by2⟩⟩ := bbox_of_inside_triangle (X := X) (Y := Y)
      (by omega) (by omega) (by omega) (by omega) (by omega) (by omega) (by omega) (by omega)
      hdet hin
    have hcX : min (min x1 x2) x3 / 8 + ((X / 8 - min (min x1 x2) x3 / 8).toNat : Int) = X / 8 := by
      omega
    have hcY : min (min y1 y2) y3 / 8 + ((Y / 8 - min (min y1 y2) y3 / 8).toNat : Int) = Y / 8 := by
      omega
    have hcont : (grid_tile P R v1 (int_steps x1 y1 x2 y2 x3 y3) (min (min x1 x2) x3 / 8)
        (min (min y1 y2) y3 / 8)
        (orient2d (256 * x2) (256 * y2) (256 * x1) (256 * y1)
          (256 * (8 * (min (min x1 x2) x3 / 8))) (256 * (8 * (min (min y1 y2) y3 / 8))))
        (orient2d (256 * x3) (256 * y3) (256 * x2) (256 * y2)
          (256 * (8 * (min (min x1 x2) x3 / 8))) (256 * (8 * (min (min y1 y2) y3 / 8))))
        (orient2d (256 * x1) (256 * y1) (256 * x3) (256 * y3)
          (256 * (8 * (min (min x1 x2) x3 / 8))) (256 * (8 * (min (min y1 y2) y3 / 8))))
        (Y / 8 - min (min y1 y2) y3 / 8).toNat (X / 8 - min (min x1 x2) x3 / 8).toNat).contains
        X Y := by
      simp only [Tile.contains, grid_tile, make_tile, TILE_SIZE]
      rw [hcX, hcY]
      omega
    refine ⟨_, (handed_tiles_int P R v1 v2 v3 hT _).mpr
      ⟨(Y / 8 - min (min y1 y2) y3 / 8).toNat, (X / 8 - min (min x1 x2) x3 / 8).toNat,
        by omega, by omega, ?_, rfl⟩, ?_⟩
    · exact grid_test_of_inside (by omega) (by omega) (by omega) (by omega) (by omega) (by omega)
        (by omega) (by omega) _ _ (by omega) (by omega) X Y (by omega) (by omega) hin
    · exact (hl _ _ _ _ (by omega) (by omega) (by omega) (by omega) hcont).mpr hin

theorem exact_lets_through_contains {F : Type} (t : Tile F) (X Y : Int)
    (h : exact_lets_through t X Y = true) : t.contains X Y := by
  unfold exact_lets_through at h
  rw [Bool.and_eq_true] at h
  exact of_decide_eq_true h.1

theorem apply_lets_through_contains {F : Type} (P : Prims F) (R : TileRasterizer F)
    (IType : TInterpolationType) (t : Tile F) (X Y : Int)
    (h : apply_lets_through P R IType t X Y = true) : t.contains X Y := by
  unfold apply_lets_through at h
  simp only [Bool.and_eq_true] at h
  exact of_decide_eq_true h.1

/-- Claim C1, amended: coverage correctness.  For every non-degenerate triangle
with integer vertex coordinates inside a viewport of at most 2048 x 2048 pixels
and every pixel `(X, Y)` of the viewport, some tile that `rasterize_triangle`
hands to its kernel lets the pixel through the edge test exactly when the three
edge functions `orient2d(v2, v1, p)`, `orient2d(v3, v2, p)`, `orient2d(v1, v3, p)`
are non-negative at the sample point `p = (256 X, 256 Y)` of the pixel, which is
where the code evaluates them.  This holds for the edge test of the exact kernel
`apply_exact` and for that of the approximate kernel `apply`. -/
theorem coverage_correct {F : Type} (P : Prims F) (R : TileRasterizer F)
    (IType : TInterpolationType) (v1 v2 v3 : Vertex F) (x1 y1 x2 y2 x3 y3 X Y : Int)
    (hT : IntegerTriangle R v1 v2 v3 x1 y1 x2 y2 x3 y3)
    (hdet : (x2 - x1) * (y3 - y1) - (y2 - y1) * (x3 - x1) ≠ 0)
    (hX : 0 ≤ X ∧ X < R.xres) (hY : 0 ≤ Y ∧ Y < R.yres) :
    ((∃ t ∈ handed_tiles P R v1 v2 v3, exact_lets_through t X Y = true) ↔
      inside_triangle x1 y1 x2 y2 x3 y3 X Y) ∧
    ((∃ t ∈ handed_tiles P R v1 v2 v3, apply_lets_through P R IType t X Y = true) ↔
      inside_triangle x1 y1 x2 y2 x3 y3 X Y) := by
  have hT' := hT
  obtain ⟨⟨hxres, hyres⟩, -, ⟨hx1, hy1⟩, ⟨hx2, hy2⟩, ⟨hx3, hy3⟩⟩ := hT'
  constructor
  · apply covered_iff_inside P R v1 v2 v3 hT hdet X Y hX hY _ exact_lets_through_contains
    intro tmx tmy r c hmx hmy hc hr hin
    exact (grid_tile_lets_through P R IType v1 (by omega) (by omega) (by omega) (by omega)
      (by omega) (by omega) hmx hmy r c hc hr X Y hin).1
  · apply covered_iff_inside P R v1 v2 v3 hT hdet X Y hX hY _
      (apply_lets_through_contains P R IType)
    intro tmx tmy r c hmx hmy hc hr hin
    exact (grid_tile_lets_through P R IType v1 (by omega) (by omega) (by omega) (by omega)
      (by omega) (by omega) hmx hmy r c hc hr X Y hin).2

theorem integerTriangle_16 (x1 y1 x2 y2 x3 y3 : Int)
    (h : (0 ≤ x1 ∧ x1 < 16) ∧ (0 ≤ y1 ∧ y1 < 16) ∧ (0 ≤ x2 ∧ x2 < 16) ∧ (0 ≤ y2 ∧ y2 < 16) ∧
      (0 ≤ x3 ∧ x3 < 16) ∧ (0 ≤ y3 ∧ y3 < 16)) (texel : Nat) :
    IntegerTriangle (unitRasterizer 16 16 texel) (intVertex x1 y1) (intVertex x2 y2)
      (intVertex x3 y3) x1 y1 x2 y2 x3 y3 := by
  obtain ⟨h1, h2, h3, h4, h5, h6⟩ := h
  exact ⟨⟨by simp [unitRasterizer], by simp [unitRasterizer]⟩, ⟨rfl, rfl, rfl, rfl, rfl, rfl⟩,
    ⟨h1, h2⟩, ⟨h3, h4⟩, ⟨h5, h6⟩⟩

/-- Claim C1, witness: `coverage_correct` at the triangle `(1,1)`, `(1,9)`,
`(9,1)` on a 16 x 16 viewport and the pixel `(2, 3)`. -/
theorem coverage_correct_witness :
    IntegerTriangle (unitRasterizer 16 16 0) (intVertex 1 1) (intVertex 1 9) (intVertex 9 1)
      1 1 1 9 9 1 ∧
    ((1 : Int) - 1) * (1 - 1) - (9 - 1) * (9 - 1) ≠ 0 ∧
    (((∃ t ∈ handed_tiles unitPrims (unitRasterizer 16 16 0) (intVertex 1 1) (intVertex 1 9)
        (intVertex 9 1), exact_lets_through t 2 3 = true) ↔ inside_triangle 1 1 1 9 9 1 2 3) ∧
     ((∃ t ∈ handed_tiles unitPrims (unitRasterizer 16 16 0) (intVertex 1 1) (intVertex 1 9)
        (intVertex 9 1), apply_lets_through unitPrims (unitRasterizer 16 16 0)
          TInterpolationType.QUADRATIC t 2 3 = true) ↔ inside_triangle 1 1 1 9 9 1 2 3)) :=
  ⟨integerTriangle_16 1 1 1 9 9 1 (by decide) 0, by decide,
    coverage_correct unitPrims (unitRasterizer 16 16 0) TInterpolationType.QUADRATIC
      (intVertex 1 1) (intVertex 1 9) (intVertex 9 1) 1 1 1 9 9 1 2 3
      (integerTriangle_16 1 1 1 9 9 1 (by decide) 0) (by decide) (by decide) (by decide)⟩

/-- Claim C1, counterexample.  First part: for the collinear vertices `(1,1)`,
`(2,2)`, `(3,3)` on a 16 x 16 viewport the three edge functions are non-negative
at pixel `(9, 9)`, both at its integer sample point and at its half-pixel
centre, yet no tile handed to the kernel lets that pixel through (only tile
`(0, 0)` is visited).  Second part: for the non-degenerate triangle `(1,1)`,
`(1,9)`, `(9,1)` the pixel `(1, 9)` is let through, while the edge functions
taken at its half-pixel centre `(1.5, 9.5)` are not all non-negative: the code
samples at integer pixel coordinates. -/
theorem coverage_counterexample :
    (IntegerTriangle (unitRasterizer 16 16 0) (intVertex 1 1) (intVertex 2 2) (intVertex 3 3)
        1 1 2 2 3 3 ∧
      inside_triangle 1 1 2 2 3 3 9 9 ∧
      (0 ≤ orient2d 512 512 256 256 (256 * 9 + 128) (256 * 9 + 128) ∧
       0 ≤ orient2d 768 768 512 512 (256 * 9 + 128) (256 * 9 + 128) ∧
       0 ≤ orient2d 256 256 768 768 (256 * 9 + 128) (256 * 9 + 128)) ∧
      ¬ (∃ t ∈ handed_tiles unitPrims (unitRasterizer 16 16 0) (intVertex 1 1) (intVertex 2 2)
          (intVertex 3 3), exact_lets_through t 9 9 = true)) ∧
    (IntegerTriangle (unitRasterizer 16 16 0) (intVertex 1 1) (intVertex 1 9) (intVertex 9 1)
        1 1 1 9 9 1 ∧
      (∃ t ∈ handed_tiles unitPrims (unitRasterizer 16 16 0) (intVertex 1 1) (intVertex 1 9)
          (intVertex 9 1), exact_lets_through t 1 9 = true) ∧
      ¬ (0 ≤ orient2d (256 * 1) (256 * 9) (256 * 1) (256 * 1) (256 * 1 + 128) (256 * 9 + 128) ∧
         0 ≤ orient2d (256 * 9) (256 * 1) (256 * 1) (256 * 9) (256 * 1 + 128) (256 * 9 + 128) ∧
         0 ≤ orient2d (256 * 1) (256 * 1) (256 * 9) (256 * 1) (256 * 1 + 128) (256 * 9 + 128))) := by
  refine ⟨⟨integerTriangle_16 1 1 2 2 3 3 (by decide) 0, by decide, by decide, ?_⟩,
    ⟨integerTriangle_16 1 1 1 9 9 1 (by decide) 0, ?_, by decide⟩⟩
  · rintro ⟨t, ht, hlt⟩
    rw [handed_tiles_int unitPrims _ _ _ _ (integerTriangle_16 1 1 2 2 3 3 (by decide) 0)] at ht
    obtain ⟨r, c, hr, hc, -, rfl⟩ := ht
    have hin := exact_lets_through_contains _ _ _ hlt
    simp only [Tile.contains, grid_tile, make_tile, TILE_SIZE] at hin
    norm_num at hr hc hin
    omega
  · have h := (covered_iff_inside unitPrims (unitRasterizer 16 16 0) (intVertex 1 1)
      (intVertex 1 9) (intVertex 9 1) (integerTriangle_16 1 1 1 9 9 1 (by decide) 0)
      (by decide) 1 9 (by decide) (by decide) exact_lets_through
      exact_lets_through_contains ?_).mpr (by decide)
    · exact h
    · intro tmx tmy r c hmx hmy hc hr hin
      exact (grid_tile_lets_through unitPrims (unitRasterizer 16 16 0)
        TInterpolationType.AFFINE (intVertex 1 1) (by decide) (by decide) (by decide)
        (by decide) (by decide) (by decide) hmx hmy r c hc hr 1 9 hin).1

theorem apply_pixel_write_at {F : Type} (P : Prims F) (R : TileRasterizer F)
    (BlendMode : TBlendMode) (st : ApplyPixel F) (X Y : Int) (s : Surfaces) (X1 Y1 : Int) :
    (apply_pixel_write P R BlendMode st X Y s).color X1 Y1 =
      (if X1 = X ∧ Y1 = Y then (apply_fragment P R BlendMode st (s.color X Y) (s.z X Y)).1
       else s.color X1 Y1) ∧
    (apply_pixel_write P R BlendMode st X Y s).z X1 Y1 =
      (if X1 = X ∧ Y1 = Y then (apply_fragment P R BlendMode st (s.color X Y) (s.z X Y)).2
       else s.z X1 Y1) := by
  unfold apply_pixel_write apply_fragment
  by_cases he : edge_test st.a st.b st.c = true
  · by_cases hz : (quantize_z P (P.div (P.ofInt 1) st.rz) >>> 10) &&& 0xffff > s.z X Y
    · cases BlendMode <;>
        simp only [he, hz, if_true, Surfaces.setColor, Surfaces.setZ] <;>
        by_cases hxy : X1 = X ∧ Y1 = Y <;> simp [hxy]
    · simp only [he, hz, if_true, if_false]
      by_cases hxy : X1 = X ∧ Y1 = Y
      · rw [if_pos hxy, if_pos hxy, hxy.1, hxy.2]; exact ⟨rfl, rfl⟩
      · rw [if_neg hxy, if_neg hxy]; exact ⟨rfl, rfl⟩
  · simp only [he, if_false]
    by_cases hxy : X1 = X ∧ Y1 = Y
    · rw [if_pos hxy, if_pos hxy, hxy.1, hxy.2]; exact ⟨rfl, rfl⟩
    · rw [if_neg hxy, if_neg hxy]; exact ⟨rfl, rfl⟩

theorem apply_pixels_at {F : Type} (P : Prims F) (R : TileRasterizer F) (su : ApplySetup)
    (IType : TInterpolationType) (BlendMode : TBlendMode) (tile : Tile F) (rst : ApplyRow F)
    (X0 Y : Int) (X1 Y1 : Int) (n : Nat) :
    ∀ (i : Nat) (st : ApplyPixel F) (s : Surfaces),
    (apply_pixels P R su IType BlendMode tile rst X0 Y n i st s).color X1 Y1 =
      (if Y1 = Y ∧ X0 + i ≤ X1 ∧ X1 < X0 + i + n then
        (apply_fragment P R BlendMode
          ((apply_pixel_next P R su IType tile rst)^[(X1 - X0 - i).toNat] st)
          (s.color X1 Y1) (s.z X1 Y1)).1
       else s.color X1 Y1) ∧
    (apply_pixels P R su IType BlendMode tile rst X0 Y n i st s).z X1 Y1 =
      (if Y1 = Y ∧ X0 + i ≤ X1 ∧ X1 < X0 + i + n then
        (apply_fragment P R BlendMode
          ((apply_pixel_next P R su IType tile rst)^[(X1 - X0 - i).toNat] st)
          (s.color X1 Y1) (s.z X1 Y1)).2
       else s.z X1 Y1) := by
  induction n with
  | zero =>
    intro i st s
    have : ¬ (Y1 = Y ∧ X0 + (i : Int) ≤ X1 ∧ X1 < X0 + i + (0 : Nat)) := by omega
    simp only [apply_pixels, if_neg this, and_self]
  | succ n ih =>
    intro i st s
    rw [apply_pixels]
    obtain ⟨ih1, ih2⟩ := ih (i + 1) (apply_pixel_next P R su IType tile rst st)
      (apply_pixel_write P R BlendMode st (X0 + (i : Int)) Y s)
    obtain ⟨w1, w2⟩ := apply_pixel_write_at P R BlendMode st (X0 + (i : Int)) Y s X1 Y1
    rw [ih1, ih2, w1, w2]
    by_cases hY : Y1 = Y
    · by_cases h0 : X1 = X0 + i
      · have c1 : ¬ (Y1 = Y ∧ X0 + ((i + 1 : Nat) : Int) ≤ X1 ∧ X1 < X0 + ((i + 1 : Nat) : Int) + n) := by
          omega
        have c2 : Y1 = Y ∧ X0 + (i : Int) ≤ X1 ∧ X1 < X0 + i + ((n + 1 : Nat) : Int) := by omega
        have c3 : X1 = X0 + (i : Int) ∧ Y1 = Y := ⟨h0, hY⟩
        have e0 : (X1 - X0 - (i : Int)).toNat = 0 := by omega
        rw [if_neg c1, if_neg c1, if_pos c2, if_pos c2, if_pos c3, if_pos c3, e0, h0, hY]
        exact ⟨rfl, rfl⟩
      · have c3 : ¬ (X1 = X0 + (i : Int) ∧ Y1 = Y) := by omega
        rw [if_neg c3, if_neg c3]
        by_cases h1 : X0 + (i : Int) ≤ X1 ∧ X1 < X0 + i + ((n + 1 : Nat) : Int)
        · have c1 : Y1 = Y ∧ X0 + ((i + 1 : Nat) : Int) ≤ X1 ∧ X1 < X0 + ((i + 1 : Nat) : Int) + n := by
            omega
          have c2 : Y1 = Y ∧ X0 + (i : Int) ≤ X1 ∧ X1 < X0 + i + ((n + 1 : Nat) : Int) := by omega
          have e0 : (X1 - X0 - (i : Int)).toNat = (X1 - X0 - ((i + 1 : Nat) : Int)).toNat + 1 := by
            omega
          rw [if_pos c1, if_pos c1, if_pos c2, if_pos c2, e0, Function.iterate_succ_apply]
          exact ⟨rfl, rfl⟩
        · have c1 : ¬ (Y1 = Y ∧ X0 + ((i + 1 : Nat) : Int) ≤ X1 ∧ X1 < X0 + ((i + 1 : Nat) : Int) + n) := by
            omega
          have c2 : ¬ (Y1 = Y ∧ X0 + (i : Int) ≤ X1 ∧ X1 < X0 + i + ((n + 1 : Nat) : Int)) := by
            omega
          rw [if_neg c1, if_neg c1, if_neg c2, if_neg c2]
          exact ⟨rfl, rfl⟩
    · have c1 : ¬ (Y1 = Y ∧ X0 + ((i + 1 : Nat) : Int) ≤ X1 ∧ X1 < X0 + ((i + 1 : Nat) : Int) + n) := by
        omega
      have c2 : ¬ (Y1 = Y ∧ X0 + (i : Int) ≤ X1 ∧ X1 < X0 + i + ((n + 1 : Nat) : Int)) := by
        omega
      have c3 : ¬ (X1 = X0 + (i : Int) ∧ Y1 = Y) := by omega
      rw [if_neg c1, if_neg c1, if_neg c2, if_neg c2, if_neg c3, if_neg c3]
      exact ⟨rfl, rfl⟩

theorem apply_pixel_iter_eq {F : Type} (P : Prims F) (R : TileRasterizer F) (su : ApplySetup)
    (IType : TInterpolationType) (tile : Tile F) (rst : ApplyRow F) (i : Nat) :
    (apply_pixel_next P R su IType tile rst)^[i] (apply_row_first su rst) =
      apply_pixel_iter P R su IType tile rst i := by
  induction i with
  | zero => rfl
  | succ i ih => rw [Function.iterate_succ_apply', ih]; rfl

theorem apply_row_state_eq {F : Type} (P : Prims F) (R : TileRasterizer F) (su : ApplySetup)
    (IType : TInterpolationType) (tile : Tile F) (j : Nat) :
    (apply_row_next R P su IType tile)^[j] (apply_row_init R su IType tile) =
      apply_row_state P R su IType tile j := by
  induction j with
  | zero => rfl
  | succ j ih => rw [Function.iterate_succ_apply', ih]; rfl

theorem apply_rows_at {F : Type} (P : Prims F) (R : TileRasterizer F) (su : ApplySetup)
    (IType : TInterpolationType) (BlendMode : TBlendMode) (tile : Tile F)
    (X1 Y1 : Int) (n : Nat) :
    ∀ (y : Nat) (rst : ApplyRow F) (s : Surfaces),
    (apply_rows P R su IType BlendMode tile n y rst s).color X1 Y1 =
      (if (tile.y * TILE_SIZE + y ≤ Y1 ∧ Y1 < tile.y * TILE_SIZE + y + n) ∧
          (tile.x * TILE_SIZE ≤ X1 ∧ X1 < tile.x * TILE_SIZE + 8) then
        (apply_fragment P R BlendMode
          (apply_pixel_iter P R su IType tile
            ((apply_row_next R P su IType tile)^[(Y1 - tile.y * TILE_SIZE - y).toNat] rst)
            (X1 - tile.x * TILE_SIZE).toNat)
          (s.color X1 Y1) (s.z X1 Y1)).1
       else s.color X1 Y1) ∧
    (apply_rows P R su IType BlendMode tile n y rst s).z X1 Y1 =
      (if (tile.y * TILE_SIZE + y ≤ Y1 ∧ Y1 < tile.y * TILE_SIZE + y + n) ∧
          (tile.x * TILE_SIZE ≤ X1 ∧ X1 < tile.x * TILE_SIZE + 8) then
        (apply_fragment P R BlendMode
          (apply_pixel_iter P R su IType tile
            ((apply_row_next R P su IType tile)^[(Y1 - tile.y * TILE_SIZE - y).toNat] rst)
            (X1 - tile.x * TILE_SIZE).toNat)
          (s.color X1 Y1) (s.z X1 Y1)).2
       else s.z X1 Y1) := by
  induction n with
  | zero =>
    intro y rst s
    have : ¬ ((tile.y * TILE_SIZE + (y : Int) ≤ Y1 ∧ Y1 < tile.y * TILE_SIZE + y + (0 : Nat)) ∧
        (tile.x * TILE_SIZE ≤ X1 ∧ X1 < tile.x * TILE_SIZE + 8)) := by omega
    simp only [apply_rows, if_neg this, and_self]
  | succ n ih =>
    intro y rst s
    rw [apply_rows]
    obtain ⟨ih1, ih2⟩ := ih (y + 1) (apply_row_next R P su IType tile rst)
      (apply_pixels P R su IType BlendMode tile rst (tile.x * TILE_SIZE)
        (tile.y * TILE_SIZE + (y : Int)) 8 0 (apply_row_first su rst) s)
    obtain ⟨w1, w2⟩ := apply_pixels_at P R su IType BlendMode tile rst (tile.x * TILE_SIZE)
      (tile.y * TILE_SIZE + (y : Int)) X1 Y1 8 0 (apply_row_first su rst) s
    rw [ih1, ih2, w1, w2]
    generalize tile.y * TILE_SIZE = Y0
    generalize tile.x * TILE_SIZE = X0
    by_cases hX : X0 ≤ X1 ∧ X1 < X0 + 8
    · by_cases h0 : Y1 = Y0 + y
      · have c1 : ¬ ((Y0 + ((y + 1 : Nat) : Int) ≤ Y1 ∧ Y1 < Y0 + ((y + 1 : Nat) : Int) + n) ∧
            (X0 ≤ X1 ∧ X1 < X0 + 8)) := by omega
        have c2 : (Y0 + (y : Int) ≤ Y1 ∧ Y1 < Y0 + y + ((n + 1 : Nat) : Int)) ∧
            (X0 ≤ X1 ∧ X1 < X0 + 8) := by omega
        have c3 : Y1 = Y0 + (y : Int) ∧ X0 + ((0 : Nat) : Int) ≤ X1 ∧
            X1 < X0 + ((0 : Nat) : Int) + ((8 : Nat) : Int) := by omega
        have e0 : (Y1 - Y0 - (y : Int)).toNat = 0 := by omega
        have e1 : (X1 - X0 - ((0 : Nat) : Int)).toNat = (X1 - X0).toNat := by
          congr 1; simp
        rw [if_neg c1, if_neg c1, if_pos c2, if_pos c2, if_pos c3, if_pos c3, e0, e1,
          apply_pixel_iter_eq]
        exact ⟨rfl, rfl⟩
      · have c3 : ¬ (Y1 = Y0 + (y : Int) ∧ X0 + ((0 : Nat) : Int) ≤ X1 ∧
            X1 < X0 + ((0 : Nat) : Int) + ((8 : Nat) : Int)) := by omega
        rw [if_neg c3, if_neg c3]
        by_cases h1 : Y0 + (y : Int) ≤ Y1 ∧ Y1 < Y0 + y + ((n + 1 : Nat) : Int)
        · have c1 : (Y0 + ((y + 1 : Nat) : Int) ≤ Y1 ∧ Y1 < Y0 + ((y + 1 : Nat) : Int) + n) ∧
              (X0 ≤ X1 ∧ X1 < X0 + 8) := by omega
          have c2 : (Y0 + (y : Int) ≤ Y1 ∧ Y1 < Y0 + y + ((n + 1 : Nat) : Int)) ∧
              (X0 ≤ X1 ∧ X1 < X0 + 8) := by omega
          have e0 : (Y1 - Y0 - (y : Int)).toNat = (Y1 - Y0 - ((y + 1 : Nat) : Int)).toNat + 1 := by
            omega
          rw [if_pos c1, if_pos c1, if_pos c2, if_pos c2, e0, Function.iterate_succ_apply]
          exact ⟨rfl, rfl⟩
        · have c1 : ¬ ((Y0 + ((y + 1 : Nat) : Int) ≤ Y1 ∧ Y1 < Y0 + ((y + 1 : Nat) : Int) + n) ∧
              (X0 ≤ X1 ∧ X1 < X0 + 8)) := by omega
          have c2 : ¬ ((Y0 + (y : Int) ≤ Y1 ∧ Y1 < Y0 + y + ((n + 1 : Nat) : Int)) ∧
              (X0 ≤ X1 ∧ X1 < X0 + 8)) := by omega
          rw [if_neg c1, if_neg c1, if_neg c2, if_neg c2]
          exact ⟨rfl, rfl⟩
    · have c1 : ¬ ((Y0 + ((y + 1 : Nat) : Int) ≤ Y1 ∧ Y1 < Y0 + ((y + 1 : Nat) : Int) + n) ∧
          (X0 ≤ X1 ∧ X1 < X0 + 8)) := by omega
      have c2 : ¬ ((Y0 + (y : Int) ≤ Y1 ∧ Y1 < Y0 + y + ((n + 1 : Nat) : Int)) ∧
          (X0 ≤ X1 ∧ X1 < X0 + 8)) := by omega
      have c3 : ¬ (Y1 = Y0 + (y : Int) ∧ X0 + ((0 : Nat) : Int) ≤ X1 ∧
          X1 < X0 + ((0 : Nat) : Int) + ((8 : Nat) : Int)) := by omega
      rw [if_neg c1, if_neg c1, if_neg c2, if_neg c2, if_neg c3, if_neg c3]
      exact ⟨rfl, rfl⟩

/-- The effect of `apply` on the pixel `(X, Y)`: a pixel of the tile receives
the fragment computed from the pixel state of its row and column, every other
pixel is unchanged. -/
theorem apply_at {F : Type} (P : Prims F) (R : TileRasterizer F)
    (IType : TInterpolationType) (BlendMode : TBlendMode) (tile : Tile F) (s : Surfaces)
    (X Y : Int) :
    (apply P R IType BlendMode tile s).color X Y =
      (if tile.contains X Y then
        (apply_fragment P R BlendMode
          (apply_pixel_state P R IType tile (Y - tile.y * TILE_SIZE).toNat
            (X - tile.x * TILE_SIZE).toNat) (s.color X Y) (s.z X Y)).1
       else s.color X Y) ∧
    (apply P R IType BlendMode tile s).z X Y =
      (if tile.contains X Y then
        (apply_fragment P R BlendMode
          (apply_pixel_state P R IType tile (Y - tile.y * TILE_SIZE).toNat
            (X - tile.x * TILE_SIZE).toNat) (s.color X Y) (s.z X Y)).2
       else s.z X Y) := by
  unfold apply apply_pixel_state
  simp only
  obtain ⟨h1, h2⟩ := apply_rows_at P R (apply_setup P R IType tile) IType BlendMode tile X Y 8 0
    (apply_row_init R (apply_setup P R IType tile) IType tile) s
  rw [h1, h2]
  have e : (Y - tile.y * TILE_SIZE - ((0 : Nat) : Int)).toNat = (Y - tile.y * TILE_SIZE).toNat := by
    congr 1; simp
  rw [e, apply_row_state_eq]
  have hc : ((tile.y * TILE_SIZE + ((0 : Nat) : Int) ≤ Y ∧
      Y < tile.y * TILE_SIZE + ((0 : Nat) : Int) + ((8 : Nat) : Int)) ∧
      (tile.x * TILE_SIZE ≤ X ∧ X < tile.x * TILE_SIZE + 8)) ↔ tile.contains X Y := by
    unfold Tile.contains TILE_SIZE
    constructor <;> intro h <;> omega
  simp only [hc, and_self]

theorem horizontal_or_false {m : Nat → Bool} (h : horizontal_or m = false) (i : Nat)
    (hi : i < 8) : m i = false := by
  unfold horizontal_or at h
  rw [List.any_eq_false] at h
  have := h i (List.mem_range.mpr hi)
  simpa using this

theorem exact_edges_state {F : Type} (P : Prims F) (R : TileRasterizer F) (tile : Tile F)
    (j : Nat) : (exact_row_state P R tile j).e = exact_edges tile j := by
  induction j with
  | zero => rfl
  | succ j ih => simp only [exact_row_state, exact_row_next, exact_edges, ih]

theorem exact_row_state_eq {F : Type} (P : Prims F) (R : TileRasterizer F) (tile : Tile F)
    (j : Nat) :
    (exact_row_next P R tile)^[j] (exact_row_init P R tile) = exact_row_state P R tile j := by
  induction j with
  | zero => rfl
  | succ j ih => rw [Function.iterate_succ_apply', ih]; rfl

theorem apply_exact_row_at {F : Type} (P : Prims F) (R : TileRasterizer F) (tile : Tile F)
    (y : Nat) (st : ExactRow F) (s : Surfaces) (X1 Y1 : Int) :
    ((apply_exact_row P R tile y st s).color X1 Y1,
      (apply_exact_row P R tile y st s).z X1 Y1) =
    (if Y1 = tile.y * TILE_SIZE + y ∧ tile.x * TILE_SIZE ≤ X1 ∧ X1 < tile.x * TILE_SIZE + 8 then
      exact_fragment P (st.e.mask (X1 - tile.x * TILE_SIZE).toNat)
        (exact_z_candidate P st (X1 - tile.x * TILE_SIZE).toNat)
        (R.t0.TextureAddr (exact_p_offset P R st (X1 - tile.x * TILE_SIZE).toNat))
        (s.color X1 Y1, s.z X1 Y1)
     else (s.color X1 Y1, s.z X1 Y1)) := by
  unfold apply_exact_row
  simp only
  by_cases hin : Y1 = tile.y * TILE_SIZE + y ∧ tile.x * TILE_SIZE ≤ X1 ∧
      X1 < tile.x * TILE_SIZE + 8
  · rw [if_pos hin]
    obtain ⟨rfl, hx1, hx2⟩ := hin
    have hi : (X1 - tile.x * TILE_SIZE).toNat < 8 := by omega
    have hX : tile.x * TILE_SIZE + ((X1 - tile.x * TILE_SIZE).toNat : Int) = X1 := by omega
    by_cases h1 : horizontal_or st.e.mask = true
    · rw [if_pos h1]
      by_cases h2 : horizontal_or (fun i => st.e.mask i &&
          decide (exact_z_candidate P st i > s.z (tile.x * TILE_SIZE + (i : Int))
            (tile.y * TILE_SIZE + (y : Int)))) = true
      · rw [if_pos h2]
        unfold exact_fragment Surfaces.maskStoreColor Surfaces.blendZ gather
        simp only [hX]
        by_cases hm : (st.e.mask (X1 - tile.x * TILE_SIZE).toNat &&
            decide (exact_z_candidate P st (X1 - tile.x * TILE_SIZE).toNat >
              s.z X1 (tile.y * TILE_SIZE + (y : Int)))) = true
        · simp [hm, hx1, hx2]
        · simp [hm]
      · rw [if_neg h2]
        have h2' := horizontal_or_false (Bool.eq_false_iff.mpr h2) _ hi
        simp only [hX] at h2'
        unfold exact_fragment
        simp only
        rw [if_neg (by rw [h2']; exact Bool.false_ne_true)]
    · rw [if_neg h1]
      have h1' := horizontal_or_false (Bool.eq_false_iff.mpr h1) _ hi
      unfold exact_fragment
      rw [h1', Bool.false_and, if_neg Bool.false_ne_true]
  · rw [if_neg hin]
    by_cases h1 : horizontal_or st.e.mask = true
    · rw [if_pos h1]
      by_cases h2 : horizontal_or (fun i => st.e.mask i &&
          decide (exact_z_candidate P st i > s.z (tile.x * TILE_SIZE + (i : Int))
            (tile.y * TILE_SIZE + (y : Int)))) = true
      · rw [if_pos h2]
        unfold Surfaces.maskStoreColor Surfaces.blendZ
        simp only
        have c : ∀ b : Bool, ¬ (Y1 = tile.y * TILE_SIZE + (y : Int) ∧ tile.x * TILE_SIZE ≤ X1 ∧
            X1 < tile.x * TILE_SIZE + 8 ∧ b = true) := fun b h => hin ⟨h.1, h.2.1, h.2.2.1⟩
        rw [if_neg (c _), if_neg (c _)]
      · rw [if_neg h2]
    · rw [if_neg h1]

theorem apply_exact_rows_at {F : Type} (P : Prims F) (R : TileRasterizer F) (tile : Tile F)
    (X1 Y1 : Int) (n : Nat) :
    ∀ (y : Nat) (st : ExactRow F) (s : Surfaces),
    ((apply_exact_rows P R tile n y st s).color X1 Y1,
      (apply_exact_rows P R tile n y st s).z X1 Y1) =
    (if (tile.y * TILE_SIZE + y ≤ Y1 ∧ Y1 < tile.y * TILE_SIZE + y + n) ∧
        (tile.x * TILE_SIZE ≤ X1 ∧ X1 < tile.x * TILE_SIZE + 8) then
      exact_fragment P
        (((exact_row_next P R tile)^[(Y1 - tile.y * TILE_SIZE - y).toNat] st).e.mask
          (X1 - tile.x * TILE_SIZE).toNat)
        (exact_z_candidate P ((exact_row_next P R tile)^[(Y1 - tile.y * TILE_SIZE - y).toNat] st)
          (X1 - tile.x * TILE_SIZE).toNat)
        (R.t0.TextureAddr (exact_p_offset P R
          ((exact_row_next P R tile)^[(Y1 - tile.y * TILE_SIZE - y).toNat] st)
          (X1 - tile.x * TILE_SIZE).toNat))
        (s.color X1 Y1, s.z X1 Y1)
     else (s.color X1 Y1, s.z X1 Y1)) := by
  induction n with
  | zero =>
    intro y st s
    have : ¬ ((tile.y * TILE_SIZE + (y : Int) ≤ Y1 ∧ Y1 < tile.y * TILE_SIZE + y + (0 : Nat)) ∧
        (tile.x * TILE_SIZE ≤ X1 ∧ X1 < tile.x * TILE_SIZE + 8)) := by omega
    simp only [apply_exact_rows, if_neg this]
  | succ n ih =>
    intro y st s
    rw [apply_exact_rows, ih (y + 1) (exact_row_next P R tile st) (apply_exact_row P R tile y st s),
      apply_exact_row_at P R tile y st s X1 Y1]
    generalize tile.y * TILE_SIZE = Y0
    generalize tile.x * TILE_SIZE = X0
    by_cases hX : X0 ≤ X1 ∧ X1 < X0 + 8
    · by_cases h0 : Y1 = Y0 + y
      · have c1 : ¬ ((Y0 + ((y + 1 : Nat) : Int) ≤ Y1 ∧ Y1 < Y0 + ((y + 1 : Nat) : Int) + n) ∧
            (X0 ≤ X1 ∧ X1 < X0 + 8)) := by omega
        have c2 : (Y0 + (y : Int) ≤ Y1 ∧ Y1 < Y0 + y + ((n + 1 : Nat) : Int)) ∧
            (X0 ≤ X1 ∧ X1 < X0 + 8) := by omega
        have c3 : Y1 = Y0 + (y : Int) ∧ X0 ≤ X1 ∧ X1 < X0 + 8 := by omega
        have e0 : (Y1 - Y0 - (y : Int)).toNat = 0 := by omega
        rw [if_neg c1, if_pos c2, if_pos c3, e0]
        rfl
      · have c3 : ¬ (Y1 = Y0 + (y : Int) ∧ X0 ≤ X1 ∧ X1 < X0 + 8) := by omega
        rw [if_neg c3]
        by_cases h1 : Y0 + (y : Int) ≤ Y1 ∧ Y1 < Y0 + y + ((n + 1 : Nat) : Int)
        · have c1 : (Y0 + ((y + 1 : Nat) : Int) ≤ Y1 ∧ Y1 < Y0 + ((y + 1 : Nat) : Int) + n) ∧
              (X0 ≤ X1 ∧ X1 < X0 + 8) := by omega
          have c2 : (Y0 + (y : Int) ≤ Y1 ∧ Y1 < Y0 + y + ((n + 1 : Nat) : Int)) ∧
              (X0 ≤ X1 ∧ X1 < X0 + 8) := by omega
          have e0 : (Y1 - Y0 - (y : Int)).toNat = (Y1 - Y0 - ((y + 1 : Nat) : Int)).toNat + 1 := by
            omega
          rw [if_pos c1, if_pos c2, e0, Function.iterate_succ_apply]
        · have c1 : ¬ ((Y0 + ((y + 1 : Nat) : Int) ≤ Y1 ∧ Y1 < Y0 + ((y + 1 : Nat) : Int) + n) ∧
              (X0 ≤ X1 ∧ X1 < X0 + 8)) := by omega
          have c2 : ¬ ((Y0 + (y : Int) ≤ Y1 ∧ Y1 < Y0 + y + ((n + 1 : Nat) : Int)) ∧
              (X0 ≤ X1 ∧ X1 < X0 + 8)) := by omega
          rw [if_neg c1, if_neg c2]
    · have c1 : ¬ ((Y0 + ((y + 1 : Nat) : Int) ≤ Y1 ∧ Y1 < Y0 + ((y + 1 : Nat) : Int) + n) ∧
          (X0 ≤ X1 ∧ X1 < X0 + 8)) := by omega
      have c2 : ¬ ((Y0 + (y : Int) ≤ Y1 ∧ Y1 < Y0 + y + ((n + 1 : Nat) : Int)) ∧
          (X0 ≤ X1 ∧ X1 < X0 + 8)) := by omega
      have c3 : ¬ (Y1 = Y0 + (y : Int) ∧ X0 ≤ X1 ∧ X1 < X0 + 8) := by omega
      rw [if_neg c1, if_neg c2, if_neg c3]

/-- The effect of `apply_exact` on the pixel `(X, Y)`: a pixel of the tile
receives the fragment of its lane, every other pixel is unchanged. -/
theorem apply_exact_at {F : Type} (P : Prims F) (R : TileRasterizer F) (BlendMode : TBlendMode)
    (tile : Tile F) (s : Surfaces) (X Y : Int) :
    ((apply_exact P R BlendMode tile s).color X Y, (apply_exact P R BlendMode tile s).z X Y) =
      (if tile.contains X Y then
        exact_fragment P (exact_lets_through tile X Y) (exact_candidate_at P R tile X Y)
          (exact_texel_at P R tile X Y) (s.color X Y, s.z X Y)
       else (s.color X Y, s.z X Y)) := by
  unfold apply_exact
  rw [apply_exact_rows_at P R tile X Y 8 0 (exact_row_init P R tile) s]
  have e : (Y - tile.y * TILE_SIZE - ((0 : Nat) : Int)).toNat = (Y - tile.y * TILE_SIZE).toNat := by
    congr 1; simp
  rw [e, exact_row_state_eq]
  have hc : ((tile.y * TILE_SIZE + ((0 : Nat) : Int) ≤ Y ∧
      Y < tile.y * TILE_SIZE + ((0 : Nat) : Int) + ((8 : Nat) : Int)) ∧
      (tile.x * TILE_SIZE ≤ X ∧ X < tile.x * TILE_SIZE + 8)) ↔ tile.contains X Y := by
    unfold Tile.contains TILE_SIZE
    constructor <;> intro h <;> omega
  by_cases hin : tile.contains X Y
  · rw [if_pos (hc.mpr hin), if_pos hin]
    unfold exact_lets_through exact_candidate_at exact_texel_at
    rw [decide_eq_true hin, Bool.true_and, exact_edges_state]
  · rw [if_neg (fun h => hin (hc.mp h)), if_neg hin]

theorem depth_write_order (w1 c1 w2 c2 color : Nat) (hne : w1 ≠ w2) :
    depth_write w2 c2 (depth_write w1 c1 (color, 0)) =
      (if w1 > w2 then (c1, w1) else (c2, w2)) ∧
    depth_write w1 c1 (depth_write w2 c2 (color, 0)) =
      (if w1 > w2 then (c1, w1) else (c2, w2)) := by
  unfold depth_write
  by_cases h : w1 > w2
  · have h1 : w1 > 0 := by omega
    have h2 : ¬ w2 > w1 := by omega
    rw [if_pos h]
    simp only
    rw [if_pos h1]
    simp only
    rw [if_neg h2]
    by_cases h3 : w2 > 0
    · rw [if_pos h3]; simp only; rw [if_pos h]; exact ⟨trivial, rfl⟩
    · rw [if_neg h3]; simp only; rw [if_pos h1]; exact ⟨trivial, rfl⟩
  · have h2 : w2 > w1 := by omega
    have h1 : w2 > 0 := by omega
    rw [if_neg h]
    simp only
    rw [if_pos h1]
    simp only
    rw [if_neg h]
    by_cases h3 : w1 > 0
    · rw [if_pos h3]; simp only; rw [if_pos h2]; exact ⟨rfl, trivial⟩
    · rw [if_neg h3]; simp only; rw [if_pos h1]; exact ⟨rfl, trivial⟩

theorem apply_exact_covered_at {F : Type} (P : Prims F) (R : TileRasterizer F)
    (BlendMode : TBlendMode) (tile : Tile F) (s : Surfaces) (X Y : Int)
    (hc : exact_lets_through tile X Y = true)
    (h16 : P.compress (exact_candidate_at P R tile X Y) = exact_candidate_at P R tile X Y) :
    ((apply_exact P R BlendMode tile s).color X Y, (apply_exact P R BlendMode tile s).z X Y) =
      depth_write (exact_candidate_at P R tile X Y) (exact_texel_at P R tile X Y)
        (s.color X Y, s.z X Y) := by
  rw [apply_exact_at, if_pos (exact_lets_through_contains tile X Y hc), hc]
  unfold exact_fragment depth_write
  rw [h16]
  simp only [Bool.true_and, decide_eq_true_eq]

theorem apply_covered_at {F : Type} (P : Prims F) (R : TileRasterizer F)
    (IType : TInterpolationType) (tile : Tile F) (s : Surfaces) (X Y : Int)
    (hc : apply_lets_through P R IType tile X Y = true) :
    ((apply P R IType TBlendMode.OVERWRITE tile s).color X Y,
      (apply P R IType TBlendMode.OVERWRITE tile s).z X Y) =
      depth_write (apply_wz_at P R IType tile X Y) (apply_output_at P R IType tile X Y)
        (s.color X Y, s.z X Y) := by
  have hin := apply_lets_through_contains P R IType tile X Y hc
  unfold apply_lets_through at hc
  simp only [Bool.and_eq_true] at hc
  rw [(apply_at P R IType TBlendMode.OVERWRITE tile s X Y).1,
    (apply_at P R IType TBlendMode.OVERWRITE tile s X Y).2, if_pos hin, if_pos hin]
  unfold apply_fragment depth_write apply_wz_at apply_output_at
  rw [if_pos hc.2]

/-- Claim C4, amended: Z-correctness.  A pixel `(X, Y)` whose Z value is 0
(empty Z buffer) is covered by two fragments, from the tiles `t1` and `t2`.
Exact kernel: when the two depth candidates `0xFF80 - roundi(g_zscale * p_z)`
differ and fit the 16-bit Z surface (they are below `2 ^ 16`, and narrowing keeps
such values), the pixel holds after both calls of `apply_exact` the texel and
the candidate of the fragment with the larger candidate, in either draw order.
Approximate kernel (`TBlendMode::OVERWRITE`): when the two 16-bit depth values
`wz` differ, the pixel holds after both calls of `apply` the colour and the
depth value of the fragment with the larger `wz`, in either draw order. -/
theorem z_correct {F : Type} (P : Prims F) (X Y : Int) (s : Surfaces) (hz : s.z X Y = 0) :
    (∀ (R1 R2 : TileRasterizer F) (B1 B2 : TBlendMode) (t1 t2 : Tile F),
      exact_lets_through t1 X Y = true → exact_lets_through t2 X Y = true →
      exact_candidate_at P R1 t1 X Y ≠ exact_candidate_at P R2 t2 X Y →
      exact_candidate_at P R1 t1 X Y < 2 ^ 16 → exact_candidate_at P R2 t2 X Y < 2 ^ 16 →
      (∀ z, z < 2 ^ 16 → P.compress z = z) →
      ((apply_exact P R2 B2 t2 (apply_exact P R1 B1 t1 s)).color X Y,
        (apply_exact P R2 B2 t2 (apply_exact P R1 B1 t1 s)).z X Y) =
        (if exact_candidate_at P R1 t1 X Y > exact_candidate_at P R2 t2 X Y then
          (exact_texel_at P R1 t1 X Y, exact_candidate_at P R1 t1 X Y)
         else (exact_texel_at P R2 t2 X Y, exact_candidate_at P R2 t2 X Y)) ∧
      ((apply_exact P R1 B1 t1 (apply_exact P R2 B2 t2 s)).color X Y,
        (apply_exact P R1 B1 t1 (apply_exact P R2 B2 t2 s)).z X Y) =
        (if exact_candidate_at P R1 t1 X Y > exact_candidate_at P R2 t2 X Y then
          (exact_texel_at P R1 t1 X Y, exact_candidate_at P R1 t1 X Y)
         else (exact_texel_at P R2 t2 X Y, exact_candidate_at P R2 t2 X Y))) ∧
    (∀ (R1 R2 : TileRasterizer F) (I1 I2 : TInterpolationType) (t1 t2 : Tile F),
      apply_lets_through P R1 I1 t1 X Y = true → apply_lets_through P R2 I2 t2 X Y = true →
      apply_wz_at P R1 I1 t1 X Y ≠ apply_wz_at P R2 I2 t2 X Y →
      ((apply P R2 I2 TBlendMode.OVERWRITE t2 (apply P R1 I1 TBlendMode.OVERWRITE t1 s)).color X Y,
        (apply P R2 I2 TBlendMode.OVERWRITE t2 (apply P R1 I1 TBlendMode.OVERWRITE t1 s)).z X Y) =
        (if apply_wz_at P R1 I1 t1 X Y > apply_wz_at P R2 I2 t2 X Y then
          (apply_output_at P R1 I1 t1 X Y, apply_wz_at P R1 I1 t1 X Y)
         else (apply_output_at P R2 I2 t2 X Y, apply_wz_at P R2 I2 t2 X Y)) ∧
      ((apply P R1 I1 TBlendMode.OVERWRITE t1 (apply P R2 I2 TBlendMode.OVERWRITE t2 s)).color X Y,
        (apply P R1 I1 TBlendMode.OVERWRITE t1 (apply P R2 I2 TBlendMode.OVERWRITE t2 s)).z X Y) =
        (if apply_wz_at P R1 I1 t1 X Y > apply_wz_at P R2 I2 t2 X Y then
          (apply_output_at P R1 I1 t1 X Y, apply_wz_at P R1 I1 t1 X Y)
         else (apply_output_at P R2 I2 t2 X Y, apply_wz_at P R2 I2 t2 X Y))) := by
  constructor
  · intro R1 R2 B1 B2 t1 t2 h1 h2 hne h16a h16b hcomp
    have o := depth_write_order (exact_candidate_at P R1 t1 X Y) (exact_texel_at P R1 t1 X Y)
      (exact_candidate_at P R2 t2 X Y) (exact_texel_at P R2 t2 X Y) (s.color X Y) hne
    rw [apply_exact_covered_at P R2 B2 t2 _ X Y h2 (hcomp _ h16b),
      apply_exact_covered_at P R1 B1 t1 s X Y h1 (hcomp _ h16a),
      apply_exact_covered_at P R1 B1 t1 _ X Y h1 (hcomp _ h16a),
      apply_exact_covered_at P R2 B2 t2 s X Y h2 (hcomp _ h16b), hz]
    exact o
  · intro R1 R2 I1 I2 t1 t2 h1 h2 hne
    have o := depth_write_order (apply_wz_at P R1 I1 t1 X Y) (apply_output_at P R1 I1 t1 X Y)
      (apply_wz_at P R2 I2 t2 X Y) (apply_output_at P R2 I2 t2 X Y) (s.color X Y) hne
    rw [apply_covered_at P R2 I2 t2 _ X Y h2, apply_covered_at P R1 I1 t1 s X Y h1,
      apply_covered_at P R1 I1 t1 _ X Y h1, apply_covered_at P R2 I2 t2 s X Y h2, hz]
    exact o

/-- Claim C4, instance: on empty surfaces, the pixel `(0, 0)` and the tiles with
reciprocal depth 32 (texel `0x111111`) and 64 (texel `0x222222`).  The exact
depth candidates are 32640 and 49024, the approximate depth values 65376 and
65392; in both kernels and both draw orders the pixel ends with the fragment
of the second tile. -/
theorem z_correct_witness :
    emptySurfaces.z 0 0 = 0 ∧
    exact_candidate_at fixedPrims (fixedRasterizer 0x111111) (fixedTile 32) 0 0 = 32640 ∧
    exact_candidate_at fixedPrims (fixedRasterizer 0x222222) (fixedTile 64) 0 0 = 49024 ∧
    (((apply_exact fixedPrims (fixedRasterizer 0x222222) TBlendMode.OVERWRITE (fixedTile 64)
        (apply_exact fixedPrims (fixedRasterizer 0x111111) TBlendMode.OVERWRITE (fixedTile 32)
          emptySurfaces)).color 0 0,
      (apply_exact fixedPrims (fixedRasterizer 0x222222) TBlendMode.OVERWRITE (fixedTile 64)
        (apply_exact fixedPrims (fixedRasterizer 0x111111) TBlendMode.OVERWRITE (fixedTile 32)
          emptySurfaces)).z 0 0) = (0x222222, 49024) ∧
     ((apply_exact fixedPrims (fixedRasterizer 0x111111) TBlendMode.OVERWRITE (fixedTile 32)
        (apply_exact fixedPrims (fixedRasterizer 0x222222) TBlendMode.OVERWRITE (fixedTile 64)
          emptySurfaces)).color 0 0,
      (apply_exact fixedPrims (fixedRasterizer 0x111111) TBlendMode.OVERWRITE (fixedTile 32)
        (apply_exact fixedPrims (fixedRasterizer 0x222222) TBlendMode.OVERWRITE (fixedTile 64)
          emptySurfaces)).z 0 0) = (0x222222, 49024)) ∧
    apply_wz_at fixedPrims (fixedRasterizer 0x111111) TInterpolationType.AFFINE
      (fixedTile 32) 0 0 = 65376 ∧
    apply_wz_at fixedPrims (fixedRasterizer 0x222222) TInterpolationType.AFFINE
      (fixedTile 64) 0 0 = 65392 ∧
    (((apply fixedPrims (fixedRasterizer 0x222222) TInterpolationType.AFFINE TBlendMode.OVERWRITE
        (fixedTile 64)
        (apply fixedPrims (fixedRasterizer 0x111111) TInterpolationType.AFFINE
          TBlendMode.OVERWRITE (fixedTile 32) emptySurfaces)).color 0 0,
      (apply fixedPrims (fixedRasterizer 0x222222) TInterpolationType.AFFINE TBlendMode.OVERWRITE
        (fixedTile 64)
        (apply fixedPrims (fixedRasterizer 0x111111) TInterpolationType.AFFINE
          TBlendMode.OVERWRITE (fixedTile 32) emptySurfaces)).z 0 0) = (0x212121, 65392) ∧
     ((apply fixedPrims (fixedRasterizer 0x111111) TInterpolationType.AFFINE TBlendMode.OVERWRITE
        (fixedTile 32)
        (apply fixedPrims (fixedRasterizer 0x222222) TInterpolationType.AFFINE
          TBlendMode.OVERWRITE (fixedTile 64) emptySurfaces)).color 0 0,
      (apply fixedPrims (fixedRasterizer 0x111111) TInterpolationType.AFFINE TBlendMode.OVERWRITE
        (fixedTile 32)
        (apply fixedPrims (fixedRasterizer 0x222222) TInterpolationType.AFFINE
          TBlendMode.OVERWRITE (fixedTile 64) emptySurfaces)).z 0 0) = (0x212121, 65392)) := by
  have h := z_correct fixedPrims 0 0 emptySurfaces rfl
  have e := h.1 (fixedRasterizer 0x111111) (fixedRasterizer 0x222222) TBlendMode.OVERWRITE
    TBlendMode.OVERWRITE (fixedTile 32) (fixedTile 64) (by decide) (by decide) (by decide)
    (by decide) (by decide) (fun z hz => Nat.mod_eq_of_lt hz)
  have a := h.2 (fixedRasterizer 0x111111) (fixedRasterizer 0x222222) TInterpolationType.AFFINE
    TInterpolationType.AFFINE (fixedTile 32) (fixedTile 64) (by decide) (by decide) (by decide)
  refine ⟨rfl, by decide, by decide, ⟨e.1.trans (by decide), e.2.trans (by decide)⟩,
    by decide, by decide, ⟨a.1.trans (by decide), a.2.trans (by decide)⟩⟩

/-- Claim C4, counterexample: two far fragments at the pixel `(0, 0)` of an
empty Z buffer, with reciprocal depth 1 (texel `0x111111`) and 2 (texel
`0x222222`).  The values `roundi(g_zscale * p_z)` are `2 ^ 20` and `2 ^ 19`,
above `0xFF80`, so the 32-bit candidates wrap to `0xFFF0FF80` and `0xFFF8FF80`:
they differ, both exceed every stored 16-bit Z value, and the fragment drawn
last wins.  Drawn second, the fragment with the smaller candidate holds the
pixel. -/
theorem z_order_counterexample :
    exact_lets_through (fixedTile 1) 0 0 = true ∧ exact_lets_through (fixedTile 2) 0 0 = true ∧
    exact_candidate_at fixedPrims (fixedRasterizer 0x111111) (fixedTile 1) 0 0 = 0xFFF0FF80 ∧
    exact_candidate_at fixedPrims (fixedRasterizer 0x222222) (fixedTile 2) 0 0 = 0xFFF8FF80 ∧
    (apply_exact fixedPrims (fixedRasterizer 0x111111) TBlendMode.OVERWRITE (fixedTile 1)
      (apply_exact fixedPrims (fixedRasterizer 0x222222) TBlendMode.OVERWRITE (fixedTile 2)
        emptySurfaces)).color 0 0 = 0x111111 ∧
    (apply_exact fixedPrims (fixedRasterizer 0x222222) TBlendMode.OVERWRITE (fixedTile 2)
      (apply_exact fixedPrims (fixedRasterizer 0x111111) TBlendMode.OVERWRITE (fixedTile 1)
        emptySurfaces)).color 0 0 = 0x222222 := by
  have h1 := apply_exact_at fixedPrims (fixedRasterizer 0x111111) TBlendMode.OVERWRITE
    (fixedTile 1) (apply_exact fixedPrims (fixedRasterizer 0x222222) TBlendMode.OVERWRITE
      (fixedTile 2) emptySurfaces) 0 0
  have h2 := apply_exact_at fixedPrims (fixedRasterizer 0x222222) TBlendMode.OVERWRITE
    (fixedTile 2) emptySurfaces 0 0
  have h3 := apply_exact_at fixedPrims (fixedRasterizer 0x222222) TBlendMode.OVERWRITE
    (fixedTile 2) (apply_exact fixedPrims (fixedRasterizer 0x111111) TBlendMode.OVERWRITE
      (fixedTile 1) emptySurfaces) 0 0
  have h4 := apply_exact_at fixedPrims (fixedRasterizer 0x111111) TBlendMode.OVERWRITE
    (fixedTile 1) emptySurfaces 0 0
  have c1 : (fixedTile 1).contains 0 0 := by decide
  have c2 : (fixedTile 2).contains 0 0 := by decide
  have e1 : exact_lets_through (fixedTile 1) 0 0 = true := by decide
  have e2 : exact_lets_through (fixedTile 2) 0 0 = true := by decide
  have k1 : exact_candidate_at fixedPrims (fixedRasterizer 0x111111) (fixedTile 1) 0 0 =
      0xFFF0FF80 := by decide
  have k2 : exact_candidate_at fixedPrims (fixedRasterizer 0x222222) (fixedTile 2) 0 0 =
      0xFFF8FF80 := by decide
  have t1 : exact_texel_at fixedPrims (fixedRasterizer 0x111111) (fixedTile 1) 0 0 =
      0x111111 := rfl
  have t2 : exact_texel_at fixedPrims (fixedRasterizer 0x222222) (fixedTile 2) 0 0 =
      0x222222 := rfl
  rw [h2, if_pos c1, if_pos c2, e1, e2, k1, k2, t1, t2] at h1
  rw [h4, if_pos c1, if_pos c2, e1, e2, k1, k2, t1, t2] at h3
  have f1 : exact_fragment fixedPrims true 4293984128 1118481
      (emptySurfaces.color 0 0, emptySurfaces.z 0 0) = (1118481, 65408) := by decide
  have f2 : exact_fragment fixedPrims true 4294508416 2236962
      (emptySurfaces.color 0 0, emptySurfaces.z 0 0) = (2236962, 65408) := by decide
  have g1 : exact_fragment fixedPrims true 4293984128 1118481 (2236962, 65408) =
      (1118481, 65408) := by decide
  have g2 : exact_fragment fixedPrims true 4294508416 2236962 (1118481, 65408) =
      (2236962, 65408) := by decide
  rw [f2, g1] at h1
  rw [f1, g2] at h3
  exact ⟨e1, e2, k1, k2, (Prod.mk.inj h1).1, (Prod.mk.inj h3).1⟩

theorem and_split (k a b c d : Nat) (ha : a < 2 ^ k) (hc : c < 2 ^ k) :
    (2 ^ k * b + a) &&& (2 ^ k * d + c) = 2 ^ k * (b &&& d) + (a &&& c) := by
  have hac : a &&& c < 2 ^ k := lt_of_le_of_lt Nat.and_le_left ha
  apply Nat.eq_of_testBit_eq
  intro i
  rw [Nat.testBit_and, Nat.testBit_mul_pow_two_add _ ha, Nat.testBit_mul_pow_two_add _ hc,
    Nat.testBit_mul_pow_two_add _ hac]
  by_cases h : i < k <;> simp [h, Nat.testBit_and]

theorem or_split (k a b c d : Nat) (ha : a < 2 ^ k) (hc : c < 2 ^ k) :
    (2 ^ k * b + a) ||| (2 ^ k * d + c) = 2 ^ k * (b ||| d) + (a ||| c) := by
  have hac : a ||| c < 2 ^ k := Nat.or_lt_two_pow ha hc
  apply Nat.eq_of_testBit_eq
  intro i
  rw [Nat.testBit_or, Nat.testBit_mul_pow_two_add _ ha, Nat.testBit_mul_pow_two_add _ hc,
    Nat.testBit_mul_pow_two_add _ hac]
  by_cases h : i < k <;> simp [h, Nat.testBit_or]

theorem testBit_field (x j w t i : Nat) :
    (2 ^ t * ((x / 2 ^ j) % 2 ^ w)).testBit i =
      (decide (t ≤ i) && (decide (i - t < w) && x.testBit (j + (i - t)))) := by
  rw [Nat.testBit_mul_pow_two, Nat.testBit_mod_two_pow, ← Nat.shiftRight_eq_div_pow,
    Nat.testBit_shiftRight]

theorem testBit_mask (w t i : Nat) :
    (2 ^ t * (2 ^ w - 1)).testBit i = (decide (t ≤ i) && decide (i - t < w)) := by
  rw [Nat.testBit_mul_pow_two, Nat.testBit_two_pow_sub_one]

theorem mask_shift_u32 (k t : Nat) :
    u32 ((2 ^ k - 1) <<< t) = 2 ^ t * (2 ^ (min k (32 - t)) - 1) := by
  apply Nat.eq_of_testBit_eq
  intro i
  unfold u32
  rw [testBit_mask, Nat.testBit_mod_two_pow, Nat.testBit_shiftLeft, Nat.testBit_two_pow_sub_one]
  by_cases h1 : i < 32 <;> by_cases h2 : t ≤ i <;> by_cases h3 : i - t < k <;>
    simp [h1, h2, h3] <;> omega

theorem and_shift_mask (x s t w : Nat) (hst : s ≤ t) (htw : t + w ≤ 32 ∨ w = 0) :
    u32 (x <<< s) &&& (2 ^ t * (2 ^ w - 1)) = 2 ^ t * ((x / 2 ^ (t - s)) % 2 ^ w) := by
  apply Nat.eq_of_testBit_eq
  intro i
  unfold u32
  rw [Nat.testBit_and, testBit_mask, testBit_field, Nat.testBit_mod_two_pow,
    Nat.testBit_shiftLeft]
  by_cases h1 : i < 32 <;> by_cases h2 : t ≤ i <;> by_cases h3 : i - t < w <;>
    simp [h1, h2, h3]
  · have e1 : t - s + (i - t) = i - s := by omega
    have e2 : s ≤ i := by omega
    rw [e1]
    simp [e2]
  · omega

theorem pow_sub_one_shiftRight (k j : Nat) : (2 ^ k - 1) >>> j = 2 ^ (k - j) - 1 := by
  apply Nat.eq_of_testBit_eq
  intro i
  rw [Nat.testBit_shiftRight, Nat.testBit_two_pow_sub_one, Nat.testBit_two_pow_sub_one]
  by_cases h : i < k - j <;> simp [h] <;> omega

theorem u32_pow_sub_one (k : Nat) : u32 (2 ^ k - 1) = 2 ^ (min k 32) - 1 := by
  apply Nat.eq_of_testBit_eq
  intro i
  unfold u32
  rw [Nat.testBit_mod_two_pow, Nat.testBit_two_pow_sub_one, Nat.testBit_two_pow_sub_one]
  by_cases h1 : i < 32 <;> by_cases h2 : i < k <;> simp [h1, h2]

theorem int_bits_shift (x : Nat) : u32 ((x &&& 0x1800) <<< 1) = 2 ^ 12 * ((x / 2 ^ 11) % 2 ^ 2) := by
  have e : (0x1800 : Nat) = 2 ^ 11 * (2 ^ 2 - 1) := by norm_num
  apply Nat.eq_of_testBit_eq
  intro i
  unfold u32
  rw [e, testBit_field, Nat.testBit_mod_two_pow, Nat.testBit_shiftLeft, Nat.testBit_and,
    testBit_mask]
  by_cases h : 12 ≤ i ∧ i - 12 < 2
  · have e0 : i < 32 := by omega
    have e1 : 11 + (i - 12) = i - 1 := by omega
    have e2 : 1 ≤ i := by omega
    have e3 : 11 ≤ i - 1 := by omega
    have e4 : i - 1 - 11 < 2 := by omega
    rw [e1]
    simp [h.1, h.2, e0, e2, e3, e4]
  · have e5 : (decide (12 ≤ i) && (decide (i - 12 < 2) && x.testBit (11 + (i - 12)))) = false := by
      by_cases h2 : 12 ≤ i
      · have h3 : ¬ i - 12 < 2 := fun h3 => h ⟨h2, h3⟩
        simp [h3]
      · simp [h2]
    have e6 : (decide (11 ≤ i - 1) && decide (i - 1 - 11 < 2)) = false := by
      by_cases h2 : 11 ≤ i - 1
      · have h3 : ¬ i - 1 - 11 < 2 := by omega
        simp [h3]
      · simp [h2]
    rw [e5, e6]
    simp

theorem tile_u_mask_hi (vbits logW : Nat) :
    u32 (((2 ^ logW - 1) >>> 2) <<< (14 + vbits)) =
      2 ^ (14 + vbits) * (2 ^ u_top_width vbits logW - 1) := by
  have e : 32 - (14 + vbits) = 18 - vbits := by omega
  rw [pow_sub_one_shiftRight, mask_shift_u32, e]
  rfl

theorem tile_u_eq (x vbits logW : Nat) :
    tile_u x vbits (2 ^ logW - 1) =
      2 ^ (14 + vbits) * ((x / 2 ^ 13) % 2 ^ u_top_width vbits logW) +
        (2 ^ 12 * ((x / 2 ^ 11) % 4) + x % 2 ^ 11) := by
  unfold tile_u
  have e1 : (0x7ff : Nat) = 2 ^ 11 - 1 := by norm_num
  have e2 : 14 + vbits - (1 + vbits) = 13 := by omega
  have hw : 14 + vbits + u_top_width vbits logW ≤ 32 ∨ u_top_width vbits logW = 0 := by
    unfold u_top_width
    omega
  have h3 := and_shift_mask x (1 + vbits) (14 + vbits) (u_top_width vbits logW) (by omega) hw
  rw [e2] at h3
  rw [tile_u_mask_hi, h3, int_bits_shift, e1, Nat.and_pow_two_sub_one_eq_mod]
  have ha : x % 2 ^ 11 < 2 ^ 12 := lt_of_lt_of_le (Nat.mod_lt _ (by norm_num)) (by norm_num)
  have hb : 2 ^ 12 * ((x / 2 ^ 11) % 2 ^ 2) + x % 2 ^ 11 < 2 ^ (14 + vbits) := by
    have h1 : x % 2 ^ 11 < 2 ^ 11 := Nat.mod_lt _ (by norm_num)
    have h2 : (x / 2 ^ 11) % 2 ^ 2 < 2 ^ 2 := Nat.mod_lt _ (by norm_num)
    have h4 : 2 ^ 14 ≤ 2 ^ (14 + vbits) := Nat.pow_le_pow_right (by norm_num) (by omega)
    omega
  rw [Nat.or_comm (x % 2 ^ 11), ← Nat.mul_add_lt_is_or ha, Nat.or_comm,
    ← Nat.mul_add_lt_is_or hb]
  norm_num

theorem tile_umask_eq (vbits logW : Nat) :
    tile_umask vbits (2 ^ logW - 1) =
      2 ^ (14 + vbits) * (2 ^ u_top_width vbits logW - 1) + 0x37ff := by
  unfold tile_umask
  have hb : 0x37ff < 2 ^ (14 + vbits) := by
    have h4 : 2 ^ 14 ≤ 2 ^ (14 + vbits) := Nat.pow_le_pow_right (by norm_num) (by omega)
    omega
  rw [tile_u_mask_hi, Nat.or_comm, ← Nat.mul_add_lt_is_or hb]

theorem tile_v_mask_hi (logH : Nat) :
    u32 ((2 ^ logH - 1) <<< 14) = 2 ^ 14 * (2 ^ v_top_width logH - 1) := by
  rw [mask_shift_u32]
  rfl

theorem tile_v_eq (x logH : Nat) :
    tile_v x (2 ^ logH - 1) = 2 ^ 14 * ((x / 2 ^ 11) % 2 ^ v_top_width logH) + x % 2 ^ 11 := by
  unfold tile_v
  have e1 : (0x7ff : Nat) = 2 ^ 11 - 1 := by norm_num
  have hw : 14 + v_top_width logH ≤ 32 ∨ v_top_width logH = 0 := by
    unfold v_top_width
    omega
  have h3 := and_shift_mask x 3 14 (v_top_width logH) (by omega) hw
  have ha : x % 2 ^ 11 < 2 ^ 14 := lt_of_lt_of_le (Nat.mod_lt _ (by norm_num)) (by norm_num)
  rw [tile_v_mask_hi, h3, e1, Nat.and_pow_two_sub_one_eq_mod, Nat.or_comm,
    ← Nat.mul_add_lt_is_or ha]

theorem tile_vmask_eq (logH : Nat) :
    tile_vmask (2 ^ logH - 1) = 2 ^ 14 * (2 ^ v_top_width logH - 1) + 0x7ff := by
  unfold tile_vmask
  rw [tile_v_mask_hi, Nat.or_comm, ← Nat.mul_add_lt_is_or (by norm_num)]

theorem pow_split (logW : Nat) (h : 2 ≤ logW) : 2 ^ logW = 2 ^ (logW - 2) * 4 := by
  have e : logW = (logW - 2) + 2 := by omega
  conv_lhs => rw [e, pow_add]
  norm_num

theorem div_four_lt (logW ui : Nat) (hu : ui < 2 ^ logW) : ui / 4 < 2 ^ (logW - 2) := by
  by_cases h : 2 ≤ logW
  · have e := pow_split logW h
    omega
  · have h1 : logW = 0 ∨ logW = 1 := by omega
    rcases h1 with h1 | h1 <;> subst h1 <;> simp at hu ⊢ <;> omega

theorem tiled_index (logW logH ui vi fu fv : Nat) (hWH : logW + logH ≤ 20) (hH : logH ≤ 18)
    (hu : ui < 2 ^ logW) (hv : vi < 2 ^ logH) (hfu : fu < 2 ^ 11) (hfv : fv < 2 ^ 11) :
    tiled_offset (tile_u (ui * 2 ^ 11 + fu) logH (2 ^ logW - 1))
        (tile_v (vi * 2 ^ 11 + fv) (2 ^ logH - 1)) =
      ui % 4 + 4 * vi + 4 * 2 ^ logH * (ui / 4) := by
  have hq := div_four_lt logW ui hu
  have ew : u_top_width logH logW = logW - 2 := by
    unfold u_top_width
    omega
  have ev : v_top_width logH = logH := by
    unfold v_top_width
    omega
  have hpow : 2 ^ logH * 2 ^ (logW - 2) ≤ 2 ^ 18 := by
    rw [← pow_add]
    exact Nat.pow_le_pow_right (by norm_num) (by omega)
  have hHq : 2 ^ logH * (ui / 4) + 2 ^ logH ≤ 2 ^ 18 := by
    have : 2 ^ logH * (ui / 4 + 1) ≤ 2 ^ logH * 2 ^ (logW - 2) := Nat.mul_le_mul_left _ hq
    rw [Nat.mul_add, Nat.mul_one] at this
    omega
  have e1 : (ui * 2 ^ 11 + fu) / 2 ^ 13 = ui / 4 := by omega
  have e2 : (ui * 2 ^ 11 + fu) / 2 ^ 11 = ui := by omega
  have e3 : (ui * 2 ^ 11 + fu) % 2 ^ 11 = fu := by omega
  have e4 : (vi * 2 ^ 11 + fv) / 2 ^ 11 = vi := by omega
  have e5 : (vi * 2 ^ 11 + fv) % 2 ^ 11 = fv := by omega
  rw [tile_u_eq, tile_v_eq, ew, ev, e1, e2, e3, e4, e5, Nat.mod_eq_of_lt hq, Nat.mod_eq_of_lt hv]
  unfold tiled_offset u32
  rw [Nat.shiftRight_eq_div_pow, pow_add, Nat.mul_assoc (2 ^ 14), Nat.mul_assoc 4]
  generalize 2 ^ logH * (ui / 4) = Hq at hHq ⊢
  generalize 2 ^ logH = H at hHq hv
  omega

/-- Claim C5, amended: the V1 swizzle of a texel.  For a power-of-two texture
with `logW ≤ 11`, `logH ≤ 11` and `logW + logH ≤ 20` (so that the swizzled U
coordinate fits 32 bits) and every texel `(ui, vi)` of it, given as fixed-point
values with 11 fractional bits `fu`, `fv`, the index
`(tile_u(u, logH, W-1) + tile_v(v, H-1)) >> 12` is the block-tiled index
`(ui mod 4) + 4 vi + 4 H (ui div 4)`: columns are grouped in blocks of four.  It
is the linear index `vi W + ui` when `W = 4`. -/
theorem swizzle_v1_index (logW logH ui vi fu fv : Nat) (hW : logW ≤ 11) (hH : logH ≤ 11)
    (hWH : logW + logH ≤ 20) (hu : ui < 2 ^ logW) (hv : vi < 2 ^ logH) (hfu : fu < 2 ^ 11)
    (hfv : fv < 2 ^ 11) :
    tiled_offset (tile_u (ui * 2 ^ 11 + fu) logH (2 ^ logW - 1))
        (tile_v (vi * 2 ^ 11 + fv) (2 ^ logH - 1)) =
      ui % 4 + 4 * vi + 4 * 2 ^ logH * (ui / 4) ∧
    (logW = 2 →
      tiled_offset (tile_u (ui * 2 ^ 11 + fu) logH (2 ^ logW - 1))
        (tile_v (vi * 2 ^ 11 + fv) (2 ^ logH - 1)) = vi * 2 ^ logW + ui) := by
  have h := tiled_index logW logH ui vi fu fv hWH (by omega) hu hv hfu hfv
  refine ⟨h, fun h2 => ?_⟩
  subst h2
  have h4 : ui < 4 := hu
  have h5 : ui / 4 = 0 := by omega
  rw [h, h5]
  omega

/-- Claim C5, instance: the 4x8 texture, texel `(3, 5)` with fractions 100 and
7: the index is `3 + 4 * 5 = 23`, which is also the linear index. -/
theorem swizzle_v1_index_witness :
    tiled_offset (tile_u (3 * 2 ^ 11 + 100) 3 (2 ^ 2 - 1)) (tile_v (5 * 2 ^ 11 + 7) (2 ^ 3 - 1)) =
      3 % 4 + 4 * 5 + 4 * 2 ^ 3 * (3 / 4) ∧
    ((2 : Nat) = 2 →
      tiled_offset (tile_u (3 * 2 ^ 11 + 100) 3 (2 ^ 2 - 1))
        (tile_v (5 * 2 ^ 11 + 7) (2 ^ 3 - 1)) = 5 * 2 ^ 2 + 3) :=
  swizzle_v1_index 2 3 3 5 100 7 (by decide) (by decide) (by decide) (by decide) (by decide)
    (by decide) (by decide)

/-- Claim C5, counterexample: in the 8x8 texture (`logW = logH = 3`) the texel
`(4, 0)` has the index 32, not the linear index `0 * 8 + 4 = 4`; and in the
2048x2048 texture (`logW = logH = 11`) the swizzled U coordinate does not fit
32 bits: the texels `(512, 0)` and `(0, 0)` both have the index 0. -/
theorem swizzle_v1_counterexample :
    (4 < 2 ^ 3 ∧ 0 < 2 ^ 3 ∧
      tiled_offset (tile_u (4 * 2 ^ 11) 3 (2 ^ 3 - 1)) (tile_v (0 * 2 ^ 11) (2 ^ 3 - 1)) = 32 ∧
      0 * 2 ^ 3 + 4 ≠ 32) ∧
    (512 < 2 ^ 11 ∧
      tiled_offset (tile_u (512 * 2 ^ 11) 11 (2 ^ 11 - 1)) (tile_v (0 * 2 ^ 11) (2 ^ 11 - 1)) = 0 ∧
      0 * 2 ^ 11 + 512 ≠ 0) := by
  decide

theorem swizzle_umask_eq (vbits logW : Nat) :
    swizzle_umask vbits (2 ^ logW - 1) =
      2 ^ (2 + vbits) * (2 ^ (min (logW - 2) (30 - vbits)) - 1) := by
  unfold swizzle_umask
  have e : 32 - (2 + vbits) = 30 - vbits := by omega
  rw [pow_sub_one_shiftRight, mask_shift_u32, e]

theorem packed_tile_u_eq (u vbits logW : Nat) :
    packed_tile_u u vbits (swizzle_umask vbits (2 ^ logW - 1)) =
      2 ^ (2 + vbits) * ((u / 4) % 2 ^ (min (logW - 2) (30 - vbits))) + u % 4 := by
  unfold packed_tile_u
  have e1 : (3 : Nat) = 2 ^ 2 - 1 := by norm_num
  have e2 : 2 + vbits - vbits = 2 := by omega
  have h3 := and_shift_mask u vbits (2 + vbits) (min (logW - 2) (30 - vbits)) (by omega)
    (by omega)
  rw [e2] at h3
  have ha : u % 2 ^ 2 < 2 ^ (2 + vbits) :=
    lt_of_lt_of_le (Nat.mod_lt _ (by norm_num)) (Nat.pow_le_pow_right (by norm_num) (by omega))
  rw [swizzle_umask_eq, h3, e1, Nat.and_pow_two_sub_one_eq_mod, Nat.or_comm,
    ← Nat.mul_add_lt_is_or ha]
  norm_num

theorem packed_tile_v_eq (v logH : Nat) :
    packed_tile_v v (2 ^ logH - 1) = u32 (4 * (v % 2 ^ logH)) := by
  unfold packed_tile_v
  rw [Nat.and_pow_two_sub_one_eq_mod, Nat.shiftLeft_eq, Nat.mul_comm]

theorem packed_index (logW logH u v : Nat) (hW : logW ≤ 11) (hH : logH ≤ 11)
    (hu : u < 2 ^ logW) (hv : v < 2 ^ logH) :
    packed_tile_u u logH (swizzle_umask logH (2 ^ logW - 1)) + packed_tile_v v (2 ^ logH - 1) =
      u % 4 + 4 * (v + 2 ^ logH * (u / 4)) := by
  have hq := div_four_lt logW u hu
  have ew : min (logW - 2) (30 - logH) = logW - 2 := by omega
  have hH2 : 2 ^ logH ≤ 2 ^ 11 := Nat.pow_le_pow_right (by norm_num) hH
  have e4 : 4 * (v % 2 ^ logH) < 2 ^ 32 := by
    rw [Nat.mod_eq_of_lt hv]
    omega
  rw [packed_tile_u_eq, packed_tile_v_eq, ew, Nat.mod_eq_of_lt hq]
  unfold u32
  rw [Nat.mod_eq_of_lt e4, Nat.mod_eq_of_lt hv, pow_add, Nat.mul_assoc]
  norm_num
  omega

theorem packed_index_inj (H u v u' v' : Nat) (hH : 0 < H) (hv : v < H) (hv' : v' < H)
    (h : u % 4 + 4 * (v + H * (u / 4)) = u' % 4 + 4 * (v' + H * (u' / 4))) :
    u = u' ∧ v = v' := by
  have h1 : u % 4 = u' % 4 := by omega
  have h2 : v + H * (u / 4) = v' + H * (u' / 4) := by omega
  have h3 : (v + H * (u / 4)) % H = v := by
    rw [Nat.add_mul_mod_self_left, Nat.mod_eq_of_lt hv]
  have h4 : (v' + H * (u' / 4)) % H = v' := by
    rw [Nat.add_mul_mod_self_left, Nat.mod_eq_of_lt hv']
  have h5 : (v + H * (u / 4)) / H = u / 4 := by
    rw [Nat.add_mul_div_left _ _ hH, Nat.div_eq_of_lt hv, Nat.zero_add]
  have h6 : (v' + H * (u' / 4)) / H = u' / 4 := by
    rw [Nat.add_mul_div_left _ _ hH, Nat.div_eq_of_lt hv', Nat.zero_add]
  rw [h2] at h3 h5
  have h7 : v = v' := h3.symm.trans h4
  have h8 : u / 4 = u' / 4 := h5.symm.trans h6
  omega

theorem packed_index_lt (logW H u v : Nat) (h2 : 2 ≤ logW) (hu : u < 2 ^ logW) (hv : v < H) :
    u % 4 + 4 * (v + H * (u / 4)) < 2 ^ logW * H := by
  have hq := div_four_lt logW u hu
  have e := pow_split logW h2
  have h3 : H * (u / 4 + 1) ≤ H * 2 ^ (logW - 2) := Nat.mul_le_mul_left _ hq
  rw [e, Nat.mul_comm (2 ^ (logW - 2)) 4, Nat.mul_assoc, Nat.mul_comm (2 ^ (logW - 2)) H]
  rw [Nat.mul_add, Nat.mul_one] at h3
  generalize H * 2 ^ (logW - 2) = A at h3 ⊢
  generalize H * (u / 4) = B at h3 ⊢
  omega

theorem packed_index_surj (logW H i : Nat) (h2 : 2 ≤ logW) (hH : 0 < H)
    (hi : i < 2 ^ logW * H) :
    4 * (i / 4 / H) + i % 4 < 2 ^ logW ∧ i / 4 % H < H ∧
      (4 * (i / 4 / H) + i % 4) % 4 + 4 * (i / 4 % H + H * ((4 * (i / 4 / H) + i % 4) / 4)) = i := by
  have e := pow_split logW h2
  have h3 : i / 4 / H < 2 ^ (logW - 2) := by
    rw [Nat.div_div_eq_div_mul, Nat.div_lt_iff_lt_mul (by omega)]
    rw [e] at hi
    calc i < 2 ^ (logW - 2) * 4 * H := hi
      _ = 2 ^ (logW - 2) * (4 * H) := by ring
  have h4 : (4 * (i / 4 / H) + i % 4) / 4 = i / 4 / H := by omega
  have h5 : i / 4 % H + H * (i / 4 / H) = i / 4 := Nat.mod_add_div _ _
  refine ⟨by omega, Nat.mod_lt _ hH, ?_⟩
  rw [h4, h5]
  omega

/-- Claim C6, amended: the V2 swizzle.  For every power-of-two texture with
`logW ≤ 11` and `logH ≤ 11` the map
`(u, v) -> packed_tile_u(u, logH, swizzle_umask(logH, W-1)) + packed_tile_v(v, H-1)`
is injective on `[0, W) x [0, H)`; and when the texture is at least 4 texels
wide (`2 ≤ logW`) its image is exactly `[0, W * H)`: every index of a texel is
below `W * H` and every number below `W * H` is the index of a texel. -/
theorem swizzle_v2_permutation (logW logH : Nat) (hW : logW ≤ 11) (hH : logH ≤ 11) :
    (∀ u v u' v' : Nat, u < 2 ^ logW → v < 2 ^ logH → u' < 2 ^ logW → v' < 2 ^ logH →
      packed_tile_u u logH (swizzle_umask logH (2 ^ logW - 1)) +
          packed_tile_v v (2 ^ logH - 1) =
        packed_tile_u u' logH (swizzle_umask logH (2 ^ logW - 1)) +
          packed_tile_v v' (2 ^ logH - 1) →
      u = u' ∧ v = v') ∧
    (2 ≤ logW →
      (∀ u v : Nat, u < 2 ^ logW → v < 2 ^ logH →
        packed_tile_u u logH (swizzle_umask logH (2 ^ logW - 1)) +
          packed_tile_v v (2 ^ logH - 1) < 2 ^ logW * 2 ^ logH) ∧
      (∀ i : Nat, i < 2 ^ logW * 2 ^ logH → ∃ u v : Nat, u < 2 ^ logW ∧ v < 2 ^ logH ∧
        packed_tile_u u logH (swizzle_umask logH (2 ^ logW - 1)) +
          packed_tile_v v (2 ^ logH - 1) = i)) := by
  have hpos : 0 < 2 ^ logH := Nat.two_pow_pos logH
  refine ⟨?_, fun h2 => ⟨?_, ?_⟩⟩
  · intro u v u' v' hu hv hu' hv' h
    rw [packed_index logW logH u v hW hH hu hv, packed_index logW logH u' v' hW hH hu' hv'] at h
    exact packed_index_inj (2 ^ logH) u v u' v' hpos hv hv' h
  · intro u v hu hv
    rw [packed_index logW logH u v hW hH hu hv]
    exact packed_index_lt logW (2 ^ logH) u v h2 hu hv
  · intro i hi
    obtain ⟨h1, h3, h4⟩ := packed_index_surj logW (2 ^ logH) i h2 hpos hi
    refine ⟨4 * (i / 4 / 2 ^ logH) + i % 4, i / 4 % 2 ^ logH, h1, h3, ?_⟩
    rw [packed_index logW logH _ _ hW hH h1 h3]
    exact h4

/-- Claim C6, instance: the 4x2 texture.  The eight texels have eight different
indices, which are the numbers 0 to 7. -/
theorem swizzle_v2_permutation_witness :
    (∀ u v u' v' : Nat, u < 2 ^ 2 → v < 2 ^ 1 → u' < 2 ^ 2 → v' < 2 ^ 1 →
      packed_tile_u u 1 (swizzle_umask 1 (2 ^ 2 - 1)) + packed_tile_v v (2 ^ 1 - 1) =
        packed_tile_u u' 1 (swizzle_umask 1 (2 ^ 2 - 1)) + packed_tile_v v' (2 ^ 1 - 1) →
      u = u' ∧ v = v') ∧
    ((∀ u v : Nat, u < 2 ^ 2 → v < 2 ^ 1 →
        packed_tile_u u 1 (swizzle_umask 1 (2 ^ 2 - 1)) + packed_tile_v v (2 ^ 1 - 1) <
          2 ^ 2 * 2 ^ 1) ∧
      (∀ i : Nat, i < 2 ^ 2 * 2 ^ 1 → ∃ u v : Nat, u < 2 ^ 2 ∧ v < 2 ^ 1 ∧
        packed_tile_u u 1 (swizzle_umask 1 (2 ^ 2 - 1)) + packed_tile_v v (2 ^ 1 - 1) = i)) :=
  ⟨(swizzle_v2_permutation 2 1 (by decide) (by decide)).1,
    (swizzle_v2_permutation 2 1 (by decide) (by decide)).2 (by decide)⟩

/-- Claim C6, counterexample: in the 1x2 texture (`logW = 0`, `logH = 1`) the
texel `(0, 1)` has the index 4, outside `[0, W * H) = [0, 2)`; the image of the
map is `{0, 4}`. -/
theorem swizzle_v2_counterexample :
    0 < 2 ^ 0 ∧ 1 < 2 ^ 1 ∧
    packed_tile_u 0 1 (swizzle_umask 1 (2 ^ 0 - 1)) + packed_tile_v 1 (2 ^ 1 - 1) = 4 ∧
    ¬ (4 < 2 ^ 0 * 2 ^ 1) ∧
    ¬ ∃ u v : Nat, u < 2 ^ 0 ∧ v < 2 ^ 1 ∧
      packed_tile_u u 1 (swizzle_umask 1 (2 ^ 0 - 1)) + packed_tile_v v (2 ^ 1 - 1) = 1 := by
  refine ⟨by decide, by decide, by decide, by decide, ?_⟩
  rintro ⟨u, v, hu, hv, h⟩
  have hu0 : u = 0 := by omega
  have hv1 : v = 0 ∨ v = 1 := by omega
  subst hu0
  rcases hv1 with rfl | rfl <;> revert h <;> decide

theorem u32_and_of_lt (s m : Nat) (hm : m < 2 ^ 32) : u32 s &&& m = s &&& m := by
  apply Nat.eq_of_testBit_eq
  intro i
  unfold u32
  rw [Nat.testBit_and, Nat.testBit_and, Nat.testBit_mod_two_pow]
  by_cases h : i < 32
  · simp [h]
  · have h2 : m.testBit i = false :=
      Nat.testBit_lt_two_pow (lt_of_lt_of_le hm (Nat.pow_le_pow_right (by norm_num) (by omega)))
    simp [h2]

theorem carry_stage (p q xl dl c0 X D Mh : Nat) (hx : xl < 2 ^ p) (hd : dl < 2 ^ p)
    (hc : c0 ≤ 1) :
    ((2 ^ (p + q) * X + xl) + (2 ^ (p + q) * D + 2 ^ p * (2 ^ q - 1) + dl) + c0) &&&
        (2 ^ (p + q) * Mh + (2 ^ p - 1)) =
      2 ^ (p + q) * ((X + D + (xl + dl + c0) / 2 ^ p) &&& Mh) + (xl + dl + c0) % 2 ^ p := by
  have hP : 0 < 2 ^ p := Nat.two_pow_pos p
  have hQ : 0 < 2 ^ q := Nat.two_pow_pos q
  obtain ⟨G, hG⟩ : ∃ G, 2 ^ q = G + 1 := ⟨2 ^ q - 1, by omega⟩
  have eG : 2 ^ q - 1 = G := by omega
  have e : 2 ^ (p + q) = 2 ^ p * G + 2 ^ p := by
    rw [pow_add, hG]
    ring
  have hm : 2 ^ p - 1 < 2 ^ (p + q) := by
    rw [e]
    omega
  rw [eG]
  by_cases hs : xl + dl + c0 < 2 ^ p
  · have e1 : (2 ^ (p + q) * X + xl) + (2 ^ (p + q) * D + 2 ^ p * G + dl) + c0 =
        2 ^ (p + q) * (X + D) + (2 ^ p * G + (xl + dl + c0)) := by ring
    have ha : 2 ^ p * G + (xl + dl + c0) < 2 ^ (p + q) := by
      rw [e]
      omega
    rw [e1, and_split (p + q) _ _ _ _ ha hm, Nat.and_pow_two_sub_one_eq_mod,
      Nat.mul_add_mod, Nat.div_eq_of_lt hs, Nat.add_zero]
  · obtain ⟨r, hr⟩ : ∃ r, xl + dl + c0 = 2 ^ p + r := ⟨xl + dl + c0 - 2 ^ p, by omega⟩
    have hr2 : r < 2 ^ p := by omega
    have e1 : (2 ^ (p + q) * X + xl) + (2 ^ (p + q) * D + 2 ^ p * G + dl) + c0 =
        2 ^ (p + q) * (X + D + 1) + r := by
      have e2 : (2 ^ (p + q) * X + xl) + (2 ^ (p + q) * D + 2 ^ p * G + dl) + c0 =
          2 ^ (p + q) * (X + D) + 2 ^ p * G + (xl + dl + c0) := by ring
      rw [e2, hr, Nat.mul_add (2 ^ (p + q)) (X + D) 1, Nat.mul_one]
      omega
    have ha : r < 2 ^ (p + q) := by
      rw [e]
      omega
    have e3 : (xl + dl + c0) / 2 ^ p = 1 := by
      rw [hr, Nat.add_div_left _ hP, Nat.div_eq_of_lt hr2]
    have e4 : (xl + dl + c0) % 2 ^ p = r := by
      rw [hr, Nat.add_mod_left, Nat.mod_eq_of_lt hr2]
    rw [e1, and_split (p + q) _ _ _ _ ha hm, Nat.and_pow_two_sub_one_eq_mod, e3, e4,
      Nat.mod_eq_of_lt hr2]

theorem u_top_q (vbits logW y : Nat) :
    2 ^ (14 + vbits) * (y % 2 ^ u_top_width vbits logW) =
      2 ^ (14 + min vbits 18) * (y % 2 ^ u_top_width vbits logW) := by
  by_cases h : vbits ≤ 18
  · rw [min_eq_left h]
  · have e : u_top_width vbits logW = 0 := by
      unfold u_top_width
      omega
    rw [e, pow_zero, Nat.mod_one, Nat.mul_zero, Nat.mul_zero]

theorem u_mask_q (vbits logW : Nat) :
    2 ^ (14 + vbits) * (2 ^ u_top_width vbits logW - 1) =
      2 ^ (14 + min vbits 18) * (2 ^ u_top_width vbits logW - 1) := by
  by_cases h : vbits ≤ 18
  · rw [min_eq_left h]
  · have e : u_top_width vbits logW = 0 := by
      unfold u_top_width
      omega
    rw [e, pow_zero, Nat.sub_self, Nat.mul_zero, Nat.mul_zero]

theorem pow_14_add (q : Nat) : 2 ^ (14 + q) = 2 ^ (11 + 1) * 2 ^ (2 + q) := by
  rw [← pow_add]
  congr 1
  omega

theorem tile_u_fields (x vbits logW : Nat) :
    tile_u x vbits (2 ^ logW - 1) =
      2 ^ (11 + 1) * (2 ^ (2 + min vbits 18) * ((x / 2 ^ 13) % 2 ^ u_top_width vbits logW) +
        (x / 2 ^ 11) % 2 ^ 2) + x % 2 ^ 11 := by
  rw [tile_u_eq, u_top_q, pow_14_add]
  ring_nf

theorem tile_umask_fields (vbits logW : Nat) :
    tile_umask vbits (2 ^ logW - 1) =
      2 ^ (11 + 1) * (2 ^ (2 + min vbits 18) * (2 ^ u_top_width vbits logW - 1) + (2 ^ 2 - 1)) +
        (2 ^ 11 - 1) := by
  rw [tile_umask_eq, u_mask_q, pow_14_add]
  ring

theorem fill_eq (vbits : Nat) :
    u32 (u32 ((1 <<< vbits) - 1) <<< 14) = 2 ^ 14 * (2 ^ (min vbits 18) - 1) := by
  have e : min (min vbits 32) (32 - 14) = min vbits 18 := by omega
  rw [Nat.one_shiftLeft, u32_pow_sub_one, mask_shift_u32, e]

theorem tile_du_fields (d vbits logW : Nat) :
    tile_du d vbits (2 ^ logW - 1) =
      2 ^ (11 + 1) * (2 ^ (2 + min vbits 18) * ((d / 2 ^ 13) % 2 ^ u_top_width vbits logW) +
        2 ^ 2 * (2 ^ (min vbits 18) - 1) + (d / 2 ^ 11) % 2 ^ 2) + 2 ^ 11 * (2 ^ 1 - 1) +
        d % 2 ^ 11 := by
  unfold tile_du
  rw [tile_u_fields, fill_eq]
  generalize (d / 2 ^ 13) % 2 ^ u_top_width vbits logW = g
  have ha : d % 2 ^ 11 < 2 ^ 11 := Nat.mod_lt _ (by norm_num)
  have hb : (d / 2 ^ 11) % 2 ^ 2 < 2 ^ 2 := Nat.mod_lt _ (by norm_num)
  generalize d % 2 ^ 11 = a at ha
  generalize (d / 2 ^ 11) % 2 ^ 2 = b at hb
  have hq : 2 ^ (min vbits 18) - 1 < 2 ^ (min vbits 18) :=
    Nat.sub_lt (Nat.two_pow_pos _) (by norm_num)
  generalize min vbits 18 = q at hq
  have e1 : (0x800 : Nat) = 2 ^ (11 + 1) * 0 + 2 ^ 11 := by norm_num
  have e2 : a ||| 2 ^ 11 = 2 ^ 11 * 1 + a := by
    rw [Nat.or_comm, ← Nat.mul_one (2 ^ 11), Nat.mul_one (2 ^ 11 * 1),
      Nat.mul_add_lt_is_or ha]
  have e3 : 2 ^ (11 + 1) * (2 ^ (2 + q) * g + b) + (2 ^ 11 * 1 + a) =
      2 ^ 14 * (2 ^ q * g) + (2 ^ 12 * b + 2 ^ 11 + a) := by
    rw [pow_add 2 2 q]
    ring
  have e4 : 2 ^ 14 * (2 ^ q - 1) = 2 ^ 14 * (2 ^ q - 1) + 0 := rfl
  have e5 : 2 ^ q * g ||| (2 ^ q - 1) = 2 ^ q * g + (2 ^ q - 1) :=
    (Nat.mul_add_lt_is_or hq g).symm
  rw [e1, or_split (11 + 1) _ _ _ _ (by omega) (by norm_num), Nat.or_zero, e2, e3, e4,
    or_split 14 _ _ _ _ (by omega) (by norm_num), Nat.or_zero, e5, pow_add 2 2 q]
  ring

theorem tile_dv_fields (d logH : Nat) :
    tile_dv d (2 ^ logH - 1) =
      2 ^ (11 + 3) * ((d / 2 ^ 11) % 2 ^ v_top_width logH) + 2 ^ 11 * (2 ^ 3 - 1) +
        d % 2 ^ 11 := by
  unfold tile_dv
  rw [tile_v_eq]
  have ha : d % 2 ^ 11 < 2 ^ 11 := Nat.mod_lt _ (by norm_num)
  generalize d % 2 ^ 11 = a at ha
  have e1 : (0x3800 : Nat) = 2 ^ 14 * 0 + 2 ^ 11 * 7 := by norm_num
  have e2 : a ||| 2 ^ 11 * 7 = 2 ^ 11 * 7 + a := by
    rw [Nat.or_comm, Nat.mul_add_lt_is_or ha]
  rw [e1, or_split 14 _ _ _ _ (by omega) (by norm_num), Nat.or_zero, e2]
  norm_num
  ring

theorem tile_v_fields (x logH : Nat) :
    tile_v x (2 ^ logH - 1) =
      2 ^ (11 + 3) * ((x / 2 ^ 11) % 2 ^ v_top_width logH) + x % 2 ^ 11 := by
  rw [tile_v_eq]

theorem tile_vmask_fields (logH : Nat) :
    tile_vmask (2 ^ logH - 1) = 2 ^ (11 + 3) * (2 ^ v_top_width logH - 1) + (2 ^ 11 - 1) := by
  rw [tile_vmask_eq]
  norm_num

theorem add_mod3 (a b c m : Nat) : (a % m + b % m + c) % m = (a + b + c) % m := by
  conv_rhs => rw [Nat.add_mod (a + b) c, Nat.add_mod a b]
  conv_lhs => rw [Nat.add_mod (a % m + b % m) c]

theorem tile_vmask_lt (vmask : Nat) : tile_vmask vmask < 2 ^ 32 := by
  unfold tile_vmask u32
  exact Nat.or_lt_two_pow (by norm_num) (Nat.mod_lt _ (by norm_num))

theorem tile_umask_lt (vbits umask : Nat) : tile_umask vbits umask < 2 ^ 32 := by
  unfold tile_umask u32
  exact Nat.or_lt_two_pow (by norm_num) (Nat.mod_lt _ (by norm_num))

theorem tile_v_step (x d logH : Nat) :
    u32 (tile_v x (2 ^ logH - 1) + tile_dv d (2 ^ logH - 1)) &&& tile_vmask (2 ^ logH - 1) =
      tile_v (x + d) (2 ^ logH - 1) := by
  rw [u32_and_of_lt _ _ (tile_vmask_lt _), tile_v_fields, tile_dv_fields, tile_v_fields,
    tile_vmask_fields]
  have ha : x % 2 ^ 11 < 2 ^ 11 := Nat.mod_lt _ (by norm_num)
  have hb : d % 2 ^ 11 < 2 ^ 11 := Nat.mod_lt _ (by norm_num)
  have h := carry_stage 11 3 (x % 2 ^ 11) (d % 2 ^ 11) 0 ((x / 2 ^ 11) % 2 ^ v_top_width logH)
    ((d / 2 ^ 11) % 2 ^ v_top_width logH) (2 ^ v_top_width logH - 1) ha hb (by omega)
  simp only [Nat.add_zero] at h
  have e1 : (x + d) / 2 ^ 11 = x / 2 ^ 11 + d / 2 ^ 11 + (x % 2 ^ 11 + d % 2 ^ 11) / 2 ^ 11 := by
    omega
  have e2 : (x + d) % 2 ^ 11 = (x % 2 ^ 11 + d % 2 ^ 11) % 2 ^ 11 := by omega
  rw [h, Nat.and_pow_two_sub_one_eq_mod, add_mod3, e1, e2]

theorem tile_u_step (x d vbits logW : Nat) :
    u32 (tile_u x vbits (2 ^ logW - 1) + tile_du d vbits (2 ^ logW - 1)) &&&
        tile_umask vbits (2 ^ logW - 1) =
      tile_u (x + d) vbits (2 ^ logW - 1) := by
  rw [u32_and_of_lt _ _ (tile_umask_lt _ _), tile_u_fields, tile_du_fields, tile_u_fields,
    tile_umask_fields]
  have ha : x % 2 ^ 11 < 2 ^ 11 := Nat.mod_lt _ (by norm_num)
  have hb : d % 2 ^ 11 < 2 ^ 11 := Nat.mod_lt _ (by norm_num)
  have ha2 : (x / 2 ^ 11) % 2 ^ 2 < 2 ^ 2 := Nat.mod_lt _ (by norm_num)
  have hb2 : (d / 2 ^ 11) % 2 ^ 2 < 2 ^ 2 := Nat.mod_lt _ (by norm_num)
  have hc : (x % 2 ^ 11 + d % 2 ^ 11) / 2 ^ 11 ≤ 1 := by omega
  have h1 := carry_stage 11 1 (x % 2 ^ 11) (d % 2 ^ 11) 0
    (2 ^ (2 + min vbits 18) * ((x / 2 ^ 13) % 2 ^ u_top_width vbits logW) + (x / 2 ^ 11) % 2 ^ 2)
    (2 ^ (2 + min vbits 18) * ((d / 2 ^ 13) % 2 ^ u_top_width vbits logW) +
      2 ^ 2 * (2 ^ (min vbits 18) - 1) + (d / 2 ^ 11) % 2 ^ 2)
    (2 ^ (2 + min vbits 18) * (2 ^ u_top_width vbits logW - 1) + (2 ^ 2 - 1)) ha hb (by omega)
  have h2 := carry_stage 2 (min vbits 18) ((x / 2 ^ 11) % 2 ^ 2) ((d / 2 ^ 11) % 2 ^ 2)
    ((x % 2 ^ 11 + d % 2 ^ 11) / 2 ^ 11) ((x / 2 ^ 13) % 2 ^ u_top_width vbits logW)
    ((d / 2 ^ 13) % 2 ^ u_top_width vbits logW) (2 ^ u_top_width vbits logW - 1) ha2 hb2 hc
  simp only [Nat.add_zero] at h1
  have e1 : (x + d) / 2 ^ 13 = x / 2 ^ 13 + d / 2 ^ 13 +
      ((x / 2 ^ 11) % 2 ^ 2 + (d / 2 ^ 11) % 2 ^ 2 + (x % 2 ^ 11 + d % 2 ^ 11) / 2 ^ 11) / 2 ^ 2 := by
    omega
  have e2 : (x + d) % 2 ^ 11 = (x % 2 ^ 11 + d % 2 ^ 11) % 2 ^ 11 := by omega
  have e3 : ((x + d) / 2 ^ 11) % 2 ^ 2 =
      ((x / 2 ^ 11) % 2 ^ 2 + (d / 2 ^ 11) % 2 ^ 2 + (x % 2 ^ 11 + d % 2 ^ 11) / 2 ^ 11) % 2 ^ 2 := by
    omega
  rw [h1, h2, Nat.and_pow_two_sub_one_eq_mod, add_mod3, e1, e2, e3]

theorem tile_u_mod (x vbits logW : Nat) :
    tile_u (x % 2 ^ 32) vbits (2 ^ logW - 1) = tile_u x vbits (2 ^ logW - 1) := by
  rw [tile_u_eq, tile_u_eq]
  have hw : u_top_width vbits logW ≤ 19 := by
    unfold u_top_width
    omega
  have e1 : x % 2 ^ 32 / 2 ^ 13 = (x / 2 ^ 13) % 2 ^ 19 := by omega
  have e2 : x % 2 ^ 32 / 2 ^ 11 % 4 = x / 2 ^ 11 % 4 := by omega
  have e3 : x % 2 ^ 32 % 2 ^ 11 = x % 2 ^ 11 := by omega
  rw [e1, e2, e3, Nat.mod_mod_of_dvd _ (pow_dvd_pow 2 hw)]

theorem tile_v_mod (x logH : Nat) :
    tile_v (x % 2 ^ 32) (2 ^ logH - 1) = tile_v x (2 ^ logH - 1) := by
  rw [tile_v_eq, tile_v_eq]
  have hw : v_top_width logH ≤ 21 := by
    unfold v_top_width
    omega
  have e1 : x % 2 ^ 32 / 2 ^ 11 = (x / 2 ^ 11) % 2 ^ 21 := by omega
  have e3 : x % 2 ^ 32 % 2 ^ 11 = x % 2 ^ 11 := by omega
  rw [e1, e3, Nat.mod_mod_of_dvd _ (pow_dvd_pow 2 hw)]

theorem tiled_seq_u (x d vbits logW n : Nat) :
    m256i_from_arith_seq_tiled (tile_u x vbits (2 ^ logW - 1)) (tile_du d vbits (2 ^ logW - 1))
        (tile_umask vbits (2 ^ logW - 1)) n =
      tile_u (x + n * d) vbits (2 ^ logW - 1) := by
  induction n with
  | zero => simp [m256i_from_arith_seq_tiled]
  | succ n ih =>
    rw [m256i_from_arith_seq_tiled, ih, tile_u_step]
    congr 1
    ring

theorem tiled_seq_v (x d logH n : Nat) :
    m256i_from_arith_seq_tiled (tile_v x (2 ^ logH - 1)) (tile_dv d (2 ^ logH - 1))
        (tile_vmask (2 ^ logH - 1)) n =
      tile_v (x + n * d) (2 ^ logH - 1) := by
  induction n with
  | zero => simp [m256i_from_arith_seq_tiled]
  | succ n ih =>
    rw [m256i_from_arith_seq_tiled, ih, tile_v_step]
    congr 1
    ring

theorem bits32_add_mul (a d : Int) (n : Nat) :
    bits32 (a + n * d) = (bits32 a + n * bits32 d) % 2 ^ 32 := by
  unfold bits32
  have h1 : (0 : Int) ≤ a % 4294967296 := Int.emod_nonneg _ (by norm_num)
  have h2 : (0 : Int) ≤ d % 4294967296 := Int.emod_nonneg _ (by norm_num)
  have h3 : (0 : Int) ≤ (a + n * d) % 4294967296 := Int.emod_nonneg _ (by norm_num)
  have e : (a + n * d) % 4294967296 = (a % 4294967296 + n * (d % 4294967296)) % 4294967296 :=
    ((Int.mod_modEq a 4294967296).add
      ((Int.ModEq.refl (n : Int)).mul (Int.mod_modEq d 4294967296))).symm
  apply Int.ofNat.inj
  simp only [Int.ofNat_eq_coe]
  push_cast
  rw [Int.toNat_of_nonneg h1, Int.toNat_of_nonneg h2, Int.toNat_of_nonneg h3]
  exact e

/-- Claim C7: the carry trick.  For every power-of-two texture (`umask = W - 1`,
`vmask = H - 1`), every `vbits`, every 32-bit fixed-point start `u0` and step
`du` (two's complement, negative steps included) and every `N`: adding
`tile_du(du, vbits, umask)` and masking with `tile_umask(vbits, umask)`, `N`
times, starting from `tile_u(u0, vbits, umask)` (the lanes of
`m256i_from_arith_seq_tiled`), gives `tile_u` of the wrapped sum
`u0 + N * du`; and likewise for `v` with `tile_dv`, `tile_vmask` and `tile_v`. -/
theorem carry_trick (logW logH vbits : Nat) (u0 du v0 dv : Int) (N : Nat) :
    m256i_from_arith_seq_tiled (tile_u (bits32 u0) vbits (2 ^ logW - 1))
        (tile_du (bits32 du) vbits (2 ^ logW - 1)) (tile_umask vbits (2 ^ logW - 1)) N =
      tile_u (bits32 (u0 + N * du)) vbits (2 ^ logW - 1) ∧
    m256i_from_arith_seq_tiled (tile_v (bits32 v0) (2 ^ logH - 1))
        (tile_dv (bits32 dv) (2 ^ logH - 1)) (tile_vmask (2 ^ logH - 1)) N =
      tile_v (bits32 (v0 + N * dv)) (2 ^ logH - 1) := by
  rw [tiled_seq_u, tiled_seq_v, bits32_add_mul, bits32_add_mul, tile_u_mod, tile_v_mod]
  exact ⟨rfl, rfl⟩

theorem four_mul_pow_le (w lw : Nat) (h2 : 2 ≤ lw) (hw : w ≤ lw - 2) : 4 * 2 ^ w ≤ 2 ^ lw := by
  have e : 4 * 2 ^ w = 2 ^ (w + 2) := by
    rw [pow_add]
    norm_num
    ring
  rw [e]
  exact Nat.pow_le_pow_right (by norm_num) (by omega)

theorem tiled_offset_lt (logW logH u v : Nat) (h2 : 2 ≤ logW)
    (hu : u ≤ tile_umask logH (2 ^ logW - 1)) (hv : v ≤ tile_vmask (2 ^ logH - 1)) :
    tiled_offset u v < 2 ^ logW * 2 ^ logH := by
  rw [tile_umask_eq] at hu
  rw [tile_vmask_eq] at hv
  unfold tiled_offset u32
  rw [Nat.shiftRight_eq_div_pow]
  have hA : 0 < 2 ^ logH := Nat.two_pow_pos _
  have hB : 0 < 2 ^ u_top_width logH logW := Nat.two_pow_pos _
  by_cases h : logH ≤ 18
  · have ew : u_top_width logH logW ≤ logW - 2 := by
      unfold u_top_width
      omega
    have ev : v_top_width logH = logH := by
      unfold v_top_width
      omega
    have h4 := four_mul_pow_le _ _ h2 ew
    have h5 : 4 * (2 ^ logH * 2 ^ u_top_width logH logW) ≤ 2 ^ logW * 2 ^ logH := by
      calc 4 * (2 ^ logH * 2 ^ u_top_width logH logW)
          = (4 * 2 ^ u_top_width logH logW) * 2 ^ logH := by ring
        _ ≤ 2 ^ logW * 2 ^ logH := Nat.mul_le_mul_right _ h4
    have h6 : 2 ^ (14 + logH) * (2 ^ u_top_width logH logW - 1) =
        2 ^ 14 * (2 ^ logH * 2 ^ u_top_width logH logW - 2 ^ logH) := by
      rw [pow_add, Nat.mul_sub, Nat.mul_one, Nat.mul_assoc, Nat.mul_sub]
    have h7 : 2 ^ logH ≤ 2 ^ logH * 2 ^ u_top_width logH logW := Nat.le_mul_of_pos_right _ hB
    rw [h6] at hu
    rw [ev] at hv
    generalize 2 ^ logH * 2 ^ u_top_width logH logW = C at hu h5 h7
    generalize 2 ^ logW * 2 ^ logH = D at h5 ⊢
    generalize 2 ^ logH = A at hu hv hA h7
    omega
  · have h8 : 2 ^ 19 ≤ 2 ^ logH := Nat.pow_le_pow_right (by norm_num) (by omega)
    have h9 : 2 ^ 2 * 2 ^ logH ≤ 2 ^ logW * 2 ^ logH :=
      Nat.mul_le_mul_right _ (Nat.pow_le_pow_right (by norm_num) h2)
    generalize 2 ^ logW * 2 ^ logH = D at h9 ⊢
    omega

theorem packed_sum_lt (logW vbits logH u v : Nat) (h2 : 2 ≤ logW) (hlh : logH ≤ vbits) :
    packed_tile_u u vbits (swizzle_umask vbits (2 ^ logW - 1)) + packed_tile_v v (2 ^ logH - 1) <
      2 ^ logW * 2 ^ vbits := by
  rw [packed_tile_u_eq, packed_tile_v_eq]
  have hA : 0 < 2 ^ vbits := Nat.two_pow_pos _
  have hB : 0 < 2 ^ (min (logW - 2) (30 - vbits)) := Nat.two_pow_pos _
  have h4 := four_mul_pow_le (min (logW - 2) (30 - vbits)) logW h2 (by omega)
  have h5 : 4 * (2 ^ vbits * 2 ^ (min (logW - 2) (30 - vbits))) ≤ 2 ^ logW * 2 ^ vbits := by
    calc 4 * (2 ^ vbits * 2 ^ (min (logW - 2) (30 - vbits)))
        = (4 * 2 ^ (min (logW - 2) (30 - vbits))) * 2 ^ vbits := by ring
      _ ≤ 2 ^ logW * 2 ^ vbits := Nat.mul_le_mul_right _ h4
  have h6 : 2 ^ (2 + vbits) * ((u / 4) % 2 ^ (min (logW - 2) (30 - vbits))) ≤
      4 * (2 ^ vbits * 2 ^ (min (logW - 2) (30 - vbits)) - 2 ^ vbits) := by
    have h61 : (u / 4) % 2 ^ (min (logW - 2) (30 - vbits)) ≤
        2 ^ (min (logW - 2) (30 - vbits)) - 1 := by
      have := Nat.mod_lt (u / 4) hB
      omega
    calc 2 ^ (2 + vbits) * ((u / 4) % 2 ^ (min (logW - 2) (30 - vbits)))
        ≤ 2 ^ (2 + vbits) * (2 ^ (min (logW - 2) (30 - vbits)) - 1) := Nat.mul_le_mul_left _ h61
      _ = 4 * (2 ^ vbits * 2 ^ (min (logW - 2) (30 - vbits)) - 2 ^ vbits) := by
        rw [pow_add, Nat.mul_sub, Nat.mul_one, Nat.mul_assoc, Nat.mul_sub]
        norm_num
  have h7 : 2 ^ vbits ≤ 2 ^ vbits * 2 ^ (min (logW - 2) (30 - vbits)) :=
    Nat.le_mul_of_pos_right _ hB
  have h8 : u32 (4 * (v % 2 ^ logH)) ≤ 4 * (2 ^ vbits - 1) := by
    have h81 : v % 2 ^ logH < 2 ^ logH := Nat.mod_lt _ (Nat.two_pow_pos _)
    have h82 : 2 ^ logH ≤ 2 ^ vbits := Nat.pow_le_pow_right (by norm_num) hlh
    have h83 : u32 (4 * (v % 2 ^ logH)) ≤ 4 * (v % 2 ^ logH) := Nat.mod_le _ _
    omega
  generalize 2 ^ (2 + vbits) * ((u / 4) % 2 ^ (min (logW - 2) (30 - vbits))) = T at h6
  generalize u32 (4 * (v % 2 ^ logH)) = V at h8
  generalize 2 ^ vbits * 2 ^ (min (logW - 2) (30 - vbits)) = C at h5 h6 h7
  generalize 2 ^ logW * 2 ^ vbits = D at h5 ⊢
  generalize 2 ^ vbits = A at hA h6 h7 h8
  omega

theorem packed_offset_lt (LogWidth LogHeight u v : Nat) (h2 : 2 ≤ LogWidth) :
    packed_offset LogWidth LogHeight u v < 2 ^ LogWidth * 2 ^ LogHeight := by
  unfold packed_offset
  rw [Nat.one_shiftLeft, Nat.one_shiftLeft, u32_pow_sub_one, u32_pow_sub_one]
  by_cases h : LogHeight ≤ 32
  · have h3 := packed_sum_lt (min LogWidth 32) LogHeight (min LogHeight 32) u v (by omega)
      (by omega)
    have h4 : 2 ^ (min LogWidth 32) * 2 ^ LogHeight ≤ 2 ^ LogWidth * 2 ^ LogHeight :=
      Nat.mul_le_mul_right _ (Nat.pow_le_pow_right (by norm_num) (by omega))
    exact lt_of_le_of_lt (Nat.mod_le _ _) (lt_of_lt_of_le h3 h4)
  · have h8 : 2 ^ 32 ≤ 2 ^ LogHeight := Nat.pow_le_pow_right (by norm_num) (by omega)
    have h9 : 2 ^ LogHeight ≤ 2 ^ LogWidth * 2 ^ LogHeight :=
      Nat.le_mul_of_pos_left _ (Nat.two_pow_pos _)
    unfold u32
    omega

/-- Claim C8, amended: texel reads are in bounds for textures at least 4 texels
wide.  For every power-of-two texture with `2 ≤ LogWidth` the texel index the
kernels read is below `W * H`: in the approximate kernel the index
`(u + v) >> 12` for any `u`, `v` kept under `tile_umask` and `tile_vmask`, and
in the exact kernel the index
`packed_tile_u(u, LogHeight, swizzle_umask) + packed_tile_v(v, vmask)` for any
`u`, `v`, which is the index `apply_exact` gathers from in every lane. -/
theorem texel_index_in_bounds (LogWidth LogHeight : Nat) (hW : 2 ≤ LogWidth) :
    (∀ u v : Nat, u &&& tile_umask LogHeight (2 ^ LogWidth - 1) = u →
      v &&& tile_vmask (2 ^ LogHeight - 1) = v →
      tiled_offset u v < 2 ^ LogWidth * 2 ^ LogHeight) ∧
    (∀ u v : Nat, packed_offset LogWidth LogHeight u v < 2 ^ LogWidth * 2 ^ LogHeight) ∧
    (∀ (F : Type) (P : Prims F) (R : TileRasterizer F) (st : ExactRow F) (i : Nat),
      R.t0.LogWidth = LogWidth → R.t0.LogHeight = LogHeight →
      exact_p_offset P R st i < 2 ^ LogWidth * 2 ^ LogHeight) := by
  refine ⟨?_, ?_, ?_⟩
  · intro u v hu hv
    have h1 : u ≤ tile_umask LogHeight (2 ^ LogWidth - 1) := by
      rw [← hu]
      exact Nat.and_le_right
    have h2 : v ≤ tile_vmask (2 ^ LogHeight - 1) := by
      rw [← hv]
      exact Nat.and_le_right
    exact tiled_offset_lt LogWidth LogHeight u v hW h1 h2
  · intro u v
    exact packed_offset_lt LogWidth LogHeight u v hW
  · intro F P R st i h1 h2
    unfold exact_p_offset
    rw [h1, h2]
    exact packed_offset_lt LogWidth LogHeight _ _ hW

/-- Claim C8, instance: the 4x2 texture; every index is below 8. -/
theorem texel_index_in_bounds_witness :
    (∀ u v : Nat, u &&& tile_umask 1 (2 ^ 2 - 1) = u → v &&& tile_vmask (2 ^ 1 - 1) = v →
      tiled_offset u v < 2 ^ 2 * 2 ^ 1) ∧
    (∀ u v : Nat, packed_offset 2 1 u v < 2 ^ 2 * 2 ^ 1) ∧
    (∀ (F : Type) (P : Prims F) (R : TileRasterizer F) (st : ExactRow F) (i : Nat),
      R.t0.LogWidth = 2 → R.t0.LogHeight = 1 → exact_p_offset P R st i < 2 ^ 2 * 2 ^ 1) :=
  texel_index_in_bounds 2 1 (by decide)

/-- Claim C8, counterexample: the 1x1 texture (`LogWidth = LogHeight = 0`,
`W * H = 1`).  The swizzled coordinate `u = tile_u(1 << 11, 0, 0) = 0x1000` is
under `tile_umask(0, 0) = 0x37ff` and gives, with `v = 0`, the index 1 in the
approximate kernel; the exact kernel reads index 1 for `u = 1`, `v = 0`. -/
theorem texel_index_counterexample :
    tile_u (1 <<< 11) 0 (2 ^ 0 - 1) = 0x1000 ∧
    0x1000 &&& tile_umask 0 (2 ^ 0 - 1) = 0x1000 ∧
    0 &&& tile_vmask (2 ^ 0 - 1) = 0 ∧
    tiled_offset 0x1000 0 = 1 ∧
    packed_offset 0 0 1 0 = 1 ∧
    ¬ (1 < 2 ^ 0 * 2 ^ 0) := by
  decide

theorem handed_tiles_grid {F : Type} (P : Prims F) (R : TileRasterizer F)
    (v1 v2 v3 : Vertex F) (t : Tile F) (ht : t ∈ handed_tiles P R v1 v2 v3) :
    ∃ r c : Nat, tile_my R v1 v2 v3 + r ≤ tile_My R v1 v2 v3 ∧
      tile_mx R v1 v2 v3 + c ≤ tile_Mx R v1 v2 v3 ∧
      t.x = tile_mx R v1 v2 v3 + c ∧ t.y = tile_my R v1 v2 v3 + r := by
  unfold handed_tiles rasterize_triangle at ht
  simp only [] at ht
  rw [mem_tile_rows P R v1 _ _ _ t _ _ _ _ _ [] (orient2d_i32 _ _ _ _ _ _)
    (orient2d_i32 _ _ _ _ _ _) (orient2d_i32 _ _ _ _ _ _)] at ht
  rcases ht with h | ⟨r, c, hr, hc, -, ht⟩
  · exact absurd h (List.not_mem_nil _)
  · refine ⟨r, c, ?_, ?_, ?_, ?_⟩
    · unfold tile_my tile_My
      omega
    · unfold tile_mx tile_Mx
      omega
    · rw [ht]
      rfl
    · rw [ht]
      rfl

theorem clamped_range (res m : Int) (h0 : 0 < res) (h1 : res < 2 ^ 31) :
    0 ≤ Int.tdiv (min (max m 0) (i32 (res - 1))) TILE_SIZE ∧
      Int.tdiv (min (max m 0) (i32 (res - 1))) TILE_SIZE ≤ (res - 1) / 8 := by
  have e1 : i32 (res - 1) = res - 1 := i32_of_range (by omega) (by omega)
  have h2 : 0 ≤ min (max m 0) (res - 1) := by omega
  rw [e1]
  unfold TILE_SIZE
  rw [Int.tdiv_eq_ediv h2 (by decide)]
  omega

theorem tile_columns_append {F : Type} (P : Prims F) (R : TileRasterizer F) (v1 : Vertex F)
    (d : EdgeSteps) (y : Int) (n : Nat) :
    ∀ (x a0 b0 c0 : Int) (l : List (Tile F)),
      tile_columns P R (fun t l => l ++ [t]) v1 d y n x a0 b0 c0 l =
        l ++ tile_columns P R (fun t l => l ++ [t]) v1 d y n x a0 b0 c0 [] := by
  induction n with
  | zero =>
    intro x a0 b0 c0 l
    simp [tile_columns]
  | succ n ih =>
    intro x a0 b0 c0 l
    conv_lhs => rw [tile_columns, ih]
    conv_rhs => rw [tile_columns, ih _ _ _ _ (tile_visit _ _ _ _ _ _ _ _ _ _ [])]
    unfold tile_visit
    by_cases h : edge_test (tile_max a0 d.dadx d.dady) (tile_max b0 d.dbdx d.dbdy)
        (tile_max c0 d.dcdx d.dcdy) = true
    · simp only [h, if_true, List.nil_append, List.append_assoc]
    · simp only [h, if_false, List.nil_append, List.append_assoc, Bool.false_eq_true]

theorem tile_columns_fold {F S : Type} (P : Prims F) (R : TileRasterizer F)
    (kernel : Tile F → S → S) (v1 : Vertex F) (d : EdgeSteps) (y : Int) (n : Nat) :
    ∀ (x a0 b0 c0 : Int) (s : S),
      tile_columns P R kernel v1 d y n x a0 b0 c0 s =
        List.foldl (fun s t => kernel t s) s
          (tile_columns P R (fun t l => l ++ [t]) v1 d y n x a0 b0 c0 []) := by
  induction n with
  | zero =>
    intro x a0 b0 c0 s
    simp [tile_columns]
  | succ n ih =>
    intro x a0 b0 c0 s
    conv_lhs => rw [tile_columns, ih]
    conv_rhs => rw [tile_columns, tile_columns_append, List.foldl_append]
    unfold tile_visit
    by_cases h : edge_test (tile_max a0 d.dadx d.dady) (tile_max b0 d.dbdx d.dbdy)
        (tile_max c0 d.dcdx d.dcdy) = true
    · simp only [h, if_true, List.nil_append, List.foldl_cons, List.foldl_nil]
    · simp only [h, if_false, List.foldl_nil, Bool.false_eq_true]

theorem tile_rows_append {F : Type} (P : Prims F) (R : TileRasterizer F) (v1 : Vertex F)
    (d : EdgeSteps) (mx : Int) (columns n : Nat) :
    ∀ (y a0 b0 c0 : Int) (l : List (Tile F)),
      tile_rows P R (fun t l => l ++ [t]) v1 d mx columns n y a0 b0 c0 l =
        l ++ tile_rows P R (fun t l => l ++ [t]) v1 d mx columns n y a0 b0 c0 [] := by
  induction n with
  | zero =>
    intro y a0 b0 c0 l
    simp [tile_rows]
  | succ n ih =>
    intro y a0 b0 c0 l
    conv_lhs => rw [tile_rows, ih, tile_columns_append, List.append_assoc]
    conv_rhs => rw [tile_rows, ih _ _ _ _ (tile_columns _ _ _ _ _ _ _ _ _ _ _ [])]

theorem tile_rows_fold {F S : Type} (P : Prims F) (R : TileRasterizer F)
    (kernel : Tile F → S → S) (v1 : Vertex F) (d : EdgeSteps) (mx : Int) (columns n : Nat) :
    ∀ (y a0 b0 c0 : Int) (s : S),
      tile_rows P R kernel v1 d mx columns n y a0 b0 c0 s =
        List.foldl (fun s t => kernel t s) s
          (tile_rows P R (fun t l => l ++ [t]) v1 d mx columns n y a0 b0 c0 []) := by
  induction n with
  | zero =>
    intro y a0 b0 c0 s
    simp [tile_rows]
  | succ n ih =>
    intro y a0 b0 c0 s
    conv_lhs => rw [tile_rows, ih, tile_columns_fold]
    conv_rhs => rw [tile_rows, tile_rows_append, List.foldl_append]

/-- Running `rasterize_triangle` with a kernel is running the kernel on the
tiles it hands over, in order. -/
theorem rasterize_triangle_fold {F S : Type} (P : Prims F) (R : TileRasterizer F)
    (kernel : Tile F → S → S) (v1 v2 v3 : Vertex F) (s : S) :
    rasterize_triangle P R kernel v1 v2 v3 s =
      List.foldl (fun s t => kernel t s) s (handed_tiles P R v1 v2 v3) := by
  unfold handed_tiles rasterize_triangle
  simp only []
  rw [tile_rows_fold]

theorem foldl_unchanged {F : Type} (kernel : Tile F → Surfaces → Surfaces) (X Y : Int)
    (l : List (Tile F)) :
    ∀ (s : Surfaces),
      (∀ t ∈ l, ∀ s' : Surfaces, (kernel t s').color X Y = s'.color X Y ∧
        (kernel t s').z X Y = s'.z X Y) →
      (List.foldl (fun s t => kernel t s) s l).color X Y = s.color X Y ∧
        (List.foldl (fun s t => kernel t s) s l).z X Y = s.z X Y := by
  induction l with
  | nil =>
    intro s _
    exact ⟨rfl, rfl⟩
  | cons t l ih =>
    intro s h
    rw [List.foldl_cons]
    have h1 := ih (kernel t s) (fun t' ht' => h t' (List.mem_cons_of_mem _ ht'))
    have h2 := h t (List.mem_cons_self _ _) s
    exact ⟨h1.1.trans h2.1, h1.2.trans h2.2⟩

/-- Claim C9: viewport clipping.  For all positive `xres`, `yres` that are
multiples of 8 (and fit an `int32_t`) and all vertex positions, every tile
`(x, y)` that `rasterize_triangle` hands to a kernel satisfies
`0 ≤ tile_mx ≤ x ≤ tile_Mx ≤ (xres - 1) / 8` and
`0 ≤ tile_my ≤ y ≤ tile_My ≤ (yres - 1) / 8`, so all 64 pixels of the tile lie
inside `[0, xres) x [0, yres)`; and a run of `rasterize_triangle` with either
kernel (`apply_exact`, `apply`) leaves the colour and the Z value of every
pixel outside that rectangle unchanged. -/
theorem viewport_clipping {F : Type} (P : Prims F) (R : TileRasterizer F)
    (v1 v2 v3 : Vertex F) (hx : 0 < R.xres) (hy : 0 < R.yres) (hx8 : R.xres % 8 = 0)
    (hy8 : R.yres % 8 = 0) (hxi : R.xres < 2 ^ 31) (hyi : R.yres < 2 ^ 31) :
    (∀ t ∈ handed_tiles P R v1 v2 v3,
      (0 ≤ tile_mx R v1 v2 v3 ∧ tile_mx R v1 v2 v3 ≤ t.x ∧ t.x ≤ tile_Mx R v1 v2 v3 ∧
        tile_Mx R v1 v2 v3 ≤ (R.xres - 1) / 8) ∧
      (0 ≤ tile_my R v1 v2 v3 ∧ tile_my R v1 v2 v3 ≤ t.y ∧ t.y ≤ tile_My R v1 v2 v3 ∧
        tile_My R v1 v2 v3 ≤ (R.yres - 1) / 8) ∧
      ∀ X Y : Int, t.contains X Y → 0 ≤ X ∧ X < R.xres ∧ 0 ≤ Y ∧ Y < R.yres) ∧
    (∀ (X Y : Int) (s : Surfaces), ¬ (0 ≤ X ∧ X < R.xres ∧ 0 ≤ Y ∧ Y < R.yres) →
      (∀ B : TBlendMode,
        (rasterize_triangle P R (apply_exact P R B) v1 v2 v3 s).color X Y = s.color X Y ∧
        (rasterize_triangle P R (apply_exact P R B) v1 v2 v3 s).z X Y = s.z X Y) ∧
      (∀ (I : TInterpolationType) (B : TBlendMode),
        (rasterize_triangle P R (apply P R I B) v1 v2 v3 s).color X Y = s.color X Y ∧
        (rasterize_triangle P R (apply P R I B) v1 v2 v3 s).z X Y = s.z X Y)) := by
  have key : ∀ t ∈ handed_tiles P R v1 v2 v3,
      (0 ≤ tile_mx R v1 v2 v3 ∧ tile_mx R v1 v2 v3 ≤ t.x ∧ t.x ≤ tile_Mx R v1 v2 v3 ∧
        tile_Mx R v1 v2 v3 ≤ (R.xres - 1) / 8) ∧
      (0 ≤ tile_my R v1 v2 v3 ∧ tile_my R v1 v2 v3 ≤ t.y ∧ t.y ≤ tile_My R v1 v2 v3 ∧
        tile_My R v1 v2 v3 ≤ (R.yres - 1) / 8) ∧
      ∀ X Y : Int, t.contains X Y → 0 ≤ X ∧ X < R.xres ∧ 0 ≤ Y ∧ Y < R.yres := by
    intro t ht
    obtain ⟨r, c, hr, hc, ex, ey⟩ := handed_tiles_grid P R v1 v2 v3 t ht
    have a1 := clamped_range R.xres (f2i (min (min v1.PX v2.PX) v3.PX)) hx hxi
    have a2 := clamped_range R.xres (f2i (max (max v1.PX v2.PX) v3.PX)) hx hxi
    have a3 := clamped_range R.yres (f2i (min (min v1.PY v2.PY) v3.PY)) hy hyi
    have a4 := clamped_range R.yres (f2i (max (max v1.PY v2.PY) v3.PY)) hy hyi
    have b1 : 0 ≤ tile_mx R v1 v2 v3 := a1.1
    have b2 : tile_Mx R v1 v2 v3 ≤ (R.xres - 1) / 8 := a2.2
    have b3 : 0 ≤ tile_my R v1 v2 v3 := a3.1
    have b4 : tile_My R v1 v2 v3 ≤ (R.yres - 1) / 8 := a4.2
    refine ⟨⟨b1, by omega, by omega, b2⟩, ⟨b3, by omega, by omega, b4⟩, ?_⟩
    intro X Y hXY
    unfold Tile.contains TILE_SIZE at hXY
    omega
  refine ⟨key, ?_⟩
  intro X Y s hout
  have hnot : ∀ t ∈ handed_tiles P R v1 v2 v3, ¬ t.contains X Y :=
    fun t ht hc => hout ((key t ht).2.2 X Y hc)
  constructor
  · intro B
    rw [rasterize_triangle_fold]
    apply foldl_unchanged
    intro t ht s'
    have h := apply_exact_at P R B t s' X Y
    rw [if_neg (hnot t ht)] at h
    exact ⟨(Prod.mk.inj h).1, (Prod.mk.inj h).2⟩
  · intro I B
    rw [rasterize_triangle_fold]
    apply foldl_unchanged
    intro t ht s'
    have h := apply_at P R I B t s' X Y
    rw [if_neg (hnot t ht), if_neg (hnot t ht)] at h
    exact h

theorem covered_exact_iff {F : Type} (P : Prims F) (R : TileRasterizer F)
    (v1 v2 v3 : Vertex F) (x1 y1 x2 y2 x3 y3 X Y : Int)
    (hT : IntegerTriangle R v1 v2 v3 x1 y1 x2 y2 x3 y3)
    (hdet : (x2 - x1) * (y3 - y1) - (y2 - y1) * (x3 - x1) ≠ 0)
    (hX : 0 ≤ X ∧ X < R.xres) (hY : 0 ≤ Y ∧ Y < R.yres) :
    (∃ t ∈ handed_tiles P R v1 v2 v3, exact_lets_through t X Y = true) ↔
      inside_triangle x1 y1 x2 y2 x3 y3 X Y := by
  have hT' := hT
  obtain ⟨⟨hxres, hyres⟩, -, ⟨hx1, hy1⟩, ⟨hx2, hy2⟩, ⟨hx3, hy3⟩⟩ := hT'
  apply covered_iff_inside P R v1 v2 v3 hT hdet X Y hX hY _ exact_lets_through_contains
  intro tmx tmy r c hmx hmy hc hr hin
  exact (grid_tile_lets_through P R TInterpolationType.AFFINE v1 (by omega) (by omega) (by omega)
    (by omega) (by omega) (by omega) hmx hmy r c hc hr X Y hin).1

theorem inside_s1_exchanged (X Y : Int) (hX : 0 ≤ X ∧ X < 16) (hY : 0 ≤ Y ∧ Y < 16) :
    inside_triangle 0 0 0 8 8 0 X Y ↔ X + Y ≤ 8 := by
  unfold inside_triangle
  rw [orient2d_nonneg_iff (vertexRange_of (by omega) (by omega))
      (vertexRange_of (by omega) (by omega)) (vertexRange_of (by omega) (by omega))
      (vertexRange_of (by omega) (by omega)) (pointRange_of (by omega) (by omega))
      (pointRange_of (by omega) (by omega)),
    orient2d_nonneg_iff (vertexRange_of (by omega) (by omega))
      (vertexRange_of (by omega) (by omega)) (vertexRange_of (by omega) (by omega))
      (vertexRange_of (by omega) (by omega)) (pointRange_of (by omega) (by omega))
      (pointRange_of (by omega) (by omega)),
    orient2d_nonneg_iff (vertexRange_of (by omega) (by omega))
      (vertexRange_of (by omega) (by omega)) (vertexRange_of (by omega) (by omega))
      (vertexRange_of (by omega) (by omega)) (pointRange_of (by omega) (by omega))
      (pointRange_of (by omega) (by omega))]
  unfold cross
  constructor <;> intro h <;> omega

theorem inside_s1_given (X Y : Int) (hX : 0 ≤ X ∧ X < 16) (hY : 0 ≤ Y ∧ Y < 16) :
    ¬ inside_triangle 0 0 8 0 0 8 X Y := by
  unfold inside_triangle
  rw [orient2d_nonneg_iff (vertexRange_of (by omega) (by omega))
      (vertexRange_of (by omega) (by omega)) (vertexRange_of (by omega) (by omega))
      (vertexRange_of (by omega) (by omega)) (pointRange_of (by omega) (by omega))
      (pointRange_of (by omega) (by omega)),
    orient2d_nonneg_iff (vertexRange_of (by omega) (by omega))
      (vertexRange_of (by omega) (by omega)) (vertexRange_of (by omega) (by omega))
      (vertexRange_of (by omega) (by omega)) (pointRange_of (by omega) (by omega))
      (pointRange_of (by omega) (by omega)),
    orient2d_nonneg_iff (vertexRange_of (by omega) (by omega))
      (vertexRange_of (by omega) (by omega)) (vertexRange_of (by omega) (by omega))
      (vertexRange_of (by omega) (by omega)) (pointRange_of (by omega) (by omega))
      (pointRange_of (by omega) (by omega))]
  unfold cross
  intro h
  omega

theorem apply_exact_white {F : Type} (P : Prims F) (R : TileRasterizer F) (B : TBlendMode)
    (t : Tile F) (s : Surfaces) (X Y : Int) (hw : ∀ i, R.t0.TextureAddr i = 0xffffff)
    (hpos : t.contains X Y → 0 < exact_candidate_at P R t X Y) (hs : white_or_empty s X Y) :
    white_or_empty (apply_exact P R B t s) X Y ∧
    (exact_lets_through t X Y = true → (apply_exact P R B t s).color X Y = 0xffffff) ∧
    (exact_lets_through t X Y = false →
      (apply_exact P R B t s).color X Y = s.color X Y ∧
        (apply_exact P R B t s).z X Y = s.z X Y) := by
  have h := apply_exact_at P R B t s X Y
  have htex : exact_texel_at P R t X Y = 0xffffff := hw _
  unfold white_or_empty at hs ⊢
  by_cases hin : t.contains X Y
  · rw [if_pos hin] at h
    unfold exact_fragment at h
    rw [htex] at h
    by_cases hl : exact_lets_through t X Y = true
    · rw [hl, Bool.true_and] at h
      by_cases hz : exact_candidate_at P R t X Y > s.z X Y
      · rw [decide_eq_true hz, if_pos rfl] at h
        have hc := (Prod.mk.inj h).1
        exact ⟨Or.inl hc, fun _ => hc, fun h2 => absurd hl (by rw [h2]; decide)⟩
      · rw [decide_eq_false hz, if_neg (by decide)] at h
        have hc := (Prod.mk.inj h).1
        have hzz := (Prod.mk.inj h).2
        have hwhite : s.color X Y = 0xffffff := by
          rcases hs with hs | ⟨-, hs⟩
          · exact hs
          · have := hpos hin
            omega
        exact ⟨Or.inl (hc.trans hwhite), fun _ => hc.trans hwhite,
          fun h2 => absurd hl (by rw [h2]; decide)⟩
    · have hl2 : exact_lets_through t X Y = false := by
        cases hb : exact_lets_through t X Y
        · rfl
        · exact absurd hb hl
      rw [hl2, Bool.false_and, if_neg (by decide)] at h
      have hc := (Prod.mk.inj h).1
      have hzz := (Prod.mk.inj h).2
      refine ⟨?_, fun h2 => absurd h2 hl, fun _ => ⟨hc, hzz⟩⟩
      rw [hc, hzz]
      exact hs
  · rw [if_neg hin] at h
    have hc := (Prod.mk.inj h).1
    have hzz := (Prod.mk.inj h).2
    have hl2 : exact_lets_through t X Y = false := by
      cases hb : exact_lets_through t X Y
      · rfl
      · exact absurd (exact_lets_through_contains t X Y hb) hin
    refine ⟨?_, fun h2 => absurd h2 (by rw [hl2]; decide), fun _ => ⟨hc, hzz⟩⟩
    rw [hc, hzz]
    exact hs

theorem foldl_white {F : Type} (P : Prims F) (R : TileRasterizer F) (B : TBlendMode)
    (X Y : Int) (hw : ∀ i, R.t0.TextureAddr i = 0xffffff) (l : List (Tile F)) :
    ∀ (s : Surfaces), white_or_empty s X Y →
      (∀ t ∈ l, t.contains X Y → 0 < exact_candidate_at P R t X Y) →
      white_or_empty (List.foldl (fun s t => apply_exact P R B t s) s l) X Y ∧
      ((∃ t ∈ l, exact_lets_through t X Y = true) →
        (List.foldl (fun s t => apply_exact P R B t s) s l).color X Y = 0xffffff) ∧
      ((¬ ∃ t ∈ l, exact_lets_through t X Y = true) →
        (List.foldl (fun s t => apply_exact P R B t s) s l).color X Y = s.color X Y) := by
  induction l with
  | nil =>
    intro s hs _
    refine ⟨hs, ?_, fun _ => rfl⟩
    rintro ⟨t, ht, -⟩
    exact absurd ht (List.not_mem_nil _)
  | cons t l ih =>
    intro s hs hpos
    rw [List.foldl_cons]
    obtain ⟨a1, a2, a3⟩ := apply_exact_white P R B t s X Y hw
      (hpos t (List.mem_cons_self _ _)) hs
    obtain ⟨b1, b2, b3⟩ := ih (apply_exact P R B t s) a1
      (fun t' ht' => hpos t' (List.mem_cons_of_mem _ ht'))
    refine ⟨b1, ?_, ?_⟩
    · rintro ⟨t', ht', hl'⟩
      by_cases hex : ∃ t ∈ l, exact_lets_through t X Y = true
      · exact b2 hex
      · rw [b3 hex]
        rcases List.mem_cons.mp ht' with h | h
        · rw [h] at hl'
          exact a2 hl'
        · exact absurd ⟨t', h, hl'⟩ hex
    · intro hno
      have hex : ¬ ∃ t ∈ l, exact_lets_through t X Y = true :=
        fun ⟨t', ht', hl'⟩ => hno ⟨t', List.mem_cons_of_mem _ ht', hl'⟩
      have hl2 : exact_lets_through t X Y = false := by
        cases hb : exact_lets_through t X Y
        · rfl
        · exact absurd ⟨t, List.mem_cons_self _ _, hb⟩ hno
      rw [b3 hex]
      exact (a3 hl2).1

theorem apply_exact_not_through {F : Type} (P : Prims F) (R : TileRasterizer F) (B : TBlendMode)
    (t : Tile F) (s : Surfaces) (X Y : Int) (hl : exact_lets_through t X Y = false) :
    (apply_exact P R B t s).color X Y = s.color X Y ∧
      (apply_exact P R B t s).z X Y = s.z X Y := by
  have h := apply_exact_at P R B t s X Y
  by_cases hin : t.contains X Y
  · rw [if_pos hin] at h
    unfold exact_fragment at h
    rw [hl, Bool.false_and, if_neg (by decide)] at h
    exact ⟨(Prod.mk.inj h).1, (Prod.mk.inj h).2⟩
  · rw [if_neg hin] at h
    exact ⟨(Prod.mk.inj h).1, (Prod.mk.inj h).2⟩

theorem rasterize_not_covered {F : Type} (P : Prims F) (R : TileRasterizer F) (B : TBlendMode)
    (v1 v2 v3 : Vertex F) (s : Surfaces) (X Y : Int)
    (h : ¬ ∃ t ∈ handed_tiles P R v1 v2 v3, exact_lets_through t X Y = true) :
    (rasterize_triangle P R (apply_exact P R B) v1 v2 v3 s).color X Y = s.color X Y ∧
      (rasterize_triangle P R (apply_exact P R B) v1 v2 v3 s).z X Y = s.z X Y := by
  rw [rasterize_triangle_fold]
  apply foldl_unchanged
  intro t ht s'
  apply apply_exact_not_through
  cases hb : exact_lets_through t X Y
  · rfl
  · exact absurd ⟨t, ht, hb⟩ h

theorem rasterize_white {F : Type} (P : Prims F) (R : TileRasterizer F) (B : TBlendMode)
    (v1 v2 v3 : Vertex F) (X Y : Int) (hw : ∀ i, R.t0.TextureAddr i = 0xffffff)
    (hpos : ∀ t ∈ handed_tiles P R v1 v2 v3, t.contains X Y →
      0 < exact_candidate_at P R t X Y)
    (h : ∃ t ∈ handed_tiles P R v1 v2 v3, exact_lets_through t X Y = true) :
    (rasterize_triangle P R (apply_exact P R B) v1 v2 v3 emptySurfaces).color X Y =
      0xffffff := by
  rw [rasterize_triangle_fold]
  exact (foldl_white P R B X Y hw _ emptySurfaces (Or.inr ⟨rfl, rfl⟩) hpos).2.1 h

theorem integerTriangle_exchange {F : Type} {R : TileRasterizer F} {v1 v2 v3 : Vertex F}
    {x1 y1 x2 y2 x3 y3 : Int} (hT : IntegerTriangle R v1 v2 v3 x1 y1 x2 y2 x3 y3) :
    IntegerTriangle R v1 v3 v2 x1 y1 x3 y3 x2 y2 := by
  obtain ⟨hres, ⟨h1x, h1y, h2x, h2y, h3x, h3y⟩, hv1, hv2, hv3⟩ := hT
  exact ⟨hres, ⟨h1x, h1y, h3x, h3y, h2x, h2y⟩, hv1, hv3, hv2⟩

/-- Claim C10, amended: scenario S1 on a 16 x 16 viewport with a solid white
texture and empty colour and Z surfaces.  In the vertex order of S1,
`v1 = (0,0)`, `v2 = (8,0)`, `v3 = (0,8)`, the triangle is wound against the edge
functions: no pixel passes the edge test and the exact kernel leaves every pixel
of the viewport at its initial colour 0.  With `v2` and `v3` exchanged the
pixels that pass the edge test are those with `X + Y ≤ 8`, which are 45 pixels
(the edge test is inclusive and sampled at the integer coordinates of the
pixel); the exact kernel writes each of them white and no other pixel of the
viewport, provided the depth candidates are positive. -/
theorem scenario_s1 {F : Type} (P : Prims F) (R : TileRasterizer F) (B : TBlendMode)
    (v1 v2 v3 : Vertex F) (hx : R.xres = 16) (hy : R.yres = 16)
    (hw : ∀ i, R.t0.TextureAddr i = 0xffffff)
    (hT : IntegerTriangle R v1 v2 v3 0 0 8 0 0 8) :
    (∀ X Y : Int, 0 ≤ X ∧ X < 16 → 0 ≤ Y ∧ Y < 16 →
      (¬ ∃ t ∈ handed_tiles P R v1 v2 v3, exact_lets_through t X Y = true) ∧
      (rasterize_triangle P R (apply_exact P R B) v1 v2 v3 emptySurfaces).color X Y = 0) ∧
    covered_count 0 0 8 0 0 8 = 0 ∧
    (∀ X Y : Int, 0 ≤ X ∧ X < 16 → 0 ≤ Y ∧ Y < 16 →
      ((∃ t ∈ handed_tiles P R v1 v3 v2, exact_lets_through t X Y = true) ↔ X + Y ≤ 8)) ∧
    covered_count 0 0 0 8 8 0 = 45 ∧
    ((∀ t ∈ handed_tiles P R v1 v3 v2, ∀ X Y : Int, t.contains X Y →
        0 < exact_candidate_at P R t X Y) →
      ∀ X Y : Int, 0 ≤ X ∧ X < 16 → 0 ≤ Y ∧ Y < 16 →
        (rasterize_triangle P R (apply_exact P R B) v1 v3 v2 emptySurfaces).color X Y =
          if X + Y ≤ 8 then 0xffffff else 0) := by
  have hT2 := integerTriangle_exchange hT
  have given : ∀ X Y : Int, 0 ≤ X ∧ X < 16 → 0 ≤ Y ∧ Y < 16 →
      ¬ ∃ t ∈ handed_tiles P R v1 v2 v3, exact_lets_through t X Y = true := by
    intro X Y hX hY
    rw [covered_exact_iff P R v1 v2 v3 0 0 8 0 0 8 X Y hT (by decide) (by rw [hx]; exact hX)
      (by rw [hy]; exact hY)]
    exact inside_s1_given X Y hX hY
  have exch : ∀ X Y : Int, 0 ≤ X ∧ X < 16 → 0 ≤ Y ∧ Y < 16 →
      ((∃ t ∈ handed_tiles P R v1 v3 v2, exact_lets_through t X Y = true) ↔ X + Y ≤ 8) := by
    intro X Y hX hY
    rw [covered_exact_iff P R v1 v3 v2 0 0 0 8 8 0 X Y hT2 (by decide) (by rw [hx]; exact hX)
      (by rw [hy]; exact hY)]
    exact inside_s1_exchanged X Y hX hY
  refine ⟨fun X Y hX hY => ⟨given X Y hX hY, ?_⟩, by decide, exch, by decide, ?_⟩
  · exact (rasterize_not_covered P R B v1 v2 v3 emptySurfaces X Y (given X Y hX hY)).1
  · intro hpos X Y hX hY
    by_cases h : X + Y ≤ 8
    · rw [if_pos h]
      exact rasterize_white P R B v1 v3 v2 X Y hw (fun t ht hc => hpos t ht X Y hc)
        ((exch X Y hX hY).mpr h)
    · rw [if_neg h]
      exact (rasterize_not_covered P R B v1 v3 v2 emptySurfaces X Y
        (fun hc => h ((exch X Y hX hY).mp hc))).1

/-- Claim C10, instance: the scenario over the one-point carrier, where every
depth candidate is `0xFF80`.  Pixel `(1, 1)` is not covered in the order of S1;
with `v2` and `v3` exchanged it is covered and written white, and pixel `(5, 5)`
stays 0. -/
theorem scenario_s1_witness :
    (¬ ∃ t ∈ handed_tiles unitPrims (unitRasterizer 16 16 0xffffff) (intVertex 0 0)
        (intVertex 8 0) (intVertex 0 8), exact_lets_through t 1 1 = true) ∧
    (∃ t ∈ handed_tiles unitPrims (unitRasterizer 16 16 0xffffff) (intVertex 0 0)
        (intVertex 0 8) (intVertex 8 0), exact_lets_through t 1 1 = true) ∧
    (rasterize_triangle unitPrims (unitRasterizer 16 16 0xffffff)
      (apply_exact unitPrims (unitRasterizer 16 16 0xffffff) TBlendMode.OVERWRITE)
      (intVertex 0 0) (intVertex 0 8) (intVertex 8 0) emptySurfaces).color 1 1 = 0xffffff ∧
    (rasterize_triangle unitPrims (unitRasterizer 16 16 0xffffff)
      (apply_exact unitPrims (unitRasterizer 16 16 0xffffff) TBlendMode.OVERWRITE)
      (intVertex 0 0) (intVertex 0 8) (intVertex 8 0) emptySurfaces).color 5 5 = 0 := by
  have h := scenario_s1 unitPrims (unitRasterizer 16 16 0xffffff) TBlendMode.OVERWRITE
    (intVertex 0 0) (intVertex 8 0) (intVertex 0 8) rfl rfl (fun _ => rfl)
    (integerTriangle_16 0 0 8 0 0 8 (by decide) 0xffffff)
  obtain ⟨h1, -, h3, -, h5⟩ := h
  have hpos : ∀ t ∈ handed_tiles unitPrims (unitRasterizer 16 16 0xffffff) (intVertex 0 0)
      (intVertex 0 8) (intVertex 8 0), ∀ X Y : Int, t.contains X Y →
      0 < exact_candidate_at unitPrims (unitRasterizer 16 16 0xffffff) t X Y := by
    intro t _ X Y _
    show 0 < u32 (0xFF80 + 2 ^ 32 - bits32 0)
    decide
  refine ⟨(h1 1 1 (by decide) (by decide)).1, (h3 1 1 (by decide) (by decide)).mpr (by decide),
    ?_, ?_⟩
  · exact (h5 hpos 1 1 (by decide) (by decide)).trans (if_pos (by decide))
  · exact (h5 hpos 5 5 (by decide) (by decide)).trans (if_neg (by decide))

/-- Claim C10, counterexample: scenario S1 as given, `v1 = (0,0)`, `v2 = (8,0)`,
`v3 = (0,8)`, on a 16 x 16 viewport.  Pixel `(1, 1)`, inside the triangle, does
not pass the edge test (the first edge function is `-2048` there) and
keeps the colour 0 under the exact kernel with a white texture; no pixel of the
viewport passes, so 0 pixels are covered, not 36. -/
theorem scenario_s1_counterexample :
    orient2d (256 * 8) (256 * 0) (256 * 0) (256 * 0) (256 * 1) (256 * 1) = -(8 * 256) ∧
    (¬ ∃ t ∈ handed_tiles unitPrims (unitRasterizer 16 16 0xffffff) (intVertex 0 0)
        (intVertex 8 0) (intVertex 0 8), exact_lets_through t 1 1 = true) ∧
    (rasterize_triangle unitPrims (unitRasterizer 16 16 0xffffff)
      (apply_exact unitPrims (unitRasterizer 16 16 0xffffff) TBlendMode.OVERWRITE)
      (intVertex 0 0) (intVertex 8 0) (intVertex 0 8) emptySurfaces).color 1 1 = 0 ∧
    covered_count 0 0 8 0 0 8 = 0 ∧ covered_count 0 0 8 0 0 8 ≠ 36 := by
  have hno : ¬ ∃ t ∈ handed_tiles unitPrims (unitRasterizer 16 16 0xffffff) (intVertex 0 0)
      (intVertex 8 0) (intVertex 0 8), exact_lets_through t 1 1 = true := by
    rw [covered_exact_iff unitPrims (unitRasterizer 16 16 0xffffff) (intVertex 0 0)
      (intVertex 8 0) (intVertex 0 8) 0 0 8 0 0 8 1 1
      (integerTriangle_16 0 0 8 0 0 8 (by decide) 0xffffff) (by decide) (by decide) (by decide)]
    exact inside_s1_given 1 1 (by decide) (by decide)
  exact ⟨by decide, hno,
    (rasterize_not_covered unitPrims (unitRasterizer 16 16 0xffffff) TBlendMode.OVERWRITE
      (intVertex 0 0) (intVertex 8 0) (intVertex 0 8) emptySurfaces 1 1 hno).1,
    by decide, by decide⟩

theorem orient2d_of_differences {ax ay bx by_ cx cy : Int}
    (h1 : -2 ^ 19 < bx - ax ∧ bx - ax < 2 ^ 19) (h2 : -2 ^ 19 < cy - ay ∧ cy - ay < 2 ^ 19)
    (h3 : -2 ^ 19 < by_ - ay ∧ by_ - ay < 2 ^ 19) (h4 : -2 ^ 19 < cx - ax ∧ cx - ax < 2 ^ 19) :
    orient2d ax ay bx by_ cx cy = cross ax ay bx by_ cx cy / 256 ∧
    (i32 (bx - ax) = bx - ax ∧ i32 (cy - ay) = cy - ay ∧ i32 (by_ - ay) = by_ - ay ∧
      i32 (cx - ax) = cx - ax) ∧
    (i64 ((bx - ax) * (cy - ay)) = (bx - ax) * (cy - ay) ∧
      i64 ((by_ - ay) * (cx - ax)) = (by_ - ay) * (cx - ax) ∧
      i64 (cross ax ay bx by_ cx cy) = cross ax ay bx by_ cx cy) ∧
    i32 (cross ax ay bx by_ cx cy / 256) = cross ax ay bx by_ cx cy / 256 := by
  have m1 := @mul_bound (bx - ax) (cy - ay) (2 ^ 19 - 1) (2 ^ 19 - 1) (by omega) (by omega)
    (by omega) (by omega)
  have m2 := @mul_bound (by_ - ay) (cx - ax) (2 ^ 19 - 1) (2 ^ 19 - 1) (by omega) (by omega)
    (by omega) (by omega)
  norm_num at m1 m2
  have e1 : i32 (bx - ax) = bx - ax := i32_of_range (by omega) (by omega)
  have e2 : i32 (cy - ay) = cy - ay := i32_of_range (by omega) (by omega)
  have e3 : i32 (by_ - ay) = by_ - ay := i32_of_range (by omega) (by omega)
  have e4 : i32 (cx - ax) = cx - ax := i32_of_range (by omega) (by omega)
  have e5 : i64 ((bx - ax) * (cy - ay)) = (bx - ax) * (cy - ay) :=
    i64_of_range (by omega) (by omega)
  have e6 : i64 ((by_ - ay) * (cx - ax)) = (by_ - ay) * (cx - ax) :=
    i64_of_range (by omega) (by omega)
  have e7 : i64 (cross ax ay bx by_ cx cy) = cross ax ay bx by_ cx cy := by
    unfold cross
    exact i64_of_range (by omega) (by omega)
  have e8 : i32 (cross ax ay bx by_ cx cy / 256) = cross ax ay bx by_ cx cy / 256 := by
    unfold cross
    exact i32_of_range (by omega) (by omega)
  refine ⟨?_, ⟨e1, e2, e3, e4⟩, ⟨e5, e6, e7⟩, e8⟩
  unfold orient2d SUBPIXEL_BITS
  rw [e1, e2, e3, e4, e5, e6]
  have e9 : (bx - ax) * (cy - ay) - (by_ - ay) * (cx - ax) = cross ax ay bx by_ cx cy := rfl
  rw [e9, e7, Int.shiftRight_eq_div_pow]
  norm_num
  exact e8

/-- Claim C11, amended: `orient2d` is exact on sub-pixel coordinates of a
screen.  When all six coordinates lie in `[0, 2 ^ 19)` (sub-pixel positions on
a screen of up to 2048 pixels), or all six have absolute value below `2 ^ 18`,
`orient2d(ax, ay, bx, by, cx, cy)` equals
`floor(((bx-ax)*(cy-ay) - (by-ay)*(cx-ax)) / 256)` computed over the integers,
and nothing wraps: the four differences fit `int32_t`, the two products and
their difference fit `int64_t`, and the shifted result fits `int32_t`. -/
theorem orient2d_exact (ax ay bx by_ cx cy : Int)
    (h : ((0 ≤ ax ∧ ax < 2 ^ 19) ∧ (0 ≤ ay ∧ ay < 2 ^ 19) ∧ (0 ≤ bx ∧ bx < 2 ^ 19) ∧
        (0 ≤ by_ ∧ by_ < 2 ^ 19) ∧ (0 ≤ cx ∧ cx < 2 ^ 19) ∧ (0 ≤ cy ∧ cy < 2 ^ 19)) ∨
      ((-2 ^ 18 < ax ∧ ax < 2 ^ 18) ∧ (-2 ^ 18 < ay ∧ ay < 2 ^ 18) ∧
        (-2 ^ 18 < bx ∧ bx < 2 ^ 18) ∧ (-2 ^ 18 < by_ ∧ by_ < 2 ^ 18) ∧
        (-2 ^ 18 < cx ∧ cx < 2 ^ 18) ∧ (-2 ^ 18 < cy ∧ cy < 2 ^ 18))) :
    orient2d ax ay bx by_ cx cy = ((bx - ax) * (cy - ay) - (by_ - ay) * (cx - ax)) / 256 ∧
    (i32 (bx - ax) = bx - ax ∧ i32 (cy - ay) = cy - ay ∧ i32 (by_ - ay) = by_ - ay ∧
      i32 (cx - ax) = cx - ax) ∧
    (i64 ((bx - ax) * (cy - ay)) = (bx - ax) * (cy - ay) ∧
      i64 ((by_ - ay) * (cx - ax)) = (by_ - ay) * (cx - ax) ∧
      i64 ((bx - ax) * (cy - ay) - (by_ - ay) * (cx - ax)) =
        (bx - ax) * (cy - ay) - (by_ - ay) * (cx - ax)) ∧
    i32 (((bx - ax) * (cy - ay) - (by_ - ay) * (cx - ax)) / 256) =
      ((bx - ax) * (cy - ay) - (by_ - ay) * (cx - ax)) / 256 := by
  rcases h with ⟨h1, h2, h3, h4, h5, h6⟩ | ⟨h1, h2, h3, h4, h5, h6⟩
  · exact orient2d_of_differences (by omega) (by omega) (by omega) (by omega)
  · exact orient2d_of_differences (by omega) (by omega) (by omega) (by omega)

/-- Claim C11, instance: the vertices `(256, 512)`, `(2304, 512)` and the point
`(1000, 2000)`, all on a screen. -/
theorem orient2d_exact_witness :
    orient2d 256 512 2304 512 1000 2000 =
      ((2304 - 256) * (2000 - 512) - (512 - 512) * (1000 - 256)) / 256 ∧
    (i32 (2304 - 256) = 2304 - 256 ∧ i32 (2000 - 512) = 2000 - 512 ∧
      i32 (512 - 512) = 512 - 512 ∧ i32 (1000 - 256) = 1000 - 256) ∧
    (i64 ((2304 - 256) * (2000 - 512)) = (2304 - 256) * (2000 - 512) ∧
      i64 ((512 - 512) * (1000 - 256)) = (512 - 512) * (1000 - 256) ∧
      i64 ((2304 - 256) * (2000 - 512) - (512 - 512) * (1000 - 256)) =
        (2304 - 256) * (2000 - 512) - (512 - 512) * (1000 - 256)) ∧
    i32 (((2304 - 256) * (2000 - 512) - (512 - 512) * (1000 - 256)) / 256) =
      ((2304 - 256) * (2000 - 512) - (512 - 512) * (1000 - 256)) / 256 :=
  orient2d_exact 256 512 2304 512 1000 2000 (Or.inl (by decide))

/-- Claim C11, counterexample: `a = (-(2^19-1), -(2^19-1))`,
`b = (2^19-1, -(2^19-1))`, `c = (2^19-1, 2^19-1)`, all of absolute value below
`2 ^ 19`.  The exact value `floor(cross / 256)` is `2^32 - 2^14`, which does not
fit `int32_t`; `orient2d` returns `-2^14`. -/
theorem orient2d_wrap_counterexample :
    ((2 : Int) ^ 19 - 1 < 2 ^ 19 ∧ -(2 : Int) ^ 19 < -(2 ^ 19 - 1)) ∧
    ((2 ^ 19 - 1 - -(2 ^ 19 - 1)) * (2 ^ 19 - 1 - -(2 ^ 19 - 1)) -
      (-(2 ^ 19 - 1) - -(2 ^ 19 - 1)) * (2 ^ 19 - 1 - -(2 ^ 19 - 1)) : Int) / 256 =
        2 ^ 32 - 2 ^ 14 ∧
    orient2d (-(2 ^ 19 - 1)) (-(2 ^ 19 - 1)) (2 ^ 19 - 1) (-(2 ^ 19 - 1)) (2 ^ 19 - 1)
      (2 ^ 19 - 1) = -2 ^ 14 := by
  decide

theorem step_le_max (i : Nat) (d : Int) (hi : i ≤ 8) : (i : Int) * d ≤ max 0 d * 8 := by
  have h0 : (0 : Int) ≤ (i : Int) := Int.natCast_nonneg i
  have h8 : (i : Int) ≤ 8 := by exact_mod_cast hi
  by_cases hd : 0 ≤ d
  · rw [max_eq_right hd]
    nlinarith
  · rw [max_eq_left (by omega)]
    nlinarith

theorem tile_max_value (a0 ddx ddy : Int)
    (h : -2 ^ 31 ≤ a0 + max 0 ddx * 8 + max 0 ddy * 8 ∧
      a0 + max 0 ddx * 8 + max 0 ddy * 8 < 2 ^ 31) :
    tile_max a0 ddx ddy = a0 + max 0 ddx * 8 + max 0 ddy * 8 := by
  unfold tile_max TILE_SIZE
  by_cases h1 : ddx > 0 <;> by_cases h2 : ddy > 0 <;>
    simp only [h1, h2, if_true, if_false, i32_add_left, i32_add_right, add_zero] <;>
    unfold i32 <;> omega

/-- Claim C13: the tile trivial reject is conservative.  For every tile with
origin edge values `a0`, `b0`, `c0` and increments `dadx`, ..., `dcdy` such that
`max_a = a0 + max(0, dadx) * 8 + max(0, dady) * 8`, `max_b` and `max_c` fit
`int32_t`: the code computes these three values, and if some pixel offset
`(i, j)` with `0 ≤ i, j < 8` has `a0 + i * dadx + j * dady ≥ 0`,
`b0 + i * dbdx + j * dbdy ≥ 0` and `c0 + i * dcdx + j * dcdy ≥ 0`, then
`(max_a | max_b | max_c) ≥ 0` and `rasterize_triangle` hands the tile to the
kernel. -/
theorem trivial_reject_conservative (a0 dadx dady b0 dbdx dbdy c0 dcdx dcdy : Int)
    (ha : MaxFits a0 dadx dady) (hb : MaxFits b0 dbdx dbdy) (hc : MaxFits c0 dcdx dcdy)
    (i j : Nat) (hi : i < 8) (hj : j < 8)
    (pa : 0 ≤ a0 + i * dadx + j * dady) (pb : 0 ≤ b0 + i * dbdx + j * dbdy)
    (pc : 0 ≤ c0 + i * dcdx + j * dcdy) :
    (tile_max a0 dadx dady = a0 + max 0 dadx * 8 + max 0 dady * 8 ∧
      tile_max b0 dbdx dbdy = b0 + max 0 dbdx * 8 + max 0 dbdy * 8 ∧
      tile_max c0 dcdx dcdy = c0 + max 0 dcdx * 8 + max 0 dcdy * 8) ∧
    edge_test (tile_max a0 dadx dady) (tile_max b0 dbdx dbdy) (tile_max c0 dcdx dcdy) = true ∧
    (∀ (F S : Type) (P : Prims F) (R : TileRasterizer F) (kernel : Tile F → S → S)
      (v1 : Vertex F) (x y : Int) (s : S),
      tile_visit P R kernel v1 ⟨dadx, dady, dbdx, dbdy, dcdx, dcdy⟩ x y a0 b0 c0 s =
        kernel (make_tile P R v1 ⟨dadx, dady, dbdx, dbdy, dcdx, dcdy⟩ x y a0 b0 c0) s) := by
  have ea := tile_max_value a0 dadx dady ha
  have eb := tile_max_value b0 dbdx dbdy hb
  have ec := tile_max_value c0 dcdx dcdy hc
  unfold MaxFits at ha hb hc
  have ia := step_le_max i dadx (by omega)
  have ja := step_le_max j dady (by omega)
  have ib := step_le_max i dbdx (by omega)
  have jb := step_le_max j dbdy (by omega)
  have ic := step_le_max i dcdx (by omega)
  have jc := step_le_max j dcdy (by omega)
  have ht : edge_test (tile_max a0 dadx dady) (tile_max b0 dbdx dbdy)
      (tile_max c0 dcdx dcdy) = true := by
    rw [edge_test_iff, ea, eb, ec, i32_of_range ha.1 ha.2, i32_of_range hb.1 hb.2,
      i32_of_range hc.1 hc.2]
    refine ⟨?_, ?_, ?_⟩ <;> omega
  refine ⟨⟨ea, eb, ec⟩, ht, ?_⟩
  intro F S P R kernel v1 x y s
  unfold tile_visit
  simp only [ht, if_true]

/-- Claim C13, instance: the tile with `a0 = -6`, `dadx = 1`, `dady = 0`,
`b0 = 0`, `c0 = 0` and zero other increments: the pixel offset `(7, 0)` is
covered and `max_a = 2`. -/
theorem trivial_reject_conservative_witness :
    (tile_max (-6) 1 0 = -6 + max 0 1 * 8 + max 0 0 * 8 ∧
      tile_max 0 0 0 = 0 + max 0 0 * 8 + max 0 0 * 8 ∧
      tile_max 0 0 0 = 0 + max 0 0 * 8 + max 0 0 * 8) ∧
    edge_test (tile_max (-6) 1 0) (tile_max 0 0 0) (tile_max 0 0 0) = true ∧
    (∀ (F S : Type) (P : Prims F) (R : TileRasterizer F) (kernel : Tile F → S → S)
      (v1 : Vertex F) (x y : Int) (s : S),
      tile_visit P R kernel v1 ⟨1, 0, 0, 0, 0, 0⟩ x y (-6) 0 0 s =
        kernel (make_tile P R v1 ⟨1, 0, 0, 0, 0, 0⟩ x y (-6) 0 0) s) :=
  trivial_reject_conservative (-6) 1 0 0 0 0 0 0 0 (by unfold MaxFits; decide)
    (by unfold MaxFits; decide) (by unfold MaxFits; decide) 7 0 (by decide) (by decide)
    (by decide) (by decide) (by decide)

theorem gather_lane_bounded (t : Nat → Nat) (n ind : Nat) (m : Bool) (h : m = true → ind < n) :
    gather_lane (bounded_table t n) ind m = some (if m = true then t ind else 0) := by
  unfold gather_lane bounded_table
  cases m with
  | false => simp
  | true => simp [h rfl]

/-- Claim C14: `gather` honours its mask.  For every index vector, table and
mask, lane `i` of `gather(index, table, mask)` is `table[index[i]]` when
`mask[i]` is set and 0 when it is clear.  On a table of `n` words, when the
index of every active lane is below `n` the result is defined and has these
lanes, whatever the indices of the inactive lanes are: changing them changes
nothing, and no read is made for them. -/
theorem gather_honours_mask (index : Nat → Nat) (t : Nat → Nat) (n : Nat)
    (mask : Nat → Bool) :
    (∀ i, gather index t mask i = if mask i = true then t (index i) else 0) ∧
    ((∀ i < 8, mask i = true → index i < n) →
      gather_checked index (bounded_table t n) mask =
        some ((List.range 8).map (gather index t mask))) ∧
    (∀ index' : Nat → Nat, (∀ i < 8, mask i = true → index' i = index i) →
      gather_checked index' (bounded_table t n) mask =
        gather_checked index (bounded_table t n) mask) ∧
    (∀ (table : Nat → Option Nat) (ind : Nat), gather_lane table ind false = some 0) := by
  refine ⟨fun i => rfl, ?_, ?_, fun _ _ => rfl⟩
  · intro h
    unfold gather_checked
    have hall : (List.range 8).all
        (fun i => (gather_lane (bounded_table t n) (index i) (mask i)).isSome) = true := by
      rw [List.all_eq_true]
      intro i hi
      rw [gather_lane_bounded t n (index i) (mask i) (h i (List.mem_range.mp hi))]
      rfl
    rw [if_pos hall]
    congr 1
    apply List.map_congr_left
    intro i hi
    rw [gather_lane_bounded t n (index i) (mask i) (h i (List.mem_range.mp hi))]
    rfl
  · intro index' h
    have hl : ∀ i ∈ List.range 8, gather_lane (bounded_table t n) (index' i) (mask i) =
        gather_lane (bounded_table t n) (index i) (mask i) := by
      intro i hi
      unfold gather_lane
      cases hm : mask i with
      | false => simp
      | true => simp [h i (List.mem_range.mp hi) hm]
    unfold gather_checked
    have hc : (List.range 8).all
        (fun i => (gather_lane (bounded_table t n) (index' i) (mask i)).isSome) =
        (List.range 8).all
          (fun i => (gather_lane (bounded_table t n) (index i) (mask i)).isSome) := by
      rw [Bool.eq_iff_iff, List.all_eq_true, List.all_eq_true]
      constructor
      · intro h1 i hi
        rw [← hl i hi]
        exact h1 i hi
      · intro h1 i hi
        rw [hl i hi]
        exact h1 i hi
    have hm : ((List.range 8).map fun i =>
        (gather_lane (bounded_table t n) (index' i) (mask i)).getD 0) =
        ((List.range 8).map fun i =>
          (gather_lane (bounded_table t n) (index i) (mask i)).getD 0) := by
      apply List.map_congr_left
      intro i hi
      rw [hl i hi]
    rw [hc, hm]

theorem apply_row_state_wrapped {F : Type} (P : Prims F) (R : TileRasterizer F)
    (su : ApplySetup) (IType : TInterpolationType) (tile : Tile F)
    (ha : i32 tile.a0 = tile.a0) (hb : i32 tile.b0 = tile.b0) (hc : i32 tile.c0 = tile.c0)
    (j : Nat) :
    i32 (apply_row_state P R su IType tile j).a0 = (apply_row_state P R su IType tile j).a0 ∧
    i32 (apply_row_state P R su IType tile j).b0 = (apply_row_state P R su IType tile j).b0 ∧
    i32 (apply_row_state P R su IType tile j).c0 = (apply_row_state P R su IType tile j).c0 := by
  cases j with
  | zero => exact ⟨ha, hb, hc⟩
  | succ j => exact ⟨i32_i32 _, i32_i32 _, i32_i32 _⟩

theorem apply_pixel_iter_wrapped {F : Type} (P : Prims F) (R : TileRasterizer F)
    (su : ApplySetup) (IType : TInterpolationType) (tile : Tile F) (rst : ApplyRow F)
    (ha : i32 rst.a0 = rst.a0) (hb : i32 rst.b0 = rst.b0) (hc : i32 rst.c0 = rst.c0)
    (i : Nat) :
    i32 (apply_pixel_iter P R su IType tile rst i).a = (apply_pixel_iter P R su IType tile rst i).a ∧
    i32 (apply_pixel_iter P R su IType tile rst i).b = (apply_pixel_iter P R su IType tile rst i).b ∧
    i32 (apply_pixel_iter P R su IType tile rst i).c =
      (apply_pixel_iter P R su IType tile rst i).c := by
  cases i with
  | zero => exact ⟨ha, hb, hc⟩
  | succ i => exact ⟨i32_i32 _, i32_i32 _, i32_i32 _⟩

/-- The edge values that `apply` tests at pixel `i` of row `j`, for a tile
whose origin values are `int32_t`. -/
theorem apply_pixel_state_values {F : Type} (P : Prims F) (R : TileRasterizer F)
    (IType : TInterpolationType) (tile : Tile F)
    (ha : i32 tile.a0 = tile.a0) (hb : i32 tile.b0 = tile.b0) (hc : i32 tile.c0 = tile.c0)
    (j i : Nat) :
    (apply_pixel_state P R IType tile j i).a = i32 (tile.a0 + i * tile.dadx + j * tile.dady) ∧
    (apply_pixel_state P R IType tile j i).b = i32 (tile.b0 + i * tile.dbdx + j * tile.dbdy) ∧
    (apply_pixel_state P R IType tile j i).c = i32 (tile.c0 + i * tile.dcdx + j * tile.dcdy) := by
  obtain ⟨ea, eb, ec⟩ := apply_pixel_state_edges P R IType tile j i
  obtain ⟨ra, rb, rc⟩ := apply_row_state_wrapped P R (apply_setup P R IType tile) IType tile
    ha hb hc j
  obtain ⟨wa, wb, wc⟩ := apply_pixel_iter_wrapped P R (apply_setup P R IType tile) IType tile
    (apply_row_state P R (apply_setup P R IType tile) IType tile j) ra rb rc i
  exact ⟨wa.symm.trans ea, wb.symm.trans eb, wc.symm.trans ec⟩

theorem subpixel_intCast {n : Int} (h0 : 0 ≤ n) (h1 : n < 2 ^ 22) :
    subpixel (n : ℚ) = 256 * n :=
  f2i_subpixel h0 h1

theorem subpixelTriangle_of_integer {F : Type} {R : TileRasterizer F} {v1 v2 v3 : Vertex F}
    {x1 y1 x2 y2 x3 y3 : Int} (hT : IntegerTriangle R v1 v2 v3 x1 y1 x2 y2 x3 y3) :
    SubpixelTriangle R v1 v2 v3 := by
  obtain ⟨⟨hxres, hyres⟩, ⟨h1x, h1y, h2x, h2y, h3x, h3y⟩, ⟨hx1, hy1⟩, ⟨hx2, hy2⟩, ⟨hx3, hy3⟩⟩ := hT
  refine ⟨⟨by omega, hxres⟩, ⟨by omega, hyres⟩, ?_, ?_, ?_, ?_, ?_, ?_⟩
  · rw [h1x, subpixel_intCast hx1.1 (by omega)]
    exact vertexRange_of hx1.1 (by omega)
  · rw [h1y, subpixel_intCast hy1.1 (by omega)]
    exact vertexRange_of hy1.1 (by omega)
  · rw [h2x, subpixel_intCast hx2.1 (by omega)]
    exact vertexRange_of hx2.1 (by omega)
  · rw [h2y, subpixel_intCast hy2.1 (by omega)]
    exact vertexRange_of hy2.1 (by omega)
  · rw [h3x, subpixel_intCast hx3.1 (by omega)]
    exact vertexRange_of hx3.1 (by omega)
  · rw [h3y, subpixel_intCast hy3.1 (by omega)]
    exact vertexRange_of hy3.1 (by omega)

/-- The setup of `apply` swizzles the origin coordinates and the deltas named
by `apply_au` ... `apply_av01`; the per-row delta of `v` is swizzled with the
mask of `u`. -/
theorem apply_setup_coords {F : Type} (P : Prims F) (R : TileRasterizer F)
    (IType : TInterpolationType) (tile : Tile F) :
    (apply_setup P R IType tile).aut =
        tile_u (bits32 (apply_au P R tile)) R.t0.LogHeight (u32 ((1 <<< R.t0.LogWidth) - 1)) ∧
      (apply_setup P R IType tile).avt =
        tile_v (bits32 (apply_av P R tile)) (u32 ((1 <<< R.t0.LogHeight) - 1)) ∧
      (apply_setup P R IType tile).dux0 =
        tile_du (bits32 (apply_au10 P R tile)) R.t0.LogHeight
          (u32 ((1 <<< R.t0.LogWidth) - 1)) ∧
      (apply_setup P R IType tile).duy =
        tile_du (bits32 (apply_au01 P R tile)) R.t0.LogHeight
          (u32 ((1 <<< R.t0.LogWidth) - 1)) ∧
      (apply_setup P R IType tile).dvx0 =
        tile_dv (bits32 (apply_av10 P R tile)) (u32 ((1 <<< R.t0.LogHeight) - 1)) ∧
      (apply_setup P R IType tile).dvy =
        tile_dv (bits32 (apply_av01 P R tile)) (u32 ((1 <<< R.t0.LogWidth) - 1)) :=
  ⟨rfl, rfl, rfl, rfl, rfl, rfl⟩

theorem setup_mask (n : Nat) : u32 ((1 <<< n) - 1) = 2 ^ (min n 32) - 1 := by
  rw [Nat.one_shiftLeft, u32_pow_sub_one]

/-- One row step of `v` with the delta swizzled under the mask of a texture
that is at least as wide as high: the surplus integer bits of the delta are
masked off. -/
theorem tile_v_step_wide (x d logH logW : Nat) (h : logH ≤ logW) :
    u32 (tile_v x (2 ^ logH - 1) + tile_dv d (2 ^ logW - 1)) &&& tile_vmask (2 ^ logH - 1) =
      tile_v (x + d) (2 ^ logH - 1) := by
  rw [u32_and_of_lt _ _ (tile_vmask_lt _), tile_v_fields, tile_dv_fields, tile_v_fields,
    tile_vmask_fields]
  have ha : x % 2 ^ 11 < 2 ^ 11 := Nat.mod_lt _ (by norm_num)
  have hb : d % 2 ^ 11 < 2 ^ 11 := Nat.mod_lt _ (by norm_num)
  have hw : v_top_width logH ≤ v_top_width logW := by
    unfold v_top_width
    omega
  have hc := carry_stage 11 3 (x % 2 ^ 11) (d % 2 ^ 11) 0 ((x / 2 ^ 11) % 2 ^ v_top_width logH)
    ((d / 2 ^ 11) % 2 ^ v_top_width logW) (2 ^ v_top_width logH - 1) ha hb (by omega)
  simp only [Nat.add_zero] at hc
  have e1 : (x + d) / 2 ^ 11 = x / 2 ^ 11 + d / 2 ^ 11 + (x % 2 ^ 11 + d % 2 ^ 11) / 2 ^ 11 := by
    omega
  have e2 : (x + d) % 2 ^ 11 = (x % 2 ^ 11 + d % 2 ^ 11) % 2 ^ 11 := by omega
  have e3 : (d / 2 ^ 11) % 2 ^ v_top_width logW % 2 ^ v_top_width logH =
      (d / 2 ^ 11) % 2 ^ v_top_width logH := Nat.mod_mod_of_dvd _ (pow_dvd_pow 2 hw)
  have e4 := add_mod3 ((x / 2 ^ 11) % 2 ^ v_top_width logH)
    ((d / 2 ^ 11) % 2 ^ v_top_width logW) ((x % 2 ^ 11 + d % 2 ^ 11) / 2 ^ 11)
    (2 ^ v_top_width logH)
  rw [Nat.mod_mod, e3, add_mod3] at e4
  rw [hc, Nat.and_pow_two_sub_one_eq_mod, ← e4, e1, e2]

/-- The swizzled `u` at the start of row `j`, in both interpolation modes. -/
theorem apply_row_state_u {F : Type} (P : Prims F) (R : TileRasterizer F) (su : ApplySetup)
    (IType : TInterpolationType) (tile : Tile F) (x d vbits logW : Nat)
    (h0 : su.aut = tile_u x vbits (2 ^ logW - 1))
    (h1 : su.duy = tile_du d vbits (2 ^ logW - 1))
    (h2 : su.t0_umask_tiled = tile_umask vbits (2 ^ logW - 1)) (j : Nat) :
    (apply_row_state P R su IType tile j).u0 = tile_u (x + j * d) vbits (2 ^ logW - 1) := by
  induction j with
  | zero =>
    simp only [apply_row_state, apply_row_init, Nat.zero_mul, Nat.add_zero]
    exact h0
  | succ j ih =>
    simp only [apply_row_state, apply_row_next]
    rw [ih, h1, h2, tile_u_step]
    congr 1
    ring

/-- The swizzled `v` at the start of row `j`, in both interpolation modes,
when the per-row delta is swizzled under the mask of a texture at least as
wide as high. -/
theorem apply_row_state_v {F : Type} (P : Prims F) (R : TileRasterizer F) (su : ApplySetup)
    (IType : TInterpolationType) (tile : Tile F) (x d logH logW : Nat) (h : logH ≤ logW)
    (h0 : su.avt = tile_v x (2 ^ logH - 1))
    (h1 : su.dvy = tile_dv d (2 ^ logW - 1))
    (h2 : su.t0_vmask_tiled = tile_vmask (2 ^ logH - 1)) (j : Nat) :
    (apply_row_state P R su IType tile j).v0 = tile_v (x + j * d) (2 ^ logH - 1) := by
  induction j with
  | zero =>
    simp only [apply_row_state, apply_row_init, Nat.zero_mul, Nat.add_zero]
    exact h0
  | succ j ih =>
    simp only [apply_row_state, apply_row_next]
    rw [ih, h1, h2, tile_v_step_wide _ _ _ _ h]
    congr 1
    ring

/-- The swizzled `u` at pixel `i` of a row under AFFINE. -/
theorem apply_pixel_iter_u {F : Type} (P : Prims F) (R : TileRasterizer F) (su : ApplySetup)
    (tile : Tile F) (rst : ApplyRow F) (x d vbits logW : Nat)
    (h0 : rst.u0 = tile_u x vbits (2 ^ logW - 1))
    (h1 : su.dux0 = tile_du d vbits (2 ^ logW - 1))
    (h2 : su.t0_umask_tiled = tile_umask vbits (2 ^ logW - 1)) (i : Nat) :
    (apply_pixel_iter P R su TInterpolationType.AFFINE tile rst i).dux = su.dux0 ∧
    (apply_pixel_iter P R su TInterpolationType.AFFINE tile rst i).u =
      tile_u (x + i * d) vbits (2 ^ logW - 1) := by
  induction i with
  | zero =>
    simp only [apply_pixel_iter, apply_row_first, Nat.zero_mul, Nat.add_zero]
    exact ⟨trivial, h0⟩
  | succ i ih =>
    obtain ⟨d1, iu⟩ := ih
    have hq : decide (TInterpolationType.AFFINE = TInterpolationType.QUADRATIC) = false := by
      decide
    simp only [apply_pixel_iter, apply_pixel_next, hq, Bool.false_eq_true, if_false]
    rw [d1, iu, h1, h2, tile_u_step]
    refine ⟨rfl, ?_⟩
    congr 1
    ring

/-- The swizzled `v` at pixel `i` of a row under AFFINE. -/
theorem apply_pixel_iter_v {F : Type} (P : Prims F) (R : TileRasterizer F) (su : ApplySetup)
    (tile : Tile F) (rst : ApplyRow F) (y e logH : Nat)
    (k0 : rst.v0 = tile_v y (2 ^ logH - 1))
    (k1 : su.dvx0 = tile_dv e (2 ^ logH - 1))
    (k2 : su.t0_vmask_tiled = tile_vmask (2 ^ logH - 1)) (i : Nat) :
    (apply_pixel_iter P R su TInterpolationType.AFFINE tile rst i).dvx = su.dvx0 ∧
    (apply_pixel_iter P R su TInterpolationType.AFFINE tile rst i).v =
      tile_v (y + i * e) (2 ^ logH - 1) := by
  induction i with
  | zero =>
    simp only [apply_pixel_iter, apply_row_first, Nat.zero_mul, Nat.add_zero]
    exact ⟨trivial, k0⟩
  | succ i ih =>
    obtain ⟨d1, iv⟩ := ih
    have hq : decide (TInterpolationType.AFFINE = TInterpolationType.QUADRATIC) = false := by
      decide
    simp only [apply_pixel_iter, apply_pixel_next, hq, Bool.false_eq_true, if_false]
    rw [d1, iv, k1, k2, tile_v_step]
    refine ⟨rfl, ?_⟩
    congr 1
    ring

theorem bits32_lin (a b c : Int) (i j : Nat) :
    bits32 (a + i * b + j * c) = (bits32 a + j * bits32 c + i * bits32 b) % 2 ^ 32 := by
  rw [bits32_add_mul, bits32_add_mul, Nat.mod_add_mod]
  congr 1
  ring

/-- Under AFFINE the swizzled `u` of `apply` tracks the linear interpolant at
every pixel, for every texture; the swizzled `v`, and with it the texel index,
does when the texture is at least as wide as high. -/
theorem affine_texel_index_tracks {F : Type} (P : Prims F) (R : TileRasterizer F)
    (tile : Tile F) (i j : Nat) :
    (apply_pixel_state P R TInterpolationType.AFFINE tile j i).u =
      tile_u (bits32 (apply_au P R tile + (i : Int) * apply_au10 P R tile +
        (j : Int) * apply_au01 P R tile)) R.t0.LogHeight (u32 ((1 <<< R.t0.LogWidth) - 1)) ∧
    (R.t0.LogHeight ≤ R.t0.LogWidth →
      (apply_pixel_state P R TInterpolationType.AFFINE tile j i).v =
        tile_v (bits32 (apply_av P R tile + (i : Int) * apply_av10 P R tile +
          (j : Int) * apply_av01 P R tile)) (u32 ((1 <<< R.t0.LogHeight) - 1)) ∧
      tiled_offset (apply_pixel_state P R TInterpolationType.AFFINE tile j i).u
        (apply_pixel_state P R TInterpolationType.AFFINE tile j i).v =
        affine_offset P R tile i j) := by
  obtain ⟨s1, s2, s3, s4, s5, s6⟩ := apply_setup_coords P R TInterpolationType.AFFINE tile
  have m1 : (apply_setup P R TInterpolationType.AFFINE tile).t0_umask_tiled =
      tile_umask R.t0.LogHeight (u32 ((1 <<< R.t0.LogWidth) - 1)) := rfl
  have m2 : (apply_setup P R TInterpolationType.AFFINE tile).t0_vmask_tiled =
      tile_vmask (u32 ((1 <<< R.t0.LogHeight) - 1)) := rfl
  rw [setup_mask] at s1 s2 s3 s4 s5 s6 m1 m2
  have ru := apply_row_state_u P R _ TInterpolationType.AFFINE tile _ _ _ _ s1 s4 m1 j
  have pu := (apply_pixel_iter_u P R _ tile _ _ _ _ _ ru s3 m1 i).2
  have hu : (apply_pixel_state P R TInterpolationType.AFFINE tile j i).u =
      tile_u (bits32 (apply_au P R tile + (i : Int) * apply_au10 P R tile +
        (j : Int) * apply_au01 P R tile)) R.t0.LogHeight (u32 ((1 <<< R.t0.LogWidth) - 1)) := by
    unfold apply_pixel_state
    simp only
    rw [pu, setup_mask, bits32_lin, tile_u_mod]
  refine ⟨hu, ?_⟩
  intro hle
  have hle2 : min R.t0.LogHeight 32 ≤ min R.t0.LogWidth 32 := by omega
  have rv := apply_row_state_v P R _ TInterpolationType.AFFINE tile _ _ _ _ hle2 s2 s6 m2 j
  have pv := (apply_pixel_iter_v P R _ tile _ _ _ _ rv s5 m2 i).2
  have hv : (apply_pixel_state P R TInterpolationType.AFFINE tile j i).v =
      tile_v (bits32 (apply_av P R tile + (i : Int) * apply_av10 P R tile +
        (j : Int) * apply_av01 P R tile)) (u32 ((1 <<< R.t0.LogHeight) - 1)) := by
    unfold apply_pixel_state
    simp only
    rw [pv, setup_mask, bits32_lin, tile_v_mod]
  refine ⟨hv, ?_⟩
  rw [hu, hv]
  rfl

/-- Claim C16, failing input: under AFFINE the swizzled `u` of `apply` is
`tile_u(au + i*au10 + j*au01, LogHeight, umask)` at every pixel of every tile,
and when `LogHeight <= LogWidth` the swizzled `v` is
`tile_v(av + i*av10 + j*av01, vmask)` and the texel index is the claimed one.
On a 4 x 8 texture (`LogWidth = 2`, `LogHeight = 3`) and a tile with `av = 0`,
`av01 = -1` and every other coordinate and delta 0, AFFINE `apply` reads texel 12 at pixel `(0, 1)`, where the formula of the
claim gives texel 28: the per-row delta of `v` was swizzled with the mask of
`u`, so the integer bit of `v` above `LogWidth` is never set.  With the texture
`k ↦ k` and full light the colour stored at that pixel is `11`, the modulated
texel 12, where texel 28 would give `27`. -/
theorem affine_texel_index_divergence :
    (∀ (F : Type) (P : Prims F) (R : TileRasterizer F) (tile : Tile F) (i j : Nat),
      (apply_pixel_state P R TInterpolationType.AFFINE tile j i).u =
        tile_u (bits32 (apply_au P R tile + (i : Int) * apply_au10 P R tile +
          (j : Int) * apply_au01 P R tile)) R.t0.LogHeight (u32 ((1 <<< R.t0.LogWidth) - 1)) ∧
      (R.t0.LogHeight ≤ R.t0.LogWidth →
        (apply_pixel_state P R TInterpolationType.AFFINE tile j i).v =
          tile_v (bits32 (apply_av P R tile + (i : Int) * apply_av10 P R tile +
            (j : Int) * apply_av01 P R tile)) (u32 ((1 <<< R.t0.LogHeight) - 1)) ∧
        tiled_offset (apply_pixel_state P R TInterpolationType.AFFINE tile j i).u
          (apply_pixel_state P R TInterpolationType.AFFINE tile j i).v =
          affine_offset P R tile i j)) ∧
      apply_au dyadicPrims (texRasterizer 2 3 (fun k => k) 0 0 0 (-4) 0 0)
        (texTile 0 0 (255 * 2 ^ 16)) = 0 ∧
      apply_au10 dyadicPrims (texRasterizer 2 3 (fun k => k) 0 0 0 (-4) 0 0)
        (texTile 0 0 (255 * 2 ^ 16)) = 0 ∧
      apply_au01 dyadicPrims (texRasterizer 2 3 (fun k => k) 0 0 0 (-4) 0 0)
        (texTile 0 0 (255 * 2 ^ 16)) = 0 ∧
      apply_av dyadicPrims (texRasterizer 2 3 (fun k => k) 0 0 0 (-4) 0 0)
        (texTile 0 0 (255 * 2 ^ 16)) = 0 ∧
      apply_av10 dyadicPrims (texRasterizer 2 3 (fun k => k) 0 0 0 (-4) 0 0)
        (texTile 0 0 (255 * 2 ^ 16)) = 0 ∧
      apply_av01 dyadicPrims (texRasterizer 2 3 (fun k => k) 0 0 0 (-4) 0 0)
        (texTile 0 0 (255 * 2 ^ 16)) = -1 ∧
      tiled_offset
        (apply_pixel_state dyadicPrims (texRasterizer 2 3 (fun k => k) 0 0 0 (-4) 0 0)
          TInterpolationType.AFFINE (texTile 0 0 (255 * 2 ^ 16)) 1 0).u
        (apply_pixel_state dyadicPrims (texRasterizer 2 3 (fun k => k) 0 0 0 (-4) 0 0)
          TInterpolationType.AFFINE (texTile 0 0 (255 * 2 ^ 16)) 1 0).v = 12 ∧
      affine_offset dyadicPrims (texRasterizer 2 3 (fun k => k) 0 0 0 (-4) 0 0)
        (texTile 0 0 (255 * 2 ^ 16)) 0 1 = 28 ∧
      (apply dyadicPrims (texRasterizer 2 3 (fun k => k) 0 0 0 (-4) 0 0)
        TInterpolationType.AFFINE TBlendMode.OVERWRITE (texTile 0 0 (255 * 2 ^ 16))
        emptySurfaces).color 0 1 = 11 ∧
      modulate 28 (255 * 2 ^ 11) (255 * 2 ^ 11) (255 * 2 ^ 11) = 27 := by
  refine ⟨fun F P R tile i j => affine_texel_index_tracks P R tile i j, by decide, by decide,
    by decide, by decide, by decide, by decide, by decide, by decide, ?_, by decide⟩
  rw [(apply_at dyadicPrims (texRasterizer 2 3 (fun k => k) 0 0 0 (-4) 0 0)
    TInterpolationType.AFFINE TBlendMode.OVERWRITE (texTile 0 0 (255 * 2 ^ 16))
    emptySurfaces 0 1).1]
  decide

theorem tri_succ (i : Nat) : tri (i + 1) = tri i + (i + 1) := by
  unfold tri
  have e : (i + 1) * (i + 1 + 1) = i * (i + 1) + 2 * (i + 1) := by ring
  rw [e, Nat.add_mul_div_left _ _ (by decide : 0 < 2)]

theorem u32_modEq (n : Nat) : Nat.ModEq (2 ^ 32) (u32 n) n := by
  unfold u32
  exact Nat.mod_modEq n (2 ^ 32)

/-- The light values and the light deltas of `apply` at the start of row `j`,
modulo `2 ^ 32`. -/
theorem apply_row_state_light {F : Type} (P : Prims F) (R : TileRasterizer F) (su : ApplySetup)
    (IType : TInterpolationType) (tile : Tile F) (j : Nat) :
    (Nat.ModEq (2 ^ 32) (apply_row_state P R su IType tile j).r0_ (su.ar + j * su.dry) ∧
      Nat.ModEq (2 ^ 32) (apply_row_state P R su IType tile j).g0_ (su.ag + j * su.dgy) ∧
      Nat.ModEq (2 ^ 32) (apply_row_state P R su IType tile j).b0_ (su.ab + j * su.dby)) ∧
    (Nat.ModEq (2 ^ 32) (apply_row_state P R su IType tile j).ddrxy
        (j * second_order IType su.ar11) ∧
      Nat.ModEq (2 ^ 32) (apply_row_state P R su IType tile j).ddgxy
        (j * second_order IType su.ag11) ∧
      Nat.ModEq (2 ^ 32) (apply_row_state P R su IType tile j).ddbxy
        (j * second_order IType su.ab11)) := by
  induction j with
  | zero =>
    simp only [apply_row_state, apply_row_init, Nat.zero_mul, Nat.add_zero]
    exact ⟨⟨Nat.ModEq.refl _, Nat.ModEq.refl _, Nat.ModEq.refl _⟩,
      Nat.ModEq.refl _, Nat.ModEq.refl _, Nat.ModEq.refl _⟩
  | succ j ih =>
    obtain ⟨⟨h1, h2, h3⟩, h4, h5, h6⟩ := ih
    have step : ∀ x a d : Nat, Nat.ModEq (2 ^ 32) x (a + j * d) →
        Nat.ModEq (2 ^ 32) (u32 (x + d)) (a + (j + 1) * d) := by
      intro x a d h
      have e : a + (j + 1) * d = a + j * d + d := by ring
      rw [e]
      exact (u32_modEq _).trans (h.add_right d)
    have step2 : ∀ x a11, Nat.ModEq (2 ^ 32) x (j * second_order IType a11) →
        Nat.ModEq (2 ^ 32)
          (if decide (IType = TInterpolationType.QUADRATIC) = true then u32 (x + bits32 a11)
            else x)
          ((j + 1) * second_order IType a11) := by
      intro x a11 h
      unfold second_order at h ⊢
      by_cases hq : IType = TInterpolationType.QUADRATIC
      · simp only [hq, decide_True, if_true] at h ⊢
        have e : (j + 1) * bits32 a11 = j * bits32 a11 + bits32 a11 := by ring
        rw [e]
        exact (u32_modEq _).trans (h.add_right _)
      · simp only [hq, decide_False, if_false, Nat.mul_zero] at h ⊢
        exact h
    simp only [apply_row_state, apply_row_next]
    exact ⟨⟨step _ _ _ h1, step _ _ _ h2, step _ _ _ h3⟩,
      step2 _ _ h4, step2 _ _ h5, step2 _ _ h6⟩

/-- The light values and the light deltas of `apply` at pixel `i` of a row,
modulo `2 ^ 32`: under QUADRATIC the per-pixel delta grows by the row's
`ddrxy` at every pixel, so the value grows by a triangular multiple of it. -/
theorem apply_pixel_iter_light {F : Type} (P : Prims F) (R : TileRasterizer F)
    (su : ApplySetup) (IType : TInterpolationType) (tile : Tile F) (rst : ApplyRow F) (i : Nat) :
    (Nat.ModEq (2 ^ 32) (apply_pixel_iter P R su IType tile rst i).drx
        (su.drx0 + i * (if IType = TInterpolationType.QUADRATIC then rst.ddrxy else 0)) ∧
      Nat.ModEq (2 ^ 32) (apply_pixel_iter P R su IType tile rst i).dgx
        (su.dgx0 + i * (if IType = TInterpolationType.QUADRATIC then rst.ddgxy else 0)) ∧
      Nat.ModEq (2 ^ 32) (apply_pixel_iter P R su IType tile rst i).dbx
        (su.dbx0 + i * (if IType = TInterpolationType.QUADRATIC then rst.ddbxy else 0))) ∧
    (Nat.ModEq (2 ^ 32) (apply_pixel_iter P R su IType tile rst i).r_
        (rst.r0_ + i * su.drx0 +
          tri i * (if IType = TInterpolationType.QUADRATIC then rst.ddrxy else 0)) ∧
      Nat.ModEq (2 ^ 32) (apply_pixel_iter P R su IType tile rst i).g_
        (rst.g0_ + i * su.dgx0 +
          tri i * (if IType = TInterpolationType.QUADRATIC then rst.ddgxy else 0)) ∧
      Nat.ModEq (2 ^ 32) (apply_pixel_iter P R su IType tile rst i).b_
        (rst.b0_ + i * su.dbx0 +
          tri i * (if IType = TInterpolationType.QUADRATIC then rst.ddbxy else 0))) := by
  induction i with
  | zero =>
    have t0 : tri 0 = 0 := by decide
    simp only [apply_pixel_iter, apply_row_first, Nat.zero_mul, Nat.add_zero, t0]
    exact ⟨⟨Nat.ModEq.refl _, Nat.ModEq.refl _, Nat.ModEq.refl _⟩,
      Nat.ModEq.refl _, Nat.ModEq.refl _, Nat.ModEq.refl _⟩
  | succ i ih =>
    obtain ⟨⟨h1, h2, h3⟩, h4, h5, h6⟩ := ih
    have stepd : ∀ x d0 dd : Nat,
        Nat.ModEq (2 ^ 32) x
          (d0 + i * (if IType = TInterpolationType.QUADRATIC then dd else 0)) →
        Nat.ModEq (2 ^ 32)
          (if decide (IType = TInterpolationType.QUADRATIC) = true then u32 (x + dd) else x)
          (d0 + (i + 1) * (if IType = TInterpolationType.QUADRATIC then dd else 0)) := by
      intro x d0 dd h
      by_cases hq : IType = TInterpolationType.QUADRATIC
      · simp only [hq, decide_True, if_true] at h ⊢
        have e : d0 + (i + 1) * dd = d0 + i * dd + dd := by ring
        rw [e]
        exact (u32_modEq _).trans (h.add_right _)
      · simp only [hq, decide_False, if_false, Nat.mul_zero] at h ⊢
        exact h
    have stepv : ∀ x y r0 d0 dd : Nat,
        Nat.ModEq (2 ^ 32) x (r0 + i * d0 + tri i * dd) →
        Nat.ModEq (2 ^ 32) y (d0 + (i + 1) * dd) →
        Nat.ModEq (2 ^ 32) (u32 (x + y)) (r0 + (i + 1) * d0 + tri (i + 1) * dd) := by
      intro x y r0 d0 dd hx hy
      have e : r0 + (i + 1) * d0 + tri (i + 1) * dd =
          (r0 + i * d0 + tri i * dd) + (d0 + (i + 1) * dd) := by
        rw [tri_succ]; ring
      rw [e]
      exact (u32_modEq _).trans (hx.add hy)
    simp only [apply_pixel_iter, apply_pixel_next]
    exact ⟨⟨stepd _ _ _ h1, stepd _ _ _ h2, stepd _ _ _ h3⟩,
      stepv _ _ _ _ _ h4 (stepd _ _ _ h1), stepv _ _ _ _ _ h5 (stepd _ _ _ h2),
      stepv _ _ _ _ _ h6 (stepd _ _ _ h3)⟩

/-- The light values of `apply` stay below `2 ^ 32`. -/
theorem apply_pixel_state_light_lt {F : Type} (P : Prims F) (R : TileRasterizer F)
    (IType : TInterpolationType) (tile : Tile F) (j i : Nat) :
    (apply_pixel_state P R IType tile j i).r_ < 2 ^ 32 ∧
      (apply_pixel_state P R IType tile j i).g_ < 2 ^ 32 ∧
      (apply_pixel_state P R IType tile j i).b_ < 2 ^ 32 := by
  have hu : ∀ n, u32 n < 2 ^ 32 := fun n => Nat.mod_lt _ (Nat.two_pow_pos 32)
  unfold apply_pixel_state
  cases i with
  | zero =>
    cases j with
    | zero =>
      simp only [apply_pixel_iter, apply_row_first, apply_row_state, apply_row_init]
      exact ⟨hu _, hu _, hu _⟩
    | succ j =>
      simp only [apply_pixel_iter, apply_row_first, apply_row_state, apply_row_next]
      exact ⟨hu _, hu _, hu _⟩
  | succ i =>
    simp only [apply_pixel_iter, apply_pixel_next]
    exact ⟨hu _, hu _, hu _⟩

/-- The light values `apply` uses at pixel `(i, j)` of a tile, in both
interpolation modes: the second-order term enters with the factor
`j * (i * (i + 1) / 2)`. -/
theorem apply_pixel_state_light {F : Type} (P : Prims F) (R : TileRasterizer F)
    (IType : TInterpolationType) (tile : Tile F) (j i : Nat) :
    (apply_pixel_state P R IType tile j i).r_ =
        u32 ((apply_setup P R IType tile).ar + i * (apply_setup P R IType tile).drx0 +
          j * (apply_setup P R IType tile).dry +
          tri i * j * second_order IType (apply_setup P R IType tile).ar11) ∧
      (apply_pixel_state P R IType tile j i).g_ =
        u32 ((apply_setup P R IType tile).ag + i * (apply_setup P R IType tile).dgx0 +
          j * (apply_setup P R IType tile).dgy +
          tri i * j * second_order IType (apply_setup P R IType tile).ag11) ∧
      (apply_pixel_state P R IType tile j i).b_ =
        u32 ((apply_setup P R IType tile).ab + i * (apply_setup P R IType tile).dbx0 +
          j * (apply_setup P R IType tile).dby +
          tri i * j * second_order IType (apply_setup P R IType tile).ab11) := by
  obtain ⟨l1, l2, l3⟩ := apply_pixel_state_light_lt P R IType tile j i
  obtain ⟨⟨r1, r2, r3⟩, r4, r5, r6⟩ :=
    apply_row_state_light P R (apply_setup P R IType tile) IType tile j
  obtain ⟨-, p4, p5, p6⟩ := apply_pixel_iter_light P R (apply_setup P R IType tile) IType tile
    (apply_row_state P R (apply_setup P R IType tile) IType tile j) i
  have key : ∀ (x r0 dd a d0 dy : Nat) (k : Int), x < 2 ^ 32 →
      Nat.ModEq (2 ^ 32) x
        (r0 + i * d0 + tri i * (if IType = TInterpolationType.QUADRATIC then dd else 0)) →
      Nat.ModEq (2 ^ 32) r0 (a + j * dy) →
      Nat.ModEq (2 ^ 32) dd (j * second_order IType k) →
      x = u32 (a + i * d0 + j * dy + tri i * j * second_order IType k) := by
    intro x r0 dd a d0 dy k hx h1 h2 h3
    have h4 : Nat.ModEq (2 ^ 32) (if IType = TInterpolationType.QUADRATIC then dd else 0)
        (j * second_order IType k) := by
      by_cases hq : IType = TInterpolationType.QUADRATIC
      · simp only [hq, if_true] at h3 ⊢
        exact h3
      · have e : second_order IType k = 0 := by
          unfold second_order
          rw [if_neg hq]
        rw [if_neg hq, e, Nat.mul_zero]
    have h5 : Nat.ModEq (2 ^ 32) x
        (a + i * d0 + j * dy + tri i * j * second_order IType k) := by
      have e : a + i * d0 + j * dy + tri i * j * second_order IType k =
          (a + j * dy) + i * d0 + tri i * (j * second_order IType k) := by ring
      rw [e]
      exact h1.trans (((h2.add_right _)).add (h4.mul_left _))
    unfold u32
    unfold Nat.ModEq at h5
    rw [← h5, Nat.mod_eq_of_lt hx]
  exact ⟨key _ _ _ _ _ _ _ l1 p4 r1 r4, key _ _ _ _ _ _ _ l2 p5 r2 r5,
    key _ _ _ _ _ _ _ l3 p6 r3 r6⟩

/-- Claim C17, failing input: under QUADRATIC the light value `apply` uses at pixel
`(i, j)` is `r00 + i*r10 + j*r01 + (i*(i+1)/2)*j*r11` modulo `2 ^ 32`, for every
tile: the second-order term is added to the per-pixel delta at every pixel, so
it enters with the factor `i*(i+1)/2 * j`, not `i*j`.  On the tile with light
`2 ^ -12` and light gradients `2 ^ -15` (`r00 = r10 = r01 = 0`,
`r11 = 67108863`), `apply` uses `201326589 = 3 * r11` at pixel `(2, 1)`, where
the bilinear formula gives `134217726 = 2 * r11`. -/
theorem quadratic_light_not_bilinear :
    (∀ (F : Type) (P : Prims F) (R : TileRasterizer F) (tile : Tile F) (i j : Nat),
      (apply_pixel_state P R TInterpolationType.QUADRATIC tile j i).r_ =
        u32 ((apply_setup P R TInterpolationType.QUADRATIC tile).ar +
          i * (apply_setup P R TInterpolationType.QUADRATIC tile).drx0 +
          j * (apply_setup P R TInterpolationType.QUADRATIC tile).dry +
          i * (i + 1) / 2 * j *
            bits32 (apply_setup P R TInterpolationType.QUADRATIC tile).ar11)) ∧
    (apply_setup dyadicPrims (texRasterizer 2 2 (fun k => k) 0 0 0 0 2 2)
        TInterpolationType.QUADRATIC (texTile 0 0 16)).ar = 0 ∧
    (apply_setup dyadicPrims (texRasterizer 2 2 (fun k => k) 0 0 0 0 2 2)
        TInterpolationType.QUADRATIC (texTile 0 0 16)).drx0 = 0 ∧
    (apply_setup dyadicPrims (texRasterizer 2 2 (fun k => k) 0 0 0 0 2 2)
        TInterpolationType.QUADRATIC (texTile 0 0 16)).dry = 0 ∧
    (apply_setup dyadicPrims (texRasterizer 2 2 (fun k => k) 0 0 0 0 2 2)
        TInterpolationType.QUADRATIC (texTile 0 0 16)).ar11 = 67108863 ∧
    (apply_pixel_state dyadicPrims (texRasterizer 2 2 (fun k => k) 0 0 0 0 2 2)
        TInterpolationType.QUADRATIC (texTile 0 0 16) 1 2).r_ = 201326589 ∧
    u32 (0 + 2 * 0 + 1 * 0 + 2 * 1 * bits32 67108863) = 134217726 := by
  refine ⟨?_, by decide, by decide, by decide, by decide, by decide, by decide⟩
  intro F P R tile i j
  have h := (apply_pixel_state_light P R TInterpolationType.QUADRATIC tile j i).1
  unfold tri second_order at h
  rw [if_pos rfl] at h
  exact h

theorem apply_row_state_rz {F : Type} (P : Prims F) (R : TileRasterizer F)
    (su1 su2 : ApplySetup) (I1 I2 : TInterpolationType) (tile : Tile F) (j : Nat) :
    (apply_row_state P R su1 I1 tile j).rz0 = (apply_row_state P R su2 I2 tile j).rz0 := by
  induction j with
  | zero => rfl
  | succ j ih =>
    simp only [apply_row_state, apply_row_next]
    rw [ih]

theorem apply_pixel_iter_rz {F : Type} (P : Prims F) (R : TileRasterizer F)
    (su1 su2 : ApplySetup) (I1 I2 : TInterpolationType) (tile : Tile F) (rst1 rst2 : ApplyRow F)
    (h : rst1.rz0 = rst2.rz0) (i : Nat) :
    (apply_pixel_iter P R su1 I1 tile rst1 i).rz = (apply_pixel_iter P R su2 I2 tile rst2 i).rz := by
  induction i with
  | zero => exact h
  | succ i ih =>
    simp only [apply_pixel_iter, apply_pixel_next]
    rw [ih]

theorem apply_fragment_z {F : Type} (P : Prims F) (R : TileRasterizer F) (B : TBlendMode)
    (st1 st2 : ApplyPixel F) (c1 c2 z : Nat)
    (he : edge_test st1.a st1.b st1.c = edge_test st2.a st2.b st2.c) (hr : st1.rz = st2.rz) :
    (apply_fragment P R B st1 c1 z).2 = (apply_fragment P R B st2 c2 z).2 := by
  unfold apply_fragment
  rw [he, hr]
  by_cases h1 : edge_test st2.a st2.b st2.c = true
  · by_cases h2 : (quantize_z P (P.div (P.ofInt 1) st2.rz) >>> 10) &&& 0xffff > z
    · rw [if_pos h1, if_pos h2, if_pos h1, if_pos h2]
    · rw [if_pos h1, if_neg h2, if_pos h1, if_neg h2]
  · rw [if_neg h1, if_neg h1]

/-- The Z surface that `apply` leaves does not depend on the interpolation
mode. -/
theorem apply_z_mode_independent {F : Type} (P : Prims F) (R : TileRasterizer F)
    (I1 I2 : TInterpolationType) (B : TBlendMode) (tile : Tile F) (s : Surfaces) (X Y : Int) :
    (apply P R I1 B tile s).z X Y = (apply P R I2 B tile s).z X Y := by
  rw [(apply_at P R I1 B tile s X Y).2, (apply_at P R I2 B tile s X Y).2]
  by_cases hc : tile.contains X Y
  · rw [if_pos hc, if_pos hc]
    apply apply_fragment_z
    · obtain ⟨a1, b1, c1⟩ := apply_pixel_state_edges P R I1 tile (Y - tile.y * TILE_SIZE).toNat
        (X - tile.x * TILE_SIZE).toNat
      obtain ⟨a2, b2, c2⟩ := apply_pixel_state_edges P R I2 tile (Y - tile.y * TILE_SIZE).toNat
        (X - tile.x * TILE_SIZE).toNat
      rw [Bool.eq_iff_iff, edge_test_iff, edge_test_iff, a1, b1, c1, a2, b2, c2]
    · unfold apply_pixel_state
      exact apply_pixel_iter_rz P R _ _ I1 I2 tile _ _ (apply_row_state_rz P R _ _ I1 I2 tile _) _
  · rw [if_neg hc, if_neg hc]

/-- Claim C18, failing input: on a 4 x 4 texture and a tile whose `u` coordinate
grows by half a texel per pixel (`au10 = 1024`) with no other variation, all
second-order terms of QUADRATIC `apply` are 0, yet at pixel `(2, 0)` it reads
texel 0 where AFFINE `apply` reads texel 1, and leaves the colour `0` where
AFFINE leaves `0x0f0f0f` (texture `k ↦ 0x101010 * k`, light 255): masking
`dux` with `t0_umask_tiled` removes the fill bits of the swizzled delta, so the
carry out of the fraction of `u` is lost.  The light values are the same in
both modes whenever the second-order light terms are 0, and the Z surface is
the same in both modes for every tile. -/
theorem quadratic_affine_divergence :
    (apply_setup dyadicPrims (texRasterizer 2 2 (fun k => 0x101010 * k) (2 ^ 13) 0 0 0 0 0)
        TInterpolationType.QUADRATIC (texTile 0 0 (255 * 2 ^ 16))).au11 = 0 ∧
    (apply_setup dyadicPrims (texRasterizer 2 2 (fun k => 0x101010 * k) (2 ^ 13) 0 0 0 0 0)
        TInterpolationType.QUADRATIC (texTile 0 0 (255 * 2 ^ 16))).av11 = 0 ∧
    (apply_setup dyadicPrims (texRasterizer 2 2 (fun k => 0x101010 * k) (2 ^ 13) 0 0 0 0 0)
        TInterpolationType.QUADRATIC (texTile 0 0 (255 * 2 ^ 16))).ar11 = 0 ∧
    (apply_setup dyadicPrims (texRasterizer 2 2 (fun k => 0x101010 * k) (2 ^ 13) 0 0 0 0 0)
        TInterpolationType.QUADRATIC (texTile 0 0 (255 * 2 ^ 16))).ag11 = 0 ∧
    (apply_setup dyadicPrims (texRasterizer 2 2 (fun k => 0x101010 * k) (2 ^ 13) 0 0 0 0 0)
        TInterpolationType.QUADRATIC (texTile 0 0 (255 * 2 ^ 16))).ab11 = 0 ∧
    tiled_offset
      (apply_pixel_state dyadicPrims
        (texRasterizer 2 2 (fun k => 0x101010 * k) (2 ^ 13) 0 0 0 0 0)
        TInterpolationType.QUADRATIC (texTile 0 0 (255 * 2 ^ 16)) 0 2).u
      (apply_pixel_state dyadicPrims
        (texRasterizer 2 2 (fun k => 0x101010 * k) (2 ^ 13) 0 0 0 0 0)
        TInterpolationType.QUADRATIC (texTile 0 0 (255 * 2 ^ 16)) 0 2).v = 0 ∧
    tiled_offset
      (apply_pixel_state dyadicPrims
        (texRasterizer 2 2 (fun k => 0x101010 * k) (2 ^ 13) 0 0 0 0 0)
        TInterpolationType.AFFINE (texTile 0 0 (255 * 2 ^ 16)) 0 2).u
      (apply_pixel_state dyadicPrims
        (texRasterizer 2 2 (fun k => 0x101010 * k) (2 ^ 13) 0 0 0 0 0)
        TInterpolationType.AFFINE (texTile 0 0 (255 * 2 ^ 16)) 0 2).v = 1 ∧
    (apply dyadicPrims (texRasterizer 2 2 (fun k => 0x101010 * k) (2 ^ 13) 0 0 0 0 0)
      TInterpolationType.QUADRATIC TBlendMode.OVERWRITE (texTile 0 0 (255 * 2 ^ 16))
      emptySurfaces).color 2 0 = 0 ∧
    (apply dyadicPrims (texRasterizer 2 2 (fun k => 0x101010 * k) (2 ^ 13) 0 0 0 0 0)
      TInterpolationType.AFFINE TBlendMode.OVERWRITE (texTile 0 0 (255 * 2 ^ 16))
      emptySurfaces).color 2 0 = 0x0f0f0f ∧
    (∀ (F : Type) (P : Prims F) (R : TileRasterizer F) (tile : Tile F) (i j : Nat),
      (apply_setup P R TInterpolationType.QUADRATIC tile).ar11 = 0 →
      (apply_setup P R TInterpolationType.QUADRATIC tile).ag11 = 0 →
      (apply_setup P R TInterpolationType.QUADRATIC tile).ab11 = 0 →
      (apply_pixel_state P R TInterpolationType.QUADRATIC tile j i).r_ =
          (apply_pixel_state P R TInterpolationType.AFFINE tile j i).r_ ∧
        (apply_pixel_state P R TInterpolationType.QUADRATIC tile j i).g_ =
          (apply_pixel_state P R TInterpolationType.AFFINE tile j i).g_ ∧
        (apply_pixel_state P R TInterpolationType.QUADRATIC tile j i).b_ =
          (apply_pixel_state P R TInterpolationType.AFFINE tile j i).b_) ∧
    (∀ (F : Type) (P : Prims F) (R : TileRasterizer F) (B : TBlendMode) (tile : Tile F)
      (s : Surfaces) (X Y : Int),
      (apply P R TInterpolationType.QUADRATIC B tile s).z X Y =
        (apply P R TInterpolationType.AFFINE B tile s).z X Y) := by
  refine ⟨by decide, by decide, by decide, by decide, by decide, by decide, by decide,
    ?_, ?_, ?_, fun F P R B tile s X Y => apply_z_mode_independent P R _ _ B tile s X Y⟩
  · rw [(apply_at dyadicPrims (texRasterizer 2 2 (fun k => 0x101010 * k) (2 ^ 13) 0 0 0 0 0)
      TInterpolationType.QUADRATIC TBlendMode.OVERWRITE (texTile 0 0 (255 * 2 ^ 16))
      emptySurfaces 2 0).1]
    decide
  · rw [(apply_at dyadicPrims (texRasterizer 2 2 (fun k => 0x101010 * k) (2 ^ 13) 0 0 0 0 0)
      TInterpolationType.AFFINE TBlendMode.OVERWRITE (texTile 0 0 (255 * 2 ^ 16))
      emptySurfaces 2 0).1]
    decide
  · intro F P R tile i j hr hg hb
    obtain ⟨q1, q2, q3⟩ := apply_pixel_state_light P R TInterpolationType.QUADRATIC tile j i
    obtain ⟨a1, a2, a3⟩ := apply_pixel_state_light P R TInterpolationType.AFFINE tile j i
    have z : ∀ k : Int, second_order TInterpolationType.AFFINE k = 0 := by
      intro k
      unfold second_order
      rw [if_neg (by decide)]
    have zq : second_order TInterpolationType.QUADRATIC 0 = 0 := by decide
    rw [hr, zq] at q1
    rw [hg, zq] at q2
    rw [hb, zq] at q3
    rw [z] at a1 a2 a3
    rw [q1, q2, q3, a1, a2, a3]
    exact ⟨rfl, rfl, rfl⟩

/-- Conversion to `int32_t` of a non-negative value in range is the floor. -/
theorem f2i_floor {q : ℚ} (h0 : 0 ≤ q) (h1 : q < 2 ^ 31) : f2i q = ⌊q⌋ := by
  unfold f2i
  have hn : 0 ≤ q.num := Rat.num_nonneg.mpr h0
  rw [Int.tdiv_eq_ediv hn (by exact_mod_cast Nat.zero_le q.den), ← Rat.floor_def]
  have f0 : 0 ≤ ⌊q⌋ := Int.floor_nonneg.mpr h0
  have f1 : ⌊q⌋ < 2 ^ 31 := by
    rw [Int.floor_lt]
    exact_mod_cast h1
  exact i32_of_range (by omega) f1

/-- Conversion to `int32_t` of a non-positive value in range is the ceiling:
the conversion truncates toward zero. -/
theorem f2i_ceil {q : ℚ} (h0 : q ≤ 0) (h1 : -(2 ^ 31) < q) : f2i q = -⌊-q⌋ := by
  unfold f2i
  have e1 : q.num = -(-q).num := by rw [Rat.neg_num, neg_neg]
  have e2 : q.den = (-q).den := by rw [Rat.neg_den]
  have hq : 0 ≤ -q := by linarith
  have hn : 0 ≤ (-q).num := Rat.num_nonneg.mpr hq
  rw [e1, e2, Int.neg_tdiv, Int.tdiv_eq_ediv hn (by exact_mod_cast Nat.zero_le (-q).den),
    ← Rat.floor_def]
  have f0 : 0 ≤ ⌊-q⌋ := Int.floor_nonneg.mpr hq
  have f1 : ⌊-q⌋ < 2 ^ 31 := by
    rw [Int.floor_lt]
    push_cast
    linarith
  exact i32_of_range (by omega) (by omega)

/-- For a vertex coordinate `PX` with `-1/2 <= PX * 256` and
`PX * 256 + 1/2 < 2 ^ 31`, the sub-pixel value computed by `rasterize_triangle`
is `floor (PX * 256 + 1/2)`, an integer nearest to `PX * 256`:
`|vNx - PX * 256| <= 1/2`. -/
theorem subpixel_nearest (PX : ℚ) (h0 : -(1 / 2) ≤ PX * 256)
    (h1 : PX * 256 + 1 / 2 < 2 ^ 31) :
    subpixel PX = ⌊PX * 256 + 1 / 2⌋ ∧ |((subpixel PX : Int) : ℚ) - PX * 256| ≤ 1 / 2 := by
  have e : subpixel PX = ⌊PX * 256 + 1 / 2⌋ := by
    unfold subpixel SUBPIXEL_MULT
    exact f2i_floor (by linarith) h1
  refine ⟨e, ?_⟩
  rw [e, abs_le]
  have a1 := Int.floor_le (PX * 256 + 1 / 2)
  have a2 := Int.lt_floor_add_one (PX * 256 + 1 / 2)
  constructor <;> linarith

/-- For a vertex coordinate `PX` with `PX * 256 + 1/2 <= 0` (and above
`-2 ^ 31`), the sub-pixel value computed by `rasterize_triangle` is the ceiling
of `PX * 256 + 1/2`, not its floor: the conversion truncates toward zero. -/
theorem subpixel_of_negative (PX : ℚ) (h0 : PX * 256 + 1 / 2 ≤ 0)
    (h1 : -(2 ^ 31) < PX * 256 + 1 / 2) :
    subpixel PX = ⌈PX * 256 + 1 / 2⌉ := by
  unfold subpixel SUBPIXEL_MULT
  rw [f2i_ceil h0 h1, Int.floor_neg, neg_neg]

/-- Claim C19, failing inputs: negative vertex coordinates are not rounded to
the nearest sub-pixel.  For `PX = -5/1024`, where `PX * 256 = -1.25`, the
nearest integer `floor (PX * 256 + 1/2)` is `-1`, and the conversion
`TScreenCoord(PX * 256 + 0.5)` truncates `-0.75` toward zero and gives `0`, at
distance `1.25`.  For `PX = -1`, where `PX * 256 = -256` is an integer, the
conversion truncates `-255.5` and gives `-255`. -/
theorem subpixel_negative_divergence :
    (⌊(-5 / 1024 : ℚ) * 256 + 1 / 2⌋ = -1 ∧ subpixel (-5 / 1024) = 0 ∧
      ¬ |((subpixel (-5 / 1024) : Int) : ℚ) - -5 / 1024 * 256| ≤ 1 / 2) ∧
    (⌊(-1 : ℚ) * 256 + 1 / 2⌋ = -256 ∧ subpixel (-1) = -255 ∧
      ¬ |((subpixel (-1) : Int) : ℚ) - -1 * 256| ≤ 1 / 2) := by
  have e : subpixel (-5 / 1024) = 0 := by
    unfold subpixel SUBPIXEL_MULT
    rw [f2i_ceil (by norm_num) (by norm_num)]
    have f : ⌊-((-5 / 1024 : ℚ) * 256 + 1 / 2)⌋ = 0 := by
      rw [Int.floor_eq_iff]
      norm_num
    rw [f]
    rfl
  have e2 : subpixel (-1) = -255 := by
    unfold subpixel SUBPIXEL_MULT
    rw [f2i_ceil (by norm_num) (by norm_num)]
    have f : ⌊-((-1 : ℚ) * 256 + 1 / 2)⌋ = 255 := by
      rw [Int.floor_eq_iff]
      norm_num
    rw [f]
  have f1 : ⌊(-5 / 1024 : ℚ) * 256 + 1 / 2⌋ = -1 := by
    rw [Int.floor_eq_iff]
    norm_num
  have f2 : ⌊(-1 : ℚ) * 256 + 1 / 2⌋ = -256 := by
    rw [Int.floor_eq_iff]
    norm_num
  refine ⟨⟨f1, e, ?_⟩, f2, e2, ?_⟩
  · rw [e]
    norm_num [abs_le]
  · rw [e2]
    norm_num [abs_le]

theorem fits32_mul_bound {p q : Int} (hp : Fits32 p) (hq : Fits32 q) :
    -(2 ^ 62 - 2 ^ 31) ≤ p * q ∧ p * q ≤ 2 ^ 62 := by
  obtain ⟨p1, p2⟩ := hp
  obtain ⟨q1, q2⟩ := hq
  have a1 : (0 : Int) ≤ p + 2 ^ 31 := by omega
  have a2 : (0 : Int) ≤ 2 ^ 31 - 1 - p := by omega
  have b1 : (0 : Int) ≤ q + 2 ^ 31 := by omega
  have b2 : (0 : Int) ≤ 2 ^ 31 - 1 - q := by omega
  constructor
  · nlinarith [mul_nonneg a1 b2, mul_nonneg a2 b1]
  · nlinarith [mul_nonneg a1 b1, mul_nonneg a2 b2, mul_nonneg a1 b2, mul_nonneg a2 b1]

/-- Where nothing overflows, `orient2d` is the exact edge product shifted
right by 8 bits. -/
theorem orient2d_of_fits {ax ay bx by_ cx cy : Int} (h : EdgeFits ax ay bx by_ cx cy) :
    orient2d ax ay bx by_ cx cy = cross ax ay bx by_ cx cy / 256 := by
  obtain ⟨f1, f2, f3, f4, f5⟩ := h
  have h1 := fits32_mul_bound f1 f2
  have h2 := fits32_mul_bound f3 f4
  unfold Fits32 at f1 f2 f3 f4 f5
  norm_num at h1 h2
  unfold orient2d SUBPIXEL_BITS
  rw [i32_of_range (n := bx - ax) (by omega) (by omega),
    i32_of_range (n := cy - ay) (by omega) (by omega),
    i32_of_range (n := by_ - ay) (by omega) (by omega),
    i32_of_range (n := cx - ax) (by omega) (by omega),
    i64_of_range (n := (bx - ax) * (cy - ay)) (by omega) (by omega),
    i64_of_range (n := (by_ - ay) * (cx - ax)) (by omega) (by omega),
    i64_of_range (by omega) (by omega), Int.shiftRight_eq_div_pow]
  unfold cross at f5 ⊢
  norm_num at f5 ⊢
  exact i32_of_range (by omega) (by omega)

theorem orient2d_nonneg_of_fits {ax ay bx by_ cx cy : Int} (h : EdgeFits ax ay bx by_ cx cy) :
    0 ≤ orient2d ax ay bx by_ cx cy ↔ 0 ≤ cross ax ay bx by_ cx cy := by
  rw [orient2d_of_fits h]
  constructor <;> intro h <;> omega

/-- The shifted exact edge product is an affine function of the pixel. -/
theorem cross_div_shift (ax ay bx by_ X0 Y0 K L : Int) :
    cross ax ay bx by_ (256 * (X0 + K)) (256 * (Y0 + L)) / 256 =
      cross ax ay bx by_ (256 * X0) (256 * Y0) / 256 + K * (ay - by_) + L * (bx - ax) := by
  have e : cross ax ay bx by_ (256 * (X0 + K)) (256 * (Y0 + L)) =
      cross ax ay bx by_ (256 * X0) (256 * Y0) + (K * (ay - by_) + L * (bx - ax)) * 256 := by
    unfold cross; ring
  rw [e, Int.add_mul_ediv_right _ _ (by norm_num : (256 : Int) ≠ 0)]
  ring

/-- The origin edge value of the tile `c` columns and `r` rows after the first
one, stepped by the pixel offset `(i, j)`, is the value of `orient2d` at that
pixel, when nothing overflows in `orient2d` at the origin of the first tile,
at the origin of the tile and at the pixel. -/
theorem grid_value_wide {ax ay bx by_ tmx tmy : Int} (r c : Nat) (i j : Int)
    (h0 : EdgeFits ax ay bx by_ (256 * (8 * tmx)) (256 * (8 * tmy)))
    (h1 : EdgeFits ax ay bx by_ (256 * (8 * (tmx + c))) (256 * (8 * (tmy + r))))
    (h2 : EdgeFits ax ay bx by_ (256 * (8 * (tmx + c) + i)) (256 * (8 * (tmy + r) + j))) :
    grid_edge (orient2d ax ay bx by_ (256 * (8 * tmx)) (256 * (8 * tmy)))
        (ay - by_) (bx - ax) r c + i * (ay - by_) + j * (bx - ax) =
      orient2d ax ay bx by_ (256 * (8 * (tmx + c) + i)) (256 * (8 * (tmy + r) + j)) := by
  rw [orient2d_of_fits h0, orient2d_of_fits h2]
  have s1 := cross_div_shift ax ay bx by_ (8 * tmx) (8 * tmy) (8 * c) (8 * r)
  have e1 : 8 * tmx + 8 * (c : Int) = 8 * (tmx + c) := by ring
  have e2 : 8 * tmy + 8 * (r : Int) = 8 * (tmy + r) := by ring
  rw [e1, e2] at s1
  have s2 := cross_div_shift ax ay bx by_ (8 * (tmx + c)) (8 * (tmy + r)) i j
  have g : grid_edge (cross ax ay bx by_ (256 * (8 * tmx)) (256 * (8 * tmy)) / 256)
      (ay - by_) (bx - ax) r c =
      cross ax ay bx by_ (256 * (8 * (tmx + c))) (256 * (8 * (tmy + r))) / 256 := by
    unfold grid_edge TILE_SIZE
    have e3 : cross ax ay bx by_ (256 * (8 * tmx)) (256 * (8 * tmy)) / 256 +
        (r : Int) * (8 * (bx - ax)) + (c : Int) * (8 * (ay - by_)) =
        cross ax ay bx by_ (256 * (8 * (tmx + c))) (256 * (8 * (tmy + r))) / 256 := by
      rw [s1]
      ring
    rw [e3]
    exact i32_of_range h1.2.2.2.2.1 h1.2.2.2.2.2
  rw [g, s2]

/-- The clamped bounding box of a triangle lies in the tiles that meet the
viewport. -/
theorem tile_box {F : Type} (R : TileRasterizer F) (v1 v2 v3 : Vertex F)
    (hx : 0 < R.xres ∧ R.xres < 2 ^ 31) (hy : 0 < R.yres ∧ R.yres < 2 ^ 31) :
    (0 ≤ tile_mx R v1 v2 v3 ∧ tile_Mx R v1 v2 v3 ≤ (R.xres - 1) / 8) ∧
      (0 ≤ tile_my R v1 v2 v3 ∧ tile_My R v1 v2 v3 ≤ (R.yres - 1) / 8) :=
  ⟨⟨(clamped_range R.xres (f2i (min (min v1.PX v2.PX) v3.PX)) hx.1 hx.2).1,
      (clamped_range R.xres (f2i (max (max v1.PX v2.PX) v3.PX)) hx.1 hx.2).2⟩,
    ⟨(clamped_range R.yres (f2i (min (min v1.PY v2.PY) v3.PY)) hy.1 hy.2).1,
      (clamped_range R.yres (f2i (max (max v1.PY v2.PY) v3.PY)) hy.1 hy.2).2⟩⟩

/-- The tiles handed to the kernel, when nothing overflows: the tiles of the
clamped bounding box that pass the trivial reject, with origin edge values
stepped from those of the first tile. -/
theorem handed_tiles_wide_iff {F : Type} (P : Prims F) (R : TileRasterizer F)
    (v1 v2 v3 : Vertex F) (hT : NoOverflow R v1 v2 v3) (t : Tile F) :
    t ∈ handed_tiles P R v1 v2 v3 ↔
    ∃ r c : Nat, tile_my R v1 v2 v3 + r ≤ tile_My R v1 v2 v3 ∧
      tile_mx R v1 v2 v3 + c ≤ tile_Mx R v1 v2 v3 ∧
      grid_test
        (subpixel_steps (subpixel v1.PX) (subpixel v1.PY) (subpixel v2.PX) (subpixel v2.PY)
          (subpixel v3.PX) (subpixel v3.PY))
        (orient2d (subpixel v2.PX) (subpixel v2.PY) (subpixel v1.PX) (subpixel v1.PY)
          (256 * (8 * tile_mx R v1 v2 v3)) (256 * (8 * tile_my R v1 v2 v3)))
        (orient2d (subpixel v3.PX) (subpixel v3.PY) (subpixel v2.PX) (subpixel v2.PY)
          (256 * (8 * tile_mx R v1 v2 v3)) (256 * (8 * tile_my R v1 v2 v3)))
        (orient2d (subpixel v1.PX) (subpixel v1.PY) (subpixel v3.PX) (subpixel v3.PY)
          (256 * (8 * tile_mx R v1 v2 v3)) (256 * (8 * tile_my R v1 v2 v3))) r c = true ∧
      t = grid_tile P R v1
        (subpixel_steps (subpixel v1.PX) (subpixel v1.PY) (subpixel v2.PX) (subpixel v2.PY)
          (subpixel v3.PX) (subpixel v3.PY))
        (tile_mx R v1 v2 v3) (tile_my R v1 v2 v3)
        (orient2d (subpixel v2.PX) (subpixel v2.PY) (subpixel v1.PX) (subpixel v1.PY)
          (256 * (8 * tile_mx R v1 v2 v3)) (256 * (8 * tile_my R v1 v2 v3)))
        (orient2d (subpixel v3.PX) (subpixel v3.PY) (subpixel v2.PX) (subpixel v2.PY)
          (256 * (8 * tile_mx R v1 v2 v3)) (256 * (8 * tile_my R v1 v2 v3)))
        (orient2d (subpixel v1.PX) (subpixel v1.PY) (subpixel v3.PX) (subpixel v3.PY)
          (256 * (8 * tile_mx R v1 v2 v3)) (256 * (8 * tile_my R v1 v2 v3))) r c := by
  obtain ⟨hx, hy, ⟨s1, s2, s3, s4, s5, s6⟩, hp⟩ := hT
  obtain ⟨⟨bx, bX⟩, ⟨by_, bY⟩⟩ := tile_box R v1 v2 v3 hx hy
  have bx2 : tile_mx R v1 v2 v3 ≤ (R.xres - 1) / 8 :=
    (clamped_range R.xres (f2i (min (min v1.PX v2.PX) v3.PX)) hx.1 hx.2).2
  have by2 : tile_my R v1 v2 v3 ≤ (R.yres - 1) / 8 :=
    (clamped_range R.yres (f2i (min (min v1.PY v2.PY) v3.PY)) hy.1 hy.2).2
  obtain ⟨⟨px, py⟩, -⟩ := hp (8 * tile_mx R v1 v2 v3) (8 * tile_my R v1 v2 v3) (by omega)
    (by omega) (by omega) (by omega)
  unfold Fits32 at px py
  have ex0 : i32 (i32 (tile_mx R v1 v2 v3 * TILE_SIZE) * 2 ^ SUBPIXEL_BITS) =
      256 * (8 * tile_mx R v1 v2 v3) := by
    unfold TILE_SIZE SUBPIXEL_BITS
    have e1 : i32 (tile_mx R v1 v2 v3 * 8) = tile_mx R v1 v2 v3 * 8 :=
      i32_of_range (by omega) (by omega)
    rw [e1]
    exact (i32_of_range (by omega) (by omega)).trans (by ring)
  have ey0 : i32 (i32 (tile_my R v1 v2 v3 * TILE_SIZE) * 2 ^ SUBPIXEL_BITS) =
      256 * (8 * tile_my R v1 v2 v3) := by
    unfold TILE_SIZE SUBPIXEL_BITS
    have e1 : i32 (tile_my R v1 v2 v3 * 8) = tile_my R v1 v2 v3 * 8 :=
      i32_of_range (by omega) (by omega)
    rw [e1]
    exact (i32_of_range (by omega) (by omega)).trans (by ring)
  have d1 : i32 (subpixel v2.PY - subpixel v1.PY) = subpixel v2.PY - subpixel v1.PY :=
    i32_of_range s1.1 s1.2
  have d2 : i32 (subpixel v1.PX - subpixel v2.PX) = subpixel v1.PX - subpixel v2.PX :=
    i32_of_range s2.1 s2.2
  have d3 : i32 (subpixel v3.PY - subpixel v2.PY) = subpixel v3.PY - subpixel v2.PY :=
    i32_of_range s3.1 s3.2
  have d4 : i32 (subpixel v2.PX - subpixel v3.PX) = subpixel v2.PX - subpixel v3.PX :=
    i32_of_range s4.1 s4.2
  have d5 : i32 (subpixel v1.PY - subpixel v3.PY) = subpixel v1.PY - subpixel v3.PY :=
    i32_of_range s5.1 s5.2
  have d6 : i32 (subpixel v3.PX - subpixel v1.PX) = subpixel v3.PX - subpixel v1.PX :=
    i32_of_range s6.1 s6.2
  unfold handed_tiles rasterize_triangle
  simp only []
  rw [mem_tile_rows P R v1 _ _ _ t _ _ _ _ _ [] (orient2d_i32 _ _ _ _ _ _)
    (orient2d_i32 _ _ _ _ _ _) (orient2d_i32 _ _ _ _ _ _)]
  unfold subpixel_steps
  rw [← ex0, ← ey0, ← d1, ← d2, ← d3, ← d4, ← d5, ← d6]
  constructor
  · rintro (h | ⟨r, c, hr, hc, hg, ht⟩)
    · exact absurd h (List.not_mem_nil _)
    · refine ⟨r, c, ?_, ?_, hg, ht⟩
      · unfold tile_my tile_My
        omega
      · unfold tile_mx tile_Mx
        omega
  · rintro ⟨r, c, hr, hc, hg, ht⟩
    refine Or.inr ⟨r, c, ?_, ?_, hg, ht⟩
    · unfold tile_my tile_My at hr
      omega
    · unfold tile_mx tile_Mx at hc
      omega

theorem handed_tiles_wide {F : Type} (P : Prims F) (R : TileRasterizer F)
    (v1 v2 v3 : Vertex F) (hT : NoOverflow R v1 v2 v3) (t : Tile F)
    (ht : t ∈ handed_tiles P R v1 v2 v3) :
    ∃ r c : Nat, tile_my R v1 v2 v3 + r ≤ tile_My R v1 v2 v3 ∧
      tile_mx R v1 v2 v3 + c ≤ tile_Mx R v1 v2 v3 ∧
      t = grid_tile P R v1
        (subpixel_steps (subpixel v1.PX) (subpixel v1.PY) (subpixel v2.PX) (subpixel v2.PY)
          (subpixel v3.PX) (subpixel v3.PY))
        (tile_mx R v1 v2 v3) (tile_my R v1 v2 v3)
        (orient2d (subpixel v2.PX) (subpixel v2.PY) (subpixel v1.PX) (subpixel v1.PY)
          (256 * (8 * tile_mx R v1 v2 v3)) (256 * (8 * tile_my R v1 v2 v3)))
        (orient2d (subpixel v3.PX) (subpixel v3.PY) (subpixel v2.PX) (subpixel v2.PY)
          (256 * (8 * tile_mx R v1 v2 v3)) (256 * (8 * tile_my R v1 v2 v3)))
        (orient2d (subpixel v1.PX) (subpixel v1.PY) (subpixel v3.PX) (subpixel v3.PY)
          (256 * (8 * tile_mx R v1 v2 v3)) (256 * (8 * tile_my R v1 v2 v3))) r c := by
  obtain ⟨r, c, hr, hc, -, e⟩ := (handed_tiles_wide_iff P R v1 v2 v3 hT t).mp ht
  exact ⟨r, c, hr, hc, e⟩

/-- The edge values of a handed tile at the pixel offset `(i, j)` are the
values of `orient2d` at that pixel, when nothing overflows; the tile is one of
the tiles that meet the viewport. -/
theorem handed_tile_values_wide {F : Type} (P : Prims F) (R : TileRasterizer F)
    (v1 v2 v3 : Vertex F) (hT : NoOverflow R v1 v2 v3) (t : Tile F)
    (ht : t ∈ handed_tiles P R v1 v2 v3) (i j : Nat) (hi : i < 8) (hj : j < 8) :
    (t.a0 + i * t.dadx + j * t.dady =
        orient2d (subpixel v2.PX) (subpixel v2.PY) (subpixel v1.PX) (subpixel v1.PY)
          (256 * (8 * t.x + i)) (256 * (8 * t.y + j)) ∧
      t.b0 + i * t.dbdx + j * t.dbdy =
        orient2d (subpixel v3.PX) (subpixel v3.PY) (subpixel v2.PX) (subpixel v2.PY)
          (256 * (8 * t.x + i)) (256 * (8 * t.y + j)) ∧
      t.c0 + i * t.dcdx + j * t.dcdy =
        orient2d (subpixel v1.PX) (subpixel v1.PY) (subpixel v3.PX) (subpixel v3.PY)
          (256 * (8 * t.x + i)) (256 * (8 * t.y + j))) ∧
    (0 ≤ t.x ∧ t.x ≤ (R.xres - 1) / 8) ∧ (0 ≤ t.y ∧ t.y ≤ (R.yres - 1) / 8) ∧
    (i32 t.a0 = t.a0 ∧ i32 t.b0 = t.b0 ∧ i32 t.c0 = t.c0) := by
  obtain ⟨r, c, hr, hc, rfl⟩ := handed_tiles_wide P R v1 v2 v3 hT t ht
  obtain ⟨hx, hy, -, hp⟩ := hT
  obtain ⟨⟨bx, bX⟩, ⟨by_, bY⟩⟩ := tile_box R v1 v2 v3 hx hy
  obtain ⟨-, a0, b0, c0⟩ := hp (8 * tile_mx R v1 v2 v3) (8 * tile_my R v1 v2 v3) (by omega)
    (by omega) (by omega) (by omega)
  obtain ⟨-, a1, b1, c1⟩ := hp (8 * (tile_mx R v1 v2 v3 + c)) (8 * (tile_my R v1 v2 v3 + r))
    (by omega) (by omega) (by omega) (by omega)
  obtain ⟨-, a2, b2, c2⟩ := hp (8 * (tile_mx R v1 v2 v3 + c) + i)
    (8 * (tile_my R v1 v2 v3 + r) + j) (by omega) (by omega) (by omega) (by omega)
  refine ⟨⟨grid_value_wide r c i j a0 a1 a2, grid_value_wide r c i j b0 b1 b2,
    grid_value_wide r c i j c0 c1 c2⟩, ⟨?_, ?_⟩, ⟨?_, ?_⟩, ⟨?_, ?_, ?_⟩⟩
  · show 0 ≤ tile_mx R v1 v2 v3 + c
    omega
  · show tile_mx R v1 v2 v3 + c ≤ (R.xres - 1) / 8
    omega
  · show 0 ≤ tile_my R v1 v2 v3 + r
    omega
  · show tile_my R v1 v2 v3 + r ≤ (R.yres - 1) / 8
    omega
  · exact i32_i32 _
  · exact i32_i32 _
  · exact i32_i32 _

/-- A triangle on a screen of at most 2048 pixels is one where nothing
overflows. -/
theorem noOverflow_of_subpixelTriangle {F : Type} {R : TileRasterizer F} {v1 v2 v3 : Vertex F}
    (hT : SubpixelTriangle R v1 v2 v3) : NoOverflow R v1 v2 v3 := by
  obtain ⟨hx, hy, h1x, h1y, h2x, h2y, h3x, h3y⟩ := hT
  have key : ∀ {ax ay bx by_ : Int}, VertexRange ax → VertexRange ay → VertexRange bx →
      VertexRange by_ → ∀ X Y : Int, 0 ≤ X → X ≤ 2047 → 0 ≤ Y → Y ≤ 2047 →
      EdgeFits ax ay bx by_ (256 * X) (256 * Y) := by
    intro ax ay bx by_ hax hay hbx hby X Y hX0 hX1 hY0 hY1
    have hb := cross_bound hax hay hbx hby (pointRange_of hX0 (by omega))
      (pointRange_of hY0 (by omega))
    unfold VertexRange at hax hay hbx hby
    unfold EdgeFits Fits32
    norm_num at hb ⊢
    refine ⟨⟨by omega, by omega⟩, ⟨by omega, by omega⟩, ⟨by omega, by omega⟩,
      ⟨by omega, by omega⟩, ⟨by omega, by omega⟩⟩
  have h1x2 := h1x
  have h1y2 := h1y
  have h2x2 := h2x
  have h2y2 := h2y
  have h3x2 := h3x
  have h3y2 := h3y
  unfold VertexRange at h1x2 h1y2 h2x2 h2y2 h3x2 h3y2
  refine ⟨⟨hx.1, by omega⟩, ⟨hy.1, by omega⟩, ?_, ?_⟩
  · unfold Fits32
    refine ⟨⟨by omega, by omega⟩, ⟨by omega, by omega⟩, ⟨by omega, by omega⟩,
      ⟨by omega, by omega⟩, ⟨by omega, by omega⟩, ⟨by omega, by omega⟩⟩
  · intro X Y hX0 hX1 hY0 hY1
    have hX2 : X ≤ 2047 := by omega
    have hY2 : Y ≤ 2047 := by omega
    refine ⟨⟨?_, ?_⟩, key h2x h2y h1x h1y X Y hX0 hX2 hY0 hY2,
      key h3x h3y h2x h2y X Y hX0 hX2 hY0 hY2, key h1x h1y h3x h3y X Y hX0 hX2 hY0 hY2⟩
    · unfold Fits32
      omega
    · unfold Fits32
      omega

theorem f2i_intCast_wide {n : Int} (h0 : -2 ^ 31 ≤ n) (h1 : n < 2 ^ 31) : f2i (n : ℚ) = n := by
  unfold f2i
  rw [Rat.num_intCast, Rat.den_intCast]
  simp only [Nat.cast_one, Int.tdiv_one]
  exact i32_of_range h0 h1

theorem f2i_min3_wide {a b c : Int} (h0 : -2 ^ 31 ≤ min (min a b) c)
    (h1 : min (min a b) c < 2 ^ 31) : f2i (min (min (a : ℚ) b) c) = min (min a b) c := by
  have : min (min (a : ℚ) b) c = ((min (min a b) c : Int) : ℚ) := by push_cast; rfl
  rw [this, f2i_intCast_wide h0 h1]

theorem f2i_max3_wide {a b c : Int} (h0 : -2 ^ 31 ≤ max (max a b) c)
    (h1 : max (max a b) c < 2 ^ 31) : f2i (max (max (a : ℚ) b) c) = max (max a b) c := by
  have : max (max (a : ℚ) b) c = ((max (max a b) c : Int) : ℚ) := by push_cast; rfl
  rw [this, f2i_intCast_wide h0 h1]

/-- The sub-pixel value of a negative integer coordinate `n` is `256 n + 1`:
the conversion truncates `256 n + 1/2` toward zero. -/
theorem subpixel_intCast_neg {n : Int} (h0 : n < 0) (h1 : -2 ^ 22 < n) :
    subpixel (n : ℚ) = 256 * n + 1 := by
  have hn : (n : ℚ) ≤ -1 := by exact_mod_cast (by omega : n ≤ -1)
  have hn2 : (-(2 ^ 22 : Int) : ℚ) < (n : ℚ) := by exact_mod_cast h1
  unfold subpixel SUBPIXEL_MULT
  rw [f2i_ceil (by linarith) (by push_cast at hn2; linarith)]
  have f : ⌊-((n : ℚ) * 256 + 1 / 2)⌋ = -(256 * n) - 1 := by
    rw [Int.floor_eq_iff]
    push_cast
    constructor <;> linarith
  rw [f]
  ring

/-- The sub-pixel vertices of the triangle `(-5,-5)`, `(3,40)`, `(40,3)`. -/
theorem offscreen_subpixel :
    subpixel (intVertex (-5) (-5)).PX = -1279 ∧ subpixel (intVertex (-5) (-5)).PY = -1279 ∧
    subpixel (intVertex 3 40).PX = 768 ∧ subpixel (intVertex 3 40).PY = 10240 ∧
    subpixel (intVertex 40 3).PX = 10240 ∧ subpixel (intVertex 40 3).PY = 768 :=
  ⟨@subpixel_intCast_neg (-5) (by decide) (by decide),
    @subpixel_intCast_neg (-5) (by decide) (by decide),
    @subpixel_intCast 3 (by decide) (by decide), @subpixel_intCast 40 (by decide) (by decide),
    @subpixel_intCast 40 (by decide) (by decide), @subpixel_intCast 3 (by decide) (by decide)⟩

/-- The clamped bounding box of the triangle `(-5,-5)`, `(3,40)`, `(40,3)` on a
16 x 16 viewport is the four tiles of the viewport. -/
theorem offscreen_box :
    tile_mx (unitRasterizer 16 16 0xffffff) (intVertex (-5) (-5)) (intVertex 3 40)
      (intVertex 40 3) = 0 ∧
    tile_Mx (unitRasterizer 16 16 0xffffff) (intVertex (-5) (-5)) (intVertex 3 40)
      (intVertex 40 3) = 1 ∧
    tile_my (unitRasterizer 16 16 0xffffff) (intVertex (-5) (-5)) (intVertex 3 40)
      (intVertex 40 3) = 0 ∧
    tile_My (unitRasterizer 16 16 0xffffff) (intVertex (-5) (-5)) (intVertex 3 40)
      (intVertex 40 3) = 1 := by
  have emx : f2i (min (min (intVertex (-5) (-5)).PX (intVertex 3 40).PX) (intVertex 40 3).PX) =
      -5 := @f2i_min3_wide (-5) 3 40 (by decide) (by decide)
  have eMx : f2i (max (max (intVertex (-5) (-5)).PX (intVertex 3 40).PX) (intVertex 40 3).PX) =
      40 := @f2i_max3_wide (-5) 3 40 (by decide) (by decide)
  have emy : f2i (min (min (intVertex (-5) (-5)).PY (intVertex 3 40).PY) (intVertex 40 3).PY) =
      -5 := @f2i_min3_wide (-5) 40 3 (by decide) (by decide)
  have eMy : f2i (max (max (intVertex (-5) (-5)).PY (intVertex 3 40).PY) (intVertex 40 3).PY) =
      40 := @f2i_max3_wide (-5) 40 3 (by decide) (by decide)
  unfold tile_mx tile_Mx tile_my tile_My
  rw [emx, eMx, emy, eMy]
  unfold clampedX clampedY unitRasterizer
  decide

/-- Nothing overflows for the triangle `(-5,-5)`, `(3,40)`, `(40,3)` on a
16 x 16 viewport. -/
theorem offscreen_noOverflow :
    NoOverflow (unitRasterizer 16 16 0xffffff) (intVertex (-5) (-5)) (intVertex 3 40)
      (intVertex 40 3) := by
  obtain ⟨e1, e2, e3, e4, e5, e6⟩ := offscreen_subpixel
  unfold NoOverflow
  rw [e1, e2, e3, e4, e5, e6]
  unfold EdgeFits Fits32 cross unitRasterizer
  refine ⟨by decide, by decide, by decide, ?_⟩
  intro X Y hX0 hX1 hY0 hY1
  simp only at hX1 hY1
  omega

/-- The tile `(1, 1)` is handed to the kernel for the triangle `(-5,-5)`,
`(3,40)`, `(40,3)` on a 16 x 16 viewport, and its pixel `(12, 12)` passes the
edge test of the exact kernel. -/
theorem offscreen_handed :
    ∃ t ∈ handed_tiles unitPrims (unitRasterizer 16 16 0xffffff) (intVertex (-5) (-5))
      (intVertex 3 40) (intVertex 40 3), (t.x = 1 ∧ t.y = 1) ∧
        exact_lets_through t 12 12 = true := by
  obtain ⟨e1, e2, e3, e4, e5, e6⟩ := offscreen_subpixel
  obtain ⟨b1, b2, b3, b4⟩ := offscreen_box
  have hm : grid_tile unitPrims (unitRasterizer 16 16 0xffffff) (intVertex (-5) (-5))
      (subpixel_steps (subpixel (intVertex (-5) (-5)).PX) (subpixel (intVertex (-5) (-5)).PY)
        (subpixel (intVertex 3 40).PX) (subpixel (intVertex 3 40).PY)
        (subpixel (intVertex 40 3).PX) (subpixel (intVertex 40 3).PY))
      (tile_mx (unitRasterizer 16 16 0xffffff) (intVertex (-5) (-5)) (intVertex 3 40)
        (intVertex 40 3))
      (tile_my (unitRasterizer 16 16 0xffffff) (intVertex (-5) (-5)) (intVertex 3 40)
        (intVertex 40 3))
      (orient2d (subpixel (intVertex 3 40).PX) (subpixel (intVertex 3 40).PY)
        (subpixel (intVertex (-5) (-5)).PX) (subpixel (intVertex (-5) (-5)).PY)
        (256 * (8 * tile_mx (unitRasterizer 16 16 0xffffff) (intVertex (-5) (-5))
          (intVertex 3 40) (intVertex 40 3)))
        (256 * (8 * tile_my (unitRasterizer 16 16 0xffffff) (intVertex (-5) (-5))
          (intVertex 3 40) (intVertex 40 3))))
      (orient2d (subpixel (intVertex 40 3).PX) (subpixel (intVertex 40 3).PY)
        (subpixel (intVertex 3 40).PX) (subpixel (intVertex 3 40).PY)
        (256 * (8 * tile_mx (unitRasterizer 16 16 0xffffff) (intVertex (-5) (-5))
          (intVertex 3 40) (intVertex 40 3)))
        (256 * (8 * tile_my (unitRasterizer 16 16 0xffffff) (intVertex (-5) (-5))
          (intVertex 3 40) (intVertex 40 3))))
      (orient2d (subpixel (intVertex (-5) (-5)).PX) (subpixel (intVertex (-5) (-5)).PY)
        (subpixel (intVertex 40 3).PX) (subpixel (intVertex 40 3).PY)
        (256 * (8 * tile_mx (unitRasterizer 16 16 0xffffff) (intVertex (-5) (-5))
          (intVertex 3 40) (intVertex 40 3)))
        (256 * (8 * tile_my (unitRasterizer 16 16 0xffffff) (intVertex (-5) (-5))
          (intVertex 3 40) (intVertex 40 3)))) 1 1 ∈
      handed_tiles unitPrims (unitRasterizer 16 16 0xffffff) (intVertex (-5) (-5))
        (intVertex 3 40) (intVertex 40 3) := by
    refine (handed_tiles_wide_iff unitPrims (unitRasterizer 16 16 0xffffff)
      (intVertex (-5) (-5)) (intVertex 3 40) (intVertex 40 3) offscreen_noOverflow _).mpr
      ⟨1, 1, ?_, ?_, ?_, rfl⟩
    · rw [b3, b4]
      decide
    · rw [b1, b2]
      decide
    · rw [e1, e2, e3, e4, e5, e6, b1, b3]
      decide
  refine ⟨_, hm, ⟨?_, ?_⟩, ?_⟩
  · show tile_mx _ _ _ _ + ((1 : Nat) : Int) = 1
    rw [b1]
    decide
  · show tile_my _ _ _ _ + ((1 : Nat) : Int) = 1
    rw [b3]
    decide
  · rw [e1, e2, e3, e4, e5, e6, b1, b3]
    decide

/-- Claim C15: incremental edge evaluation is exact.  For every triangle whose
sub-pixel coordinates are small enough that nothing overflows (`NoOverflow`:
the `int32_t` differences and the results of `orient2d` are exact at every
pixel of the tiles that meet the viewport; vertices may lie left of, above or
beyond the viewport), every tile `(x, y)` that `rasterize_triangle` visits and
hands to a kernel and every pixel offset `0 ≤ i, j < 8`: the value
`a0 + i * dadx + j * dady`, with the tile's `a0` obtained by stepping `_a0` by
`TILE_SIZE * dadx` per tile column and `TILE_SIZE * dady` per tile row, equals
`orient2d(v2x, v2y, v1x, v1y, 256 * (8 x + i), 256 * (8 y + j))`, likewise `b`
with `(v3, v2)` and `c` with `(v1, v3)`; and these are the values that the exact
kernel holds in lane `i` of row `j` and that the approximate kernel tests at that
pixel. -/
theorem incremental_edges_exact {F : Type} (P : Prims F) (R : TileRasterizer F)
    (IType : TInterpolationType) (v1 v2 v3 : Vertex F) (hT : NoOverflow R v1 v2 v3) :
    ∀ t ∈ handed_tiles P R v1 v2 v3, ∀ i j : Nat, i < 8 → j < 8 →
      (t.a0 + i * t.dadx + j * t.dady =
          orient2d (subpixel v2.PX) (subpixel v2.PY) (subpixel v1.PX) (subpixel v1.PY)
            (256 * (8 * t.x + i)) (256 * (8 * t.y + j)) ∧
        t.b0 + i * t.dbdx + j * t.dbdy =
          orient2d (subpixel v3.PX) (subpixel v3.PY) (subpixel v2.PX) (subpixel v2.PY)
            (256 * (8 * t.x + i)) (256 * (8 * t.y + j)) ∧
        t.c0 + i * t.dcdx + j * t.dcdy =
          orient2d (subpixel v1.PX) (subpixel v1.PY) (subpixel v3.PX) (subpixel v3.PY)
            (256 * (8 * t.x + i)) (256 * (8 * t.y + j))) ∧
      ((exact_edges t j).p_a i = t.a0 + i * t.dadx + j * t.dady ∧
        (exact_edges t j).p_b i = t.b0 + i * t.dbdx + j * t.dbdy ∧
        (exact_edges t j).p_c i = t.c0 + i * t.dcdx + j * t.dcdy) ∧
      ((apply_pixel_state P R IType t j i).a = t.a0 + i * t.dadx + j * t.dady ∧
        (apply_pixel_state P R IType t j i).b = t.b0 + i * t.dbdx + j * t.dbdy ∧
        (apply_pixel_state P R IType t j i).c = t.c0 + i * t.dcdx + j * t.dcdy) := by
  intro t ht i j hi hj
  obtain ⟨⟨ga, gb, gc⟩, -, -, wa, wb, wc⟩ :=
    handed_tile_values_wide P R v1 v2 v3 hT t ht i j hi hj
  obtain ⟨xa, xb, xc⟩ := exact_edges_a t j i
  obtain ⟨ya, yb, yc⟩ := apply_pixel_state_values P R IType t wa wb wc j i
  have ia := orient2d_i32 (subpixel v2.PX) (subpixel v2.PY) (subpixel v1.PX) (subpixel v1.PY)
    (256 * (8 * t.x + i)) (256 * (8 * t.y + j))
  have ib := orient2d_i32 (subpixel v3.PX) (subpixel v3.PY) (subpixel v2.PX) (subpixel v2.PY)
    (256 * (8 * t.x + i)) (256 * (8 * t.y + j))
  have ic := orient2d_i32 (subpixel v1.PX) (subpixel v1.PY) (subpixel v3.PX) (subpixel v3.PY)
    (256 * (8 * t.x + i)) (256 * (8 * t.y + j))
  rw [← ga] at ia
  rw [← gb] at ib
  rw [← gc] at ic
  exact ⟨⟨ga, gb, gc⟩, ⟨xa.trans ia, xb.trans ib, xc.trans ic⟩,
    ⟨ya.trans ia, yb.trans ib, yc.trans ic⟩⟩

/-- Claim C15, instance: the triangle `(-5,-5)`, `(3,40)`, `(40,3)` on a
16 x 16 viewport, whose three vertices lie outside the viewport, one of them
left of and above it.  Nothing overflows, the tile `(1, 1)` is handed to the
kernel and its pixel `(12, 12)` passes the edge test, and in every handed tile
the stepped value of the first edge function
at the pixel offset `(3, 2)` is the value of `orient2d` at that pixel and the
value the exact kernel holds in lane 3 of row 2. -/
theorem incremental_edges_exact_witness :
    NoOverflow (unitRasterizer 16 16 0xffffff) (intVertex (-5) (-5)) (intVertex 3 40)
      (intVertex 40 3) ∧
    (∃ t ∈ handed_tiles unitPrims (unitRasterizer 16 16 0xffffff) (intVertex (-5) (-5))
      (intVertex 3 40) (intVertex 40 3), (t.x = 1 ∧ t.y = 1) ∧
        exact_lets_through t 12 12 = true) ∧
    (∀ t ∈ handed_tiles unitPrims (unitRasterizer 16 16 0xffffff) (intVertex (-5) (-5))
        (intVertex 3 40) (intVertex 40 3),
      t.a0 + ((3 : Nat) : Int) * t.dadx + ((2 : Nat) : Int) * t.dady =
          orient2d (subpixel (intVertex 3 40).PX) (subpixel (intVertex 3 40).PY)
            (subpixel (intVertex (-5) (-5)).PX) (subpixel (intVertex (-5) (-5)).PY)
            (256 * (8 * t.x + ((3 : Nat) : Int))) (256 * (8 * t.y + ((2 : Nat) : Int))) ∧
        (exact_edges t 2).p_a 3 =
          t.a0 + ((3 : Nat) : Int) * t.dadx + ((2 : Nat) : Int) * t.dady) :=
  ⟨offscreen_noOverflow, offscreen_handed, fun t ht =>
    ⟨((incremental_edges_exact unitPrims (unitRasterizer 16 16 0xffffff)
      TInterpolationType.AFFINE (intVertex (-5) (-5)) (intVertex 3 40) (intVertex 40 3)
      offscreen_noOverflow t ht 3 2 (by decide) (by decide)).1).1,
    ((incremental_edges_exact unitPrims (unitRasterizer 16 16 0xffffff)
      TInterpolationType.AFFINE (intVertex (-5) (-5)) (intVertex 3 40) (intVertex 40 3)
      offscreen_noOverflow t ht 3 2 (by decide) (by decide)).2.1).1⟩⟩

/-- Claim C9, instance: a 16 x 16 viewport and the triangle `(-5,-5)`,
`(3,40)`, `(40,3)`, whose vertices are all outside it.  The tile `(1, 1)` is
handed to the kernel and its pixel `(12, 12)` passes the edge test; every
handed tile lies in the clamped bounding box, which lies in the tiles `0..1` of
the viewport, and all its pixels are in the viewport; the pixel `(12, 12)` is
written with the texel `0xffffff` by the exact kernel on empty surfaces; and
the pixel `(16, 3)`, outside the viewport, keeps its colour and its Z value. -/
theorem viewport_clipping_witness :
    (∃ t ∈ handed_tiles unitPrims (unitRasterizer 16 16 0xffffff) (intVertex (-5) (-5))
      (intVertex 3 40) (intVertex 40 3), (t.x = 1 ∧ t.y = 1) ∧
        exact_lets_through t 12 12 = true) ∧
    (∀ t ∈ handed_tiles unitPrims (unitRasterizer 16 16 0xffffff) (intVertex (-5) (-5))
        (intVertex 3 40) (intVertex 40 3),
      (0 ≤ tile_mx (unitRasterizer 16 16 0xffffff) (intVertex (-5) (-5)) (intVertex 3 40)
          (intVertex 40 3) ∧
        tile_mx (unitRasterizer 16 16 0xffffff) (intVertex (-5) (-5)) (intVertex 3 40)
          (intVertex 40 3) ≤ t.x ∧
        t.x ≤ tile_Mx (unitRasterizer 16 16 0xffffff) (intVertex (-5) (-5)) (intVertex 3 40)
          (intVertex 40 3) ∧
        tile_Mx (unitRasterizer 16 16 0xffffff) (intVertex (-5) (-5)) (intVertex 3 40)
          (intVertex 40 3) ≤ ((unitRasterizer 16 16 0xffffff).xres - 1) / 8) ∧
      (0 ≤ tile_my (unitRasterizer 16 16 0xffffff) (intVertex (-5) (-5)) (intVertex 3 40)
          (intVertex 40 3) ∧
        tile_my (unitRasterizer 16 16 0xffffff) (intVertex (-5) (-5)) (intVertex 3 40)
          (intVertex 40 3) ≤ t.y ∧
        t.y ≤ tile_My (unitRasterizer 16 16 0xffffff) (intVertex (-5) (-5)) (intVertex 3 40)
          (intVertex 40 3) ∧
        tile_My (unitRasterizer 16 16 0xffffff) (intVertex (-5) (-5)) (intVertex 3 40)
          (intVertex 40 3) ≤ ((unitRasterizer 16 16 0xffffff).yres - 1) / 8) ∧
      ∀ X Y : Int, t.contains X Y →
        0 ≤ X ∧ X < (unitRasterizer 16 16 0xffffff).xres ∧
          0 ≤ Y ∧ Y < (unitRasterizer 16 16 0xffffff).yres) ∧
    ((unitRasterizer 16 16 0xffffff).xres = 16 ∧ (unitRasterizer 16 16 0xffffff).yres = 16) ∧
    (rasterize_triangle unitPrims (unitRasterizer 16 16 0xffffff)
      (apply_exact unitPrims (unitRasterizer 16 16 0xffffff) TBlendMode.OVERWRITE)
      (intVertex (-5) (-5)) (intVertex 3 40) (intVertex 40 3) emptySurfaces).color 12 12 =
        0xffffff ∧
    (∀ B : TBlendMode,
      (rasterize_triangle unitPrims (unitRasterizer 16 16 0xffffff)
        (apply_exact unitPrims (unitRasterizer 16 16 0xffffff) B) (intVertex (-5) (-5))
        (intVertex 3 40) (intVertex 40 3) emptySurfaces).color 16 3 =
          emptySurfaces.color 16 3 ∧
      (rasterize_triangle unitPrims (unitRasterizer 16 16 0xffffff)
        (apply_exact unitPrims (unitRasterizer 16 16 0xffffff) B) (intVertex (-5) (-5))
        (intVertex 3 40) (intVertex 40 3) emptySurfaces).z 16 3 = emptySurfaces.z 16 3) :=
  ⟨offscreen_handed,
    (viewport_clipping unitPrims (unitRasterizer 16 16 0xffffff) (intVertex (-5) (-5))
      (intVertex 3 40) (intVertex 40 3) (by decide) (by decide) (by decide) (by decide)
      (by decide) (by decide)).1,
    ⟨rfl, rfl⟩,
    rasterize_white unitPrims (unitRasterizer 16 16 0xffffff) TBlendMode.OVERWRITE
      (intVertex (-5) (-5)) (intVertex 3 40) (intVertex 40 3) 12 12 (fun _ => rfl)
      (fun _ _ _ => (by decide : 0 < u32 (0xFF80 + 2 ^ 32 - bits32 0)))
      (offscreen_handed.imp fun _ h => ⟨h.1, h.2.2⟩),
    fun B => ((viewport_clipping unitPrims (unitRasterizer 16 16 0xffffff) (intVertex (-5) (-5))
      (intVertex 3 40) (intVertex 40 3) (by decide) (by decide) (by decide) (by decide)
      (by decide) (by decide)).2 16 3 emptySurfaces (by decide)).1 B⟩

/-- Claim C20: both kernels test the same coverage predicate.  For every tile and
every pixel offset `(i, j)`, lane `i` of the exact kernel's edge vectors in row
`j` holds `a0 + i*dadx + j*dady`, `b0 + i*dbdx + j*dbdy`, `c0 + i*dcdx + j*dcdy`
in 32-bit two's complement (the first row being
`v8_from_arith_seq(a0, dadx) = [a0, a0 + dadx, ..., a0 + 7*dadx]`), lane `i` of
its mask `(p_a | p_b | p_c) >= 0` is set exactly when these three values are
non-negative, and it equals the test `(a | b | c) >= 0` that the approximate
kernel makes at that pixel, in either interpolation mode. -/
theorem kernels_same_coverage {F : Type} (P : Prims F) (R : TileRasterizer F)
    (IType : TInterpolationType) (tile : Tile F) (i j : Nat) :
    ((exact_edges tile 0).p_a = v8_from_arith_seq tile.a0 tile.dadx ∧
      v8_from_arith_seq tile.a0 tile.dadx i = i32 (tile.a0 + i * tile.dadx)) ∧
    ((exact_edges tile j).p_a i = i32 (tile.a0 + i * tile.dadx + j * tile.dady) ∧
      (exact_edges tile j).p_b i = i32 (tile.b0 + i * tile.dbdx + j * tile.dbdy) ∧
      (exact_edges tile j).p_c i = i32 (tile.c0 + i * tile.dcdx + j * tile.dcdy)) ∧
    ((exact_edges tile j).mask i = true ↔
      0 ≤ i32 (tile.a0 + i * tile.dadx + j * tile.dady) ∧
      0 ≤ i32 (tile.b0 + i * tile.dbdx + j * tile.dbdy) ∧
      0 ≤ i32 (tile.c0 + i * tile.dcdx + j * tile.dcdy)) ∧
    (exact_edges tile j).mask i =
      edge_test (apply_pixel_state P R IType tile j i).a (apply_pixel_state P R IType tile j i).b
        (apply_pixel_state P R IType tile j i).c := by
  obtain ⟨ea, eb, ec⟩ := exact_edges_a tile j i
  obtain ⟨pa, pb, pc⟩ := apply_pixel_state_edges P R IType tile j i
  have hm : (exact_edges tile j).mask i = true ↔
      0 ≤ i32 (tile.a0 + i * tile.dadx + j * tile.dady) ∧
      0 ≤ i32 (tile.b0 + i * tile.dbdx + j * tile.dbdy) ∧
      0 ≤ i32 (tile.c0 + i * tile.dcdx + j * tile.dcdy) := by
    unfold EdgeLanes.mask
    rw [edge_test_iff, ea, eb, ec, i32_i32, i32_i32, i32_i32]
  refine ⟨⟨rfl, ?_⟩, ⟨ea, eb, ec⟩, hm, ?_⟩
  · unfold v8_from_arith_seq
    rw [i32_add_left]
    congr 1
    ring
  · rw [Bool.eq_iff_iff, hm, edge_test_iff, pa, pb, pc]

/-- The colour and the Z value that `apply_exact` leaves at a pixel: both are
stored when `exact_writes` holds, both are kept otherwise. -/
theorem apply_exact_writes {F : Type} (P : Prims F) (R : TileRasterizer F) (B : TBlendMode)
    (tile : Tile F) (s : Surfaces) (X Y : Int) :
    (apply_exact P R B tile s).color X Y =
        (if exact_writes P R tile s X Y = true then exact_texel_at P R tile X Y
          else s.color X Y) ∧
      (apply_exact P R B tile s).z X Y =
        (if exact_writes P R tile s X Y = true then P.compress (exact_candidate_at P R tile X Y)
          else s.z X Y) := by
  have h := apply_exact_at P R B tile s X Y
  unfold exact_writes
  by_cases hin : tile.contains X Y
  · rw [if_pos hin] at h
    unfold exact_fragment at h
    by_cases hw : (exact_lets_through tile X Y &&
        decide (exact_candidate_at P R tile X Y > s.z X Y)) = true
    · rw [if_pos hw] at h
      rw [if_pos hw, if_pos hw]
      exact ⟨(Prod.mk.inj h).1, (Prod.mk.inj h).2⟩
    · rw [if_neg hw] at h
      rw [if_neg hw, if_neg hw]
      exact ⟨(Prod.mk.inj h).1, (Prod.mk.inj h).2⟩
  · rw [if_neg hin] at h
    have hl : exact_lets_through tile X Y = false := by
      unfold exact_lets_through
      rw [decide_eq_false hin, Bool.false_and]
    rw [hl, Bool.false_and, if_neg (by decide), if_neg (by decide)]
    exact ⟨(Prod.mk.inj h).1, (Prod.mk.inj h).2⟩

/-- The colour and the Z value that `apply` leaves at a pixel: both are stored
when `apply_writes` holds, both are kept otherwise. -/
theorem apply_writes_at {F : Type} (P : Prims F) (R : TileRasterizer F)
    (IType : TInterpolationType) (B : TBlendMode) (tile : Tile F) (s : Surfaces) (X Y : Int) :
    (apply P R IType B tile s).color X Y =
        (if apply_writes P R IType tile s X Y = true then
          (match B with
            | TBlendMode.XOR => s.color X Y ^^^ apply_output_at P R IType tile X Y
            | TBlendMode.OVERWRITE => apply_output_at P R IType tile X Y)
          else s.color X Y) ∧
      (apply P R IType B tile s).z X Y =
        (if apply_writes P R IType tile s X Y = true then apply_wz_at P R IType tile X Y
          else s.z X Y) := by
  obtain ⟨h1, h2⟩ := apply_at P R IType B tile s X Y
  rw [h1, h2]
  unfold apply_writes apply_lets_through apply_wz_at apply_output_at apply_fragment
  simp only
  by_cases hin : tile.contains X Y
  · rw [if_pos hin, if_pos hin, decide_eq_true hin, Bool.true_and]
    by_cases he : edge_test
        (apply_pixel_state P R IType tile (Y - tile.y * TILE_SIZE).toNat
          (X - tile.x * TILE_SIZE).toNat).a
        (apply_pixel_state P R IType tile (Y - tile.y * TILE_SIZE).toNat
          (X - tile.x * TILE_SIZE).toNat).b
        (apply_pixel_state P R IType tile (Y - tile.y * TILE_SIZE).toNat
          (X - tile.x * TILE_SIZE).toNat).c = true
    · rw [if_pos he, he, Bool.true_and]
      by_cases hz : (quantize_z P (P.div (P.ofInt 1)
          (apply_pixel_state P R IType tile (Y - tile.y * TILE_SIZE).toNat
            (X - tile.x * TILE_SIZE).toNat).rz) >>> 10) &&& 0xffff > s.z X Y
      · rw [if_pos hz, decide_eq_true hz, if_pos rfl, if_pos rfl]
        exact ⟨rfl, rfl⟩
      · rw [if_neg hz, decide_eq_false hz, if_neg (by decide), if_neg (by decide)]
        exact ⟨rfl, rfl⟩
    · rw [if_neg he]
      have he2 := Bool.eq_false_iff.mpr he
      rw [he2, Bool.false_and, if_neg (by decide), if_neg (by decide)]
      exact ⟨rfl, rfl⟩
  · rw [if_neg hin, if_neg hin, decide_eq_false hin, Bool.false_and, Bool.false_and,
      if_neg (by decide), if_neg (by decide)]
    exact ⟨rfl, rfl⟩

/-- Claim C21: predicated writes leave the rest untouched.  For every tile,
every surfaces and every pixel `(X, Y)`, in the exact kernel and in the
approximate kernel (both interpolation modes, both blend modes): the kernel
stores to the pixel only if it lies in the tile, passes the edge test and
passes the depth test; a pixel to which it does not store keeps its colour and
its Z value; and a pixel to which it stores receives both its colour (the
gathered texel; the modulated texel, XOR-ed in under `XOR`) and its Z value, so
the colour is written exactly when the Z value is. -/
theorem predicated_writes {F : Type} (P : Prims F) (R : TileRasterizer F)
    (IType : TInterpolationType) (B : TBlendMode) (tile : Tile F) (s : Surfaces) (X Y : Int) :
    ((exact_writes P R tile s X Y = true ↔
        tile.contains X Y ∧
        (exact_edges tile (Y - tile.y * TILE_SIZE).toNat).mask (X - tile.x * TILE_SIZE).toNat =
          true ∧
        exact_candidate_at P R tile X Y > s.z X Y) ∧
      (apply_writes P R IType tile s X Y = true ↔
        tile.contains X Y ∧
        edge_test
          (apply_pixel_state P R IType tile (Y - tile.y * TILE_SIZE).toNat
            (X - tile.x * TILE_SIZE).toNat).a
          (apply_pixel_state P R IType tile (Y - tile.y * TILE_SIZE).toNat
            (X - tile.x * TILE_SIZE).toNat).b
          (apply_pixel_state P R IType tile (Y - tile.y * TILE_SIZE).toNat
            (X - tile.x * TILE_SIZE).toNat).c = true ∧
        apply_wz_at P R IType tile X Y > s.z X Y)) ∧
    ((exact_writes P R tile s X Y = false →
        (apply_exact P R B tile s).color X Y = s.color X Y ∧
        (apply_exact P R B tile s).z X Y = s.z X Y) ∧
      (exact_writes P R tile s X Y = true →
        (apply_exact P R B tile s).color X Y = exact_texel_at P R tile X Y ∧
        (apply_exact P R B tile s).z X Y = P.compress (exact_candidate_at P R tile X Y))) ∧
    ((apply_writes P R IType tile s X Y = false →
        (apply P R IType B tile s).color X Y = s.color X Y ∧
        (apply P R IType B tile s).z X Y = s.z X Y) ∧
      (apply_writes P R IType tile s X Y = true →
        (apply P R IType B tile s).color X Y =
          (match B with
            | TBlendMode.XOR => s.color X Y ^^^ apply_output_at P R IType tile X Y
            | TBlendMode.OVERWRITE => apply_output_at P R IType tile X Y) ∧
        (apply P R IType B tile s).z X Y = apply_wz_at P R IType tile X Y)) := by
  obtain ⟨e1, e2⟩ := apply_exact_writes P R B tile s X Y
  obtain ⟨a1, a2⟩ := apply_writes_at P R IType B tile s X Y
  refine ⟨⟨?_, ?_⟩, ⟨?_, ?_⟩, ⟨?_, ?_⟩⟩
  · unfold exact_writes exact_lets_through
    rw [Bool.and_eq_true, Bool.and_eq_true, decide_eq_true_iff, decide_eq_true_iff, and_assoc]
  · unfold apply_writes apply_lets_through
    simp only
    rw [Bool.and_eq_true, Bool.and_eq_true, decide_eq_true_iff, decide_eq_true_iff, and_assoc]
  · intro h
    rw [h] at e1 e2
    exact ⟨e1, e2⟩
  · intro h
    rw [h] at e1 e2
    exact ⟨e1, e2⟩
  · intro h
    rw [h] at a1 a2
    exact ⟨a1, a2⟩
  · intro h
    rw [h] at a1 a2
    exact ⟨a1, a2⟩

theorem and_byte (x : Nat) : x &&& 0xFF = x % 256 := by
  have e : (0xFF : Nat) = 2 ^ 8 - 1 := by norm_num
  rw [e, Nat.and_pow_two_sub_one_eq_mod]

/-- The light modulation of one byte is
`(c * ((chan >> 11) & 0xFF)) >> 8`, and the result fits a byte. -/
theorem modulate_byte_eq (c chan : Nat) (hc : c < 256) :
    modulate_byte c chan = (c * ((chan >>> 11) &&& 0xFF)) >>> 8 ∧ modulate_byte c chan < 256 := by
  unfold modulate_byte
  rw [and_byte, and_byte, Nat.mod_mod_of_dvd _ (by norm_num : 256 ∣ 2 ^ 16),
    Nat.shiftRight_eq_div_pow]
  have hf : (chan >>> 11) % 256 < 256 := Nat.mod_lt _ (by norm_num)
  generalize (chan >>> 11) % 256 = f at hf
  have hp : c * f ≤ 255 * 255 := Nat.mul_le_mul (by omega) (by omega)
  have hq : c * f / 2 ^ 8 < 256 := by omega
  exact ⟨Nat.mod_eq_of_lt hq, Nat.mod_lt _ (by norm_num)⟩

/-- The four bytes of a light-modulated texel. -/
theorem modulate_bytes (texel r_ g_ b_ : Nat) :
    modulate texel r_ g_ b_ % 256 = ((texel % 256) * ((r_ >>> 11) &&& 0xFF)) >>> 8 ∧
    modulate texel r_ g_ b_ / 2 ^ 8 % 256 =
      ((texel / 2 ^ 8 % 256) * ((g_ >>> 11) &&& 0xFF)) >>> 8 ∧
    modulate texel r_ g_ b_ / 2 ^ 16 % 256 =
      ((texel / 2 ^ 16 % 256) * ((b_ >>> 11) &&& 0xFF)) >>> 8 ∧
    modulate texel r_ g_ b_ / 2 ^ 24 = texel / 2 ^ 24 % 256 := by
  obtain ⟨e0, l0⟩ := modulate_byte_eq (texel % 256) r_ (Nat.mod_lt _ (by norm_num))
  obtain ⟨e1, l1⟩ := modulate_byte_eq (texel / 2 ^ 8 % 256) g_ (Nat.mod_lt _ (by norm_num))
  obtain ⟨e2, l2⟩ := modulate_byte_eq (texel / 2 ^ 16 % 256) b_ (Nat.mod_lt _ (by norm_num))
  have l3 : texel / 2 ^ 24 % 256 < 256 := Nat.mod_lt _ (by norm_num)
  unfold modulate
  rw [← e0, ← e1, ← e2]
  generalize modulate_byte (texel % 256) r_ = m0 at l0
  generalize modulate_byte (texel / 2 ^ 8 % 256) g_ = m1 at l1
  generalize modulate_byte (texel / 2 ^ 16 % 256) b_ = m2 at l2
  generalize texel / 2 ^ 24 % 256 = m3 at l3
  refine ⟨?_, ?_, ?_, ?_⟩ <;> omega

/-- Claim C23: light modulation of the approximate kernel.  For every texel
and every fixed-point light values `r_`, `g_`, `b_`, byte `k` of the modulated
texel (`k = 0, 1, 2`, least significant first) is
`(texel byte k * ((chan_k >> 11) & 0xFF)) >> 8` with `chan = r_, g_, b_`, and
its byte 3 is byte 3 of the texel; and at every pixel to which `apply` stores,
the value stored under `OVERWRITE`, and XOR-ed into the pixel under `XOR`, is
the modulated texel `TextureAddr[(u + v) >> 12]` for the light values of the
pixel. -/
theorem light_modulation (texel r_ g_ b_ : Nat) :
    (modulate texel r_ g_ b_ % 256 = ((texel % 256) * ((r_ >>> 11) &&& 0xFF)) >>> 8 ∧
      modulate texel r_ g_ b_ / 2 ^ 8 % 256 =
        ((texel / 2 ^ 8 % 256) * ((g_ >>> 11) &&& 0xFF)) >>> 8 ∧
      modulate texel r_ g_ b_ / 2 ^ 16 % 256 =
        ((texel / 2 ^ 16 % 256) * ((b_ >>> 11) &&& 0xFF)) >>> 8 ∧
      modulate texel r_ g_ b_ / 2 ^ 24 = texel / 2 ^ 24 % 256) ∧
    (∀ (F : Type) (P : Prims F) (R : TileRasterizer F) (IType : TInterpolationType)
      (tile : Tile F) (s : Surfaces) (X Y : Int),
      apply_writes P R IType tile s X Y = true →
      (apply P R IType TBlendMode.OVERWRITE tile s).color X Y =
        modulate
          (R.t0.TextureAddr (tiled_offset
            (apply_pixel_state P R IType tile (Y - tile.y * TILE_SIZE).toNat
              (X - tile.x * TILE_SIZE).toNat).u
            (apply_pixel_state P R IType tile (Y - tile.y * TILE_SIZE).toNat
              (X - tile.x * TILE_SIZE).toNat).v))
          (apply_pixel_state P R IType tile (Y - tile.y * TILE_SIZE).toNat
            (X - tile.x * TILE_SIZE).toNat).r_
          (apply_pixel_state P R IType tile (Y - tile.y * TILE_SIZE).toNat
            (X - tile.x * TILE_SIZE).toNat).g_
          (apply_pixel_state P R IType tile (Y - tile.y * TILE_SIZE).toNat
            (X - tile.x * TILE_SIZE).toNat).b_ ∧
      (apply P R IType TBlendMode.XOR tile s).color X Y =
        s.color X Y ^^^ modulate
          (R.t0.TextureAddr (tiled_offset
            (apply_pixel_state P R IType tile (Y - tile.y * TILE_SIZE).toNat
              (X - tile.x * TILE_SIZE).toNat).u
            (apply_pixel_state P R IType tile (Y - tile.y * TILE_SIZE).toNat
              (X - tile.x * TILE_SIZE).toNat).v))
          (apply_pixel_state P R IType tile (Y - tile.y * TILE_SIZE).toNat
            (X - tile.x * TILE_SIZE).toNat).r_
          (apply_pixel_state P R IType tile (Y - tile.y * TILE_SIZE).toNat
            (X - tile.x * TILE_SIZE).toNat).g_
          (apply_pixel_state P R IType tile (Y - tile.y * TILE_SIZE).toNat
            (X - tile.x * TILE_SIZE).toNat).b_) := by
  refine ⟨modulate_bytes texel r_ g_ b_, ?_⟩
  intro F P R IType tile s X Y hw
  have h1 := (apply_writes_at P R IType TBlendMode.OVERWRITE tile s X Y).1
  have h2 := (apply_writes_at P R IType TBlendMode.XOR tile s X Y).1
  rw [if_pos hw] at h1 h2
  exact ⟨h1, h2⟩

/-- Arithmetic of the light factor.  Whenever the fixed-point light value of a
channel is below 4096, the factor `(chan >> 11) & 0xFF` is 0 or 1 and the
modulated byte `(c * factor) >> 8` is 0 for every texel byte `c` in `0..255`;
every light value `L` in `[0, 1]`, converted as `uint32(L * 2048)` in exact
arithmetic, gives a fixed-point value of at most 2048; and a texel modulated by
three such channels keeps only its byte 3. -/
theorem unit_light_is_black (chan c : Nat) (hchan : chan < 4096) (hc : c < 256) :
    ((chan >>> 11) &&& 0xFF = 0 ∨ (chan >>> 11) &&& 0xFF = 1) ∧
    (c * ((chan >>> 11) &&& 0xFF)) >>> 8 = 0 ∧
    modulate_byte c chan = 0 ∧
    (∀ zs L : ℚ, 0 ≤ L → L ≤ 1 → corner_light (exactPrims zs) L ≤ 2048) ∧
    (∀ texel r_ g_ b_ : Nat, r_ < 4096 → g_ < 4096 → b_ < 4096 →
      modulate texel r_ g_ b_ = 2 ^ 24 * (texel / 2 ^ 24 % 256)) := by
  have key : ∀ ch d : Nat, ch < 4096 → d < 256 →
      ((ch >>> 11) &&& 0xFF = 0 ∨ (ch >>> 11) &&& 0xFF = 1) ∧
      (d * ((ch >>> 11) &&& 0xFF)) >>> 8 = 0 ∧ modulate_byte d ch = 0 := by
    intro ch d hch hd
    have e := (modulate_byte_eq d ch hd).1
    rw [e, and_byte, Nat.shiftRight_eq_div_pow, Nat.shiftRight_eq_div_pow]
    have h1 : ch / 2 ^ 11 ≤ 1 := by omega
    have h2 : ch / 2 ^ 11 % 256 = ch / 2 ^ 11 := Nat.mod_eq_of_lt (by omega)
    rw [h2]
    generalize ch / 2 ^ 11 = f at h1
    have h3 : f = 0 ∨ f = 1 := by omega
    rcases h3 with rfl | rfl
    · simp
    · refine ⟨Or.inr rfl, ?_, ?_⟩ <;> omega
  obtain ⟨k1, k2, k3⟩ := key chan c hchan hc
  refine ⟨k1, k2, k3, ?_, ?_⟩
  · intro zs L h0 h1
    unfold corner_light exactPrims
    simp only
    have hq : (0 : ℚ) ≤ L * ((2048 : Int) : ℚ) := by positivity
    rw [tdiv_num_den_of_nonneg hq]
    have hf : ⌊L * ((2048 : Int) : ℚ)⌋ ≤ 2048 := by
      have : L * ((2048 : Int) : ℚ) ≤ ((2048 : Int) : ℚ) := by
        push_cast
        nlinarith
      exact (Int.floor_le_floor this).trans (le_of_eq (Int.floor_intCast 2048))
    have hf0 : 0 ≤ ⌊L * ((2048 : Int) : ℚ)⌋ := Int.floor_nonneg.mpr hq
    unfold u32
    omega
  · intro texel r_ g_ b_ hr hg hb
    unfold modulate
    rw [(key r_ _ hr (Nat.mod_lt _ (by norm_num))).2.2,
      (key g_ _ hg (Nat.mod_lt _ (by norm_num))).2.2,
      (key b_ _ hb (Nat.mod_lt _ (by norm_num))).2.2]
    omega

/-- Where the three light values of a pixel are below 4096, the approximate
kernel stores the texel with its three colour bytes cleared. -/
theorem apply_black_at {F : Type} (P : Prims F) (R : TileRasterizer F)
    (IType : TInterpolationType) (tile : Tile F) (s : Surfaces) (X Y : Int)
    (hw : apply_writes P R IType tile s X Y = true)
    (hr : (apply_pixel_state P R IType tile (Y - tile.y * TILE_SIZE).toNat
      (X - tile.x * TILE_SIZE).toNat).r_ < 4096)
    (hg : (apply_pixel_state P R IType tile (Y - tile.y * TILE_SIZE).toNat
      (X - tile.x * TILE_SIZE).toNat).g_ < 4096)
    (hb : (apply_pixel_state P R IType tile (Y - tile.y * TILE_SIZE).toNat
      (X - tile.x * TILE_SIZE).toNat).b_ < 4096) :
    (apply P R IType TBlendMode.OVERWRITE tile s).color X Y =
      2 ^ 24 * (R.t0.TextureAddr (tiled_offset
        (apply_pixel_state P R IType tile (Y - tile.y * TILE_SIZE).toNat
          (X - tile.x * TILE_SIZE).toNat).u
        (apply_pixel_state P R IType tile (Y - tile.y * TILE_SIZE).toNat
          (X - tile.x * TILE_SIZE).toNat).v) / 2 ^ 24 % 256) := by
  have h1 := (apply_writes_at P R IType TBlendMode.OVERWRITE tile s X Y).1
  rw [if_pos hw] at h1
  rw [h1]
  exact (unit_light_is_black 0 0 (by decide) (by decide)).2.2.2.2 _ _ _ _ hr hg hb

/-- The light value of a pixel of an AFFINE tile whose light does not decrease
from the origin corner to the two neighbouring corners, all three at most
2048, is below 4096. -/
theorem affine_light_small {a b c i j : Nat} (k : Int) (hab : a ≤ b) (hac : a ≤ c)
    (hb : b ≤ 2048) (hc : c ≤ 2048) (hi : i < 8) (hj : j < 8) :
    u32 (a + i * (u32 (b + 2 ^ 32 - a) / 8) + j * (u32 (c + 2 ^ 32 - a) / 8) +
      tri i * j * second_order TInterpolationType.AFFINE k) < 4096 := by
  have e1 : u32 (b + 2 ^ 32 - a) = b - a := by
    unfold u32
    omega
  have e2 : u32 (c + 2 ^ 32 - a) = c - a := by
    unfold u32
    omega
  have z : second_order TInterpolationType.AFFINE k = 0 := by
    unfold second_order
    rw [if_neg (by decide)]
  rw [e1, e2, z, Nat.mul_zero, Nat.add_zero]
  have m1 : i * ((b - a) / 8) ≤ 7 * ((b - a) / 8) := Nat.mul_le_mul_right _ (by omega)
  have m2 : j * ((c - a) / 8) ≤ 7 * ((c - a) / 8) := Nat.mul_le_mul_right _ (by omega)
  unfold u32
  omega

/-- Claim C24, failing input: light in `[0, 1]` that decreases across a tile is
not written as black by the approximate kernel.  At every pixel to which
`apply` stores and whose three light values are below 4096 the stored colour
is the texel with its three colour bytes cleared, and in an AFFINE tile whose
corner light does not decrease from the origin (`ar <= br`, `ar <= cr`, all at
most 2048) the red light value of every pixel is below 4096.  On the tile with
light `2 ^ -11` at the origin and light gradient `-2 ^ -14` per pixel in `x`
(light 0 at the next tile corner), `ar = 1` and `br = 0`; the per-pixel delta
`(br - ar) / 8`, taken in `uint32_t`, is `536870911`; at pixel `(2, 0)` the
light value is `2 ^ 30 - 1`, the factor `(r_ >> 11) & 0xFF` is 255, and
`apply` stores `0xfefefe` for the texel `0xffffff`, in both interpolation
modes. -/
theorem decreasing_light_not_black :
    (∀ (F : Type) (P : Prims F) (R : TileRasterizer F) (IType : TInterpolationType)
      (tile : Tile F) (s : Surfaces) (X Y : Int),
      apply_writes P R IType tile s X Y = true →
      (apply_pixel_state P R IType tile (Y - tile.y * TILE_SIZE).toNat
        (X - tile.x * TILE_SIZE).toNat).r_ < 4096 →
      (apply_pixel_state P R IType tile (Y - tile.y * TILE_SIZE).toNat
        (X - tile.x * TILE_SIZE).toNat).g_ < 4096 →
      (apply_pixel_state P R IType tile (Y - tile.y * TILE_SIZE).toNat
        (X - tile.x * TILE_SIZE).toNat).b_ < 4096 →
      (apply P R IType TBlendMode.OVERWRITE tile s).color X Y =
        2 ^ 24 * (R.t0.TextureAddr (tiled_offset
          (apply_pixel_state P R IType tile (Y - tile.y * TILE_SIZE).toNat
            (X - tile.x * TILE_SIZE).toNat).u
          (apply_pixel_state P R IType tile (Y - tile.y * TILE_SIZE).toNat
            (X - tile.x * TILE_SIZE).toNat).v) / 2 ^ 24 % 256)) ∧
    (∀ (F : Type) (P : Prims F) (R : TileRasterizer F) (tile : Tile F) (i j : Nat),
      i < 8 → j < 8 →
      corner_light P tile.t0.r0 ≤
        corner_light P (P.add tile.t0.r0 (P.mul R.drdx (P.ofInt 8))) →
      corner_light P tile.t0.r0 ≤
        corner_light P (P.add tile.t0.r0 (P.mul R.drdy (P.ofInt 8))) →
      corner_light P (P.add tile.t0.r0 (P.mul R.drdx (P.ofInt 8))) ≤ 2048 →
      corner_light P (P.add tile.t0.r0 (P.mul R.drdy (P.ofInt 8))) ≤ 2048 →
      (apply_pixel_state P R TInterpolationType.AFFINE tile j i).r_ < 4096) ∧
    (corner_light dyadicPrims (texTile 0 0 32).t0.r0 = 1 ∧
      corner_light dyadicPrims (dyadicPrims.add (texTile 0 0 32).t0.r0
        (dyadicPrims.mul (texRasterizer 0 0 (fun _ => 0xffffff) 0 0 0 0 (-4) 0).drdx
          (dyadicPrims.ofInt 8))) = 0 ∧
      (apply_setup dyadicPrims (texRasterizer 0 0 (fun _ => 0xffffff) 0 0 0 0 (-4) 0)
        TInterpolationType.AFFINE (texTile 0 0 32)).ar = 1 ∧
      (apply_setup dyadicPrims (texRasterizer 0 0 (fun _ => 0xffffff) 0 0 0 0 (-4) 0)
        TInterpolationType.AFFINE (texTile 0 0 32)).drx0 = 536870911) ∧
    ((apply_pixel_state dyadicPrims (texRasterizer 0 0 (fun _ => 0xffffff) 0 0 0 0 (-4) 0)
        TInterpolationType.AFFINE (texTile 0 0 32) 0 2).r_ = 2 ^ 30 - 1 ∧
      ((2 ^ 30 - 1) >>> 11) &&& 0xFF = 255 ∧
      apply_writes dyadicPrims (texRasterizer 0 0 (fun _ => 0xffffff) 0 0 0 0 (-4) 0)
        TInterpolationType.AFFINE (texTile 0 0 32) emptySurfaces 2 0 = true) ∧
    (apply dyadicPrims (texRasterizer 0 0 (fun _ => 0xffffff) 0 0 0 0 (-4) 0)
      TInterpolationType.AFFINE TBlendMode.OVERWRITE (texTile 0 0 32)
      emptySurfaces).color 2 0 = 0xfefefe ∧
    (apply dyadicPrims (texRasterizer 0 0 (fun _ => 0xffffff) 0 0 0 0 (-4) 0)
      TInterpolationType.QUADRATIC TBlendMode.OVERWRITE (texTile 0 0 32)
      emptySurfaces).color 2 0 = 0xfefefe := by
  refine ⟨fun F P R IType tile s X Y => apply_black_at P R IType tile s X Y, ?_,
    ⟨by decide, by decide, by decide, by decide⟩, ⟨by decide, by decide, by decide⟩, ?_, ?_⟩
  · intro F P R tile i j hi hj hab hac hb hc
    rw [(apply_pixel_state_light P R TInterpolationType.AFFINE tile j i).1]
    exact affine_light_small _ hab hac hb hc hi hj
  · rw [(apply_at dyadicPrims (texRasterizer 0 0 (fun _ => 0xffffff) 0 0 0 0 (-4) 0)
      TInterpolationType.AFFINE TBlendMode.OVERWRITE (texTile 0 0 32) emptySurfaces 2 0).1]
    decide
  · rw [(apply_at dyadicPrims (texRasterizer 0 0 (fun _ => 0xffffff) 0 0 0 0 (-4) 0)
      TInterpolationType.QUADRATIC TBlendMode.OVERWRITE (texTile 0 0 32) emptySurfaces 2 0).1]
    decide

/-- The three exact edge products of a triangle at any point add up to the
orientation determinant of the triangle. -/
theorem cross_sum (v1x v1y v2x v2y v3x v3y px py : Int) :
    cross v2x v2y v1x v1y px py + cross v3x v3y v2x v2y px py + cross v1x v1y v3x v3y px py =
      (v1x - v2x) * (v3y - v2y) - (v1y - v2y) * (v3x - v2x) := by
  unfold cross
  ring

theorem apply_not_through {F : Type} (P : Prims F) (R : TileRasterizer F)
    (IType : TInterpolationType) (B : TBlendMode) (t : Tile F) (s : Surfaces) (X Y : Int)
    (hl : apply_lets_through P R IType t X Y = false) :
    (apply P R IType B t s).color X Y = s.color X Y ∧
      (apply P R IType B t s).z X Y = s.z X Y := by
  obtain ⟨h1, h2⟩ := apply_writes_at P R IType B t s X Y
  have hw : apply_writes P R IType t s X Y = false := by
    unfold apply_writes
    rw [hl, Bool.false_and]
  rw [hw, if_neg (by decide)] at h1 h2
  exact ⟨h1, h2⟩

theorem rasterize_apply_not_covered {F : Type} (P : Prims F) (R : TileRasterizer F)
    (IType : TInterpolationType) (B : TBlendMode) (v1 v2 v3 : Vertex F) (s : Surfaces)
    (X Y : Int)
    (h : ∀ t ∈ handed_tiles P R v1 v2 v3, apply_lets_through P R IType t X Y = false) :
    (rasterize_triangle P R (apply P R IType B) v1 v2 v3 s).color X Y = s.color X Y ∧
      (rasterize_triangle P R (apply P R IType B) v1 v2 v3 s).z X Y = s.z X Y := by
  rw [rasterize_triangle_fold]
  apply foldl_unchanged
  intro t ht s'
  exact apply_not_through P R IType B t s' X Y (h t ht)

/-- Where nothing overflows the sum of the three edge values at a pixel is the
sum at the pixel `(0, 0)`. -/
theorem orient_sum_const_wide {v1x v1y v2x v2y v3x v3y : Int} (X Y : Int)
    (a0 : EdgeFits v2x v2y v1x v1y (256 * 0) (256 * 0))
    (b0 : EdgeFits v3x v3y v2x v2y (256 * 0) (256 * 0))
    (c0 : EdgeFits v1x v1y v3x v3y (256 * 0) (256 * 0))
    (a1 : EdgeFits v2x v2y v1x v1y (256 * X) (256 * Y))
    (b1 : EdgeFits v3x v3y v2x v2y (256 * X) (256 * Y))
    (c1 : EdgeFits v1x v1y v3x v3y (256 * X) (256 * Y)) :
    orient2d v2x v2y v1x v1y (256 * X) (256 * Y) + orient2d v3x v3y v2x v2y (256 * X) (256 * Y) +
        orient2d v1x v1y v3x v3y (256 * X) (256 * Y) =
      orient2d v2x v2y v1x v1y 0 0 + orient2d v3x v3y v2x v2y 0 0 +
        orient2d v1x v1y v3x v3y 0 0 := by
  have z : (256 * 0 : Int) = 0 := by norm_num
  rw [z] at a0 b0 c0
  rw [orient2d_of_fits a0, orient2d_of_fits b0, orient2d_of_fits c0, orient2d_of_fits a1,
    orient2d_of_fits b1, orient2d_of_fits c1]
  have sa := cross_div_shift v2x v2y v1x v1y 0 0 X Y
  have sb := cross_div_shift v3x v3y v2x v2y 0 0 X Y
  have sc := cross_div_shift v1x v1y v3x v3y 0 0 X Y
  simp only [Int.zero_add, Int.mul_zero] at sa sb sc
  rw [sa, sb, sc]
  ring

/-- Where nothing overflows no point passes the three edge tests of a triangle
of negative orientation. -/
theorem backface_fails_wide {v1x v1y v2x v2y v3x v3y : Int} (px py : Int)
    (a1 : EdgeFits v2x v2y v1x v1y px py) (b1 : EdgeFits v3x v3y v2x v2y px py)
    (c1 : EdgeFits v1x v1y v3x v3y px py)
    (hD : (v1x - v2x) * (v3y - v2y) - (v1y - v2y) * (v3x - v2x) < 0) :
    ¬ (0 ≤ orient2d v2x v2y v1x v1y px py ∧ 0 ≤ orient2d v3x v3y v2x v2y px py ∧
      0 ≤ orient2d v1x v1y v3x v3y px py) := by
  rw [orient2d_nonneg_of_fits a1, orient2d_nonneg_of_fits b1, orient2d_nonneg_of_fits c1]
  have hs := cross_sum v1x v1y v2x v2y v3x v3y px py
  intro ⟨ha, hb, hc⟩
  omega

/-- The edge tests of the two kernels at a pixel of a tile, in terms of the
stepped edge values, for a tile whose origin values are `int32_t` and whose
stepped values at the pixel are. -/
theorem lets_through_iff {F : Type} (P : Prims F) (R : TileRasterizer F)
    (IType : TInterpolationType) (t : Tile F) (X Y : Int) (hin : t.contains X Y)
    (ia : i32 (t.a0 + ((X - t.x * TILE_SIZE).toNat : Int) * t.dadx +
        ((Y - t.y * TILE_SIZE).toNat : Int) * t.dady) =
      t.a0 + ((X - t.x * TILE_SIZE).toNat : Int) * t.dadx +
        ((Y - t.y * TILE_SIZE).toNat : Int) * t.dady)
    (ib : i32 (t.b0 + ((X - t.x * TILE_SIZE).toNat : Int) * t.dbdx +
        ((Y - t.y * TILE_SIZE).toNat : Int) * t.dbdy) =
      t.b0 + ((X - t.x * TILE_SIZE).toNat : Int) * t.dbdx +
        ((Y - t.y * TILE_SIZE).toNat : Int) * t.dbdy)
    (ic : i32 (t.c0 + ((X - t.x * TILE_SIZE).toNat : Int) * t.dcdx +
        ((Y - t.y * TILE_SIZE).toNat : Int) * t.dcdy) =
      t.c0 + ((X - t.x * TILE_SIZE).toNat : Int) * t.dcdx +
        ((Y - t.y * TILE_SIZE).toNat : Int) * t.dcdy) :
    (exact_lets_through t X Y = true ↔
      (0 ≤ t.a0 + ((X - t.x * TILE_SIZE).toNat : Int) * t.dadx +
          ((Y - t.y * TILE_SIZE).toNat : Int) * t.dady ∧
        0 ≤ t.b0 + ((X - t.x * TILE_SIZE).toNat : Int) * t.dbdx +
          ((Y - t.y * TILE_SIZE).toNat : Int) * t.dbdy ∧
        0 ≤ t.c0 + ((X - t.x * TILE_SIZE).toNat : Int) * t.dcdx +
          ((Y - t.y * TILE_SIZE).toNat : Int) * t.dcdy)) ∧
    (apply_lets_through P R IType t X Y = true ↔
      (0 ≤ t.a0 + ((X - t.x * TILE_SIZE).toNat : Int) * t.dadx +
          ((Y - t.y * TILE_SIZE).toNat : Int) * t.dady ∧
        0 ≤ t.b0 + ((X - t.x * TILE_SIZE).toNat : Int) * t.dbdx +
          ((Y - t.y * TILE_SIZE).toNat : Int) * t.dbdy ∧
        0 ≤ t.c0 + ((X - t.x * TILE_SIZE).toNat : Int) * t.dcdx +
          ((Y - t.y * TILE_SIZE).toNat : Int) * t.dcdy)) := by
  obtain ⟨xa, xb, xc⟩ := exact_edges_a t (Y - t.y * TILE_SIZE).toNat (X - t.x * TILE_SIZE).toNat
  obtain ⟨pa, pb, pc⟩ := apply_pixel_state_edges P R IType t (Y - t.y * TILE_SIZE).toNat
    (X - t.x * TILE_SIZE).toNat
  constructor
  · unfold exact_lets_through EdgeLanes.mask
    rw [Bool.and_eq_true, edge_test_iff, xa, xb, xc, i32_i32, i32_i32, i32_i32, ia, ib, ic,
      decide_eq_true hin]
    exact ⟨fun h => h.2, fun h => ⟨rfl, h⟩⟩
  · unfold apply_lets_through
    simp only
    rw [Bool.and_eq_true, edge_test_iff, pa, pb, pc, ia, ib, ic, decide_eq_true hin]
    exact ⟨fun h => h.2, fun h => ⟨rfl, h⟩⟩

/-- The edge tests of the two kernels at a pixel of a handed tile, when nothing
overflows: the pixel passes when the three values of `orient2d` at the pixel
are non-negative. -/
theorem handed_lets_through_iff {F : Type} (P : Prims F) (R : TileRasterizer F)
    (IType : TInterpolationType) (v1 v2 v3 : Vertex F) (hT : NoOverflow R v1 v2 v3)
    (t : Tile F) (ht : t ∈ handed_tiles P R v1 v2 v3) (X Y : Int) (hin : t.contains X Y) :
    (exact_lets_through t X Y = true ↔
      (0 ≤ orient2d (subpixel v2.PX) (subpixel v2.PY) (subpixel v1.PX) (subpixel v1.PY)
          (256 * X) (256 * Y) ∧
        0 ≤ orient2d (subpixel v3.PX) (subpixel v3.PY) (subpixel v2.PX) (subpixel v2.PY)
          (256 * X) (256 * Y) ∧
        0 ≤ orient2d (subpixel v1.PX) (subpixel v1.PY) (subpixel v3.PX) (subpixel v3.PY)
          (256 * X) (256 * Y))) ∧
    (apply_lets_through P R IType t X Y = true ↔
      (0 ≤ orient2d (subpixel v2.PX) (subpixel v2.PY) (subpixel v1.PX) (subpixel v1.PY)
          (256 * X) (256 * Y) ∧
        0 ≤ orient2d (subpixel v3.PX) (subpixel v3.PY) (subpixel v2.PX) (subpixel v2.PY)
          (256 * X) (256 * Y) ∧
        0 ≤ orient2d (subpixel v1.PX) (subpixel v1.PY) (subpixel v3.PX) (subpixel v3.PY)
          (256 * X) (256 * Y))) := by
  have hin2 := hin
  unfold Tile.contains TILE_SIZE at hin2
  have hi : (X - t.x * TILE_SIZE).toNat < 8 := by unfold TILE_SIZE; omega
  have hj : (Y - t.y * TILE_SIZE).toNat < 8 := by unfold TILE_SIZE; omega
  obtain ⟨⟨va, vb, vc⟩, -, -, -⟩ := handed_tile_values_wide P R v1 v2 v3 hT t ht _ _ hi hj
  have eX : 8 * t.x + ((X - t.x * TILE_SIZE).toNat : Int) = X := by unfold TILE_SIZE; omega
  have eY : 8 * t.y + ((Y - t.y * TILE_SIZE).toNat : Int) = Y := by unfold TILE_SIZE; omega
  rw [eX, eY] at va vb vc
  have h := lets_through_iff P R IType t X Y hin
    (by rw [va]; exact orient2d_i32 _ _ _ _ _ _) (by rw [vb]; exact orient2d_i32 _ _ _ _ _ _)
    (by rw [vc]; exact orient2d_i32 _ _ _ _ _ _)
  rw [va, vb, vc] at h
  exact h

/-- No pixel of a handed tile of a triangle of negative orientation passes the
edge test of either kernel, when nothing overflows. -/
theorem backface_not_through_wide {F : Type} (P : Prims F) (R : TileRasterizer F)
    (IType : TInterpolationType) (v1 v2 v3 : Vertex F) (hT : NoOverflow R v1 v2 v3)
    (hD : (subpixel v1.PX - subpixel v2.PX) * (subpixel v3.PY - subpixel v2.PY) -
      (subpixel v1.PY - subpixel v2.PY) * (subpixel v3.PX - subpixel v2.PX) < 0)
    (t : Tile F) (ht : t ∈ handed_tiles P R v1 v2 v3) (X Y : Int) :
    exact_lets_through t X Y = false ∧ apply_lets_through P R IType t X Y = false := by
  by_cases hin : t.contains X Y
  · obtain ⟨h1, h2⟩ := handed_lets_through_iff P R IType v1 v2 v3 hT t ht X Y hin
    have hin2 := hin
    unfold Tile.contains TILE_SIZE at hin2
    obtain ⟨-, ⟨tx0, tx1⟩, ⟨ty0, ty1⟩, -⟩ :=
      handed_tile_values_wide P R v1 v2 v3 hT t ht 0 0 (by decide) (by decide)
    obtain ⟨-, a1, b1, c1⟩ := hT.2.2.2 X Y (by omega) (by omega) (by omega) (by omega)
    have hf := backface_fails_wide (256 * X) (256 * Y) a1 b1 c1 hD
    constructor
    · rw [Bool.eq_false_iff]
      exact fun h => hf (h1.mp h)
    · rw [Bool.eq_false_iff]
      exact fun h => hf (h2.mp h)
  · constructor
    · unfold exact_lets_through
      rw [decide_eq_false hin, Bool.false_and]
    · unfold apply_lets_through
      simp only
      rw [decide_eq_false hin, Bool.false_and]

/-- The sub-pixel vertices of the triangle `(-2,-2)`, `(6,0)`, `(0,6)`. -/
theorem backset_subpixel :
    subpixel (intVertex (-2) (-2)).PX = -511 ∧ subpixel (intVertex (-2) (-2)).PY = -511 ∧
    subpixel (intVertex 6 0).PX = 1536 ∧ subpixel (intVertex 6 0).PY = 0 ∧
    subpixel (intVertex 0 6).PX = 0 ∧ subpixel (intVertex 0 6).PY = 1536 :=
  ⟨@subpixel_intCast_neg (-2) (by decide) (by decide),
    @subpixel_intCast_neg (-2) (by decide) (by decide),
    @subpixel_intCast 6 (by decide) (by decide), @subpixel_intCast 0 (by decide) (by decide),
    @subpixel_intCast 0 (by decide) (by decide), @subpixel_intCast 6 (by decide) (by decide)⟩

/-- The clamped bounding box of the triangle `(-2,-2)`, `(6,0)`, `(0,6)` on a
16 x 16 viewport is the tile `(0, 0)`. -/
theorem backset_box :
    tile_mx (unitRasterizer 16 16 0xffffff) (intVertex (-2) (-2)) (intVertex 6 0)
      (intVertex 0 6) = 0 ∧
    tile_Mx (unitRasterizer 16 16 0xffffff) (intVertex (-2) (-2)) (intVertex 6 0)
      (intVertex 0 6) = 0 ∧
    tile_my (unitRasterizer 16 16 0xffffff) (intVertex (-2) (-2)) (intVertex 6 0)
      (intVertex 0 6) = 0 ∧
    tile_My (unitRasterizer 16 16 0xffffff) (intVertex (-2) (-2)) (intVertex 6 0)
      (intVertex 0 6) = 0 := by
  have emx : f2i (min (min (intVertex (-2) (-2)).PX (intVertex 6 0).PX) (intVertex 0 6).PX) =
      -2 := @f2i_min3_wide (-2) 6 0 (by decide) (by decide)
  have eMx : f2i (max (max (intVertex (-2) (-2)).PX (intVertex 6 0).PX) (intVertex 0 6).PX) =
      6 := @f2i_max3_wide (-2) 6 0 (by decide) (by decide)
  have emy : f2i (min (min (intVertex (-2) (-2)).PY (intVertex 6 0).PY) (intVertex 0 6).PY) =
      -2 := @f2i_min3_wide (-2) 0 6 (by decide) (by decide)
  have eMy : f2i (max (max (intVertex (-2) (-2)).PY (intVertex 6 0).PY) (intVertex 0 6).PY) =
      6 := @f2i_max3_wide (-2) 0 6 (by decide) (by decide)
  unfold tile_mx tile_Mx tile_my tile_My
  rw [emx, eMx, emy, eMy]
  unfold clampedX clampedY unitRasterizer
  decide

/-- Nothing overflows for the triangle `(-2,-2)`, `(6,0)`, `(0,6)` on a
16 x 16 viewport. -/
theorem backset_noOverflow :
    NoOverflow (unitRasterizer 16 16 0xffffff) (intVertex (-2) (-2)) (intVertex 6 0)
      (intVertex 0 6) := by
  obtain ⟨e1, e2, e3, e4, e5, e6⟩ := backset_subpixel
  unfold NoOverflow
  rw [e1, e2, e3, e4, e5, e6]
  unfold EdgeFits Fits32 cross unitRasterizer
  refine ⟨by decide, by decide, by decide, ?_⟩
  intro X Y hX0 hX1 hY0 hY1
  simp only at hX1 hY1
  omega

/-- The tile `(0, 0)` is handed to the kernel for the triangle `(-2,-2)`,
`(6,0)`, `(0,6)` on a 16 x 16 viewport. -/
theorem backset_handed :
    ∃ t ∈ handed_tiles unitPrims (unitRasterizer 16 16 0xffffff) (intVertex (-2) (-2))
      (intVertex 6 0) (intVertex 0 6), t.x = 0 ∧ t.y = 0 := by
  obtain ⟨e1, e2, e3, e4, e5, e6⟩ := backset_subpixel
  obtain ⟨b1, b2, b3, b4⟩ := backset_box
  refine ⟨_, (handed_tiles_wide_iff unitPrims (unitRasterizer 16 16 0xffffff)
    (intVertex (-2) (-2)) (intVertex 6 0) (intVertex 0 6) backset_noOverflow _).mpr
    ⟨0, 0, ?_, ?_, ?_, rfl⟩, ?_, ?_⟩
  · rw [b3, b4]
    decide
  · rw [b1, b2]
    decide
  · rw [e1, e2, e3, e4, e5, e6, b1, b3]
    decide
  · show tile_mx _ _ _ _ + ((0 : Nat) : Int) = 0
    rw [b1]
    decide
  · show tile_my _ _ _ _ + ((0 : Nat) : Int) = 0
    rw [b3]
    decide

/-- Claim C25, amended: back-facing triangles draw nothing, as long as no edge
value wraps around.  For every triangle and viewport for which nothing
overflows (`NoOverflow`: the `int32_t` differences and the results of
`orient2d` are exact at every pixel of the tiles that meet the viewport;
vertices may lie left of, above or beyond the viewport): the sum `a + b + c`
of the three edge values is the same at every pixel of every tile handed to a
kernel, namely the sum of the three values of `orient2d` at the origin, which
is also `_a0 + _b0 + _c0` at the first tile; and when the orientation
`(v1x-v2x)*(v3y-v2y) - (v1y-v2y)*(v3x-v2x)` of the sub-pixel vertices is
negative, no pixel of a handed tile has `a >= 0`, `b >= 0` and `c >= 0`, no
pixel passes the edge test of either kernel, and `rasterize_triangle` leaves
the colour and the Z value of every pixel unchanged, with the exact kernel and
with the approximate kernel. -/
theorem backface_culled {F : Type} (P : Prims F) (R : TileRasterizer F)
    (IType : TInterpolationType) (B : TBlendMode) (v1 v2 v3 : Vertex F)
    (hT : NoOverflow R v1 v2 v3) :
    ((∀ t ∈ handed_tiles P R v1 v2 v3, ∀ i j : Nat, i < 8 → j < 8 →
        (t.a0 + i * t.dadx + j * t.dady) + (t.b0 + i * t.dbdx + j * t.dbdy) +
            (t.c0 + i * t.dcdx + j * t.dcdy) =
          orient2d (subpixel v2.PX) (subpixel v2.PY) (subpixel v1.PX) (subpixel v1.PY) 0 0 +
            orient2d (subpixel v3.PX) (subpixel v3.PY) (subpixel v2.PX) (subpixel v2.PY) 0 0 +
            orient2d (subpixel v1.PX) (subpixel v1.PY) (subpixel v3.PX) (subpixel v3.PY) 0 0) ∧
      orient2d (subpixel v2.PX) (subpixel v2.PY) (subpixel v1.PX) (subpixel v1.PY)
          (256 * (8 * tile_mx R v1 v2 v3)) (256 * (8 * tile_my R v1 v2 v3)) +
        orient2d (subpixel v3.PX) (subpixel v3.PY) (subpixel v2.PX) (subpixel v2.PY)
          (256 * (8 * tile_mx R v1 v2 v3)) (256 * (8 * tile_my R v1 v2 v3)) +
        orient2d (subpixel v1.PX) (subpixel v1.PY) (subpixel v3.PX) (subpixel v3.PY)
          (256 * (8 * tile_mx R v1 v2 v3)) (256 * (8 * tile_my R v1 v2 v3)) =
      orient2d (subpixel v2.PX) (subpixel v2.PY) (subpixel v1.PX) (subpixel v1.PY) 0 0 +
        orient2d (subpixel v3.PX) (subpixel v3.PY) (subpixel v2.PX) (subpixel v2.PY) 0 0 +
        orient2d (subpixel v1.PX) (subpixel v1.PY) (subpixel v3.PX) (subpixel v3.PY) 0 0) ∧
    ((subpixel v1.PX - subpixel v2.PX) * (subpixel v3.PY - subpixel v2.PY) -
        (subpixel v1.PY - subpixel v2.PY) * (subpixel v3.PX - subpixel v2.PX) < 0 →
      (∀ t ∈ handed_tiles P R v1 v2 v3, ∀ i j : Nat, i < 8 → j < 8 →
        ¬ (0 ≤ t.a0 + i * t.dadx + j * t.dady ∧ 0 ≤ t.b0 + i * t.dbdx + j * t.dbdy ∧
          0 ≤ t.c0 + i * t.dcdx + j * t.dcdy)) ∧
      (∀ t ∈ handed_tiles P R v1 v2 v3, ∀ X Y : Int,
        exact_lets_through t X Y = false ∧ apply_lets_through P R IType t X Y = false) ∧
      (∀ (s : Surfaces) (X Y : Int),
        (rasterize_triangle P R (apply_exact P R B) v1 v2 v3 s).color X Y = s.color X Y ∧
        (rasterize_triangle P R (apply_exact P R B) v1 v2 v3 s).z X Y = s.z X Y) ∧
      (∀ (s : Surfaces) (X Y : Int),
        (rasterize_triangle P R (apply P R IType B) v1 v2 v3 s).color X Y = s.color X Y ∧
        (rasterize_triangle P R (apply P R IType B) v1 v2 v3 s).z X Y = s.z X Y)) := by
  have hT2 := hT
  obtain ⟨hx, hy, -, hp⟩ := hT2
  obtain ⟨-, a0, b0, c0⟩ := hp 0 0 (le_refl 0) (by omega) (le_refl 0) (by omega)
  refine ⟨⟨?_, ?_⟩, ?_⟩
  · intro t ht i j hi hj
    obtain ⟨⟨va, vb, vc⟩, ⟨tx0, tx1⟩, ⟨ty0, ty1⟩, -⟩ :=
      handed_tile_values_wide P R v1 v2 v3 hT t ht i j hi hj
    rw [va, vb, vc]
    obtain ⟨-, a1, b1, c1⟩ := hp (8 * t.x + i) (8 * t.y + j) (by omega) (by omega) (by omega)
      (by omega)
    exact orient_sum_const_wide _ _ a0 b0 c0 a1 b1 c1
  · obtain ⟨⟨bx, bX⟩, ⟨by_, bY⟩⟩ := tile_box R v1 v2 v3 hx hy
    have bx2 : tile_mx R v1 v2 v3 ≤ (R.xres - 1) / 8 :=
      (clamped_range R.xres (f2i (min (min v1.PX v2.PX) v3.PX)) hx.1 hx.2).2
    have by2 : tile_my R v1 v2 v3 ≤ (R.yres - 1) / 8 :=
      (clamped_range R.yres (f2i (min (min v1.PY v2.PY) v3.PY)) hy.1 hy.2).2
    obtain ⟨-, a1, b1, c1⟩ := hp (8 * tile_mx R v1 v2 v3) (8 * tile_my R v1 v2 v3) (by omega)
      (by omega) (by omega) (by omega)
    exact orient_sum_const_wide _ _ a0 b0 c0 a1 b1 c1
  · intro hD
    have hnt := backface_not_through_wide P R IType v1 v2 v3 hT hD
    refine ⟨?_, fun t ht X Y => hnt t ht X Y, ?_, ?_⟩
    · intro t ht i j hi hj
      obtain ⟨⟨va, vb, vc⟩, ⟨tx0, tx1⟩, ⟨ty0, ty1⟩, -⟩ :=
        handed_tile_values_wide P R v1 v2 v3 hT t ht i j hi hj
      rw [va, vb, vc]
      obtain ⟨-, a1, b1, c1⟩ := hp (8 * t.x + i) (8 * t.y + j) (by omega) (by omega)
        (by omega) (by omega)
      exact backface_fails_wide _ _ a1 b1 c1 hD
    · intro s X Y
      apply rasterize_not_covered
      rintro ⟨t, ht, hl⟩
      rw [(hnt t ht X Y).1] at hl
      exact absurd hl (by decide)
    · intro s X Y
      exact rasterize_apply_not_covered P R IType B v1 v2 v3 s X Y
        (fun t ht => (hnt t ht X Y).2)

/-- Claim C25, instance: the triangle `(-2,-2)`, `(6,0)`, `(0,6)` on a 16 x 16
viewport, with a vertex left of and above the viewport.  Nothing overflows,
its orientation is negative, the tile `(0, 0)` is handed to the kernel, no
pixel passes the edge test of either kernel, and `rasterize_triangle` changes
no pixel. -/
theorem backface_culled_witness :
    NoOverflow (unitRasterizer 16 16 0xffffff) (intVertex (-2) (-2)) (intVertex 6 0)
      (intVertex 0 6) ∧
    (subpixel (intVertex (-2) (-2)).PX - subpixel (intVertex 6 0).PX) *
        (subpixel (intVertex 0 6).PY - subpixel (intVertex 6 0).PY) -
      (subpixel (intVertex (-2) (-2)).PY - subpixel (intVertex 6 0).PY) *
        (subpixel (intVertex 0 6).PX - subpixel (intVertex 6 0).PX) < 0 ∧
    (∃ t ∈ handed_tiles unitPrims (unitRasterizer 16 16 0xffffff) (intVertex (-2) (-2))
      (intVertex 6 0) (intVertex 0 6), t.x = 0 ∧ t.y = 0) ∧
    (∀ t ∈ handed_tiles unitPrims (unitRasterizer 16 16 0xffffff) (intVertex (-2) (-2))
        (intVertex 6 0) (intVertex 0 6), ∀ X Y : Int,
      exact_lets_through t X Y = false ∧
        apply_lets_through unitPrims (unitRasterizer 16 16 0xffffff)
          TInterpolationType.AFFINE t X Y = false) ∧
    (∀ (s : Surfaces) (X Y : Int),
      (rasterize_triangle unitPrims (unitRasterizer 16 16 0xffffff)
        (apply_exact unitPrims (unitRasterizer 16 16 0xffffff) TBlendMode.OVERWRITE)
        (intVertex (-2) (-2)) (intVertex 6 0) (intVertex 0 6) s).color X Y = s.color X Y ∧
      (rasterize_triangle unitPrims (unitRasterizer 16 16 0xffffff)
        (apply_exact unitPrims (unitRasterizer 16 16 0xffffff) TBlendMode.OVERWRITE)
        (intVertex (-2) (-2)) (intVertex 6 0) (intVertex 0 6) s).z X Y = s.z X Y) := by
  obtain ⟨e1, e2, e3, e4, e5, e6⟩ := backset_subpixel
  have hD : (subpixel (intVertex (-2) (-2)).PX - subpixel (intVertex 6 0).PX) *
        (subpixel (intVertex 0 6).PY - subpixel (intVertex 6 0).PY) -
      (subpixel (intVertex (-2) (-2)).PY - subpixel (intVertex 6 0).PY) *
        (subpixel (intVertex 0 6).PX - subpixel (intVertex 6 0).PX) < 0 := by
    rw [e1, e2, e3, e4, e5, e6]
    decide
  exact ⟨backset_noOverflow, hD, backset_handed,
    ((backface_culled unitPrims (unitRasterizer 16 16 0xffffff) TInterpolationType.AFFINE
      TBlendMode.OVERWRITE (intVertex (-2) (-2)) (intVertex 6 0) (intVertex 0 6)
      backset_noOverflow).2 hD).2.1,
    ((backface_culled unitPrims (unitRasterizer 16 16 0xffffff) TInterpolationType.AFFINE
      TBlendMode.OVERWRITE (intVertex (-2) (-2)) (intVertex 6 0) (intVertex 0 6)
      backset_noOverflow).2 hD).2.2.1⟩

/-- The call of `rasterize_triangle` on the triangle `(0,0)`, `(3072,0)`,
`(0,3072)` and an 8 x 8 viewport: one tile is visited and handed to the
kernel, with the origin edge values 0, 1879048192 and 0. -/
theorem far_triangle_rasterize {S : Type} (kernel : Tile Unit → S → S) (s : S) :
    rasterize_triangle unitPrims (unitRasterizer 8 8 0xffffff) kernel (intVertex 0 0)
        (intVertex 3072 0) (intVertex 0 3072) s =
      kernel (make_tile unitPrims (unitRasterizer 8 8 0xffffff) (intVertex 0 0)
        ⟨0, -786432, 786432, 786432, -786432, 0⟩ 0 0 0 1879048192 0) s := by
  have emx : f2i (min (min (intVertex 0 0).PX (intVertex 3072 0).PX) (intVertex 0 3072).PX) = 0 :=
    @f2i_min3 0 3072 0 (by decide) (by decide)
  have eMx : f2i (max (max (intVertex 0 0).PX (intVertex 3072 0).PX) (intVertex 0 3072).PX) =
      3072 := @f2i_max3 0 3072 0 (by decide) (by decide)
  have emy : f2i (min (min (intVertex 0 0).PY (intVertex 3072 0).PY) (intVertex 0 3072).PY) = 0 :=
    @f2i_min3 0 0 3072 (by decide) (by decide)
  have eMy : f2i (max (max (intVertex 0 0).PY (intVertex 3072 0).PY) (intVertex 0 3072).PY) =
      3072 := @f2i_max3 0 0 3072 (by decide) (by decide)
  have e1x : f2i ((intVertex 0 0).PX * SUBPIXEL_MULT + 1 / 2) = 0 :=
    @f2i_subpixel 0 (by decide) (by decide)
  have e1y : f2i ((intVertex 0 0).PY * SUBPIXEL_MULT + 1 / 2) = 0 :=
    @f2i_subpixel 0 (by decide) (by decide)
  have e2x : f2i ((intVertex 3072 0).PX * SUBPIXEL_MULT + 1 / 2) = 786432 :=
    @f2i_subpixel 3072 (by decide) (by decide)
  have e2y : f2i ((intVertex 3072 0).PY * SUBPIXEL_MULT + 1 / 2) = 0 :=
    @f2i_subpixel 0 (by decide) (by decide)
  have e3x : f2i ((intVertex 0 3072).PX * SUBPIXEL_MULT + 1 / 2) = 0 :=
    @f2i_subpixel 0 (by decide) (by decide)
  have e3y : f2i ((intVertex 0 3072).PY * SUBPIXEL_MULT + 1 / 2) = 786432 :=
    @f2i_subpixel 3072 (by decide) (by decide)
  unfold rasterize_triangle
  simp only []
  rw [emx, eMx, emy, eMy, e1x, e1y, e2x, e2y, e3x, e3y]
  have cx0 : Int.tdiv (clampedX (unitRasterizer 8 8 0xffffff) 0) TILE_SIZE = 0 := by
    unfold clampedX unitRasterizer
    decide
  have cx1 : Int.tdiv (clampedX (unitRasterizer 8 8 0xffffff) 3072) TILE_SIZE = 0 := by
    unfold clampedX unitRasterizer
    decide
  have cy0 : Int.tdiv (clampedY (unitRasterizer 8 8 0xffffff) 0) TILE_SIZE = 0 := by
    unfold clampedY unitRasterizer
    decide
  have cy1 : Int.tdiv (clampedY (unitRasterizer 8 8 0xffffff) 3072) TILE_SIZE = 0 := by
    unfold clampedY unitRasterizer
    decide
  rw [cx0, cx1, cy0, cy1]
  have p0 : i32 (i32 (0 * TILE_SIZE) * 2 ^ SUBPIXEL_BITS) = 0 := by decide
  have oa : orient2d 786432 0 0 0 0 0 = 0 := by decide
  have ob : orient2d 0 786432 786432 0 0 0 = 1879048192 := by decide
  have oc : orient2d 0 0 0 786432 0 0 = 0 := by decide
  have d1 : i32 (0 - 0) = 0 := by decide
  have d2 : i32 (0 - 786432) = -786432 := by decide
  have d3 : i32 (786432 - 0) = 786432 := by decide
  have n1 : ((0 : Int) - 0 + 1).toNat = 1 := by decide
  rw [p0, oa, ob, oc, d1, d2, d3, n1]
  have t1 : edge_test (tile_max 0 0 (-786432)) (tile_max 1879048192 786432 786432)
      (tile_max 0 (-786432) 0) = true := by decide
  simp only [tile_rows, tile_columns, tile_visit, t1, if_true]

/-- Claim C25, counterexample: the triangle `(0,0)`, `(3072,0)`, `(0,3072)`
(pixel units; sub-pixel coordinates 0 and 786432) on an 8 x 8 viewport.  Its
orientation is negative, `-618475290624`.  At pixel `(0, 0)` the exact value of
the second edge function is `-2415919104`, below `-2 ^ 31`, and `orient2d`
returns `1879048192`; the other two are 0.  The tile `(0, 0)` is handed to the
kernel, the pixel passes the edge test of both kernels, and `rasterize_triangle`
with the exact kernel writes the texel `0xffffff` to it on empty surfaces.  The
condition `NoOverflow` fails for this triangle. -/
theorem backface_wrap_counterexample :
    ¬ NoOverflow (unitRasterizer 8 8 0xffffff) (intVertex 0 0) (intVertex 3072 0)
      (intVertex 0 3072) ∧
    ((0 - 786432) * (786432 - 0) - (0 - 0) * (0 - 786432) : Int) = -618475290624 ∧
    (subpixel (intVertex 0 0).PX = 0 ∧ subpixel (intVertex 0 0).PY = 0 ∧
      subpixel (intVertex 3072 0).PX = 786432 ∧ subpixel (intVertex 3072 0).PY = 0 ∧
      subpixel (intVertex 0 3072).PX = 0 ∧ subpixel (intVertex 0 3072).PY = 786432) ∧
    (cross 0 786432 786432 0 0 0 / 256 = -2415919104 ∧
      orient2d 786432 0 0 0 0 0 = 0 ∧ orient2d 0 786432 786432 0 0 0 = 1879048192 ∧
      orient2d 0 0 0 786432 0 0 = 0) ∧
    handed_tiles unitPrims (unitRasterizer 8 8 0xffffff) (intVertex 0 0) (intVertex 3072 0)
        (intVertex 0 3072) =
      [make_tile unitPrims (unitRasterizer 8 8 0xffffff) (intVertex 0 0)
        ⟨0, -786432, 786432, 786432, -786432, 0⟩ 0 0 0 1879048192 0] ∧
    exact_lets_through (make_tile unitPrims (unitRasterizer 8 8 0xffffff) (intVertex 0 0)
      ⟨0, -786432, 786432, 786432, -786432, 0⟩ 0 0 0 1879048192 0) 0 0 = true ∧
    apply_lets_through unitPrims (unitRasterizer 8 8 0xffffff) TInterpolationType.AFFINE
      (make_tile unitPrims (unitRasterizer 8 8 0xffffff) (intVertex 0 0)
        ⟨0, -786432, 786432, 786432, -786432, 0⟩ 0 0 0 1879048192 0) 0 0 = true ∧
    emptySurfaces.color 0 0 = 0 ∧
    (rasterize_triangle unitPrims (unitRasterizer 8 8 0xffffff)
      (apply_exact unitPrims (unitRasterizer 8 8 0xffffff) TBlendMode.OVERWRITE)
      (intVertex 0 0) (intVertex 3072 0) (intVertex 0 3072) emptySurfaces).color 0 0 =
        0xffffff := by
  have hw : exact_writes unitPrims (unitRasterizer 8 8 0xffffff)
      (make_tile unitPrims (unitRasterizer 8 8 0xffffff) (intVertex 0 0)
        ⟨0, -786432, 786432, 786432, -786432, 0⟩ 0 0 0 1879048192 0) emptySurfaces 0 0 =
      true := by decide
  refine ⟨?_, by decide, ⟨@subpixel_intCast 0 (by decide) (by decide),
    @subpixel_intCast 0 (by decide) (by decide), @subpixel_intCast 3072 (by decide) (by decide),
    @subpixel_intCast 0 (by decide) (by decide), @subpixel_intCast 0 (by decide) (by decide),
    @subpixel_intCast 3072 (by decide) (by decide)⟩, by decide, ?_, by decide, by decide, rfl, ?_⟩
  · intro h
    obtain ⟨-, -, hb, -⟩ := h.2.2.2 0 0 (le_refl 0) (by decide) (le_refl 0) (by decide)
    have e0 : subpixel (intVertex 0 0).PX = 0 := @subpixel_intCast 0 (by decide) (by decide)
    have e1 : subpixel (intVertex 3072 0).PX = 786432 :=
      @subpixel_intCast 3072 (by decide) (by decide)
    have e2 : subpixel (intVertex 3072 0).PY = 0 := @subpixel_intCast 0 (by decide) (by decide)
    have e3 : subpixel (intVertex 0 3072).PX = 0 := @subpixel_intCast 0 (by decide) (by decide)
    have e4 : subpixel (intVertex 0 3072).PY = 786432 :=
      @subpixel_intCast 3072 (by decide) (by decide)
    rw [e1, e2, e3, e4] at hb
    have hf := hb.2.2.2.2.1
    revert hf
    decide
  · unfold handed_tiles
    rw [far_triangle_rasterize]
    rfl
  · rw [far_triangle_rasterize,
      (apply_exact_writes unitPrims (unitRasterizer 8 8 0xffffff) TBlendMode.OVERWRITE _
        emptySurfaces 0 0).1, if_pos hw]
    rfl

/-- The V2 index of a texel for textures up to `2 ^ 20` texels. -/
theorem packed_index_wide (logW logH u v : Nat) (hW : 2 ≤ logW) (hWH : logW + logH ≤ 20)
    (hu : u < 2 ^ logW) (hv : v < 2 ^ logH) :
    packed_tile_u u logH (swizzle_umask logH (2 ^ logW - 1)) + packed_tile_v v (2 ^ logH - 1) =
      u % 4 + 4 * (v + 2 ^ logH * (u / 4)) := by
  have hq := div_four_lt logW u hu
  have ew : min (logW - 2) (30 - logH) = logW - 2 := by omega
  have hH2 : 2 ^ logH ≤ 2 ^ 18 := Nat.pow_le_pow_right (by norm_num) (by omega)
  have e4 : 4 * (v % 2 ^ logH) < 2 ^ 32 := by
    rw [Nat.mod_eq_of_lt hv]
    omega
  rw [packed_tile_u_eq, packed_tile_v_eq, ew, Nat.mod_eq_of_lt hq]
  unfold u32
  rw [Nat.mod_eq_of_lt e4, Nat.mod_eq_of_lt hv, pow_add, Nat.mul_assoc]
  norm_num
  omega

/-- Claim C26: the two swizzles address the same texel.  For every
power-of-two texture with `W >= 4` and `LogWidth + LogHeight <= 20` and all
integer texel coordinates `0 <= u < W`, `0 <= v < H`, the V1 index
`(tile_u(u << 11, LogHeight, W-1) + tile_v(v << 11, H-1)) >> 12` of the
approximate kernel equals the V2 index
`packed_tile_u(u, LogHeight, swizzle_umask(LogHeight, W-1)) + packed_tile_v(v, H-1)`
of the exact kernel, which is the index `packed_offset` that `apply_exact`
reads; both are `(u mod 4) + 4 v + 4 H (u div 4)`. -/
theorem swizzles_agree (LogWidth LogHeight u v : Nat) (hW : 2 ≤ LogWidth)
    (hWH : LogWidth + LogHeight ≤ 20) (hu : u < 2 ^ LogWidth) (hv : v < 2 ^ LogHeight) :
    tiled_offset (tile_u (u <<< 11) LogHeight (2 ^ LogWidth - 1))
        (tile_v (v <<< 11) (2 ^ LogHeight - 1)) =
      packed_tile_u u LogHeight (swizzle_umask LogHeight (2 ^ LogWidth - 1)) +
        packed_tile_v v (2 ^ LogHeight - 1) ∧
    packed_tile_u u LogHeight (swizzle_umask LogHeight (2 ^ LogWidth - 1)) +
        packed_tile_v v (2 ^ LogHeight - 1) = u % 4 + 4 * v + 4 * 2 ^ LogHeight * (u / 4) ∧
    packed_offset LogWidth LogHeight u v =
      packed_tile_u u LogHeight (swizzle_umask LogHeight (2 ^ LogWidth - 1)) +
        packed_tile_v v (2 ^ LogHeight - 1) := by
  have h1 := tiled_index LogWidth LogHeight u v 0 0 hWH (by omega) hu hv (by norm_num)
    (by norm_num)
  have h2 : packed_tile_u u LogHeight (swizzle_umask LogHeight (2 ^ LogWidth - 1)) +
      packed_tile_v v (2 ^ LogHeight - 1) = u % 4 + 4 * v + 4 * 2 ^ LogHeight * (u / 4) := by
    rw [packed_index_wide LogWidth LogHeight u v hW hWH hu hv]
    ring
  rw [Nat.add_zero, Nat.add_zero, ← Nat.shiftLeft_eq, ← Nat.shiftLeft_eq] at h1
  refine ⟨h1.trans h2.symm, h2, ?_⟩
  unfold packed_offset
  have m1 : u32 ((1 <<< LogWidth) - 1) = 2 ^ LogWidth - 1 := by
    rw [setup_mask, min_eq_left (by omega)]
  have m2 : u32 ((1 <<< LogHeight) - 1) = 2 ^ LogHeight - 1 := by
    rw [setup_mask, min_eq_left (by omega)]
  rw [m1, m2, h2]
  have hq := div_four_lt LogWidth u hu
  have hb : 2 ^ LogHeight * 2 ^ (LogWidth - 2) ≤ 2 ^ 18 := by
    rw [← pow_add]
    exact Nat.pow_le_pow_right (by norm_num) (by omega)
  have hHq : 2 ^ LogHeight * (u / 4) < 2 ^ LogHeight * 2 ^ (LogWidth - 2) :=
    Nat.mul_lt_mul_of_pos_left hq (Nat.two_pow_pos _)
  have hH2 : 2 ^ LogHeight ≤ 2 ^ 18 := Nat.pow_le_pow_right (by norm_num) (by omega)
  unfold u32
  apply Nat.mod_eq_of_lt
  rw [Nat.mul_assoc]
  generalize 2 ^ LogHeight * (u / 4) = Hq at hHq
  omega

/-- Claim C26, instance: the 4 x 8 texture, texel `(3, 5)`: both indices are
23. -/
theorem swizzles_agree_witness :
    tiled_offset (tile_u (3 <<< 11) 3 (2 ^ 2 - 1)) (tile_v (5 <<< 11) (2 ^ 3 - 1)) =
      packed_tile_u 3 3 (swizzle_umask 3 (2 ^ 2 - 1)) + packed_tile_v 5 (2 ^ 3 - 1) ∧
    packed_tile_u 3 3 (swizzle_umask 3 (2 ^ 2 - 1)) + packed_tile_v 5 (2 ^ 3 - 1) =
      3 % 4 + 4 * 5 + 4 * 2 ^ 3 * (3 / 4) ∧
    packed_offset 2 3 3 5 =
      packed_tile_u 3 3 (swizzle_umask 3 (2 ^ 2 - 1)) + packed_tile_v 5 (2 ^ 3 - 1) :=
  swizzles_agree 2 3 3 5 (by decide) (by decide) (by decide) (by decide)

/-- In a triangle of positive orientation the points of the closed triangle
are those where the three edge products are non-negative. -/
theorem in_closed_triangle_iff {x1 y1 x2 y2 x3 y3 : Int} (px py : Int)
    (hD : 0 < winding x1 y1 x2 y2 x3 y3) :
    in_closed_triangle x1 y1 x2 y2 x3 y3 px py ↔
      (0 ≤ cross x2 y2 x1 y1 px py ∧ 0 ≤ cross x3 y3 x2 y2 px py ∧
        0 ≤ cross x1 y1 x3 y3 px py) := by
  have hDq : (0 : ℚ) < ((winding x1 y1 x2 y2 x3 y3 : Int) : ℚ) := by exact_mod_cast hD
  constructor
  · rintro ⟨a, b, c, ha, hb, hc, hs, hx, hy⟩
    have ka : ((cross x3 y3 x2 y2 px py : Int) : ℚ) =
        a * ((winding x1 y1 x2 y2 x3 y3 : Int) : ℚ) := by
      unfold cross winding
      push_cast
      linear_combination ((x2 : ℚ) - x3) * hy - ((y2 : ℚ) - y3) * hx +
        (((x2 : ℚ) - x3) * y3 - ((y2 : ℚ) - y3) * x3) * hs
    have kb : ((cross x1 y1 x3 y3 px py : Int) : ℚ) =
        b * ((winding x1 y1 x2 y2 x3 y3 : Int) : ℚ) := by
      unfold cross winding
      push_cast
      linear_combination ((x3 : ℚ) - x1) * hy - ((y3 : ℚ) - y1) * hx +
        (((x3 : ℚ) - x1) * y1 - ((y3 : ℚ) - y1) * x1) * hs
    have kc : ((cross x2 y2 x1 y1 px py : Int) : ℚ) =
        c * ((winding x1 y1 x2 y2 x3 y3 : Int) : ℚ) := by
      unfold cross winding
      push_cast
      linear_combination ((x1 : ℚ) - x2) * hy - ((y1 : ℚ) - y2) * hx +
        (((x1 : ℚ) - x2) * y2 - ((y1 : ℚ) - y2) * x2) * hs
    have na : (0 : ℚ) ≤ ((cross x3 y3 x2 y2 px py : Int) : ℚ) := by
      rw [ka]
      exact mul_nonneg ha hDq.le
    have nb : (0 : ℚ) ≤ ((cross x1 y1 x3 y3 px py : Int) : ℚ) := by
      rw [kb]
      exact mul_nonneg hb hDq.le
    have nc : (0 : ℚ) ≤ ((cross x2 y2 x1 y1 px py : Int) : ℚ) := by
      rw [kc]
      exact mul_nonneg hc hDq.le
    exact ⟨by exact_mod_cast nc, by exact_mod_cast na, by exact_mod_cast nb⟩
  · rintro ⟨hc, ha, hb⟩
    have hs := cross_sum x1 y1 x2 y2 x3 y3 px py
    have hsq : ((cross x2 y2 x1 y1 px py : Int) : ℚ) + ((cross x3 y3 x2 y2 px py : Int) : ℚ) +
        ((cross x1 y1 x3 y3 px py : Int) : ℚ) = ((winding x1 y1 x2 y2 x3 y3 : Int) : ℚ) := by
      unfold winding
      exact_mod_cast hs
    have haq : (0 : ℚ) ≤ ((cross x3 y3 x2 y2 px py : Int) : ℚ) := by exact_mod_cast ha
    have hbq : (0 : ℚ) ≤ ((cross x1 y1 x3 y3 px py : Int) : ℚ) := by exact_mod_cast hb
    have hcq : (0 : ℚ) ≤ ((cross x2 y2 x1 y1 px py : Int) : ℚ) := by exact_mod_cast hc
    refine ⟨((cross x3 y3 x2 y2 px py : Int) : ℚ) / ((winding x1 y1 x2 y2 x3 y3 : Int) : ℚ),
      ((cross x1 y1 x3 y3 px py : Int) : ℚ) / ((winding x1 y1 x2 y2 x3 y3 : Int) : ℚ),
      ((cross x2 y2 x1 y1 px py : Int) : ℚ) / ((winding x1 y1 x2 y2 x3 y3 : Int) : ℚ),
      div_nonneg haq hDq.le, div_nonneg hbq hDq.le, div_nonneg hcq hDq.le, ?_, ?_, ?_⟩
    · rw [← add_div, ← add_div]
      have e : ((cross x3 y3 x2 y2 px py : Int) : ℚ) + ((cross x1 y1 x3 y3 px py : Int) : ℚ) +
          ((cross x2 y2 x1 y1 px py : Int) : ℚ) = ((winding x1 y1 x2 y2 x3 y3 : Int) : ℚ) := by
        linarith
      rw [e, div_self hDq.ne']
    · have hne := hDq.ne'
      field_simp
      unfold cross winding
      push_cast
      ring
    · have hne := hDq.ne'
      field_simp
      unfold cross winding
      push_cast
      ring

/-- The bound of the trivial reject of the tile `c` columns and `r` rows after
the first one is the value of `orient2d` at the corner of the tile where the
edge function is largest, and it is non-negative when the edge function is
non-negative at a pixel of the tile, as long as nothing overflows at the
origin of the first tile, at the origin of the tile, at the pixel and at that
corner. -/
theorem grid_max_nonneg_wide {ax ay bx by_ tmx tmy : Int} (r c i j : Nat) (hi : i < 8)
    (hj : j < 8)
    (h0 : EdgeFits ax ay bx by_ (256 * (8 * tmx)) (256 * (8 * tmy)))
    (h1 : EdgeFits ax ay bx by_ (256 * (8 * (tmx + c))) (256 * (8 * (tmy + r))))
    (h2 : EdgeFits ax ay bx by_ (256 * (8 * (tmx + c) + i)) (256 * (8 * (tmy + r) + j)))
    (h3 : EdgeFits ax ay bx by_ (256 * (8 * (tmx + c) + (if ay - by_ > 0 then 8 else 0)))
      (256 * (8 * (tmy + r) + (if bx - ax > 0 then 8 else 0))))
    (hp : 0 ≤ orient2d ax ay bx by_ (256 * (8 * (tmx + c) + i)) (256 * (8 * (tmy + r) + j))) :
    0 ≤ i32 (tile_max (grid_edge (orient2d ax ay bx by_ (256 * (8 * tmx)) (256 * (8 * tmy)))
      (ay - by_) (bx - ax) r c) (ay - by_) (bx - ax)) := by
  have gc := grid_value_wide r c (if ay - by_ > 0 then 8 else 0) (if bx - ax > 0 then 8 else 0)
    h0 h1 h3
  have gp := grid_value_wide r c (i : Int) (j : Int) h0 h1 h2
  have e : tile_max (grid_edge (orient2d ax ay bx by_ (256 * (8 * tmx)) (256 * (8 * tmy)))
      (ay - by_) (bx - ax) r c) (ay - by_) (bx - ax) =
      orient2d ax ay bx by_ (256 * (8 * (tmx + c) + (if ay - by_ > 0 then 8 else 0)))
        (256 * (8 * (tmy + r) + (if bx - ax > 0 then 8 else 0))) := by
    rw [← gc]
    have hg : grid_edge (orient2d ax ay bx by_ (256 * (8 * tmx)) (256 * (8 * tmy)))
        (ay - by_) (bx - ax) r c =
        i32 (grid_edge (orient2d ax ay bx by_ (256 * (8 * tmx)) (256 * (8 * tmy)))
          (ay - by_) (bx - ax) r c) := by
      unfold grid_edge
      exact (i32_i32 _).symm
    rw [hg, tile_max_eq, ← hg, gc]
    exact orient2d_i32 _ _ _ _ _ _
  rw [e, orient2d_i32, ← gc]
  rw [← gp] at hp
  have k1 : (i : Int) * (ay - by_) ≤ (if ay - by_ > 0 then 8 else 0) * (ay - by_) := by
    split
    · nlinarith
    · nlinarith
  have k2 : (j : Int) * (bx - ax) ≤ (if bx - ax > 0 then 8 else 0) * (bx - ax) := by
    split
    · nlinarith
    · nlinarith
  linarith

/-- A viewport pixel in the clamped bounding box at which the three edge
functions are non-negative is let through by a tile handed to the kernel, in
both kernels, when nothing overflows. -/
theorem covered_of_inside_wide {F : Type} (P : Prims F) (R : TileRasterizer F)
    (IType : TInterpolationType) (v1 v2 v3 : Vertex F) (hT : NoOverflow R v1 v2 v3)
    (hC : CornersFit R v1 v2 v3) (X Y : Int) (hX : 0 ≤ X ∧ X < R.xres)
    (hY : 0 ≤ Y ∧ Y < R.yres) (hB : in_box R v1 v2 v3 X Y)
    (ha : 0 ≤ orient2d (subpixel v2.PX) (subpixel v2.PY) (subpixel v1.PX) (subpixel v1.PY)
      (256 * X) (256 * Y))
    (hb : 0 ≤ orient2d (subpixel v3.PX) (subpixel v3.PY) (subpixel v2.PX) (subpixel v2.PY)
      (256 * X) (256 * Y))
    (hc : 0 ≤ orient2d (subpixel v1.PX) (subpixel v1.PY) (subpixel v3.PX) (subpixel v3.PY)
      (256 * X) (256 * Y)) :
    ∃ t ∈ handed_tiles P R v1 v2 v3,
      exact_lets_through t X Y = true ∧ apply_lets_through P R IType t X Y = true := by
  have hT2 := hT
  obtain ⟨hx, hy, -, hp⟩ := hT2
  obtain ⟨⟨bx1, bx2⟩, ⟨by1, by2⟩⟩ := hB
  obtain ⟨⟨bx, bX⟩, ⟨by_, bY⟩⟩ := tile_box R v1 v2 v3 hx hy
  have ec : tile_mx R v1 v2 v3 + ((X / 8 - tile_mx R v1 v2 v3).toNat : Int) = X / 8 := by omega
  have er : tile_my R v1 v2 v3 + ((Y / 8 - tile_my R v1 v2 v3).toNat : Int) = Y / 8 := by omega
  have eX : 8 * (tile_mx R v1 v2 v3 + ((X / 8 - tile_mx R v1 v2 v3).toNat : Int)) +
      ((X % 8).toNat : Int) = X := by omega
  have eY : 8 * (tile_my R v1 v2 v3 + ((Y / 8 - tile_my R v1 v2 v3).toNat : Int)) +
      ((Y % 8).toNat : Int) = Y := by omega
  have hi : (X % 8).toNat < 8 := by omega
  have hj : (Y % 8).toNat < 8 := by omega
  obtain ⟨-, a0, b0, c0⟩ := hp (8 * tile_mx R v1 v2 v3) (8 * tile_my R v1 v2 v3) (by omega)
    (by omega) (by omega) (by omega)
  obtain ⟨-, a1, b1, c1⟩ := hp
    (8 * (tile_mx R v1 v2 v3 + ((X / 8 - tile_mx R v1 v2 v3).toNat : Int)))
    (8 * (tile_my R v1 v2 v3 + ((Y / 8 - tile_my R v1 v2 v3).toNat : Int)))
    (by omega) (by omega) (by omega) (by omega)
  obtain ⟨-, a2, b2, c2⟩ := hp X Y hX.1 (by omega) hY.1 (by omega)
  have cf : ∀ K L : Int, (K = 8 ∨ K = 0) → (L = 8 ∨ L = 0) →
      EdgeFits (subpixel v2.PX) (subpixel v2.PY) (subpixel v1.PX) (subpixel v1.PY)
        (256 * (8 * (tile_mx R v1 v2 v3 + ((X / 8 - tile_mx R v1 v2 v3).toNat : Int)) + K))
        (256 * (8 * (tile_my R v1 v2 v3 + ((Y / 8 - tile_my R v1 v2 v3).toNat : Int)) + L)) ∧
      EdgeFits (subpixel v3.PX) (subpixel v3.PY) (subpixel v2.PX) (subpixel v2.PY)
        (256 * (8 * (tile_mx R v1 v2 v3 + ((X / 8 - tile_mx R v1 v2 v3).toNat : Int)) + K))
        (256 * (8 * (tile_my R v1 v2 v3 + ((Y / 8 - tile_my R v1 v2 v3).toNat : Int)) + L)) ∧
      EdgeFits (subpixel v1.PX) (subpixel v1.PY) (subpixel v3.PX) (subpixel v3.PY)
        (256 * (8 * (tile_mx R v1 v2 v3 + ((X / 8 - tile_mx R v1 v2 v3).toNat : Int)) + K))
        (256 * (8 * (tile_my R v1 v2 v3 + ((Y / 8 - tile_my R v1 v2 v3).toNat : Int)) + L)) := by
    intro K L hK hL
    exact hC _ _ (by omega) (by omega) (by omega) (by omega)
  have ifc : ∀ d : Int, (if d > 0 then (8 : Int) else 0) = 8 ∨
      (if d > 0 then (8 : Int) else 0) = 0 := by
    intro d
    split
    · exact Or.inl rfl
    · exact Or.inr rfl
  have a3 := (cf _ _ (ifc (subpixel v2.PY - subpixel v1.PY))
    (ifc (subpixel v1.PX - subpixel v2.PX))).1
  have b3 := (cf _ _ (ifc (subpixel v3.PY - subpixel v2.PY))
    (ifc (subpixel v2.PX - subpixel v3.PX))).2.1
  have c3 := (cf _ _ (ifc (subpixel v1.PY - subpixel v3.PY))
    (ifc (subpixel v3.PX - subpixel v1.PX))).2.2
  have ga := grid_max_nonneg_wide _ _ _ _ hi hj a0 a1 (by rw [eX, eY]; exact a2) a3
    (by rw [eX, eY]; exact ha)
  have gb := grid_max_nonneg_wide _ _ _ _ hi hj b0 b1 (by rw [eX, eY]; exact b2) b3
    (by rw [eX, eY]; exact hb)
  have gc := grid_max_nonneg_wide _ _ _ _ hi hj c0 c1 (by rw [eX, eY]; exact c2) c3
    (by rw [eX, eY]; exact hc)
  have hm := (handed_tiles_wide_iff P R v1 v2 v3 hT _).mpr
    ⟨(Y / 8 - tile_my R v1 v2 v3).toNat, (X / 8 - tile_mx R v1 v2 v3).toNat, by omega, by omega,
      (edge_test_iff _ _ _).mpr ⟨ga, gb, gc⟩, rfl⟩
  refine ⟨_, hm, ?_⟩
  have hin : (grid_tile P R v1
      (subpixel_steps (subpixel v1.PX) (subpixel v1.PY) (subpixel v2.PX) (subpixel v2.PY)
        (subpixel v3.PX) (subpixel v3.PY))
      (tile_mx R v1 v2 v3) (tile_my R v1 v2 v3)
      (orient2d (subpixel v2.PX) (subpixel v2.PY) (subpixel v1.PX) (subpixel v1.PY)
        (256 * (8 * tile_mx R v1 v2 v3)) (256 * (8 * tile_my R v1 v2 v3)))
      (orient2d (subpixel v3.PX) (subpixel v3.PY) (subpixel v2.PX) (subpixel v2.PY)
        (256 * (8 * tile_mx R v1 v2 v3)) (256 * (8 * tile_my R v1 v2 v3)))
      (orient2d (subpixel v1.PX) (subpixel v1.PY) (subpixel v3.PX) (subpixel v3.PY)
        (256 * (8 * tile_mx R v1 v2 v3)) (256 * (8 * tile_my R v1 v2 v3)))
      (Y / 8 - tile_my R v1 v2 v3).toNat (X / 8 - tile_mx R v1 v2 v3).toNat).contains X Y := by
    show (tile_mx R v1 v2 v3 + ((X / 8 - tile_mx R v1 v2 v3).toNat : Int)) * TILE_SIZE ≤ X ∧
      X < (tile_mx R v1 v2 v3 + ((X / 8 - tile_mx R v1 v2 v3).toNat : Int)) * TILE_SIZE +
        TILE_SIZE ∧
      (tile_my R v1 v2 v3 + ((Y / 8 - tile_my R v1 v2 v3).toNat : Int)) * TILE_SIZE ≤ Y ∧
      Y < (tile_my R v1 v2 v3 + ((Y / 8 - tile_my R v1 v2 v3).toNat : Int)) * TILE_SIZE +
        TILE_SIZE
    unfold TILE_SIZE
    omega
  obtain ⟨h1, h2⟩ := handed_lets_through_iff P R IType v1 v2 v3 hT _ hm X Y hin
  exact ⟨h1.mpr ⟨ha, hb, hc⟩, h2.mpr ⟨ha, hb, hc⟩⟩

theorem cross_swap (ax ay bx by_ cx cy : Int) :
    cross bx by_ ax ay cx cy = -cross ax ay bx by_ cx cy := by
  unfold cross
  ring

/-- A pixel of a handed tile at which the edge function of the shared edge is
non-negative in both triangles of a fan has its sample point on the line of
the shared edge, when nothing overflows. -/
theorem fan_overlap_on_edge {F : Type} (P : Prims F) (R : TileRasterizer F)
    (v0 vp vq vs : Vertex F) (X Y : Int)
    (h1 : NoOverflow R v0 vp vq) (h2 : NoOverflow R v0 vq vs)
    (t1 : Tile F) (ht1 : t1 ∈ handed_tiles P R v0 vp vq) (hin1 : t1.contains X Y)
    (hc : 0 ≤ orient2d (subpixel v0.PX) (subpixel v0.PY) (subpixel vq.PX) (subpixel vq.PY)
      (256 * X) (256 * Y))
    (ha : 0 ≤ orient2d (subpixel vq.PX) (subpixel vq.PY) (subpixel v0.PX) (subpixel v0.PY)
      (256 * X) (256 * Y)) :
    cross (subpixel v0.PX) (subpixel v0.PY) (subpixel vq.PX) (subpixel vq.PY)
      (256 * X) (256 * Y) = 0 := by
  obtain ⟨-, ⟨tx0, tx1⟩, ⟨ty0, ty1⟩, -⟩ :=
    handed_tile_values_wide P R v0 vp vq h1 t1 ht1 0 0 (by decide) (by decide)
  unfold Tile.contains TILE_SIZE at hin1
  obtain ⟨-, -, -, c1⟩ := h1.2.2.2 X Y (by omega) (by omega) (by omega) (by omega)
  obtain ⟨-, a2, -, -⟩ := h2.2.2.2 X Y (by omega) (by omega) (by omega) (by omega)
  rw [orient2d_nonneg_of_fits c1] at hc
  rw [orient2d_nonneg_of_fits a2, cross_swap] at ha
  omega

/-- Claim C2, amended: watertightness of two fan triangles `(V0, P, Q)` and
`(V0, Q, S)` sharing the edge `V0 Q`, stated for the tiles that
`rasterize_triangle` hands to the kernels and for the edge tests of both
kernels, with the vertices as rounded to sub-pixels and for every pair of
triangles for which nothing overflows (`NoOverflow`).  First part: a pixel
that handed tiles of both triangles let through has its sample point exactly
on the line of the shared edge (the exact edge product of `V0`, `Q` vanishes
there), so the only pixels written twice are those on the shared edge.
Second part, no gaps: when both triangles have the winding the rasterizer
draws (positive orientation) and nothing overflows at the tile corners where
the trivial reject takes its bounds, every pixel of the viewport whose sample
point lies in one of the two closed triangles (as a convex combination of its
vertices) and in a tile of the clamped bounding box of that triangle is let
through by a handed tile of that triangle, in both kernels. -/
theorem fan_watertight {F : Type} (P : Prims F) (R : TileRasterizer F)
    (IType : TInterpolationType) (v0 vp vq vs : Vertex F) (X Y : Int)
    (h1 : NoOverflow R v0 vp vq) (h2 : NoOverflow R v0 vq vs) :
    (((∃ t ∈ handed_tiles P R v0 vp vq, exact_lets_through t X Y = true) →
        (∃ t ∈ handed_tiles P R v0 vq vs, exact_lets_through t X Y = true) →
        cross (subpixel v0.PX) (subpixel v0.PY) (subpixel vq.PX) (subpixel vq.PY)
          (256 * X) (256 * Y) = 0) ∧
      ((∃ t ∈ handed_tiles P R v0 vp vq, apply_lets_through P R IType t X Y = true) →
        (∃ t ∈ handed_tiles P R v0 vq vs, apply_lets_through P R IType t X Y = true) →
        cross (subpixel v0.PX) (subpixel v0.PY) (subpixel vq.PX) (subpixel vq.PY)
          (256 * X) (256 * Y) = 0)) ∧
    (CornersFit R v0 vp vq → CornersFit R v0 vq vs →
      0 < winding (subpixel v0.PX) (subpixel v0.PY) (subpixel vp.PX) (subpixel vp.PY)
        (subpixel vq.PX) (subpixel vq.PY) →
      0 < winding (subpixel v0.PX) (subpixel v0.PY) (subpixel vq.PX) (subpixel vq.PY)
        (subpixel vs.PX) (subpixel vs.PY) →
      (0 ≤ X ∧ X < R.xres) → (0 ≤ Y ∧ Y < R.yres) →
      ((in_closed_triangle (subpixel v0.PX) (subpixel v0.PY) (subpixel vp.PX) (subpixel vp.PY)
          (subpixel vq.PX) (subpixel vq.PY) (256 * X) (256 * Y) ∧ in_box R v0 vp vq X Y) ∨
        (in_closed_triangle (subpixel v0.PX) (subpixel v0.PY) (subpixel vq.PX) (subpixel vq.PY)
          (subpixel vs.PX) (subpixel vs.PY) (256 * X) (256 * Y) ∧ in_box R v0 vq vs X Y)) →
      ((∃ t ∈ handed_tiles P R v0 vp vq,
          exact_lets_through t X Y = true ∧ apply_lets_through P R IType t X Y = true) ∨
        (∃ t ∈ handed_tiles P R v0 vq vs,
          exact_lets_through t X Y = true ∧ apply_lets_through P R IType t X Y = true))) := by
  refine ⟨⟨?_, ?_⟩, ?_⟩
  · rintro ⟨t1, ht1, hl1⟩ ⟨t2, ht2, hl2⟩
    have hin1 := exact_lets_through_contains t1 X Y hl1
    have hin2 := exact_lets_through_contains t2 X Y hl2
    have e1 := ((handed_lets_through_iff P R IType v0 vp vq h1 t1 ht1 X Y hin1).1.mp hl1).2.2
    have e2 := ((handed_lets_through_iff P R IType v0 vq vs h2 t2 ht2 X Y hin2).1.mp hl2).1
    exact fan_overlap_on_edge P R v0 vp vq vs X Y h1 h2 t1 ht1 hin1 e1 e2
  · rintro ⟨t1, ht1, hl1⟩ ⟨t2, ht2, hl2⟩
    have hin1 := apply_lets_through_contains P R IType t1 X Y hl1
    have hin2 := apply_lets_through_contains P R IType t2 X Y hl2
    have e1 := ((handed_lets_through_iff P R IType v0 vp vq h1 t1 ht1 X Y hin1).2.mp hl1).2.2
    have e2 := ((handed_lets_through_iff P R IType v0 vq vs h2 t2 ht2 X Y hin2).2.mp hl2).1
    exact fan_overlap_on_edge P R v0 vp vq vs X Y h1 h2 t1 ht1 hin1 e1 e2
  · intro c1 c2 w1 w2 hX hY hin
    rcases hin with ⟨hg, hb⟩ | ⟨hg, hb⟩
    · left
      obtain ⟨ka, kb, kc⟩ := (in_closed_triangle_iff _ _ w1).mp hg
      obtain ⟨-, fa, fb, fc⟩ := h1.2.2.2 X Y hX.1 (by omega) hY.1 (by omega)
      exact covered_of_inside_wide P R IType v0 vp vq h1 c1 X Y hX hY hb
        ((orient2d_nonneg_of_fits fa).mpr ka) ((orient2d_nonneg_of_fits fb).mpr kb)
        ((orient2d_nonneg_of_fits fc).mpr kc)
    · right
      obtain ⟨ka, kb, kc⟩ := (in_closed_triangle_iff _ _ w2).mp hg
      obtain ⟨-, fa, fb, fc⟩ := h2.2.2.2 X Y hX.1 (by omega) hY.1 (by omega)
      exact covered_of_inside_wide P R IType v0 vq vs h2 c2 X Y hX hY hb
        ((orient2d_nonneg_of_fits fa).mpr ka) ((orient2d_nonneg_of_fits fb).mpr kb)
        ((orient2d_nonneg_of_fits fc).mpr kc)

/-- The sub-pixel vertices of the fan `(-5,-5)`, `(3,40)`, `(40,40)`,
`(40,3)`. -/
theorem fan_subpixel :
    (subpixel (intVertex (-5) (-5)).PX = -1279 ∧ subpixel (intVertex (-5) (-5)).PY = -1279) ∧
    (subpixel (intVertex 3 40).PX = 768 ∧ subpixel (intVertex 3 40).PY = 10240) ∧
    (subpixel (intVertex 40 40).PX = 10240 ∧ subpixel (intVertex 40 40).PY = 10240) ∧
    (subpixel (intVertex 40 3).PX = 10240 ∧ subpixel (intVertex 40 3).PY = 768) :=
  ⟨⟨@subpixel_intCast_neg (-5) (by decide) (by decide),
      @subpixel_intCast_neg (-5) (by decide) (by decide)⟩,
    ⟨@subpixel_intCast 3 (by decide) (by decide), @subpixel_intCast 40 (by decide) (by decide)⟩,
    ⟨@subpixel_intCast 40 (by decide) (by decide), @subpixel_intCast 40 (by decide) (by decide)⟩,
    ⟨@subpixel_intCast 40 (by decide) (by decide), @subpixel_intCast 3 (by decide) (by decide)⟩⟩

/-- The clamped bounding boxes of the two triangles of the fan `(-5,-5)`,
`(3,40)`, `(40,40)`, `(40,3)` on a 16 x 16 viewport are the four tiles of the
viewport. -/
theorem fan_box :
    (tile_mx (unitRasterizer 16 16 0xffffff) (intVertex (-5) (-5)) (intVertex 3 40)
        (intVertex 40 40) = 0 ∧
      tile_Mx (unitRasterizer 16 16 0xffffff) (intVertex (-5) (-5)) (intVertex 3 40)
        (intVertex 40 40) = 1 ∧
      tile_my (unitRasterizer 16 16 0xffffff) (intVertex (-5) (-5)) (intVertex 3 40)
        (intVertex 40 40) = 0 ∧
      tile_My (unitRasterizer 16 16 0xffffff) (intVertex (-5) (-5)) (intVertex 3 40)
        (intVertex 40 40) = 1) ∧
    (tile_mx (unitRasterizer 16 16 0xffffff) (intVertex (-5) (-5)) (intVertex 40 40)
        (intVertex 40 3) = 0 ∧
      tile_Mx (unitRasterizer 16 16 0xffffff) (intVertex (-5) (-5)) (intVertex 40 40)
        (intVertex 40 3) = 1 ∧
      tile_my (unitRasterizer 16 16 0xffffff) (intVertex (-5) (-5)) (intVertex 40 40)
        (intVertex 40 3) = 0 ∧
      tile_My (unitRasterizer 16 16 0xffffff) (intVertex (-5) (-5)) (intVertex 40 40)
        (intVertex 40 3) = 1) := by
  have a1 : f2i (min (min (intVertex (-5) (-5)).PX (intVertex 3 40).PX) (intVertex 40 40).PX) =
      -5 := @f2i_min3_wide (-5) 3 40 (by decide) (by decide)
  have a2 : f2i (max (max (intVertex (-5) (-5)).PX (intVertex 3 40).PX) (intVertex 40 40).PX) =
      40 := @f2i_max3_wide (-5) 3 40 (by decide) (by decide)
  have a3 : f2i (min (min (intVertex (-5) (-5)).PY (intVertex 3 40).PY) (intVertex 40 40).PY) =
      -5 := @f2i_min3_wide (-5) 40 40 (by decide) (by decide)
  have a4 : f2i (max (max (intVertex (-5) (-5)).PY (intVertex 3 40).PY) (intVertex 40 40).PY) =
      40 := @f2i_max3_wide (-5) 40 40 (by decide) (by decide)
  have b1 : f2i (min (min (intVertex (-5) (-5)).PX (intVertex 40 40).PX) (intVertex 40 3).PX) =
      -5 := @f2i_min3_wide (-5) 40 40 (by decide) (by decide)
  have b2 : f2i (max (max (intVertex (-5) (-5)).PX (intVertex 40 40).PX) (intVertex 40 3).PX) =
      40 := @f2i_max3_wide (-5) 40 40 (by decide) (by decide)
  have b3 : f2i (min (min (intVertex (-5) (-5)).PY (intVertex 40 40).PY) (intVertex 40 3).PY) =
      -5 := @f2i_min3_wide (-5) 40 3 (by decide) (by decide)
  have b4 : f2i (max (max (intVertex (-5) (-5)).PY (intVertex 40 40).PY) (intVertex 40 3).PY) =
      40 := @f2i_max3_wide (-5) 40 3 (by decide) (by decide)
  unfold tile_mx tile_Mx tile_my tile_My
  rw [a1, a2, a3, a4, b1, b2, b3, b4]
  unfold clampedX clampedY unitRasterizer
  decide

/-- Nothing overflows for the two triangles of the fan `(-5,-5)`, `(3,40)`,
`(40,40)`, `(40,3)` on a 16 x 16 viewport, at the pixels and at the corners of
the tiles. -/
theorem fan_fits :
    (NoOverflow (unitRasterizer 16 16 0xffffff) (intVertex (-5) (-5)) (intVertex 3 40)
        (intVertex 40 40) ∧
      NoOverflow (unitRasterizer 16 16 0xffffff) (intVertex (-5) (-5)) (intVertex 40 40)
        (intVertex 40 3)) ∧
    (CornersFit (unitRasterizer 16 16 0xffffff) (intVertex (-5) (-5)) (intVertex 3 40)
        (intVertex 40 40) ∧
      CornersFit (unitRasterizer 16 16 0xffffff) (intVertex (-5) (-5)) (intVertex 40 40)
        (intVertex 40 3)) := by
  obtain ⟨⟨e1, e2⟩, ⟨e3, e4⟩, ⟨e5, e6⟩, ⟨e7, e8⟩⟩ := fan_subpixel
  unfold NoOverflow CornersFit
  rw [e1, e2, e3, e4, e5, e6, e7, e8]
  unfold EdgeFits Fits32 cross unitRasterizer
  refine ⟨⟨⟨by decide, by decide, by decide, ?_⟩, ⟨by decide, by decide, by decide, ?_⟩⟩,
    ⟨?_, ?_⟩⟩
  · intro X Y hX0 hX1 hY0 hY1
    simp only at hX1 hY1
    omega
  · intro X Y hX0 hX1 hY0 hY1
    simp only at hX1 hY1
    omega
  · intro X Y hX0 hX1 hY0 hY1
    simp only at hX1 hY1
    omega
  · intro X Y hX0 hX1 hY0 hY1
    simp only at hX1 hY1
    omega

/-- The clamped bounding box of a triangle with integer vertex coordinates
inside the viewport. -/
theorem tile_box_int {F : Type} {R : TileRasterizer F} {v1 v2 v3 : Vertex F}
    {x1 y1 x2 y2 x3 y3 : Int} (hT : IntegerTriangle R v1 v2 v3 x1 y1 x2 y2 x3 y3) :
    (tile_mx R v1 v2 v3 = min (min x1 x2) x3 / 8 ∧
      tile_Mx R v1 v2 v3 = max (max x1 x2) x3 / 8) ∧
    (tile_my R v1 v2 v3 = min (min y1 y2) y3 / 8 ∧
      tile_My R v1 v2 v3 = max (max y1 y2) y3 / 8) := by
  obtain ⟨⟨hxres, hyres⟩, ⟨h1x, h1y, h2x, h2y, h3x, h3y⟩, ⟨hx1, hy1⟩, ⟨hx2, hy2⟩, ⟨hx3, hy3⟩⟩ := hT
  unfold tile_mx tile_Mx tile_my tile_My clampedX clampedY
  rw [h1x, h2x, h3x, h1y, h2y, h3y, f2i_min3 (by omega) (by omega),
    f2i_max3 (by omega) (by omega), f2i_min3 (by omega) (by omega),
    f2i_max3 (by omega) (by omega), clamped_tile hxres (by omega) (by omega),
    clamped_tile hxres (by omega) (by omega), clamped_tile hyres (by omega) (by omega),
    clamped_tile hyres (by omega) (by omega)]
  exact ⟨⟨rfl, rfl⟩, rfl, rfl⟩

/-- For a triangle on a screen of at most 2048 pixels nothing overflows at the
corners of the tiles. -/
theorem cornersFit_of_subpixelTriangle {F : Type} {R : TileRasterizer F} {v1 v2 v3 : Vertex F}
    (hT : SubpixelTriangle R v1 v2 v3) : CornersFit R v1 v2 v3 := by
  obtain ⟨hx, hy, h1x, h1y, h2x, h2y, h3x, h3y⟩ := hT
  have key : ∀ {ax ay bx by_ : Int}, VertexRange ax → VertexRange ay → VertexRange bx →
      VertexRange by_ → ∀ X Y : Int, 0 ≤ X → X ≤ 2048 → 0 ≤ Y → Y ≤ 2048 →
      EdgeFits ax ay bx by_ (256 * X) (256 * Y) := by
    intro ax ay bx by_ hax hay hbx hby X Y hX0 hX1 hY0 hY1
    have hb := cross_bound hax hay hbx hby (pointRange_of hX0 hX1) (pointRange_of hY0 hY1)
    unfold VertexRange at hax hay hbx hby
    unfold EdgeFits Fits32
    norm_num at hb ⊢
    refine ⟨⟨by omega, by omega⟩, ⟨by omega, by omega⟩, ⟨by omega, by omega⟩,
      ⟨by omega, by omega⟩, ⟨by omega, by omega⟩⟩
  intro X Y hX0 hX1 hY0 hY1
  have hX2 : X ≤ 2048 := by omega
  have hY2 : Y ≤ 2048 := by omega
  exact ⟨key h2x h2y h1x h1y X Y hX0 hX2 hY0 hY2, key h3x h3y h2x h2y X Y hX0 hX2 hY0 hY2,
    key h1x h1y h3x h3y X Y hX0 hX2 hY0 hY2⟩

/-- No tile handed to the kernel contains a pixel outside the clamped bounding
box. -/
theorem not_through_outside_box {F : Type} (P : Prims F) (R : TileRasterizer F)
    (IType : TInterpolationType) (v1 v2 v3 : Vertex F) (X Y : Int)
    (hB : ¬ in_box R v1 v2 v3 X Y) (t : Tile F) (ht : t ∈ handed_tiles P R v1 v2 v3) :
    exact_lets_through t X Y = false ∧ apply_lets_through P R IType t X Y = false := by
  have hn : ¬ t.contains X Y := by
    intro hin
    obtain ⟨r, c, hr, hc, ex, ey⟩ := handed_tiles_grid P R v1 v2 v3 t ht
    unfold Tile.contains TILE_SIZE at hin
    apply hB
    unfold in_box
    omega
  constructor
  · unfold exact_lets_through
    rw [decide_eq_false hn, Bool.false_and]
  · unfold apply_lets_through
    simp only
    rw [decide_eq_false hn, Bool.false_and]

theorem f2i_eq_of_floor {q : ℚ} {n : Int} (h0 : 0 ≤ n) (h1 : n < 2 ^ 31)
    (h : (n : ℚ) ≤ q ∧ q < n + 1) : f2i q = n := by
  have hq : (0 : ℚ) ≤ q := le_trans (by exact_mod_cast h0) h.1
  have hq2 : q < 2 ^ 31 := by
    have : (n : ℚ) + 1 ≤ 2 ^ 31 := by exact_mod_cast (by omega : n + 1 ≤ 2 ^ 31)
    linarith [h.2]
  rw [f2i_floor hq hq2, Int.floor_eq_iff]
  exact h

theorem f2i_eq_of_ceil {q : ℚ} {n : Int} (h0 : n ≤ 0) (h1 : -2 ^ 31 < n)
    (h : (n : ℚ) - 1 < q ∧ q ≤ n) : f2i q = n := by
  have hq : q ≤ 0 := le_trans h.2 (by exact_mod_cast h0)
  have hq2 : -(2 ^ 31) < q := by
    have : -(2 ^ 31 : ℚ) ≤ (n : ℚ) - 1 := by
      have : (-(2 ^ 31) : Int) ≤ n - 1 := by omega
      exact_mod_cast this
    linarith [h.1]
  rw [f2i_ceil hq hq2]
  have f : ⌊-q⌋ = -n := by
    rw [Int.floor_eq_iff]
    push_cast
    constructor <;> linarith [h.1, h.2]
  rw [f, neg_neg]

/-- The sub-pixel vertices of the fan `(0,0)`, `(0,8)`, `(8191/1024, 0)`,
`(4,-4)`: the third vertex, at `x = 7.999`, is rounded to `x = 8`. -/
theorem gapfan_subpixel :
    (subpixel (intVertex 0 0).PX = 0 ∧ subpixel (intVertex 0 0).PY = 0) ∧
    (subpixel (intVertex 0 8).PX = 0 ∧ subpixel (intVertex 0 8).PY = 2048) ∧
    (subpixel (unitVertex (8191 / 1024) 0).PX = 2048 ∧
      subpixel (unitVertex (8191 / 1024) 0).PY = 0) ∧
    (subpixel (intVertex 4 (-4)).PX = 1024 ∧ subpixel (intVertex 4 (-4)).PY = -1023) := by
  refine ⟨⟨@subpixel_intCast 0 (by decide) (by decide),
      @subpixel_intCast 0 (by decide) (by decide)⟩,
    ⟨@subpixel_intCast 0 (by decide) (by decide), @subpixel_intCast 8 (by decide) (by decide)⟩,
    ⟨?_, ?_⟩,
    ⟨@subpixel_intCast 4 (by decide) (by decide),
      @subpixel_intCast_neg (-4) (by decide) (by decide)⟩⟩
  · unfold subpixel SUBPIXEL_MULT unitVertex
    exact f2i_eq_of_floor (by decide) (by decide) (by norm_num)
  · unfold subpixel SUBPIXEL_MULT unitVertex
    exact f2i_eq_of_floor (by decide) (by decide) (by norm_num)

/-- The clamped bounding boxes of the two triangles of the fan `(0,0)`,
`(0,8)`, `(8191/1024, 0)`, `(4,-4)` on a 16 x 16 viewport: both end at tile
column 0, the largest `x` being truncated to 7. -/
theorem gapfan_box :
    (tile_mx (unitRasterizer 16 16 0xffffff) (intVertex 0 0) (intVertex 0 8)
        (unitVertex (8191 / 1024) 0) = 0 ∧
      tile_Mx (unitRasterizer 16 16 0xffffff) (intVertex 0 0) (intVertex 0 8)
        (unitVertex (8191 / 1024) 0) = 0 ∧
      tile_my (unitRasterizer 16 16 0xffffff) (intVertex 0 0) (intVertex 0 8)
        (unitVertex (8191 / 1024) 0) = 0 ∧
      tile_My (unitRasterizer 16 16 0xffffff) (intVertex 0 0) (intVertex 0 8)
        (unitVertex (8191 / 1024) 0) = 1) ∧
    (tile_mx (unitRasterizer 16 16 0xffffff) (intVertex 0 0) (unitVertex (8191 / 1024) 0)
        (intVertex 4 (-4)) = 0 ∧
      tile_Mx (unitRasterizer 16 16 0xffffff) (intVertex 0 0) (unitVertex (8191 / 1024) 0)
        (intVertex 4 (-4)) = 0 ∧
      tile_my (unitRasterizer 16 16 0xffffff) (intVertex 0 0) (unitVertex (8191 / 1024) 0)
        (intVertex 4 (-4)) = 0 ∧
      tile_My (unitRasterizer 16 16 0xffffff) (intVertex 0 0) (unitVertex (8191 / 1024) 0)
        (intVertex 4 (-4)) = 0) := by
  have a1 : f2i (min (min (intVertex 0 0).PX (intVertex 0 8).PX)
      (unitVertex (8191 / 1024) 0).PX) = 0 :=
    f2i_eq_of_floor (by decide) (by decide) (by norm_num [intVertex, unitVertex])
  have a2 : f2i (max (max (intVertex 0 0).PX (intVertex 0 8).PX)
      (unitVertex (8191 / 1024) 0).PX) = 7 :=
    f2i_eq_of_floor (by decide) (by decide) (by norm_num [intVertex, unitVertex])
  have a3 : f2i (min (min (intVertex 0 0).PY (intVertex 0 8).PY)
      (unitVertex (8191 / 1024) 0).PY) = 0 :=
    f2i_eq_of_floor (by decide) (by decide) (by norm_num [intVertex, unitVertex])
  have a4 : f2i (max (max (intVertex 0 0).PY (intVertex 0 8).PY)
      (unitVertex (8191 / 1024) 0).PY) = 8 :=
    f2i_eq_of_floor (by decide) (by decide) (by norm_num [intVertex, unitVertex])
  have b1 : f2i (min (min (intVertex 0 0).PX (unitVertex (8191 / 1024) 0).PX)
      (intVertex 4 (-4)).PX) = 0 :=
    f2i_eq_of_floor (by decide) (by decide) (by norm_num [intVertex, unitVertex])
  have b2 : f2i (max (max (intVertex 0 0).PX (unitVertex (8191 / 1024) 0).PX)
      (intVertex 4 (-4)).PX) = 7 :=
    f2i_eq_of_floor (by decide) (by decide) (by norm_num [intVertex, unitVertex])
  have b3 : f2i (min (min (intVertex 0 0).PY (unitVertex (8191 / 1024) 0).PY)
      (intVertex 4 (-4)).PY) = -4 :=
    f2i_eq_of_ceil (by decide) (by decide) (by norm_num [intVertex, unitVertex])
  have b4 : f2i (max (max (intVertex 0 0).PY (unitVertex (8191 / 1024) 0).PY)
      (intVertex 4 (-4)).PY) = 0 :=
    f2i_eq_of_floor (by decide) (by decide) (by norm_num [intVertex, unitVertex])
  unfold tile_mx tile_Mx tile_my tile_My
  rw [a1, a2, a3, a4, b1, b2, b3, b4]
  unfold clampedX clampedY unitRasterizer
  decide

/-- Nothing overflows for the two triangles of the fan `(0,0)`, `(0,8)`,
`(8191/1024, 0)`, `(4,-4)` on a 16 x 16 viewport, at the pixels and at the
corners of the tiles. -/
theorem gapfan_fits :
    (NoOverflow (unitRasterizer 16 16 0xffffff) (intVertex 0 0) (intVertex 0 8)
        (unitVertex (8191 / 1024) 0) ∧
      NoOverflow (unitRasterizer 16 16 0xffffff) (intVertex 0 0) (unitVertex (8191 / 1024) 0)
        (intVertex 4 (-4))) ∧
    (CornersFit (unitRasterizer 16 16 0xffffff) (intVertex 0 0) (intVertex 0 8)
        (unitVertex (8191 / 1024) 0) ∧
      CornersFit (unitRasterizer 16 16 0xffffff) (intVertex 0 0) (unitVertex (8191 / 1024) 0)
        (intVertex 4 (-4))) := by
  obtain ⟨⟨e1, e2⟩, ⟨e3, e4⟩, ⟨e5, e6⟩, ⟨e7, e8⟩⟩ := gapfan_subpixel
  unfold NoOverflow CornersFit
  rw [e1, e2, e3, e4, e5, e6, e7, e8]
  unfold EdgeFits Fits32 cross unitRasterizer
  refine ⟨⟨⟨by decide, by decide, by decide, ?_⟩, ⟨by decide, by decide, by decide, ?_⟩⟩,
    ⟨?_, ?_⟩⟩
  · intro X Y hX0 hX1 hY0 hY1
    simp only at hX1 hY1
    omega
  · intro X Y hX0 hX1 hY0 hY1
    simp only at hX1 hY1
    omega
  · intro X Y hX0 hX1 hY0 hY1
    simp only at hX1 hY1
    omega
  · intro X Y hX0 hX1 hY0 hY1
    simp only at hX1 hY1
    omega

/-- Claim C2, instance: the fan `V0 = (-5,-5)`, `P = (3,40)`, `Q = (40,40)`,
`S = (40,3)` on a 16 x 16 viewport, whose vertices all lie outside the
viewport and whose shared edge `V0 Q` crosses it.  Nothing overflows for
either triangle.  The pixel `(4, 4)` is let through by handed tiles of both
triangles and its sample point lies on the line of the shared edge.  The pixel
`(4, 9)` lies in the closed triangle `(V0, P, Q)` and in its clamped bounding
box, and it is let through by one of the two triangles, in both kernels. -/
theorem fan_watertight_witness :
    (NoOverflow (unitRasterizer 16 16 0xffffff) (intVertex (-5) (-5)) (intVertex 3 40)
        (intVertex 40 40) ∧
      NoOverflow (unitRasterizer 16 16 0xffffff) (intVertex (-5) (-5)) (intVertex 40 40)
        (intVertex 40 3)) ∧
    ((∃ t ∈ handed_tiles unitPrims (unitRasterizer 16 16 0xffffff) (intVertex (-5) (-5))
        (intVertex 3 40) (intVertex 40 40), exact_lets_through t 4 4 = true) ∧
      (∃ t ∈ handed_tiles unitPrims (unitRasterizer 16 16 0xffffff) (intVertex (-5) (-5))
        (intVertex 40 40) (intVertex 40 3), exact_lets_through t 4 4 = true) ∧
      cross (subpixel (intVertex (-5) (-5)).PX) (subpixel (intVertex (-5) (-5)).PY)
        (subpixel (intVertex 40 40).PX) (subpixel (intVertex 40 40).PY) (256 * 4) (256 * 4) =
          0) ∧
    ((in_closed_triangle (subpixel (intVertex (-5) (-5)).PX) (subpixel (intVertex (-5) (-5)).PY)
        (subpixel (intVertex 3 40).PX) (subpixel (intVertex 3 40).PY)
        (subpixel (intVertex 40 40).PX) (subpixel (intVertex 40 40).PY) (256 * 4) (256 * 9) ∧
      in_box (unitRasterizer 16 16 0xffffff) (intVertex (-5) (-5)) (intVertex 3 40)
        (intVertex 40 40) 4 9) ∧
      ((∃ t ∈ handed_tiles unitPrims (unitRasterizer 16 16 0xffffff) (intVertex (-5) (-5))
          (intVertex 3 40) (intVertex 40 40),
          exact_lets_through t 4 9 = true ∧
            apply_lets_through unitPrims (unitRasterizer 16 16 0xffffff)
              TInterpolationType.AFFINE t 4 9 = true) ∨
        (∃ t ∈ handed_tiles unitPrims (unitRasterizer 16 16 0xffffff) (intVertex (-5) (-5))
          (intVertex 40 40) (intVertex 40 3),
          exact_lets_through t 4 9 = true ∧
            apply_lets_through unitPrims (unitRasterizer 16 16 0xffffff)
              TInterpolationType.AFFINE t 4 9 = true))) := by
  obtain ⟨⟨n1, n2⟩, c1, c2⟩ := fan_fits
  obtain ⟨⟨e1, e2⟩, ⟨e3, e4⟩, ⟨e5, e6⟩, ⟨e7, e8⟩⟩ := fan_subpixel
  obtain ⟨⟨a1, a2, a3, a4⟩, b1, b2, b3, b4⟩ := fan_box
  have w1 : 0 < winding (subpixel (intVertex (-5) (-5)).PX) (subpixel (intVertex (-5) (-5)).PY)
      (subpixel (intVertex 3 40).PX) (subpixel (intVertex 3 40).PY)
      (subpixel (intVertex 40 40).PX) (subpixel (intVertex 40 40).PY) := by
    rw [e1, e2, e3, e4, e5, e6]
    decide
  have w2 : 0 < winding (subpixel (intVertex (-5) (-5)).PX) (subpixel (intVertex (-5) (-5)).PY)
      (subpixel (intVertex 40 40).PX) (subpixel (intVertex 40 40).PY)
      (subpixel (intVertex 40 3).PX) (subpixel (intVertex 40 3).PY) := by
    rw [e1, e2, e5, e6, e7, e8]
    decide
  have x1 : in_box (unitRasterizer 16 16 0xffffff) (intVertex (-5) (-5)) (intVertex 3 40)
      (intVertex 40 40) 4 4 := by
    unfold in_box
    rw [a1, a2, a3, a4]
    decide
  have x2 : in_box (unitRasterizer 16 16 0xffffff) (intVertex (-5) (-5)) (intVertex 40 40)
      (intVertex 40 3) 4 4 := by
    unfold in_box
    rw [b1, b2, b3, b4]
    decide
  have x3 : in_box (unitRasterizer 16 16 0xffffff) (intVertex (-5) (-5)) (intVertex 3 40)
      (intVertex 40 40) 4 9 := by
    unfold in_box
    rw [a1, a2, a3, a4]
    decide
  obtain ⟨t1, ht1, hl1, -⟩ := covered_of_inside_wide unitPrims (unitRasterizer 16 16 0xffffff)
    TInterpolationType.AFFINE (intVertex (-5) (-5)) (intVertex 3 40) (intVertex 40 40) n1 c1 4 4
    (by decide) (by decide) x1 (by rw [e1, e2, e3, e4]; decide)
    (by rw [e3, e4, e5, e6]; decide) (by rw [e1, e2, e5, e6]; decide)
  obtain ⟨t2, ht2, hl2, -⟩ := covered_of_inside_wide unitPrims (unitRasterizer 16 16 0xffffff)
    TInterpolationType.AFFINE (intVertex (-5) (-5)) (intVertex 40 40) (intVertex 40 3) n2 c2 4 4
    (by decide) (by decide) x2 (by rw [e1, e2, e5, e6]; decide)
    (by rw [e5, e6, e7, e8]; decide) (by rw [e1, e2, e7, e8]; decide)
  have g : in_closed_triangle (subpixel (intVertex (-5) (-5)).PX)
      (subpixel (intVertex (-5) (-5)).PY) (subpixel (intVertex 3 40).PX)
      (subpixel (intVertex 3 40).PY) (subpixel (intVertex 40 40).PX)
      (subpixel (intVertex 40 40).PY) (256 * 4) (256 * 9) := by
    rw [in_closed_triangle_iff _ _ w1, e1, e2, e3, e4, e5, e6]
    decide
  exact ⟨⟨n1, n2⟩, ⟨⟨t1, ht1, hl1⟩, ⟨t2, ht2, hl2⟩,
      (fan_watertight unitPrims (unitRasterizer 16 16 0xffffff) TInterpolationType.AFFINE
        (intVertex (-5) (-5)) (intVertex 3 40) (intVertex 40 40) (intVertex 40 3) 4 4 n1
        n2).1.1 ⟨t1, ht1, hl1⟩ ⟨t2, ht2, hl2⟩⟩,
    ⟨g, x3⟩,
    (fan_watertight unitPrims (unitRasterizer 16 16 0xffffff) TInterpolationType.AFFINE
      (intVertex (-5) (-5)) (intVertex 3 40) (intVertex 40 40) (intVertex 40 3) 4 9 n1 n2).2
      c1 c2 w1 w2 (by decide) (by decide) (Or.inl ⟨g, x3⟩)⟩

/-- The call of `rasterize_triangle` on the triangle `(0,0)`, `(0,3072)`,
`(3072,0)` and an 8 x 8 viewport: the one tile of the viewport is rejected,
the bound of its second edge function having wrapped around to
`-1879048192`, and no tile is handed to the kernel. -/
theorem wrap_triangle_rasterize {S : Type} (kernel : Tile Unit → S → S) (s : S) :
    rasterize_triangle unitPrims (unitRasterizer 8 8 0xffffff) kernel (intVertex 0 0)
        (intVertex 0 3072) (intVertex 3072 0) s = s := by
  have emx : f2i (min (min (intVertex 0 0).PX (intVertex 0 3072).PX) (intVertex 3072 0).PX) = 0 :=
    @f2i_min3 0 0 3072 (by decide) (by decide)
  have eMx : f2i (max (max (intVertex 0 0).PX (intVertex 0 3072).PX) (intVertex 3072 0).PX) =
      3072 := @f2i_max3 0 0 3072 (by decide) (by decide)
  have emy : f2i (min (min (intVertex 0 0).PY (intVertex 0 3072).PY) (intVertex 3072 0).PY) = 0 :=
    @f2i_min3 0 3072 0 (by decide) (by decide)
  have eMy : f2i (max (max (intVertex 0 0).PY (intVertex 0 3072).PY) (intVertex 3072 0).PY) =
      3072 := @f2i_max3 0 3072 0 (by decide) (by decide)
  have e1x : f2i ((intVertex 0 0).PX * SUBPIXEL_MULT + 1 / 2) = 0 :=
    @f2i_subpixel 0 (by decide) (by decide)
  have e1y : f2i ((intVertex 0 0).PY * SUBPIXEL_MULT + 1 / 2) = 0 :=
    @f2i_subpixel 0 (by decide) (by decide)
  have e2x : f2i ((intVertex 0 3072).PX * SUBPIXEL_MULT + 1 / 2) = 0 :=
    @f2i_subpixel 0 (by decide) (by decide)
  have e2y : f2i ((intVertex 0 3072).PY * SUBPIXEL_MULT + 1 / 2) = 786432 :=
    @f2i_subpixel 3072 (by decide) (by decide)
  have e3x : f2i ((intVertex 3072 0).PX * SUBPIXEL_MULT + 1 / 2) = 786432 :=
    @f2i_subpixel 3072 (by decide) (by decide)
  have e3y : f2i ((intVertex 3072 0).PY * SUBPIXEL_MULT + 1 / 2) = 0 :=
    @f2i_subpixel 0 (by decide) (by decide)
  unfold rasterize_triangle
  simp only []
  rw [emx, eMx, emy, eMy, e1x, e1y, e2x, e2y, e3x, e3y]
  have cx0 : Int.tdiv (clampedX (unitRasterizer 8 8 0xffffff) 0) TILE_SIZE = 0 := by
    unfold clampedX unitRasterizer
    decide
  have cx1 : Int.tdiv (clampedX (unitRasterizer 8 8 0xffffff) 3072) TILE_SIZE = 0 := by
    unfold clampedX unitRasterizer
    decide
  have cy0 : Int.tdiv (clampedY (unitRasterizer 8 8 0xffffff) 0) TILE_SIZE = 0 := by
    unfold clampedY unitRasterizer
    decide
  have cy1 : Int.tdiv (clampedY (unitRasterizer 8 8 0xffffff) 3072) TILE_SIZE = 0 := by
    unfold clampedY unitRasterizer
    decide
  rw [cx0, cx1, cy0, cy1]
  have p0 : i32 (i32 (0 * TILE_SIZE) * 2 ^ SUBPIXEL_BITS) = 0 := by decide
  have oa : orient2d 0 786432 0 0 0 0 = 0 := by decide
  have ob : orient2d 786432 0 0 786432 0 0 = -1879048192 := by decide
  have oc : orient2d 0 0 786432 0 0 0 = 0 := by decide
  have d1 : i32 (786432 - 0) = 786432 := by decide
  have d2 : i32 (0 - 0) = 0 := by decide
  have d3 : i32 (0 - 786432) = -786432 := by decide
  have n1 : ((0 : Int) - 0 + 1).toNat = 1 := by decide
  rw [p0, oa, ob, oc, d1, d2, d3, n1]
  have t1 : edge_test (tile_max 0 786432 0) (tile_max (-1879048192) (-786432) (-786432))
      (tile_max 0 0 786432) = false := by decide
  simp only [tile_rows, tile_columns, tile_visit, t1]
  rfl

/-- A pixel at which the three values of `orient2d` are not all non-negative
passes the edge test of no handed tile, in either kernel, when nothing
overflows. -/
theorem not_through_wide {F : Type} (P : Prims F) (R : TileRasterizer F)
    (IType : TInterpolationType) (v1 v2 v3 : Vertex F) (hT : NoOverflow R v1 v2 v3) (X Y : Int)
    (hn : ¬ (0 ≤ orient2d (subpixel v2.PX) (subpixel v2.PY) (subpixel v1.PX) (subpixel v1.PY)
        (256 * X) (256 * Y) ∧
      0 ≤ orient2d (subpixel v3.PX) (subpixel v3.PY) (subpixel v2.PX) (subpixel v2.PY)
        (256 * X) (256 * Y) ∧
      0 ≤ orient2d (subpixel v1.PX) (subpixel v1.PY) (subpixel v3.PX) (subpixel v3.PY)
        (256 * X) (256 * Y)))
    (t : Tile F) (ht : t ∈ handed_tiles P R v1 v2 v3) :
    exact_lets_through t X Y = false ∧ apply_lets_through P R IType t X Y = false := by
  by_cases hin : t.contains X Y
  · obtain ⟨h1, h2⟩ := handed_lets_through_iff P R IType v1 v2 v3 hT t ht X Y hin
    constructor
    · rw [Bool.eq_false_iff]
      exact fun h => hn (h1.mp h)
    · rw [Bool.eq_false_iff]
      exact fun h => hn (h2.mp h)
  · constructor
    · unfold exact_lets_through
      rw [decide_eq_false hin, Bool.false_and]
    · unfold apply_lets_through
      simp only
      rw [decide_eq_false hin, Bool.false_and]

/-- The sub-pixel vertices of the fan `(0,0)`, `(0,3072)`, `(3072,0)`,
`(8,-8)`. -/
theorem wrapfan_subpixel :
    (subpixel (intVertex 0 0).PX = 0 ∧ subpixel (intVertex 0 0).PY = 0) ∧
    (subpixel (intVertex 0 3072).PX = 0 ∧ subpixel (intVertex 0 3072).PY = 786432) ∧
    (subpixel (intVertex 3072 0).PX = 786432 ∧ subpixel (intVertex 3072 0).PY = 0) ∧
    (subpixel (intVertex 8 (-8)).PX = 2048 ∧ subpixel (intVertex 8 (-8)).PY = -2047) :=
  ⟨⟨@subpixel_intCast 0 (by decide) (by decide), @subpixel_intCast 0 (by decide) (by decide)⟩,
    ⟨@subpixel_intCast 0 (by decide) (by decide),
      @subpixel_intCast 3072 (by decide) (by decide)⟩,
    ⟨@subpixel_intCast 3072 (by decide) (by decide),
      @subpixel_intCast 0 (by decide) (by decide)⟩,
    ⟨@subpixel_intCast 8 (by decide) (by decide),
      @subpixel_intCast_neg (-8) (by decide) (by decide)⟩⟩

/-- The clamped bounding box of the triangle `(0,0)`, `(0,3072)`, `(3072,0)`
on an 8 x 8 viewport is the one tile of the viewport. -/
theorem wrapfan_box :
    tile_mx (unitRasterizer 8 8 0xffffff) (intVertex 0 0) (intVertex 0 3072)
      (intVertex 3072 0) = 0 ∧
    tile_Mx (unitRasterizer 8 8 0xffffff) (intVertex 0 0) (intVertex 0 3072)
      (intVertex 3072 0) = 0 ∧
    tile_my (unitRasterizer 8 8 0xffffff) (intVertex 0 0) (intVertex 0 3072)
      (intVertex 3072 0) = 0 ∧
    tile_My (unitRasterizer 8 8 0xffffff) (intVertex 0 0) (intVertex 0 3072)
      (intVertex 3072 0) = 0 := by
  have emx : f2i (min (min (intVertex 0 0).PX (intVertex 0 3072).PX) (intVertex 3072 0).PX) = 0 :=
    @f2i_min3 0 0 3072 (by decide) (by decide)
  have eMx : f2i (max (max (intVertex 0 0).PX (intVertex 0 3072).PX) (intVertex 3072 0).PX) =
      3072 := @f2i_max3 0 0 3072 (by decide) (by decide)
  have emy : f2i (min (min (intVertex 0 0).PY (intVertex 0 3072).PY) (intVertex 3072 0).PY) = 0 :=
    @f2i_min3 0 3072 0 (by decide) (by decide)
  have eMy : f2i (max (max (intVertex 0 0).PY (intVertex 0 3072).PY) (intVertex 3072 0).PY) =
      3072 := @f2i_max3 0 3072 0 (by decide) (by decide)
  unfold tile_mx tile_Mx tile_my tile_My
  rw [emx, eMx, emy, eMy]
  unfold clampedX clampedY unitRasterizer
  decide

/-- Nothing overflows for the triangle `(0,0)`, `(3072,0)`, `(8,-8)` on an
8 x 8 viewport. -/
theorem wrapfan_second_fits :
    NoOverflow (unitRasterizer 8 8 0xffffff) (intVertex 0 0) (intVertex 3072 0)
      (intVertex 8 (-8)) := by
  obtain ⟨⟨e1, e2⟩, -, ⟨e5, e6⟩, ⟨e7, e8⟩⟩ := wrapfan_subpixel
  unfold NoOverflow
  rw [e1, e2, e5, e6, e7, e8]
  unfold EdgeFits Fits32 cross unitRasterizer
  refine ⟨by decide, by decide, by decide, ?_⟩
  intro X Y hX0 hX1 hY0 hY1
  simp only at hX1 hY1
  omega

/-- The sub-pixel values of the integer coordinates 0 and 8. -/
theorem small_subpixel :
    subpixel ((0 : Int) : ℚ) = 0 ∧ subpixel ((8 : Int) : ℚ) = 2048 :=
  ⟨@subpixel_intCast 0 (by decide) (by decide), @subpixel_intCast 8 (by decide) (by decide)⟩

/-- Claim C2, counterexample, on a 16 x 16 viewport.  First part: in the fan
`V0 = (0,0)`, `P = (0,8)`, `Q = (8,8)`, `S = (8,0)` both triangles have the
winding the rasterizer draws, and the pixel `(4, 4)`, on the shared edge, is
let through by a handed tile of each of them, in both kernels: it is written
twice.  Second part: in the same fan taken in the other direction,
`V0 = (0,0)`, `P = (8,0)`, `Q = (8,8)`, `S = (0,8)`, both triangles have
negative orientation; the pixel `(2, 1)` lies in the closed triangle
`(V0, P, Q)` and in its clamped bounding box, and no handed tile of either
triangle lets it through.  Third part: in the fan `V0 = (0,0)`, `P = (0,8)`,
`Q = (8191/1024, 0)`, `S = (4,-4)` both triangles have the drawn winding and
nothing overflows; `Q` is rounded to the sub-pixel position of pixel `(8, 0)`,
which therefore lies in both closed triangles, while both bounding boxes are
taken from the truncated coordinate 7 and end at tile column 0: the pixel is in
neither box and no handed tile of either triangle lets it through.  Fourth
part, on an 8 x 8 viewport: in the fan `V0 = (0,0)`, `P = (0,3072)`,
`Q = (3072,0)`, `S = (8,-8)` both triangles have the drawn winding; the second
edge value of `(V0, P, Q)` wraps around, so `NoOverflow` fails for it, its one
tile is rejected and no tile is handed to the kernel; the pixel `(1, 1)` lies
in the closed triangle `(V0, P, Q)` and in its clamped bounding box, and no
handed tile of either triangle lets it through. -/
theorem fan_overlap_counterexample :
    ((0 < winding (subpixel (intVertex 0 0).PX) (subpixel (intVertex 0 0).PY)
          (subpixel (intVertex 0 8).PX) (subpixel (intVertex 0 8).PY)
          (subpixel (intVertex 8 8).PX) (subpixel (intVertex 8 8).PY) ∧
        0 < winding (subpixel (intVertex 0 0).PX) (subpixel (intVertex 0 0).PY)
          (subpixel (intVertex 8 8).PX) (subpixel (intVertex 8 8).PY)
          (subpixel (intVertex 8 0).PX) (subpixel (intVertex 8 0).PY)) ∧
      (∃ t ∈ handed_tiles unitPrims (unitRasterizer 16 16 0xffffff) (intVertex 0 0)
        (intVertex 0 8) (intVertex 8 8),
        exact_lets_through t 4 4 = true ∧
          apply_lets_through unitPrims (unitRasterizer 16 16 0xffffff)
            TInterpolationType.AFFINE t 4 4 = true) ∧
      (∃ t ∈ handed_tiles unitPrims (unitRasterizer 16 16 0xffffff) (intVertex 0 0)
        (intVertex 8 8) (intVertex 8 0),
        exact_lets_through t 4 4 = true ∧
          apply_lets_through unitPrims (unitRasterizer 16 16 0xffffff)
            TInterpolationType.AFFINE t 4 4 = true)) ∧
    ((winding (subpixel (intVertex 0 0).PX) (subpixel (intVertex 0 0).PY)
          (subpixel (intVertex 8 0).PX) (subpixel (intVertex 8 0).PY)
          (subpixel (intVertex 8 8).PX) (subpixel (intVertex 8 8).PY) < 0 ∧
        winding (subpixel (intVertex 0 0).PX) (subpixel (intVertex 0 0).PY)
          (subpixel (intVertex 8 8).PX) (subpixel (intVertex 8 8).PY)
          (subpixel (intVertex 0 8).PX) (subpixel (intVertex 0 8).PY) < 0) ∧
      (in_closed_triangle (subpixel (intVertex 0 0).PX) (subpixel (intVertex 0 0).PY)
          (subpixel (intVertex 8 0).PX) (subpixel (intVertex 8 0).PY)
          (subpixel (intVertex 8 8).PX) (subpixel (intVertex 8 8).PY) (256 * 2) (256 * 1) ∧
        in_box (unitRasterizer 16 16 0xffffff) (intVertex 0 0) (intVertex 8 0) (intVertex 8 8)
          2 1) ∧
      (∀ t ∈ handed_tiles unitPrims (unitRasterizer 16 16 0xffffff) (intVertex 0 0)
          (intVertex 8 0) (intVertex 8 8),
        exact_lets_through t 2 1 = false ∧
          apply_lets_through unitPrims (unitRasterizer 16 16 0xffffff)
            TInterpolationType.AFFINE t 2 1 = false) ∧
      (∀ t ∈ handed_tiles unitPrims (unitRasterizer 16 16 0xffffff) (intVertex 0 0)
          (intVertex 8 8) (intVertex 0 8),
        exact_lets_through t 2 1 = false ∧
          apply_lets_through unitPrims (unitRasterizer 16 16 0xffffff)
            TInterpolationType.AFFINE t 2 1 = false)) ∧
    ((0 < winding (subpixel (intVertex 0 0).PX) (subpixel (intVertex 0 0).PY)
          (subpixel (intVertex 0 8).PX) (subpixel (intVertex 0 8).PY)
          (subpixel (unitVertex (8191 / 1024) 0).PX)
          (subpixel (unitVertex (8191 / 1024) 0).PY) ∧
        0 < winding (subpixel (intVertex 0 0).PX) (subpixel (intVertex 0 0).PY)
          (subpixel (unitVertex (8191 / 1024) 0).PX)
          (subpixel (unitVertex (8191 / 1024) 0).PY)
          (subpixel (intVertex 4 (-4)).PX) (subpixel (intVertex 4 (-4)).PY)) ∧
      ((NoOverflow (unitRasterizer 16 16 0xffffff) (intVertex 0 0) (intVertex 0 8)
          (unitVertex (8191 / 1024) 0) ∧
        NoOverflow (unitRasterizer 16 16 0xffffff) (intVertex 0 0)
          (unitVertex (8191 / 1024) 0) (intVertex 4 (-4))) ∧
        (CornersFit (unitRasterizer 16 16 0xffffff) (intVertex 0 0) (intVertex 0 8)
          (unitVertex (8191 / 1024) 0) ∧
        CornersFit (unitRasterizer 16 16 0xffffff) (intVertex 0 0)
          (unitVertex (8191 / 1024) 0) (intVertex 4 (-4)))) ∧
      (subpixel (unitVertex (8191 / 1024) 0).PX = 256 * 8 ∧
        subpixel (unitVertex (8191 / 1024) 0).PY = 256 * 0 ∧
        f2i (unitVertex (8191 / 1024) 0).PX = 7) ∧
      (in_closed_triangle (subpixel (intVertex 0 0).PX) (subpixel (intVertex 0 0).PY)
          (subpixel (intVertex 0 8).PX) (subpixel (intVertex 0 8).PY)
          (subpixel (unitVertex (8191 / 1024) 0).PX)
          (subpixel (unitVertex (8191 / 1024) 0).PY) (256 * 8) (256 * 0) ∧
        in_closed_triangle (subpixel (intVertex 0 0).PX) (subpixel (intVertex 0 0).PY)
          (subpixel (unitVertex (8191 / 1024) 0).PX)
          (subpixel (unitVertex (8191 / 1024) 0).PY)
          (subpixel (intVertex 4 (-4)).PX) (subpixel (intVertex 4 (-4)).PY)
          (256 * 8) (256 * 0)) ∧
      (¬ in_box (unitRasterizer 16 16 0xffffff) (intVertex 0 0) (intVertex 0 8)
          (unitVertex (8191 / 1024) 0) 8 0 ∧
        ¬ in_box (unitRasterizer 16 16 0xffffff) (intVertex 0 0) (unitVertex (8191 / 1024) 0)
          (intVertex 4 (-4)) 8 0) ∧
      (∀ t ∈ handed_tiles unitPrims (unitRasterizer 16 16 0xffffff) (intVertex 0 0)
          (intVertex 0 8) (unitVertex (8191 / 1024) 0),
        exact_lets_through t 8 0 = false ∧
          apply_lets_through unitPrims (unitRasterizer 16 16 0xffffff)
            TInterpolationType.AFFINE t 8 0 = false) ∧
      (∀ t ∈ handed_tiles unitPrims (unitRasterizer 16 16 0xffffff) (intVertex 0 0)
          (unitVertex (8191 / 1024) 0) (intVertex 4 (-4)),
        exact_lets_through t 8 0 = false ∧
          apply_lets_through unitPrims (unitRasterizer 16 16 0xffffff)
            TInterpolationType.AFFINE t 8 0 = false)) ∧
    ((0 < winding (subpixel (intVertex 0 0).PX) (subpixel (intVertex 0 0).PY)
          (subpixel (intVertex 0 3072).PX) (subpixel (intVertex 0 3072).PY)
          (subpixel (intVertex 3072 0).PX) (subpixel (intVertex 3072 0).PY) ∧
        0 < winding (subpixel (intVertex 0 0).PX) (subpixel (intVertex 0 0).PY)
          (subpixel (intVertex 3072 0).PX) (subpixel (intVertex 3072 0).PY)
          (subpixel (intVertex 8 (-8)).PX) (subpixel (intVertex 8 (-8)).PY)) ∧
      ¬ NoOverflow (unitRasterizer 8 8 0xffffff) (intVertex 0 0) (intVertex 0 3072)
        (intVertex 3072 0) ∧
      (in_closed_triangle (subpixel (intVertex 0 0).PX) (subpixel (intVertex 0 0).PY)
          (subpixel (intVertex 0 3072).PX) (subpixel (intVertex 0 3072).PY)
          (subpixel (intVertex 3072 0).PX) (subpixel (intVertex 3072 0).PY)
          (256 * 1) (256 * 1) ∧
        in_box (unitRasterizer 8 8 0xffffff) (intVertex 0 0) (intVertex 0 3072)
          (intVertex 3072 0) 1 1) ∧
      handed_tiles unitPrims (unitRasterizer 8 8 0xffffff) (intVertex 0 0) (intVertex 0 3072)
        (intVertex 3072 0) = [] ∧
      (∀ t ∈ handed_tiles unitPrims (unitRasterizer 8 8 0xffffff) (intVertex 0 0)
          (intVertex 3072 0) (intVertex 8 (-8)),
        exact_lets_through t 1 1 = false ∧
          apply_lets_through unitPrims (unitRasterizer 8 8 0xffffff)
            TInterpolationType.AFFINE t 1 1 = false)) := by
  obtain ⟨s0, s8⟩ := small_subpixel
  have z0x : subpixel (intVertex 0 0).PX = 0 := s0
  have z0y : subpixel (intVertex 0 0).PY = 0 := s0
  have p1x : subpixel (intVertex 0 8).PX = 0 := s0
  have p1y : subpixel (intVertex 0 8).PY = 2048 := s8
  have q1x : subpixel (intVertex 8 8).PX = 2048 := s8
  have q1y : subpixel (intVertex 8 8).PY = 2048 := s8
  have r1x : subpixel (intVertex 8 0).PX = 2048 := s8
  have r1y : subpixel (intVertex 8 0).PY = 0 := s0
  have iA1 := integerTriangle_16 0 0 0 8 8 8 (by decide) 0xffffff
  have iA2 := integerTriangle_16 0 0 8 8 8 0 (by decide) 0xffffff
  have iB1 := integerTriangle_16 0 0 8 0 8 8 (by decide) 0xffffff
  have iB2 := integerTriangle_16 0 0 8 8 0 8 (by decide) 0xffffff
  have boxA1 : in_box (unitRasterizer 16 16 0xffffff) (intVertex 0 0) (intVertex 0 8)
      (intVertex 8 8) 4 4 := by
    obtain ⟨⟨b1, b2⟩, b3, b4⟩ := tile_box_int iA1
    unfold in_box
    rw [b1, b2, b3, b4]
    decide
  have boxA2 : in_box (unitRasterizer 16 16 0xffffff) (intVertex 0 0) (intVertex 8 8)
      (intVertex 8 0) 4 4 := by
    obtain ⟨⟨b1, b2⟩, b3, b4⟩ := tile_box_int iA2
    unfold in_box
    rw [b1, b2, b3, b4]
    decide
  have boxB1 : in_box (unitRasterizer 16 16 0xffffff) (intVertex 0 0) (intVertex 8 0)
      (intVertex 8 8) 2 1 := by
    obtain ⟨⟨b1, b2⟩, b3, b4⟩ := tile_box_int iB1
    unfold in_box
    rw [b1, b2, b3, b4]
    decide
  have wB1 : winding (subpixel (intVertex 0 0).PX) (subpixel (intVertex 0 0).PY)
      (subpixel (intVertex 8 0).PX) (subpixel (intVertex 8 0).PY)
      (subpixel (intVertex 8 8).PX) (subpixel (intVertex 8 8).PY) < 0 := by
    rw [z0x, z0y, r1x, r1y, q1x, q1y]
    decide
  have wB2 : winding (subpixel (intVertex 0 0).PX) (subpixel (intVertex 0 0).PY)
      (subpixel (intVertex 8 8).PX) (subpixel (intVertex 8 8).PY)
      (subpixel (intVertex 0 8).PX) (subpixel (intVertex 0 8).PY) < 0 := by
    rw [z0x, z0y, q1x, q1y, p1x, p1y]
    decide
  obtain ⟨⟨g1, g2⟩, ⟨g3, g4⟩, ⟨g5, g6⟩, ⟨g7, g8⟩⟩ := gapfan_subpixel
  obtain ⟨⟨n1, n2⟩, c1, c2⟩ := gapfan_fits
  obtain ⟨⟨a1, a2, a3, a4⟩, b1, b2, b3, b4⟩ := gapfan_box
  have wG1 : 0 < winding (subpixel (intVertex 0 0).PX) (subpixel (intVertex 0 0).PY)
      (subpixel (intVertex 0 8).PX) (subpixel (intVertex 0 8).PY)
      (subpixel (unitVertex (8191 / 1024) 0).PX)
      (subpixel (unitVertex (8191 / 1024) 0).PY) := by
    rw [g1, g2, g3, g4, g5, g6]
    decide
  have wG2 : 0 < winding (subpixel (intVertex 0 0).PX) (subpixel (intVertex 0 0).PY)
      (subpixel (unitVertex (8191 / 1024) 0).PX)
      (subpixel (unitVertex (8191 / 1024) 0).PY)
      (subpixel (intVertex 4 (-4)).PX) (subpixel (intVertex 4 (-4)).PY) := by
    rw [g1, g2, g5, g6, g7, g8]
    decide
  have nb1 : ¬ in_box (unitRasterizer 16 16 0xffffff) (intVertex 0 0) (intVertex 0 8)
      (unitVertex (8191 / 1024) 0) 8 0 := by
    unfold in_box
    rw [a1, a2, a3, a4]
    decide
  have nb2 : ¬ in_box (unitRasterizer 16 16 0xffffff) (intVertex 0 0)
      (unitVertex (8191 / 1024) 0) (intVertex 4 (-4)) 8 0 := by
    unfold in_box
    rw [b1, b2, b3, b4]
    decide
  obtain ⟨⟨u1, u2⟩, ⟨u3, u4⟩, ⟨u5, u6⟩, ⟨u7, u8⟩⟩ := wrapfan_subpixel
  have wW1 : 0 < winding (subpixel (intVertex 0 0).PX) (subpixel (intVertex 0 0).PY)
      (subpixel (intVertex 0 3072).PX) (subpixel (intVertex 0 3072).PY)
      (subpixel (intVertex 3072 0).PX) (subpixel (intVertex 3072 0).PY) := by
    rw [u1, u2, u3, u4, u5, u6]
    decide
  have wW2 : 0 < winding (subpixel (intVertex 0 0).PX) (subpixel (intVertex 0 0).PY)
      (subpixel (intVertex 3072 0).PX) (subpixel (intVertex 3072 0).PY)
      (subpixel (intVertex 8 (-8)).PX) (subpixel (intVertex 8 (-8)).PY) := by
    rw [u1, u2, u5, u6, u7, u8]
    decide
  have boxW : in_box (unitRasterizer 8 8 0xffffff) (intVertex 0 0) (intVertex 0 3072)
      (intVertex 3072 0) 1 1 := by
    obtain ⟨k1, k2, k3, k4⟩ := wrapfan_box
    unfold in_box
    rw [k1, k2, k3, k4]
    decide
  refine ⟨⟨⟨?_, ?_⟩, ?_, ?_⟩, ⟨⟨wB1, wB2⟩, ⟨?_, boxB1⟩, ?_, ?_⟩,
    ⟨⟨wG1, wG2⟩, ⟨⟨n1, n2⟩, c1, c2⟩, ⟨g5, g6, ?_⟩, ⟨?_, ?_⟩, ⟨nb1, nb2⟩, ?_, ?_⟩,
    ⟨⟨wW1, wW2⟩, ?_, ⟨?_, boxW⟩, ?_, ?_⟩⟩
  · rw [z0x, z0y, p1x, p1y, q1x, q1y]
    decide
  · rw [z0x, z0y, q1x, q1y, r1x, r1y]
    decide
  · exact covered_of_inside_wide unitPrims (unitRasterizer 16 16 0xffffff)
      TInterpolationType.AFFINE (intVertex 0 0) (intVertex 0 8) (intVertex 8 8)
      (noOverflow_of_subpixelTriangle (subpixelTriangle_of_integer iA1))
      (cornersFit_of_subpixelTriangle (subpixelTriangle_of_integer iA1)) 4 4 (by decide)
      (by decide) boxA1 (by rw [z0x, z0y, p1x, p1y]; decide)
      (by rw [p1x, p1y, q1x, q1y]; decide) (by rw [z0x, z0y, q1x, q1y]; decide)
  · exact covered_of_inside_wide unitPrims (unitRasterizer 16 16 0xffffff)
      TInterpolationType.AFFINE (intVertex 0 0) (intVertex 8 8) (intVertex 8 0)
      (noOverflow_of_subpixelTriangle (subpixelTriangle_of_integer iA2))
      (cornersFit_of_subpixelTriangle (subpixelTriangle_of_integer iA2)) 4 4 (by decide)
      (by decide) boxA2 (by rw [z0x, z0y, q1x, q1y]; decide)
      (by rw [q1x, q1y, r1x, r1y]; decide) (by rw [z0x, z0y, r1x, r1y]; decide)
  · rw [z0x, z0y, r1x, r1y, q1x, q1y]
    exact ⟨3 / 4, 1 / 8, 1 / 8, by norm_num, by norm_num, by norm_num, by norm_num,
      by norm_num, by norm_num⟩
  · intro t ht
    exact backface_not_through_wide unitPrims (unitRasterizer 16 16 0xffffff)
      TInterpolationType.AFFINE (intVertex 0 0) (intVertex 8 0) (intVertex 8 8)
      (noOverflow_of_subpixelTriangle (subpixelTriangle_of_integer iB1)) wB1 t ht 2 1
  · intro t ht
    exact backface_not_through_wide unitPrims (unitRasterizer 16 16 0xffffff)
      TInterpolationType.AFFINE (intVertex 0 0) (intVertex 8 8) (intVertex 0 8)
      (noOverflow_of_subpixelTriangle (subpixelTriangle_of_integer iB2)) wB2 t ht 2 1
  · unfold unitVertex
    exact f2i_eq_of_floor (by decide) (by decide) (by norm_num)
  · rw [in_closed_triangle_iff _ _ wG1, g1, g2, g3, g4, g5, g6]
    decide
  · rw [in_closed_triangle_iff _ _ wG2, g1, g2, g5, g6, g7, g8]
    decide
  · intro t ht
    exact not_through_outside_box unitPrims (unitRasterizer 16 16 0xffffff)
      TInterpolationType.AFFINE _ _ _ 8 0 nb1 t ht
  · intro t ht
    exact not_through_outside_box unitPrims (unitRasterizer 16 16 0xffffff)
      TInterpolationType.AFFINE _ _ _ 8 0 nb2 t ht
  · intro h
    obtain ⟨-, -, hb, -⟩ := h.2.2.2 0 0 (le_refl 0) (by decide) (le_refl 0) (by decide)
    rw [u3, u4, u5, u6] at hb
    have hf := hb.2.2.2.2.2
    revert hf
    decide
  · rw [in_closed_triangle_iff _ _ wW1, u1, u2, u3, u4, u5, u6]
    decide
  · unfold handed_tiles
    rw [wrap_triangle_rasterize]
  · intro t ht
    refine not_through_wide unitPrims (unitRasterizer 8 8 0xffffff) TInterpolationType.AFFINE
      _ _ _ wrapfan_second_fits 1 1 ?_ t ht
    rw [u1, u2, u5, u6, u7, u8]
    decide

end barry
